import Mathlib

/-! serial-kit: the schema compiler and the wire format of the code it emits

A shallow embedding of `compiler/source/codegen.cpp` (with the syntax tree of
`compiler/include/ast.hpp` and the look-ups of `compiler/source/ast.cpp`), of
`compiler/source/validator.cpp`, of `compiler/source/parser.cpp`, of
`compiler/source/lexer.cpp`, of `compiler/source/arg_parser.cpp` and of the
driver `compiler/main.cpp`.

The emitter writes C++ text.  What is embedded here is the meaning of that
text: for every function that prints a block of statements there is one Lean
function of the same name that computes what the printed statements do when
the generated class runs (`generate_field_serializer` gives `buffer` as the
printed block leaves it, `generate_field_deserializer` gives the effect of
the printed `case` on the member and on `pos`).  The generated file
`gen/examples_auth.cpp` is an instance of the printed text.

The printed text names a member by the bare name of its field, and the
validator puts no condition on names.  Where a local of the printed method
with the same name is in scope, the name denotes the local and the member is
hidden (`block_locals`, `case_locals`).  The embedding follows the text: it
runs the statement on the local where C++ accepts that
(`captured_field_serializer`, `captured_field_deserializer`).  Where C++ does
not accept the text (a local of a type the statement cannot be applied to)
there is no generated class to run, and the block is `undefined`.  The same
holds, outside the embedding, for a field named by a word that C++ reserves
or that the printed text uses for a type or a method.

Conventions
* bytes are natural numbers; a buffer is a `List Nat`;
* `uint64_t`, `uint32_t`, `size_t` and `uint8_t` arithmetic is arithmetic on
  `Nat` reduced `% 2 ^ 64`, `% 2 ^ 32`, `% 2 ^ 64` and `% 256`;
* a run of generated code ends in an `Outcome`: it returns, or it leaves
  defined behaviour (a read outside the buffer, a shift by 64 or more, a
  loop over a vector that grows, text that is not C++), or the bound on the
  number of loop iterations of the embedding is used up;
* an object of a generated class is a `Value.obj` with one value per member;
  the C++ types keep a value of the wrong shape out of a member, here a
  function meets such a value with an empty or zero result;
* the validator passes its `ValidationContext` from step to step; an
  `unordered_set` is the list of the keys inserted, an `unordered_map` a list
  of entries with the newest first;
* the parser reads from the list of tokens the scanner has yet to return; a
  call of the parser ends in a `Parsed`: a value, an exception, or the bound
  on the number of loop iterations of the embedding used up;
* the argument parser holds its options once, in the order of registration;
  its two maps are look-ups in that list, and a call of it ends in a
  `Parsed`;
* the driver takes the text of the input file and gives the exit code and
  the files it writes.
-/

namespace serialkit

/-! ## Syntax tree (`ast.hpp`, `lexer.hpp`) -/

/-- Source position attached to every node: `struct SourceLocation`. -/
structure SourceLocation where
  line : Nat
  column : Nat
  offset : Nat
deriving DecidableEq, Repr

/-- The thirteen primitive kinds: `enum class PrimitiveTypeKind`. -/
inductive PrimitiveTypeKind where
  | INT8 | INT16 | INT32 | INT64
  | UINT8 | UINT16 | UINT32 | UINT64
  | FLOAT | DOUBLE | BOOL | STRING | BYTE
deriving DecidableEq, Repr

/-- The class `Type` with its two subclasses `PrimitiveType` and `UserType`
(the word `Type` is taken in Lean, hence `Ty`). -/
inductive Ty where
  | PrimitiveType (kind : PrimitiveTypeKind) (location : SourceLocation)
  | UserType (name : String) (location : SourceLocation)
deriving DecidableEq, Repr

/-- Flag `MOD_OPTIONAL = 1 << 0`. -/
def MOD_OPTIONAL : Nat := 1
/-- Flag `MOD_REPEATED = 1 << 1`. -/
def MOD_REPEATED : Nat := 2
/-- Flag `MOD_PACKED = 1 << 2`. -/
def MOD_PACKED : Nat := 4
/-- Flag `MOD_INTERNED = 1 << 3`. -/
def MOD_INTERNED : Nat := 8
/-- Flag `MOD_BITMAP = 1 << 4`. -/
def MOD_BITMAP : Nat := 16

/-- The class `Field`: `number` is a C++ `int`, `modifiers` a `uint8_t` bit set. -/
structure Field where
  type : Ty
  name : String
  number : Int
  modifiers : Nat
  location : SourceLocation
deriving DecidableEq, Repr

/-- `Field::has_modifier`: `(modifiers & mod) != 0`. -/
def Field.has_modifier (f : Field) (mod : Nat) : Bool := (f.modifiers &&& mod) != 0
/-- `Field::is_optional`. -/
def Field.is_optional (f : Field) : Bool := f.has_modifier MOD_OPTIONAL
/-- `Field::is_repeated`. -/
def Field.is_repeated (f : Field) : Bool := f.has_modifier MOD_REPEATED
/-- `Field::is_packed`. -/
def Field.is_packed (f : Field) : Bool := f.has_modifier MOD_PACKED
/-- `Field::is_interned`. -/
def Field.is_interned (f : Field) : Bool := f.has_modifier MOD_INTERNED
/-- `Field::is_bitmap`. -/
def Field.is_bitmap (f : Field) : Bool := f.has_modifier MOD_BITMAP

/-- The class `EnumValue`. -/
structure EnumValue where
  name : String
  value : Int
  location : SourceLocation
deriving DecidableEq, Repr

/-- The class `EnumDecl`. -/
structure EnumDecl where
  name : String
  values : List EnumValue
  location : SourceLocation
deriving DecidableEq, Repr

/-- The class `ModelDecl`. -/
structure ModelDecl where
  name : String
  fields : List Field
  location : SourceLocation
deriving DecidableEq, Repr

/-- The class `Declaration` with its two subclasses, as a tagged variant. -/
inductive Declaration where
  | Enum (decl : EnumDecl)
  | Model (decl : ModelDecl)
deriving DecidableEq, Repr

/-- The class `Schema`. -/
structure Schema where
  namespace_name : String
  declarations : List Declaration
  location : SourceLocation
deriving DecidableEq, Repr

/-- The loop of `Schema::find_enum` over a list of declarations: the first
enum of that name. -/
def find_enum_in (name : String) : List Declaration → Option EnumDecl
  | [] => none
  | Declaration.Enum e :: rest => if e.name = name then some e else find_enum_in name rest
  | Declaration.Model _ :: rest => find_enum_in name rest

/-- `Schema::find_enum` (`ast.cpp`). -/
def Schema.find_enum (schema : Schema) (name : String) : Option EnumDecl :=
  find_enum_in name schema.declarations

/-- The loop of `Schema::find_model` over a list of declarations: the first
model of that name. -/
def find_model_in (name : String) : List Declaration → Option ModelDecl
  | [] => none
  | Declaration.Model m :: rest => if m.name = name then some m else find_model_in name rest
  | Declaration.Enum _ :: rest => find_model_in name rest

/-- `Schema::find_model` (`ast.cpp`). -/
def Schema.find_model (schema : Schema) (name : String) : Option ModelDecl :=
  find_model_in name schema.declarations

/-! ## Wire types and tags (`codegen.cpp`) -/

/-- `CodeGenerator::get_wire_type_value`. -/
def get_wire_type_value (type : Ty) (field : Field) : Nat :=
  if field.is_packed then 3
  else if field.is_bitmap then 7
  else
    match type with
    | Ty.PrimitiveType kind _ =>
      if field.is_interned && kind == PrimitiveTypeKind.STRING then 6
      else
        match kind with
        | PrimitiveTypeKind.INT8 => 0
        | PrimitiveTypeKind.INT16 => 0
        | PrimitiveTypeKind.INT32 => 0
        | PrimitiveTypeKind.INT64 => 0
        | PrimitiveTypeKind.UINT8 => 0
        | PrimitiveTypeKind.UINT16 => 0
        | PrimitiveTypeKind.UINT32 => 0
        | PrimitiveTypeKind.UINT64 => 0
        | PrimitiveTypeKind.BOOL => 0
        | PrimitiveTypeKind.DOUBLE => 1
        | PrimitiveTypeKind.FLOAT => 5
        | PrimitiveTypeKind.STRING => 2
        | PrimitiveTypeKind.BYTE => 2
    | Ty.UserType _ _ => 2

/-- The 32 bits of a C++ `int` read as an unsigned number (two's complement). -/
def int_bits32 (n : Int) : Nat := (n % 2 ^ 32).toNat

/-- The constant `(field.number << 3) | wire_type` as it is held by the
`uint32_t` variable of the generated code (`field_tag`, `item_tag`,
`packed_tag`): shift and or on the 32 bits of the number. -/
def make_tag (number : Int) (wire_type : Nat) : Nat :=
  ((int_bits32 number <<< 3) ||| wire_type) % 2 ^ 32

/-- The split printed by `generate_deserialize_method`:
`field_number = static_cast<uint32_t>(tag >> 3)` and
`wire_type = static_cast<uint8_t>(tag & 0x7)`. -/
def split_tag (tag : Nat) : Nat × Nat :=
  ((tag >>> 3) % 2 ^ 32, (tag &&& 0x7) % 256)

/-! ## Varints -/

/-- The encoder loop printed for tags, lengths and values
```
while (val > 0x7F) { buffer.push_back(static_cast<uint8_t>((val & 0x7F) | 0x80)); val >>= 7; }
buffer.push_back(static_cast<uint8_t>(val));
```
with a bound on the number of iterations (nine are enough for 64 bits). -/
def varint_loop : Nat → Nat → List Nat
  | 0, val => [val % 256]
  | fuel + 1, val =>
    if val > 0x7F then (((val &&& 0x7F) ||| 0x80) % 256) :: varint_loop fuel (val >>> 7)
    else [val % 256]

/-- The encoder loop run on a `uint64_t val`. -/
def write_varint (val : Nat) : List Nat := varint_loop 9 (val % 2 ^ 64)

/-- How a run of generated code ends: `ret a` when it returns `a`;
`undefined` when C++ defines no result: the run reads outside the buffer,
shifts a 64-bit value by 64 or more, reads a local that has no value yet or
goes over a vector while it grows, or the printed text is not accepted by
C++; `out_of_fuel` when the bound on loop iterations that the embedding
carries is used up before the run ends. -/
inductive Outcome (α : Type) where
  | ret (a : α)
  | undefined
  | out_of_fuel
deriving DecidableEq, Repr

/-- The decoder loop printed for tags, lengths and values
```
while (pos < data.size()) {
  uint8_t byte = data[pos++];
  value |= static_cast<uint64_t>(byte & 0x7F) << shift;
  if ((byte & 0x80) == 0) break;
  shift += 7;
}
```
run on the bytes from `pos` on; it returns the value and the number of bytes
it went over.  Shifting a 64-bit value by 64 or more is undefined. -/
def read_varint_loop : List Nat → Nat → Nat → Outcome (Nat × Nat)
  | [], value, _ => Outcome.ret (value, 0)
  | byte :: rest, value, shift =>
    if 64 ≤ shift then Outcome.undefined
    else
      let value1 := value ||| (((byte &&& 0x7F) <<< shift) % 2 ^ 64)
      if byte &&& 0x80 = 0 then Outcome.ret (value1, 1)
      else
        match read_varint_loop rest value1 (shift + 7) with
        | Outcome.ret (v, n) => Outcome.ret (v, n + 1)
        | Outcome.undefined => Outcome.undefined
        | Outcome.out_of_fuel => Outcome.out_of_fuel

/-- The decoder loop started at `pos` with `value = 0` and `shift = 0`: the
decoded value and the new `pos`. -/
def read_varint (data : List Nat) (pos : Nat) : Outcome (Nat × Nat) :=
  match read_varint_loop (data.drop pos) 0 0 with
  | Outcome.ret (v, n) => Outcome.ret (v, pos + n)
  | Outcome.undefined => Outcome.undefined
  | Outcome.out_of_fuel => Outcome.out_of_fuel

/-! ## Values held by the generated classes -/

/-- A run-time value of a member of a generated class, or of a whole object.
* `num`: `intN_t`, `uintN_t`, `bool` (0 or 1), `byte` (`uint8_t`) and the
  `enum class ... : int32_t` types, by their numeric value;
* `real`: `float` and `double`, by their bit pattern;
* `str`: `std::string`, by its bytes;
* `opt`: `std::optional<T>`;
* `vec`: `std::vector<T>`;
* `obj`: an object of a generated class, one value per member in declaration
  order. -/
inductive Value where
  | num (v : Int)
  | real (bits : Nat)
  | str (s : List Nat)
  | opt (v : Option Value)
  | vec (items : List Value)
  | obj (members : List Value)

/-- The conversions between floating point and integers that the generated
code leaves to the C++ compiler, as functions on bit patterns. -/
structure FloatCasts where
  float_to_uint64 : Nat → Nat
  double_to_uint64 : Nat → Nat
  uint64_to_float : Nat → Nat
  uint64_to_double : Nat → Nat

/-- `static_cast<uint64_t>(x)` for `x` of an integer type, of `bool` or of an
enumeration: the value modulo `2 ^ 64`. -/
def Value.to_uint64 : Value → Nat
  | Value.num v => (v % 2 ^ 64).toNat
  | _ => 0

/-- The bit pattern `memcpy` copies out of a `float` or `double`. -/
def Value.bits : Value → Nat
  | Value.real bits => bits
  | _ => 0

/-- The two statements `uint64_t val = static_cast<uint64_t>(x);` and the
encoder loop on `val`, for `x` of the declared type `type`. -/
def write_cast (fc : FloatCasts) (type : Ty) (x : Value) : List Nat :=
  match type with
  | Ty.PrimitiveType PrimitiveTypeKind.FLOAT _ => write_varint (fc.float_to_uint64 x.bits)
  | Ty.PrimitiveType PrimitiveTypeKind.DOUBLE _ => write_varint (fc.double_to_uint64 x.bits)
  | _ => write_varint x.to_uint64

/-- `x.size()` of a `std::string`. -/
def Value.size : Value → Nat
  | Value.str s => s.length
  | _ => 0

/-- The bytes `x.begin() .. x.end()` of a `std::string`. -/
def Value.bytes : Value → List Nat
  | Value.str s => s
  | _ => []

/-- The condition `x` of `x ? 1 : 0` for a `bool`. -/
def Value.truth : Value → Bool
  | Value.num v => v != 0
  | _ => false

/-! ## The emitted `serialize` -/

/-- Sequencing of runs. -/
def Outcome.bind {α β : Type} : Outcome α → (α → Outcome β) → Outcome β
  | Outcome.ret a, f => f a
  | Outcome.undefined, _ => Outcome.undefined
  | Outcome.out_of_fuel, _ => Outcome.out_of_fuel

/-- Body of the loop `for (const auto& item : xs)` that fills `packed_data`
in the packed branch of `generate_field_serializer`: what one item appends. -/
def packed_item (fc : FloatCasts) (type : Ty) (kind : PrimitiveTypeKind) (item : Value) : List Nat :=
  if kind = PrimitiveTypeKind.INT8 ∨ kind = PrimitiveTypeKind.INT16 ∨
      kind = PrimitiveTypeKind.INT32 ∨ kind = PrimitiveTypeKind.INT64 ∨
      kind = PrimitiveTypeKind.UINT8 ∨ kind = PrimitiveTypeKind.UINT16 ∨
      kind = PrimitiveTypeKind.UINT32 ∨ kind = PrimitiveTypeKind.UINT64 then
    write_cast fc type item
  else if kind = PrimitiveTypeKind.FLOAT then
    let val := item.bits % 2 ^ 32
    [(val &&& 0xFF) % 256, ((val >>> 8) &&& 0xFF) % 256,
      ((val >>> 16) &&& 0xFF) % 256, ((val >>> 24) &&& 0xFF) % 256]
  else if kind = PrimitiveTypeKind.DOUBLE then
    let val := item.bits % 2 ^ 64
    (List.range 8).map (fun i => ((val >>> (i * 8)) &&& 0xFF) % 256)
  else []

/-- The packed branch of `generate_field_serializer` for a non-empty vector:
the tag `(number << 3) | 2`, the length of `packed_data`, then `packed_data`. -/
def packed_block (fc : FloatCasts) (field : Field) (kind : PrimitiveTypeKind)
    (items : List Value) : List Nat :=
  let packed_tag := make_tag field.number 2
  let packed_data := items.flatMap (packed_item fc field.type kind)
  write_varint packed_tag ++ (write_varint packed_data.length ++ packed_data)

/-- Whether the statements printed for a value of the type convert it with
`static_cast<uint64_t>(...)`: every primitive type but `string`, and the
enumerations.  A `string` is written with `.size()`, a model with
`.serialize()`. -/
def written_by_cast (schema : Schema) (type : Ty) : Bool :=
  match type with
  | Ty.PrimitiveType kind _ => kind != PrimitiveTypeKind.STRING
  | Ty.UserType name _ => (schema.find_enum name).isSome

/-- The locals of the printed `serialize()` that are in scope where the block
printed for `field` names the member.  The text names the member by the bare
name of the field, so a member with one of these names is hidden there and
the name denotes the local.
* `buffer`, declared at the head of the method, is in scope everywhere;
* in the packed branch `packed_tag` and `packed_data` are declared before
  the loop `for (const auto& item : name)`;
* in the optional and in the singular branch `field_tag` is declared before
  the member is read, and the statement that reads it declares a local of
  its own, in scope in its initializer: `uint64_t length = name.size();` for
  a string, `uint64_t val = static_cast<uint64_t>(name);` for another
  primitive type and for an enumeration, `auto field_data =
  name.serialize();` for a model; a singular `bool` is read by
  `buffer.push_back(name ? 1 : 0);`, which declares nothing.
The locals `val` of the blocks that write a tag, `item`, `item_tag`,
`item_data` and `length` of the loops are declared in blocks that do not name
the member (the range of a `for` is read before `item` is declared). -/
def block_locals (schema : Schema) (field : Field) : List String :=
  "buffer" ::
    (if field.is_repeated then
      match field.is_packed, field.type with
      | true, Ty.PrimitiveType _ _ => ["packed_tag", "packed_data"]
      | _, _ => []
    else
      "field_tag" ::
        (match field.type with
        | Ty.PrimitiveType kind _ =>
          if kind = PrimitiveTypeKind.STRING then ["length"]
          else if kind = PrimitiveTypeKind.BOOL ∧ field.is_optional = false then []
          else ["val"]
        | Ty.UserType name _ =>
          if (schema.find_enum name).isSome then ["val"] else ["field_data"]))

/-- An element of the loop `for (const auto& item : buffer)` that the packed
branch prints for a field named `buffer`: a byte of the output written so
far, as the body of the loop converts it (`float fval = item;`,
`double dval = item;`, `static_cast<uint64_t>(item)`). -/
def captured_item (fc : FloatCasts) (kind : PrimitiveTypeKind) (byte : Nat) : Value :=
  if kind = PrimitiveTypeKind.FLOAT then Value.real (fc.uint64_to_float byte)
  else if kind = PrimitiveTypeKind.DOUBLE then Value.real (fc.uint64_to_double byte)
  else Value.num byte

/-- The block printed for a field whose name is one of `block_locals`: the
buffer after the block has run, with the name read as the local it denotes.
* Packed branch, name `buffer`: `if (!buffer.empty())` tests the output
  written so far; when there is some, the tag is written and the loop runs
  over the bytes of the output, the tag included.
* Packed branch, name `packed_data`: the condition `!packed_data.empty()`
  stands before the declaration and reads the member; the loop runs over the
  local, which is empty.
* Packed branch, name `packed_tag`: a loop over a `uint32_t`, which C++ does
  not accept.
* Repeated branch that is not packed, name `buffer`: with no output so far
  the block is skipped; otherwise the loop runs over the vector it appends
  to, which invalidates its iterators.  For a string or a model the body of
  the loop (`item.size()`, `item.serialize()`) is not accepted for a byte.
* Optional branch: `buffer.has_value()`, `*field_tag`, `field_tag->size()`
  and a local read through `*` or `->` in its own initializer are not
  accepted.
* Singular branch, name `field_tag`: a `bool` is written as
  `field_tag ? 1 : 0`, a number or an enumeration as
  `static_cast<uint64_t>(field_tag)`, the tag once more; for a string and a
  model `field_tag.size()` and `field_tag.serialize()` are not accepted.
* Singular branch, name `val`: `uint64_t val = static_cast<uint64_t>(val);`
  reads the local before it has a value.
* Singular branch, name `buffer`: for a string the output is inserted into
  itself (`buffer.insert(buffer.end(), buffer.begin(), buffer.end())`, a
  range of the vector that is written to); `static_cast<uint64_t>(buffer)`,
  `buffer ? 1 : 0` and `buffer.serialize()` are not accepted.
* Singular branch, names `length` and `field_data`: the local is read in its
  own initializer through `.size()` or `.serialize()`, which is not accepted.
Text that C++ does not accept has no run; the block is `undefined` then. -/
def captured_field_serializer (fc : FloatCasts) (schema : Schema) (field : Field)
    (member : Value) (buffer : List Nat) : Outcome (List Nat) :=
  let wire_type := get_wire_type_value field.type field
  let tag := make_tag field.number wire_type
  if field.is_repeated then
    match field.is_packed, field.type with
    | true, Ty.PrimitiveType kind _ =>
      if field.name = "buffer" then
        if buffer.isEmpty then Outcome.ret buffer
        else
          let buffer1 := buffer ++ write_varint (make_tag field.number 2)
          let packed_data := buffer1.flatMap fun byte =>
            packed_item fc field.type kind (captured_item fc kind byte)
          Outcome.ret (buffer1 ++ (write_varint packed_data.length ++ packed_data))
      else if field.name = "packed_data" then
        match member with
        | Value.vec items =>
          if items.isEmpty then Outcome.ret buffer
          else Outcome.ret (buffer ++ packed_block fc field kind [])
        | _ => Outcome.ret buffer
      else Outcome.undefined
    | _, _ =>
      if written_by_cast schema field.type ∧ buffer.isEmpty then Outcome.ret buffer
      else Outcome.undefined
  else if field.is_optional then Outcome.undefined
  else if field.name = "field_tag" ∧ written_by_cast schema field.type then
    match field.type with
    | Ty.PrimitiveType PrimitiveTypeKind.BOOL _ =>
      Outcome.ret (buffer ++ (write_varint tag ++ [if tag = 0 then 0 else 1]))
    | _ => Outcome.ret (buffer ++ (write_varint tag ++ write_varint tag))
  else Outcome.undefined

mutual
/-- The statements `generate_field_serializer` prints after the tag for one
item of a repeated field and for the value held by an optional field (the two
texts differ only in how the value is named): what they append to `buffer`.
The call `x.serialize()` on a nested object runs the method of the class that
the type names, found with `find_model`; a name that is neither an
enumeration nor a model (rejected by the validator) gives no bytes here. -/
def serialize_value (fc : FloatCasts) (schema : Schema) (type : Ty) (x : Value) :
    Outcome (List Nat) :=
  match type with
  | Ty.PrimitiveType kind _ =>
    if kind = PrimitiveTypeKind.STRING then
      Outcome.ret (write_varint x.size ++ x.bytes)
    else
      Outcome.ret (write_cast fc type x)
  | Ty.UserType name _ =>
    if (schema.find_enum name).isSome then
      Outcome.ret (write_cast fc type x)
    else
      let item_data :=
        match x with
        | Value.obj members =>
          match schema.find_model name with
          | some model => generate_serialize_method fc schema model.fields members []
          | none => Outcome.ret []
        | _ => Outcome.ret []
      item_data.bind fun item_data =>
      Outcome.ret (write_varint item_data.length ++ item_data)

/-- The loop `for (const auto& item : xs)` of the repeated branch that is not
packed: for every item the tag, then the item. -/
def serialize_items (fc : FloatCasts) (schema : Schema) (type : Ty) (item_tag : Nat) :
    List Value → Outcome (List Nat)
  | [] => Outcome.ret []
  | item :: rest =>
    (serialize_value fc schema type item).bind fun item_bytes =>
    (serialize_items fc schema type item_tag rest).bind fun rest_bytes =>
    Outcome.ret (write_varint item_tag ++ (item_bytes ++ rest_bytes))

/-- `CodeGenerator::generate_field_serializer`: the buffer after the block
printed for `field` has run, when the member holds `member` and the output
written so far is `buffer`.  A field whose name is a local in scope
(`block_locals`) is read as that local, see `captured_field_serializer`. -/
def generate_field_serializer (fc : FloatCasts) (schema : Schema) (field : Field)
    (member : Value) (buffer : List Nat) : Outcome (List Nat) :=
  let wire_type := get_wire_type_value field.type field
  let tag := make_tag field.number wire_type
  if field.name ∈ block_locals schema field then
    captured_field_serializer fc schema field member buffer
  else if field.is_repeated then
    match member with
    | Value.vec items =>
      if items.isEmpty then Outcome.ret buffer
      else
        match field.is_packed, field.type with
        | true, Ty.PrimitiveType kind _ =>
          Outcome.ret (buffer ++ packed_block fc field kind items)
        | _, _ =>
          (serialize_items fc schema field.type tag items).bind fun bytes =>
          Outcome.ret (buffer ++ bytes)
    | _ => Outcome.ret buffer
  else if field.is_optional then
    match member with
    | Value.opt (some x) =>
      (serialize_value fc schema field.type x).bind fun bytes =>
      Outcome.ret (buffer ++ (write_varint tag ++ bytes))
    | _ => Outcome.ret buffer
  else
    match field.type with
    | Ty.PrimitiveType kind _ =>
      if kind = PrimitiveTypeKind.STRING then
        Outcome.ret (buffer ++ (write_varint tag ++ (write_varint member.size ++ member.bytes)))
      else if kind = PrimitiveTypeKind.BOOL then
        Outcome.ret (buffer ++ (write_varint tag ++ [if member.truth then 1 else 0]))
      else
        Outcome.ret (buffer ++ (write_varint tag ++ write_cast fc field.type member))
    | Ty.UserType name _ =>
      if (schema.find_enum name).isSome then
        Outcome.ret (buffer ++ (write_varint tag ++ write_cast fc field.type member))
      else
        let field_data :=
          match member with
          | Value.obj members =>
            match schema.find_model name with
            | some model => generate_serialize_method fc schema model.fields members []
            | none => Outcome.ret []
          | _ => Outcome.ret []
        field_data.bind fun field_data =>
        Outcome.ret (buffer ++ (write_varint tag ++ (write_varint field_data.length ++ field_data)))

/-- `CodeGenerator::generate_serialize_method`: the blocks of the fields in
declaration order, run on the members of the object, from the output written
so far; the printed method starts them with an empty `buffer` and returns
what they leave. -/
def generate_serialize_method (fc : FloatCasts) (schema : Schema) :
    List Field → List Value → List Nat → Outcome (List Nat)
  | field :: fields, member :: members, buffer =>
    (generate_field_serializer fc schema field member buffer).bind fun buffer1 =>
    generate_serialize_method fc schema fields members buffer1
  | _, _, buffer => Outcome.ret buffer
end

/-- The method `serialize()` of the class generated for `model`, called on
the object `this`. -/
def serialize (fc : FloatCasts) (schema : Schema) (model : ModelDecl) (this : Value) :
    Outcome (List Nat) :=
  match this with
  | Value.obj members => generate_serialize_method fc schema model.fields members []
  | _ => Outcome.ret []

/-! ## The emitted class declaration: default construction -/

/-- `CodeGenerator::get_cpp_type`. -/
def get_cpp_type (type : Ty) : String :=
  match type with
  | Ty.PrimitiveType kind _ =>
    match kind with
    | PrimitiveTypeKind.INT8 => "int8_t"
    | PrimitiveTypeKind.INT16 => "int16_t"
    | PrimitiveTypeKind.INT32 => "int32_t"
    | PrimitiveTypeKind.INT64 => "int64_t"
    | PrimitiveTypeKind.UINT8 => "uint8_t"
    | PrimitiveTypeKind.UINT16 => "uint16_t"
    | PrimitiveTypeKind.UINT32 => "uint32_t"
    | PrimitiveTypeKind.UINT64 => "uint64_t"
    | PrimitiveTypeKind.FLOAT => "float"
    | PrimitiveTypeKind.DOUBLE => "double"
    | PrimitiveTypeKind.BOOL => "bool"
    | PrimitiveTypeKind.STRING => "std::string"
    | PrimitiveTypeKind.BYTE => "uint8_t"
  | Ty.UserType name _ => name

/-- The value a member has after `X() = default` with the member
declarations printed by `generate_model_declaration`: vectors and optionals
are empty, a singular primitive has the initializer `= 0` or `= false`, a
string is empty, a nested object is default constructed in turn (`depth`
bounds the nesting).  A singular member of enumeration type is printed
without initializer; the embedding gives it the value 0. -/
def default_member (schema : Schema) : Nat → Field → Value
  | depth, field =>
    if field.is_repeated then Value.vec []
    else if field.is_optional then Value.opt none
    else
      match field.type with
      | Ty.PrimitiveType kind _ =>
        match kind with
        | PrimitiveTypeKind.STRING => Value.str []
        | PrimitiveTypeKind.FLOAT => Value.real 0
        | PrimitiveTypeKind.DOUBLE => Value.real 0
        | _ => Value.num 0
      | Ty.UserType name _ =>
        if (schema.find_enum name).isSome then Value.num 0
        else
          match depth, schema.find_model name with
          | d + 1, some model => Value.obj (model.fields.map (default_member schema d))
          | _, _ => Value.obj []

/-- A default-constructed object of the class generated for `model`. -/
def default_construct (schema : Schema) (model : ModelDecl) : Value :=
  Value.obj (model.fields.map (default_member schema schema.declarations.length))

/-- The declaration `type_name item;` printed in the `case` of a nested
model: a default-constructed object of the class of that name. -/
def declare_item (schema : Schema) (type_name : String) : Value :=
  match schema.find_model type_name with
  | some model => default_construct schema model
  | none => Value.obj []

/-! ## The emitted `deserialize` -/

/-- `static_cast<T>(value)` of a `uint64_t` to a signed integer type of `w`
bits (two's complement). -/
def to_signed (w : Nat) (value : Nat) : Int :=
  if value % 2 ^ w < 2 ^ (w - 1) then ((value % 2 ^ w : Nat) : Int)
  else ((value % 2 ^ w : Nat) : Int) - ((2 ^ w : Nat) : Int)

/-- `static_cast<T>(value)` of the decoded `uint64_t value`, where `T` is
`get_cpp_type(type)` for a primitive type and the enumeration itself (an
`enum class ... : int32_t`) for a user type. -/
def static_cast_cpp_type (fc : FloatCasts) (type : Ty) (value : Nat) : Value :=
  match type with
  | Ty.PrimitiveType kind _ =>
    match kind with
    | PrimitiveTypeKind.INT8 => Value.num (to_signed 8 value)
    | PrimitiveTypeKind.INT16 => Value.num (to_signed 16 value)
    | PrimitiveTypeKind.INT32 => Value.num (to_signed 32 value)
    | PrimitiveTypeKind.INT64 => Value.num (to_signed 64 value)
    | PrimitiveTypeKind.UINT8 => Value.num ((value % 2 ^ 8 : Nat) : Int)
    | PrimitiveTypeKind.UINT16 => Value.num ((value % 2 ^ 16 : Nat) : Int)
    | PrimitiveTypeKind.UINT32 => Value.num ((value % 2 ^ 32 : Nat) : Int)
    | PrimitiveTypeKind.UINT64 => Value.num ((value % 2 ^ 64 : Nat) : Int)
    | PrimitiveTypeKind.FLOAT => Value.real (fc.uint64_to_float value)
    | PrimitiveTypeKind.DOUBLE => Value.real (fc.uint64_to_double value)
    | PrimitiveTypeKind.BOOL => Value.num (if value % 2 ^ 64 = 0 then 0 else 1)
    | PrimitiveTypeKind.STRING => Value.str []
    | PrimitiveTypeKind.BYTE => Value.num ((value % 2 ^ 8 : Nat) : Int)
  | Ty.UserType _ _ => Value.num (to_signed 32 value)

/-- `xs.push_back(x)` on a `std::vector`. -/
def Value.push_back : Value → Value → Value
  | Value.vec items, x => Value.vec (items ++ [x])
  | _, x => Value.vec [x]

/-- The three-way ending of a printed `case`: `xs.push_back(x)` for a
repeated field, `field = x` for an optional and for a singular one. -/
def store (field : Field) (member : Value) (x : Value) : Value :=
  if field.is_repeated then member.push_back x
  else if field.is_optional then Value.opt (some x)
  else x

/-- How a printed `case` ends: at its `break`, with the member and `pos` as
they are then, or at a `return false`. -/
inductive CaseResult where
  | next (member : Value) (pos : Nat)
  | fail (member : Value)

/-- The bytes `data[pos] .. data[pos + length - 1]` copied by
`std::vector<uint8_t>(data.begin() + pos, data.begin() + pos + length)`;
an iterator past the end of `data` is undefined (with `length = 0` at
`pos = data.size()` both iterators are the end of `data` and nothing is
read). -/
def read_bytes (data : List Nat) (pos length : Nat) : Outcome (List Nat) :=
  if pos + length ≤ data.length then Outcome.ret ((data.drop pos).take length)
  else Outcome.undefined

/-- The bytes read through `reinterpret_cast<const char*>(&data[pos])` with
the count `length`, in `std::string str(..., length)`,
`std::string(..., length)` and `.assign(..., length)`.  The expression
`data[pos]` is evaluated whatever `length` is, and `operator[]` of
`std::vector` is undefined at `pos = data.size()` and beyond; so is reading
past the end of `data`. -/
def read_chars (data : List Nat) (pos length : Nat) : Outcome (List Nat) :=
  if pos < data.length then read_bytes data pos length else Outcome.undefined

/-- The locals of the printed `deserialize(data)` that are in scope where the
`case` printed for `field` names the member.  The text names the member by
the bare name of the field, so a member with one of these names is hidden
there and the name denotes the local.
* `data` and `pos` belong to the method, `tag`, `field_number` and
  `wire_type` are declared in the loop before the `switch`;
* a `case` that reads a length declares `length` and `shift`, a `case` that
  reads a value declares `value` and `shift`;
* the `case` of a repeated string declares `str`, the `case` of a model
  declares `item_data`, and before it `item` when the field is repeated and
  `value` when it is optional.
The locals `shift` and `byte` of the loop that reads the tag are declared in
blocks that are closed before the `switch`. -/
def case_locals (schema : Schema) (field : Field) : List String :=
  ["data", "pos", "tag", "field_number", "wire_type"] ++
    (match field.type with
    | Ty.PrimitiveType kind _ =>
      if kind = PrimitiveTypeKind.STRING then
        if field.is_repeated then ["length", "shift", "str"] else ["length", "shift"]
      else ["value", "shift"]
    | Ty.UserType type_name _ =>
      if (schema.find_enum type_name).isSome then ["value", "shift"]
      else if field.is_repeated then ["length", "shift", "item", "item_data"]
      else if field.is_optional then ["length", "shift", "value", "item_data"]
      else ["length", "shift", "item_data"])

/-- The value `static_cast<T>(value)` converted to `size_t`, as the
assignment `pos = static_cast<T>(value);` converts it. -/
def to_size_t (fc : FloatCasts) (type : Ty) (x : Value) : Nat :=
  match type with
  | Ty.PrimitiveType PrimitiveTypeKind.FLOAT _ => fc.float_to_uint64 x.bits
  | Ty.PrimitiveType PrimitiveTypeKind.DOUBLE _ => fc.double_to_uint64 x.bits
  | _ => x.to_uint64

/-- The `case` printed for a field whose name is one of `case_locals`: what
it does to the member and to `pos`, with the name read as the local it
denotes.
* A primitive type other than `string`, optional or singular:
  `name = static_cast<T>(value);` assigns the local.  The member is left as
  it is.  The locals `tag`, `field_number`, `wire_type`, `value` and `shift`
  are not read again; assigning `pos` moves the cursor to the value.  The
  parameter `data` is a reference to `const`, which cannot be assigned.
* An optional model named `value`: the `case` declares `T value;`, and
  `value = std::move(value);` moves the local into itself.  The member is
  left as it is.
* Every other `case` calls `push_back`, `assign` or `deserialize` on the
  local or assigns it a string, an enumerator or an object, which C++ does
  not accept for a number, for a vector of bytes or for a reference to
  `const`.
Text that C++ does not accept has no run; the `case` is `undefined` then. -/
def captured_field_deserializer (fc : FloatCasts) (schema : Schema)
    (call_deserialize : String → Value → List Nat → Outcome (Bool × Value))
    (field : Field) (member : Value) (data : List Nat) (pos : Nat) : Outcome CaseResult :=
  match field.type with
  | Ty.PrimitiveType kind _ =>
    if kind = PrimitiveTypeKind.STRING ∨ field.is_repeated = true ∨ field.name = "data" then
      Outcome.undefined
    else
      (read_varint data pos).bind fun (value, pos1) =>
      Outcome.ret (CaseResult.next member
        (if field.name = "pos" then
          to_size_t fc field.type (static_cast_cpp_type fc field.type value)
        else pos1))
  | Ty.UserType type_name _ =>
    if (schema.find_enum type_name).isSome = false ∧ field.is_repeated = false ∧
        field.is_optional = true ∧ field.name = "value" then
      (read_varint data pos).bind fun (length, pos1) =>
      (read_bytes data pos1 length).bind fun item_data =>
      (call_deserialize type_name (declare_item schema type_name) item_data).bind fun (ok, _) =>
      if ok then Outcome.ret (CaseResult.next member ((pos1 + length) % 2 ^ 64))
      else Outcome.ret (CaseResult.fail member)
    else Outcome.undefined

/-- `CodeGenerator::generate_field_deserializer`: what the printed
`case field.number: { ... break; }` does to the member and to `pos`.
`call_deserialize type_name x item_data` stands for the call
`x.deserialize(item_data)` on an object of the class `type_name`.  A field
whose name is a local in scope (`case_locals`) is read as that local, see
`captured_field_deserializer`. -/
def generate_field_deserializer (fc : FloatCasts) (schema : Schema)
    (call_deserialize : String → Value → List Nat → Outcome (Bool × Value))
    (field : Field) (member : Value) (data : List Nat) (pos : Nat) : Outcome CaseResult :=
  if field.name ∈ case_locals schema field then
    captured_field_deserializer fc schema call_deserialize field member data pos
  else
    match field.type with
    | Ty.PrimitiveType kind _ =>
      if kind = PrimitiveTypeKind.STRING then
        (read_varint data pos).bind fun (length, pos1) =>
        (read_chars data pos1 length).bind fun str =>
        Outcome.ret (CaseResult.next (store field member (Value.str str)) ((pos1 + length) % 2 ^ 64))
      else
        (read_varint data pos).bind fun (value, pos1) =>
        Outcome.ret (CaseResult.next (store field member (static_cast_cpp_type fc field.type value)) pos1)
    | Ty.UserType type_name _ =>
      if (schema.find_enum type_name).isSome then
        (read_varint data pos).bind fun (value, pos1) =>
        Outcome.ret (CaseResult.next (store field member (static_cast_cpp_type fc field.type value)) pos1)
      else
        (read_varint data pos).bind fun (length, pos1) =>
        (read_bytes data pos1 length).bind fun item_data =>
        if field.is_repeated then
          (call_deserialize type_name (declare_item schema type_name) item_data).bind fun (ok, item) =>
          if ok then Outcome.ret (CaseResult.next (member.push_back item) ((pos1 + length) % 2 ^ 64))
          else Outcome.ret (CaseResult.fail member)
        else if field.is_optional then
          (call_deserialize type_name (declare_item schema type_name) item_data).bind fun (ok, value) =>
          if ok then Outcome.ret (CaseResult.next (Value.opt (some value)) ((pos1 + length) % 2 ^ 64))
          else Outcome.ret (CaseResult.fail member)
        else
          (call_deserialize type_name member item_data).bind fun (ok, value) =>
          if ok then Outcome.ret (CaseResult.next value ((pos1 + length) % 2 ^ 64))
          else Outcome.ret (CaseResult.fail value)

/-- The loop `while (pos < data.size() && (data[pos] & 0x80)) pos++;` run on
the bytes from `pos` on: the number of bytes it goes over. -/
def skip_continuation : List Nat → Nat
  | [] => 0
  | byte :: rest => if byte &&& 0x80 ≠ 0 then skip_continuation rest + 1 else 0

/-- The `default:` branch printed by `generate_deserialize_method`: the new
`pos` after the attempt to skip an unknown field of the given wire type. -/
def skip_unknown (data : List Nat) (pos : Nat) (wire_type : Nat) : Outcome Nat :=
  if wire_type = 0 then
    let pos1 := pos + skip_continuation (data.drop pos)
    if pos1 < data.length then Outcome.ret (pos1 + 1) else Outcome.ret pos1
  else if wire_type = 2 then
    (read_varint data pos).bind fun (length, pos1) =>
    Outcome.ret ((pos1 + length) % 2 ^ 64)
  else if wire_type = 1 then Outcome.ret ((pos + 8) % 2 ^ 64)
  else if wire_type = 5 then Outcome.ret ((pos + 4) % 2 ^ 64)
  else Outcome.ret pos

/-- The label selection of the printed `switch (field_number)`: the position
of the first field whose number is `field_number`, if there is one (the
labels are the field numbers in declaration order; C++ accepts the `switch`
only when they are distinct). -/
def case_index (field_number : Nat) (fields : List Field) : Option Nat :=
  fields.findIdx? (fun field => decide (field.number = (field_number : Int)))

/-- The members of an object of a generated class. -/
def Value.members : Value → List Value
  | Value.obj members => members
  | _ => []

/-- The loop `while (pos < data.size()) { ... }` printed by
`CodeGenerator::generate_deserialize_method`, followed by `return true`, for
the class with the given fields; `fuel` bounds the number of iterations and
of nested calls.  The result is the returned flag and the members as they are
on return. -/
def deserialize_loop (fc : FloatCasts) (schema : Schema) :
    Nat → List Field → List Value → List Nat → Nat → Outcome (Bool × List Value)
  | 0, _, members, data, pos =>
    if pos < data.length then Outcome.out_of_fuel else Outcome.ret (true, members)
  | fuel + 1, fields, members, data, pos =>
    if pos < data.length then
      if pos + 1 > data.length then Outcome.ret (false, members)
      else
        (read_varint data pos).bind fun (tag, pos1) =>
        let field_number := (split_tag tag).1
        let wire_type := (split_tag tag).2
        match case_index field_number fields with
        | some i =>
          match fields[i]?, members[i]? with
          | some field, some member =>
            (generate_field_deserializer fc schema
              (fun type_name x item_data =>
                match schema.find_model type_name with
                | some model =>
                  (deserialize_loop fc schema fuel model.fields x.members item_data 0).bind
                    fun (ok, members1) => Outcome.ret (ok, Value.obj members1)
                | none => Outcome.undefined)
              field member data pos1).bind fun result =>
            match result with
            | CaseResult.next member1 pos2 =>
              deserialize_loop fc schema fuel fields (members.set i member1) data pos2
            | CaseResult.fail member1 => Outcome.ret (false, members.set i member1)
          | _, _ => Outcome.undefined
        | none =>
          (skip_unknown data pos1 wire_type).bind fun pos2 =>
          deserialize_loop fc schema fuel fields members data pos2
    else Outcome.ret (true, members)

/-- The method `deserialize(data)` of the class generated for `model`, called
on the object `this`: the returned flag and the object as it is on return. -/
def deserialize (fc : FloatCasts) (schema : Schema) (model : ModelDecl) (fuel : Nat)
    (this : Value) (data : List Nat) : Outcome (Bool × Value) :=
  (deserialize_loop fc schema fuel model.fields this.members data 0).bind
    fun (ok, members1) => Outcome.ret (ok, Value.obj members1)

/-! ## The schemas of the concrete scenarios -/

/-- The model `M` of the source text `namespace t; model M { <fields> }`,
with the location the parser records for the token `model`. -/
def scenario_model (fields : List Field) : ModelDecl :=
  { name := "M", fields := fields, location := { line := 1, column := 14, offset := 13 } }

/-- The schema parsed from `namespace t; model M { <fields> }`. -/
def scenario_schema (fields : List Field) : Schema :=
  { namespace_name := "t"
    declarations := [Declaration.Model (scenario_model fields)]
    location := { line := 1, column := 1, offset := 0 } }

/-- The field `uint32 id = 1;` of `namespace t; model M { uint32 id = 1; }`. -/
def field_id : Field :=
  { type := Ty.PrimitiveType PrimitiveTypeKind.UINT32 { line := 1, column := 24, offset := 23 }
    name := "id", number := 1, modifiers := 0
    location := { line := 1, column := 24, offset := 23 } }

/-- The field `string s = 2;` of `namespace t; model M { string s = 2; }`. -/
def field_s : Field :=
  { type := Ty.PrimitiveType PrimitiveTypeKind.STRING { line := 1, column := 24, offset := 23 }
    name := "s", number := 2, modifiers := 0
    location := { line := 1, column := 24, offset := 23 } }

/-- The field `packed repeated uint32 xs = 3;` of
`namespace t; model M { packed repeated uint32 xs = 3; }`. -/
def field_xs : Field :=
  { type := Ty.PrimitiveType PrimitiveTypeKind.UINT32 { line := 1, column := 40, offset := 39 }
    name := "xs", number := 3, modifiers := MOD_PACKED ||| MOD_REPEATED
    location := { line := 1, column := 24, offset := 23 } }

/-- The field `interned string s = 2;` of
`namespace t; model M { interned string s = 2; }`. -/
def field_interned_s : Field :=
  { type := Ty.PrimitiveType PrimitiveTypeKind.STRING { line := 1, column := 33, offset := 32 }
    name := "s", number := 2, modifiers := MOD_INTERNED
    location := { line := 1, column := 24, offset := 23 } }

/-- The field `byte b = 1;` of `namespace t; model M { byte b = 1; }`. -/
def field_b : Field :=
  { type := Ty.PrimitiveType PrimitiveTypeKind.BYTE { line := 1, column := 24, offset := 23 }
    name := "b", number := 1, modifiers := 0
    location := { line := 1, column := 24, offset := 23 } }

/-- Conversions used where a statement is evaluated on a model without
floating-point members, so that none of them is ever applied. -/
def unused_casts : FloatCasts :=
  { float_to_uint64 := fun _ => 0, double_to_uint64 := fun _ => 0
    uint64_to_float := fun _ => 0, uint64_to_double := fun _ => 0 }

/-- The eight integer kinds. -/
def PrimitiveTypeKind.is_integer (kind : PrimitiveTypeKind) : Bool :=
  match kind with
  | PrimitiveTypeKind.INT8 => true
  | PrimitiveTypeKind.INT16 => true
  | PrimitiveTypeKind.INT32 => true
  | PrimitiveTypeKind.INT64 => true
  | PrimitiveTypeKind.UINT8 => true
  | PrimitiveTypeKind.UINT16 => true
  | PrimitiveTypeKind.UINT32 => true
  | PrimitiveTypeKind.UINT64 => true
  | _ => false

/-! ## The validator (`validator.hpp`, `validator.cpp`) -/

/-- `PrimitiveType::get_name` (`ast.cpp`). -/
def PrimitiveTypeKind.get_name (kind : PrimitiveTypeKind) : String :=
  match kind with
  | PrimitiveTypeKind.INT8 => "int8"
  | PrimitiveTypeKind.INT16 => "int16"
  | PrimitiveTypeKind.INT32 => "int32"
  | PrimitiveTypeKind.INT64 => "int64"
  | PrimitiveTypeKind.UINT8 => "uint8"
  | PrimitiveTypeKind.UINT16 => "uint16"
  | PrimitiveTypeKind.UINT32 => "uint32"
  | PrimitiveTypeKind.UINT64 => "uint64"
  | PrimitiveTypeKind.FLOAT => "float"
  | PrimitiveTypeKind.DOUBLE => "double"
  | PrimitiveTypeKind.BOOL => "bool"
  | PrimitiveTypeKind.STRING => "string"
  | PrimitiveTypeKind.BYTE => "byte"

/-- `Type::get_name`: the name of the kind for a `PrimitiveType`, the name
itself for a `UserType`. -/
def Ty.get_name (type : Ty) : String :=
  match type with
  | Ty.PrimitiveType kind _ => kind.get_name
  | Ty.UserType name _ => name

/-- `Type::is_primitive`. -/
def Ty.is_primitive (type : Ty) : Bool :=
  match type with
  | Ty.PrimitiveType _ _ => true
  | Ty.UserType _ _ => false

/-- The member `name` of the base class `Declaration`. -/
def Declaration.name (decl : Declaration) : String :=
  match decl with
  | Declaration.Enum e => e.name
  | Declaration.Model m => m.name

/-- The member `location` of the base class `Declaration`. -/
def Declaration.location (decl : Declaration) : SourceLocation :=
  match decl with
  | Declaration.Enum e => e.location
  | Declaration.Model m => m.location

/-- The diagnostic record `struct ValidationError`. -/
structure ValidationError where
  message : String
  location : SourceLocation
deriving DecidableEq, Repr

/-- The class `ValidationContext`: the diagnostics in insertion order and
the two symbol tables.  An `unordered_map` is held as the list of its
insertions, newest first; a look-up takes the newest entry of a key, which is
the entry `enums_[name] = decl` leaves in the map. -/
structure ValidationContext where
  errors_ : List ValidationError
  enums_ : List (String × EnumDecl)
  models_ : List (String × ModelDecl)
deriving DecidableEq, Repr

/-- The context of a newly constructed `Validator`. -/
def ValidationContext.fresh : ValidationContext :=
  { errors_ := [], enums_ := [], models_ := [] }

/-- `ValidationContext::add_error`. -/
def ValidationContext.add_error (ctx : ValidationContext) (message : String)
    (location : SourceLocation) : ValidationContext :=
  { ctx with errors_ := ctx.errors_ ++ [{ message := message, location := location }] }

/-- `ValidationContext::has_errors`. -/
def ValidationContext.has_errors (ctx : ValidationContext) : Bool := !ctx.errors_.isEmpty

/-- `ValidationContext::get_errors`. -/
def ValidationContext.get_errors (ctx : ValidationContext) : List ValidationError := ctx.errors_

/-- `ValidationContext::register_enum`. -/
def ValidationContext.register_enum (ctx : ValidationContext) (name : String)
    (decl : EnumDecl) : ValidationContext :=
  { ctx with enums_ := (name, decl) :: ctx.enums_ }

/-- `ValidationContext::register_model`. -/
def ValidationContext.register_model (ctx : ValidationContext) (name : String)
    (decl : ModelDecl) : ValidationContext :=
  { ctx with models_ := (name, decl) :: ctx.models_ }

/-- `ValidationContext::find_enum`. -/
def ValidationContext.find_enum (ctx : ValidationContext) (name : String) : Option EnumDecl :=
  (ctx.enums_.find? fun entry => entry.1 = name).map Prod.snd

/-- `ValidationContext::find_model`. -/
def ValidationContext.find_model (ctx : ValidationContext) (name : String) : Option ModelDecl :=
  (ctx.models_.find? fun entry => entry.1 = name).map Prod.snd

/-- `ValidationContext::type_exists`. -/
def ValidationContext.type_exists (ctx : ValidationContext) (name : String) : Bool :=
  (ctx.enums_.any fun entry => entry.1 = name) || (ctx.models_.any fun entry => entry.1 = name)

/-- `SemanticValidator::visit_enum_value`. -/
def visit_enum_value (value : EnumValue) (ctx : ValidationContext) : ValidationContext :=
  if value.value < 0 then
    ctx.add_error ("Enum value '" ++ value.name ++ "' cannot be negative") value.location
  else ctx

/-- `SemanticValidator::validate_field_number`. -/
def validate_field_number (field : Field) (ctx : ValidationContext) : ValidationContext :=
  let ctx1 :=
    if field.number < 1 ∨ field.number > 536870911 then
      ctx.add_error
        ("Field number " ++ toString field.number ++ " is out of valid range (1-536870911)")
        field.location
    else ctx
  if field.number ≥ 19000 ∧ field.number ≤ 19999 then
    ctx1.add_error
      ("Field number " ++ toString field.number ++ " is in reserved range (19000-19999)")
      field.location
  else ctx1

/-- `SemanticValidator::validate_field_modifiers`. -/
def validate_field_modifiers (field : Field) (ctx : ValidationContext) : ValidationContext :=
  let has_repeated := field.is_repeated
  let has_packed := field.is_packed
  let has_interned := field.is_interned
  let has_bitmap := field.is_bitmap
  let has_optional := field.is_optional
  let ctx1 :=
    if has_optional && has_repeated then
      ctx.add_error "Field cannot be both 'optional' and 'repeated'" field.location
    else ctx
  let ctx2 :=
    if has_packed && !has_repeated then
      ctx1.add_error "'packed' modifier requires 'repeated'" field.location
    else ctx1
  let ctx3 :=
    if has_bitmap && !has_repeated then
      ctx2.add_error "'bitmap' modifier requires 'repeated'" field.location
    else ctx2
  let ctx4 :=
    if has_packed && has_bitmap then
      ctx3.add_error "Field cannot have both 'packed' and 'bitmap' modifiers" field.location
    else ctx3
  if has_interned && field.type.get_name != "string" then
    ctx4.add_error "Not string field cannot be marked as 'interned'" field.location
  else ctx4

/-- `SemanticValidator::validate_type_exists`. -/
def validate_type_exists (type : Ty) (location : SourceLocation) (ctx : ValidationContext) :
    ValidationContext :=
  if !type.is_primitive then
    match type with
    | Ty.UserType name _ =>
      if !ctx.type_exists name then
        ctx.add_error ("Unknown type '" ++ name ++ "'") location
      else ctx
    | Ty.PrimitiveType _ _ => ctx
  else ctx

/-- `SemanticValidator::check_modifier_compatibility`. -/
def check_modifier_compatibility (field : Field) (ctx : ValidationContext) : ValidationContext :=
  let ctx1 :=
    if field.is_packed then
      if !field.type.is_primitive then
        ctx.add_error "'packed' modifier can only be used with primitive types" field.location
      else ctx
    else ctx
  let ctx2 :=
    if field.is_interned then
      match field.type with
      | Ty.PrimitiveType PrimitiveTypeKind.STRING _ => ctx1
      | _ =>
        ctx1.add_error "'interned' modifier can only be used with 'string' type" field.location
    else ctx1
  if field.is_bitmap then
    match field.type with
    | Ty.PrimitiveType PrimitiveTypeKind.BOOL _ => ctx2
    | _ => ctx2.add_error "'bitmap' modifier can only be used with 'bool' type" field.location
  else ctx2

/-- `SemanticValidator::visit_field`. -/
def visit_field (field : Field) (ctx : ValidationContext) : ValidationContext :=
  check_modifier_compatibility field
    (validate_type_exists field.type field.location
      (validate_field_modifiers field (validate_field_number field ctx)))

/-- The loop of `SemanticValidator::check_duplicate_field_numbers`;
`field_numbers` is the `unordered_set` of the numbers inserted so far. -/
def check_duplicate_field_numbers_loop (model_name : String) :
    List Field → List Int → ValidationContext → ValidationContext
  | [], _, ctx => ctx
  | field :: rest, field_numbers, ctx =>
    if field.number ∈ field_numbers then
      check_duplicate_field_numbers_loop model_name rest field_numbers
        (ctx.add_error
          ("Duplicate field number " ++ toString field.number ++ " in model '" ++
            model_name ++ "'")
          field.location)
    else
      check_duplicate_field_numbers_loop model_name rest (field.number :: field_numbers) ctx

/-- `SemanticValidator::check_duplicate_field_numbers`. -/
def check_duplicate_field_numbers (model : ModelDecl) (ctx : ValidationContext) :
    ValidationContext :=
  check_duplicate_field_numbers_loop model.name model.fields [] ctx

/-- The loop of `SemanticValidator::check_duplicate_enum_values`;
`value_names` and `value_numbers` are the two `unordered_set`s. -/
def check_duplicate_enum_values_loop (enum_name : String) :
    List EnumValue → List String → List Int → ValidationContext → ValidationContext
  | [], _, _, ctx => ctx
  | value :: rest, value_names, value_numbers, ctx =>
    let ctx1 :=
      if value.name ∈ value_names then
        ctx.add_error
          ("Duplicate enum value name '" ++ value.name ++ "' in enum '" ++ enum_name ++ "'")
          value.location
      else ctx
    let value_names1 := if value.name ∈ value_names then value_names else value.name :: value_names
    let ctx2 :=
      if value.value ∈ value_numbers then
        ctx1.add_error
          ("Duplicate enum value " ++ toString value.value ++ " in enum '" ++ enum_name ++ "'")
          value.location
      else ctx1
    let value_numbers1 :=
      if value.value ∈ value_numbers then value_numbers else value.value :: value_numbers
    check_duplicate_enum_values_loop enum_name rest value_names1 value_numbers1 ctx2

/-- `SemanticValidator::check_duplicate_enum_values`. -/
def check_duplicate_enum_values (enum_decl : EnumDecl) (ctx : ValidationContext) :
    ValidationContext :=
  check_duplicate_enum_values_loop enum_decl.name enum_decl.values [] [] ctx

/-- The loop `for (const auto &value : enum_decl.values) visit_enum_value(*value)`. -/
def visit_enum_values : List EnumValue → ValidationContext → ValidationContext
  | [], ctx => ctx
  | value :: rest, ctx => visit_enum_values rest (visit_enum_value value ctx)

/-- `SemanticValidator::visit_enum`. -/
def visit_enum (enum_decl : EnumDecl) (ctx : ValidationContext) : ValidationContext :=
  if enum_decl.values.isEmpty then
    ctx.add_error ("Enum '" ++ enum_decl.name ++ "' must have at least one value")
      enum_decl.location
  else
    visit_enum_values enum_decl.values (check_duplicate_enum_values enum_decl ctx)

/-- The loop `for (const auto &field : model.fields) visit_field(*field)`. -/
def visit_fields : List Field → ValidationContext → ValidationContext
  | [], ctx => ctx
  | field :: rest, ctx => visit_fields rest (visit_field field ctx)

/-- `SemanticValidator::visit_model` (the member `current_model_` it sets and
clears is read nowhere). -/
def visit_model (model : ModelDecl) (ctx : ValidationContext) : ValidationContext :=
  if model.fields.isEmpty then
    ctx.add_error ("Model '" ++ model.name ++ "' must have at least one field") model.location
  else
    visit_fields model.fields (check_duplicate_field_numbers model ctx)

/-- The first loop of `SemanticValidator::visit_schema`; `declaration_names`
is the `unordered_set` of the names inserted so far. -/
def check_declaration_names :
    List Declaration → List String → ValidationContext → ValidationContext
  | [], _, ctx => ctx
  | decl :: rest, declaration_names, ctx =>
    if decl.name ∈ declaration_names then
      check_declaration_names rest declaration_names
        (ctx.add_error ("Duplicate declaration name '" ++ decl.name ++ "'") decl.location)
    else
      check_declaration_names rest (decl.name :: declaration_names) ctx

/-- The second loop of `SemanticValidator::visit_schema`: every declaration
is entered in its symbol table. -/
def register_declarations : List Declaration → ValidationContext → ValidationContext
  | [], ctx => ctx
  | Declaration.Enum enum_decl :: rest, ctx =>
    register_declarations rest (ctx.register_enum enum_decl.name enum_decl)
  | Declaration.Model model_decl :: rest, ctx =>
    register_declarations rest (ctx.register_model model_decl.name model_decl)

/-- The third loop of `SemanticValidator::visit_schema`: every declaration
is visited. -/
def visit_declarations : List Declaration → ValidationContext → ValidationContext
  | [], ctx => ctx
  | Declaration.Enum enum_decl :: rest, ctx => visit_declarations rest (visit_enum enum_decl ctx)
  | Declaration.Model model_decl :: rest, ctx =>
    visit_declarations rest (visit_model model_decl ctx)

/-- `SemanticValidator::visit_schema`. -/
def visit_schema (schema : Schema) (ctx : ValidationContext) : ValidationContext :=
  let ctx1 :=
    if schema.namespace_name.isEmpty then
      ctx.add_error "Namespace cannot be empty" schema.location
    else ctx
  let ctx2 := check_declaration_names schema.declarations [] ctx1
  let ctx3 := register_declarations schema.declarations ctx2
  visit_declarations schema.declarations ctx3

/-- `Validator::validate` on a validator whose context is `ctx`: the
returned flag and the context afterwards. -/
def Validator.validate (ctx : ValidationContext) (schema : Schema) : Bool × ValidationContext :=
  let ctx1 := visit_schema schema ctx
  (!ctx1.has_errors, ctx1)

/-- The schema is accepted: a newly constructed `Validator` returns true. -/
def accepted (schema : Schema) : Prop :=
  (Validator.validate ValidationContext.fresh schema).1 = true

/-! ### The diagnostics of each validation step, as lists

Every step of the validator only appends to `errors_`.  The functions below
give what a step appends; the theorems show that they describe the steps. -/

/-- The context with further diagnostics appended. -/
def ValidationContext.append (ctx : ValidationContext) (added : List ValidationError) :
    ValidationContext :=
  { ctx with errors_ := ctx.errors_ ++ added }

/-- What `visit_enum_value` appends. -/
def enum_value_diagnostics (value : EnumValue) : List ValidationError :=
  if value.value < 0 then
    [{ message := "Enum value '" ++ value.name ++ "' cannot be negative"
       location := value.location }]
  else []

/-- What `validate_field_number` appends. -/
def field_number_diagnostics (field : Field) : List ValidationError :=
  (if field.number < 1 ∨ field.number > 536870911 then
    [{ message :=
         "Field number " ++ toString field.number ++ " is out of valid range (1-536870911)"
       location := field.location }]
  else []) ++
  (if field.number ≥ 19000 ∧ field.number ≤ 19999 then
    [{ message :=
         "Field number " ++ toString field.number ++ " is in reserved range (19000-19999)"
       location := field.location }]
  else [])

/-- What `validate_field_modifiers` appends. -/
def field_modifier_diagnostics (field : Field) : List ValidationError :=
  (if field.is_optional && field.is_repeated then
    [{ message := "Field cannot be both 'optional' and 'repeated'", location := field.location }]
  else []) ++
  ((if field.is_packed && !field.is_repeated then
      [{ message := "'packed' modifier requires 'repeated'", location := field.location }]
    else []) ++
  ((if field.is_bitmap && !field.is_repeated then
      [{ message := "'bitmap' modifier requires 'repeated'", location := field.location }]
    else []) ++
  ((if field.is_packed && field.is_bitmap then
      [{ message := "Field cannot have both 'packed' and 'bitmap' modifiers"
         location := field.location }]
    else []) ++
  (if field.is_interned && field.type.get_name != "string" then
    [{ message := "Not string field cannot be marked as 'interned'", location := field.location }]
  else []))))

/-- What `validate_type_exists` appends when `known` tells which names the
symbol tables hold. -/
def type_exists_diagnostics (known : String → Bool) (type : Ty) (location : SourceLocation) :
    List ValidationError :=
  match type with
  | Ty.UserType name _ =>
    if !known name then [{ message := "Unknown type '" ++ name ++ "'", location := location }]
    else []
  | Ty.PrimitiveType _ _ => []

/-- What `check_modifier_compatibility` appends. -/
def modifier_compatibility_diagnostics (field : Field) : List ValidationError :=
  (if field.is_packed && !field.type.is_primitive then
    [{ message := "'packed' modifier can only be used with primitive types"
       location := field.location }]
  else []) ++
  ((if field.is_interned then
      match field.type with
      | Ty.PrimitiveType PrimitiveTypeKind.STRING _ => []
      | _ =>
        [{ message := "'interned' modifier can only be used with 'string' type"
           location := field.location }]
    else []) ++
  (if field.is_bitmap then
    match field.type with
    | Ty.PrimitiveType PrimitiveTypeKind.BOOL _ => []
    | _ =>
      [{ message := "'bitmap' modifier can only be used with 'bool' type"
         location := field.location }]
  else []))

/-- What `visit_field` appends. -/
def field_diagnostics (known : String → Bool) (field : Field) : List ValidationError :=
  field_number_diagnostics field ++
    (field_modifier_diagnostics field ++
      (type_exists_diagnostics known field.type field.location ++
        modifier_compatibility_diagnostics field))

/-- The elements of a list whose key is among `seen` or among the keys of
the elements before them: the elements for which `insert(key).second` is
false in a loop over the list that starts with the set `seen`. -/
def later_duplicates {α κ : Type} [DecidableEq κ] (key : α → κ) : List κ → List α → List α
  | _, [] => []
  | seen, x :: rest =>
    if key x ∈ seen then x :: later_duplicates key seen rest
    else later_duplicates key (key x :: seen) rest

/-- The diagnostic of `check_duplicate_field_numbers` for one field. -/
def duplicate_field_number_diagnostic (model_name : String) (field : Field) : ValidationError :=
  { message :=
      "Duplicate field number " ++ toString field.number ++ " in model '" ++ model_name ++ "'"
    location := field.location }

/-- What the loop of `check_duplicate_enum_values` appends. -/
def duplicate_enum_value_diagnostics (enum_name : String) :
    List EnumValue → List String → List Int → List ValidationError
  | [], _, _ => []
  | value :: rest, value_names, value_numbers =>
    (if value.name ∈ value_names then
      [{ message :=
           "Duplicate enum value name '" ++ value.name ++ "' in enum '" ++ enum_name ++ "'"
         location := value.location }]
    else []) ++
    ((if value.value ∈ value_numbers then
      [{ message :=
           "Duplicate enum value " ++ toString value.value ++ " in enum '" ++ enum_name ++ "'"
         location := value.location }]
    else []) ++
    duplicate_enum_value_diagnostics enum_name rest
      (if value.name ∈ value_names then value_names else value.name :: value_names)
      (if value.value ∈ value_numbers then value_numbers else value.value :: value_numbers))

/-- What `visit_enum` appends. -/
def enum_diagnostics (enum_decl : EnumDecl) : List ValidationError :=
  if enum_decl.values.isEmpty then
    [{ message := "Enum '" ++ enum_decl.name ++ "' must have at least one value"
       location := enum_decl.location }]
  else
    duplicate_enum_value_diagnostics enum_decl.name enum_decl.values [] [] ++
      enum_decl.values.flatMap enum_value_diagnostics

/-- What `visit_model` appends. -/
def model_diagnostics (known : String → Bool) (model : ModelDecl) : List ValidationError :=
  if model.fields.isEmpty then
    [{ message := "Model '" ++ model.name ++ "' must have at least one field"
       location := model.location }]
  else
    (later_duplicates Field.number [] model.fields).map
        (duplicate_field_number_diagnostic model.name) ++
      model.fields.flatMap (field_diagnostics known)

/-- What the visit of one declaration appends. -/
def declaration_diagnostics (known : String → Bool) (decl : Declaration) :
    List ValidationError :=
  match decl with
  | Declaration.Enum enum_decl => enum_diagnostics enum_decl
  | Declaration.Model model_decl => model_diagnostics known model_decl

/-- The diagnostic of the first loop of `visit_schema` for one declaration. -/
def duplicate_declaration_diagnostic (decl : Declaration) : ValidationError :=
  { message := "Duplicate declaration name '" ++ decl.name ++ "'", location := decl.location }

/-- The names a schema declares. -/
def Schema.declares (schema : Schema) (name : String) : Bool :=
  schema.declarations.any fun decl => decl.name = name

/-- What `visit_schema` appends when the symbol tables hold the names
`known` beforehand. -/
def schema_diagnostics (known : String → Bool) (schema : Schema) : List ValidationError :=
  (if schema.namespace_name.isEmpty then
    [{ message := "Namespace cannot be empty", location := schema.location }]
  else []) ++
  ((later_duplicates Declaration.name [] schema.declarations).map
      duplicate_declaration_diagnostic ++
    schema.declarations.flatMap
      (declaration_diagnostics fun name => known name || schema.declares name))

/-- The message of the diagnostic starts with the character `U`; of the
messages of the validator only `Unknown type '...'` does. -/
def starts_with_U (e : ValidationError) : Prop := e.message.data.head? = some 'U'

/-! ### Spec side: the conditions the validator is said to enforce -/

/-- Spec side: the elements of a list whose key also occurs in an element
before them (`xs.inits.zip xs` pairs each element with the elements before
it). -/
def repeats {α κ : Type} [DecidableEq κ] (key : α → κ) (xs : List α) : List α :=
  ((xs.inits.zip xs).filter fun entry => key entry.2 ∈ entry.1.map key).map Prod.snd

/-- Spec side: the type is the primitive type of the given kind. -/
def Ty.has_kind (type : Ty) (kind : PrimitiveTypeKind) : Bool :=
  match type with
  | Ty.PrimitiveType k _ => k = kind
  | Ty.UserType _ _ => false

/-- Spec side: a field number the validator is said to accept. -/
def valid_field_number (n : Int) : Prop :=
  1 ≤ n ∧ n ≤ 536870911 ∧ ¬(19000 ≤ n ∧ n ≤ 19999)

/-- Spec side: the modifier rules.  Not both `optional` and `repeated`;
`packed` requires `repeated` and a primitive type; `bitmap` requires
`repeated` and type `bool`; `interned` requires type `string`; not both
`packed` and `bitmap`. -/
def satisfies_modifier_rules (field : Field) : Prop :=
  ¬(field.is_optional = true ∧ field.is_repeated = true) ∧
  (field.is_packed = true → field.is_repeated = true ∧ field.type.is_primitive = true) ∧
  (field.is_bitmap = true →
    field.is_repeated = true ∧ field.type.has_kind PrimitiveTypeKind.BOOL = true) ∧
  (field.is_interned = true → field.type.has_kind PrimitiveTypeKind.STRING = true) ∧
  ¬(field.is_packed = true ∧ field.is_bitmap = true)

/-- Spec side: an enum the validator is said to accept. -/
def well_formed_enum (enum_decl : EnumDecl) : Prop :=
  enum_decl.values ≠ [] ∧
  (enum_decl.values.map EnumValue.name).Nodup ∧
  (enum_decl.values.map EnumValue.value).Nodup ∧
  ∀ value ∈ enum_decl.values, 0 ≤ value.value

/-- Spec side: a field the validator is said to accept in a schema. -/
def well_formed_field (schema : Schema) (field : Field) : Prop :=
  valid_field_number field.number ∧
  satisfies_modifier_rules field ∧
  ∀ name location, field.type = Ty.UserType name location →
    ∃ decl ∈ schema.declarations, decl.name = name

/-- Spec side: a model the validator is said to accept in a schema. -/
def well_formed_model (schema : Schema) (model : ModelDecl) : Prop :=
  model.fields ≠ [] ∧
  (model.fields.map Field.number).Nodup ∧
  ∀ field ∈ model.fields, well_formed_field schema field

/-- Spec side: a schema the validator is said to accept. -/
def well_formed (schema : Schema) : Prop :=
  schema.namespace_name.isEmpty = false ∧
  (schema.declarations.map Declaration.name).Nodup ∧
  (∀ enum_decl, Declaration.Enum enum_decl ∈ schema.declarations →
    well_formed_enum enum_decl) ∧
  (∀ model, Declaration.Model model ∈ schema.declarations → well_formed_model schema model)

/-! ### The schemas of the validator scenarios -/

/-- The field `int32 a = 1;` of `namespace t; model M { int32 a = 1; int32 b = 1; }`. -/
def field_a : Field :=
  { type := Ty.PrimitiveType PrimitiveTypeKind.INT32 { line := 1, column := 24, offset := 23 }
    name := "a", number := 1, modifiers := 0
    location := { line := 1, column := 24, offset := 23 } }

/-- The field `int32 b = 1;` of `namespace t; model M { int32 a = 1; int32 b = 1; }`. -/
def field_b_again : Field :=
  { type := Ty.PrimitiveType PrimitiveTypeKind.INT32 { line := 1, column := 37, offset := 36 }
    name := "b", number := 1, modifiers := 0
    location := { line := 1, column := 37, offset := 36 } }

/-- The field `optional repeated string xs = 1;` of
`namespace t; model M { optional repeated string xs = 1; }`. -/
def field_optional_repeated : Field :=
  { type := Ty.PrimitiveType PrimitiveTypeKind.STRING { line := 1, column := 42, offset := 41 }
    name := "xs", number := 1, modifiers := MOD_OPTIONAL ||| MOD_REPEATED
    location := { line := 1, column := 24, offset := 23 } }

/-- The enum of `valid_schema`. -/
def valid_enum : EnumDecl :=
  { name := "Color"
    values :=
      [{ name := "RED", value := 0, location := { line := 2, column := 14, offset := 26 } },
       { name := "GREEN", value := 1, location := { line := 2, column := 23, offset := 35 } }]
    location := { line := 2, column := 1, offset := 13 } }

/-- The field `Later l = 4;` of `valid_schema`: its type is declared after
the model that uses it. -/
def field_forward : Field :=
  { type := Ty.UserType "Later" { line := 3, column := 70, offset := 117 }
    name := "l", number := 4, modifiers := 0
    location := { line := 3, column := 70, offset := 117 } }

/-- The field `packed repeated uint32 xs = 3;` of `valid_schema`. -/
def field_packed_xs : Field :=
  { type := Ty.PrimitiveType PrimitiveTypeKind.UINT32 { line := 3, column := 55, offset := 102 }
    name := "xs", number := 3, modifiers := MOD_PACKED ||| MOD_REPEATED
    location := { line := 3, column := 39, offset := 86 } }

/-- The first model of `valid_schema`. -/
def valid_model : ModelDecl :=
  { name := "M"
    fields :=
      [{ type :=
           Ty.PrimitiveType PrimitiveTypeKind.UINT32 { line := 3, column := 11, offset := 58 }
         name := "id", number := 1, modifiers := 0
         location := { line := 3, column := 11, offset := 58 } },
       { type := Ty.UserType "Color" { line := 3, column := 26, offset := 73 }
         name := "c", number := 2, modifiers := 0
         location := { line := 3, column := 26, offset := 73 } },
       field_packed_xs, field_forward]
    location := { line := 3, column := 1, offset := 48 } }

/-- The second model of `valid_schema`. -/
def valid_model_later : ModelDecl :=
  { name := "Later"
    fields :=
      [{ type :=
           Ty.PrimitiveType PrimitiveTypeKind.STRING { line := 4, column := 24, offset := 155 }
         name := "s", number := 1, modifiers := MOD_INTERNED
         location := { line := 4, column := 15, offset := 146 } },
       { type :=
           Ty.PrimitiveType PrimitiveTypeKind.BOOL { line := 4, column := 54, offset := 185 }
         name := "flags", number := 2, modifiers := MOD_BITMAP ||| MOD_REPEATED
         location := { line := 4, column := 38, offset := 169 } }]
    location := { line := 4, column := 1, offset := 132 } }

/-- The schema of the four lines
`namespace t;`,
`enum Color { RED = 0; GREEN = 1; }`,
`model M { uint32 id = 1; Color c = 2; packed repeated uint32 xs = 3; Later l = 4; }`,
`model Later { interned string s = 1; bitmap repeated bool flags = 2; }`. -/
def valid_schema : Schema :=
  { namespace_name := "t"
    declarations :=
      [Declaration.Enum valid_enum, Declaration.Model valid_model,
       Declaration.Model valid_model_later]
    location := { line := 1, column := 1, offset := 0 } }

/-! ### The schemas of the forward-compatibility scenario -/

/-- The field `uint32 id = 2;` of `namespace t; model M { uint32 id = 2; }`. -/
def field_id_two : Field :=
  { type := Ty.PrimitiveType PrimitiveTypeKind.UINT32 { line := 1, column := 24, offset := 23 }
    name := "id", number := 2, modifiers := 0
    location := { line := 1, column := 24, offset := 23 } }

/-- The field `uint32 id = 2;` of
`namespace t; model M { byte b = 1; uint32 id = 2; }`, whose first field is
`field_b`. -/
def field_id_two_after_b : Field :=
  { type := Ty.PrimitiveType PrimitiveTypeKind.UINT32 { line := 1, column := 36, offset := 35 }
    name := "id", number := 2, modifiers := 0
    location := { line := 1, column := 36, offset := 35 } }

/-! ## The parser (`lexer.hpp`, `parser.hpp`, `parser.cpp`) -/

/-- The kinds of token: `enum class TokenType`. -/
inductive TokenType where
  | NAMESPACE | ENUM | MODEL | OPTIONAL | REPEATED | PACKED | INTERNED | BITMAP
  | INT8 | INT16 | INT32 | INT64 | UINT8 | UINT16 | UINT32 | UINT64
  | FLOAT | DOUBLE | BOOL | STRING | BYTE
  | SEMICOLON | EQUALS | LBRACE | RBRACE | DOT
  | IDENTIFIER | NUMBER
  | END_OF_FILE | INVALID
deriving DecidableEq, Repr

/-- A token: `struct Token`. -/
structure Token where
  type : TokenType
  value : String
  location : SourceLocation
deriving DecidableEq, Repr

/-- The scanner as the parser uses it: the tokens it has yet to return.
Once they are used up, `next_token` returns `END_OF_FILE` at the location of
the end of the source, each time it is called. -/
structure TokenStream where
  pending : List Token
  end_location : SourceLocation
deriving DecidableEq, Repr

/-- `Lexer::next_token`, on the tokens the scanner has yet to return. -/
def TokenStream.next_token (lexer : TokenStream) : Token × TokenStream :=
  match lexer.pending with
  | [] =>
    ({ type := TokenType.END_OF_FILE, value := "", location := lexer.end_location }, lexer)
  | token :: rest => (token, { lexer with pending := rest })

/-- What a call may throw: `ParseError` of `parser.hpp`, the two exceptions
of `std::stoi`, and the `std::runtime_error` of `token_to_primitive_type`. -/
inductive Thrown where
  | ParseError (message : String) (location : SourceLocation)
  | invalid_argument
  | out_of_range
  | runtime_error (message : String)
deriving DecidableEq, Repr

/-- The result of a call of the parser: a value, an exception, or the loop
budget of the embedding used up. -/
inductive Parsed (α : Type) where
  | ok (value : α)
  | thrown (e : Thrown)
  | out_of_fuel
deriving DecidableEq, Repr

/-- Sequencing: an exception ends the caller as well. -/
def Parsed.bind {α β : Type} (r : Parsed α) (f : α → Parsed β) : Parsed β :=
  match r with
  | Parsed.ok value => f value
  | Parsed.thrown e => Parsed.thrown e
  | Parsed.out_of_fuel => Parsed.out_of_fuel

/-- The members of the class `Parser`. -/
structure Parser where
  lexer_ : TokenStream
  current_token_ : Token
deriving DecidableEq, Repr

/-- The constructor `Parser::Parser`: reads the first token. -/
def Parser.new (lexer : TokenStream) : Parser :=
  { lexer_ := lexer.next_token.2, current_token_ := lexer.next_token.1 }

/-- `Parser::advance`. -/
def Parser.advance (p : Parser) : Parser :=
  { lexer_ := p.lexer_.next_token.2, current_token_ := p.lexer_.next_token.1 }

/-- `Parser::check`. -/
def Parser.check (p : Parser) (type : TokenType) : Bool := p.current_token_.type = type

/-- `Parser::match`. -/
def Parser.match_type (p : Parser) (type : TokenType) : Bool × Parser :=
  if p.check type then (true, p.advance) else (false, p)

/-- `Parser::error`: the exception it throws. -/
def Parser.error (p : Parser) (message : String) : Thrown :=
  Thrown.ParseError
    ("Parse error at line " ++ toString p.current_token_.location.line ++ ", column " ++
      toString p.current_token_.location.column ++ ": " ++ message)
    p.current_token_.location

/-- `Parser::consume`. -/
def Parser.consume (p : Parser) (type : TokenType) (error_message : String) :
    Parsed (Token × Parser) :=
  if !p.check type then Parsed.thrown (p.error error_message)
  else Parsed.ok (p.current_token_, p.advance)

/-- `Parser::is_primitive_type`. -/
def is_primitive_type (type : TokenType) : Bool :=
  match type with
  | TokenType.INT8 | TokenType.INT16 | TokenType.INT32 | TokenType.INT64
  | TokenType.UINT8 | TokenType.UINT16 | TokenType.UINT32 | TokenType.UINT64
  | TokenType.FLOAT | TokenType.DOUBLE | TokenType.BOOL | TokenType.STRING
  | TokenType.BYTE => true
  | _ => false

/-- `Parser::is_field_modifier`. -/
def is_field_modifier (type : TokenType) : Bool :=
  match type with
  | TokenType.OPTIONAL | TokenType.REPEATED | TokenType.PACKED | TokenType.INTERNED
  | TokenType.BITMAP => true
  | _ => false

/-- `token_to_primitive_type` of `ast.cpp`. -/
def token_to_primitive_type (token : TokenType) : Parsed PrimitiveTypeKind :=
  match token with
  | TokenType.INT8 => Parsed.ok PrimitiveTypeKind.INT8
  | TokenType.INT16 => Parsed.ok PrimitiveTypeKind.INT16
  | TokenType.INT32 => Parsed.ok PrimitiveTypeKind.INT32
  | TokenType.INT64 => Parsed.ok PrimitiveTypeKind.INT64
  | TokenType.UINT8 => Parsed.ok PrimitiveTypeKind.UINT8
  | TokenType.UINT16 => Parsed.ok PrimitiveTypeKind.UINT16
  | TokenType.UINT32 => Parsed.ok PrimitiveTypeKind.UINT32
  | TokenType.UINT64 => Parsed.ok PrimitiveTypeKind.UINT64
  | TokenType.FLOAT => Parsed.ok PrimitiveTypeKind.FLOAT
  | TokenType.DOUBLE => Parsed.ok PrimitiveTypeKind.DOUBLE
  | TokenType.BOOL => Parsed.ok PrimitiveTypeKind.BOOL
  | TokenType.STRING => Parsed.ok PrimitiveTypeKind.STRING
  | TokenType.BYTE => Parsed.ok PrimitiveTypeKind.BYTE
  | _ => Parsed.thrown (Thrown.runtime_error "Invalid primitive type token")

/-- `std::isspace` in the C locale. -/
def isspace (c : Char) : Bool :=
  c = ' ' || c = '\t' || c = '\n' || c = '\x0b' || c = '\x0c' || c = '\r'

/-- `std::stoi(str)` of the standard library: skips leading white space,
reads an optional sign and the decimal digits that follow, throws
`std::invalid_argument` when there is no digit and `std::out_of_range` when
the number does not fit an `int`. -/
def stoi (str : String) : Parsed Int :=
  let chars := str.data.dropWhile isspace
  let negative := chars.head? = some '-'
  let unsigned :=
    match chars with
    | '-' :: rest => rest
    | '+' :: rest => rest
    | _ => chars
  let digits := unsigned.takeWhile Char.isDigit
  if digits.isEmpty then Parsed.thrown Thrown.invalid_argument
  else
    let magnitude : Nat := digits.foldl (fun acc c => 10 * acc + (c.toNat - 48)) 0
    let value : Int := if negative then -(magnitude : Int) else (magnitude : Int)
    if value < -2147483648 ∨ value > 2147483647 then Parsed.thrown Thrown.out_of_range
    else Parsed.ok value

/-- The `while (match(TokenType::DOT))` loop of `Parser::parse_namespace`. -/
def parse_namespace_loop : Nat → Parser → String → Parsed (String × Parser)
  | 0, _, _ => Parsed.out_of_fuel
  | fuel + 1, p, ns_name =>
    if (p.match_type TokenType.DOT).1 then
      ((p.match_type TokenType.DOT).2.consume TokenType.IDENTIFIER
          "Expected identifier after '.'").bind fun (part, p1) =>
        parse_namespace_loop fuel p1 (ns_name ++ "." ++ part.value)
    else Parsed.ok (ns_name, (p.match_type TokenType.DOT).2)

/-- `Parser::parse_namespace`. -/
def parse_namespace (fuel : Nat) (p : Parser) (schema : Schema) : Parsed (Schema × Parser) :=
  (p.consume TokenType.NAMESPACE "Expected 'namespace' at the beginning of file").bind
    fun (_, p1) =>
  (p1.consume TokenType.IDENTIFIER "Expected namespace name").bind fun (first, p2) =>
  (parse_namespace_loop fuel p2 first.value).bind fun (ns_name, p3) =>
  (p3.consume TokenType.SEMICOLON "Expected ';' after namespace declaration").bind
    fun (_, p4) =>
  Parsed.ok ({ schema with namespace_name := ns_name }, p4)

/-- The `while` loop of `Parser::parse_enum`. -/
def parse_enum_loop : Nat → Parser → EnumDecl → Parsed (EnumDecl × Parser)
  | 0, _, _ => Parsed.out_of_fuel
  | fuel + 1, p, enum_decl =>
    if !p.check TokenType.RBRACE && !p.check TokenType.END_OF_FILE then
      let value_loc := p.current_token_.location
      (p.consume TokenType.IDENTIFIER "Expected enum value name").bind fun (name_token, p1) =>
      (p1.consume TokenType.EQUALS "Expected '=' after enum value name").bind fun (_, p2) =>
      (p2.consume TokenType.NUMBER "Expected number after '='").bind fun (number_token, p3) =>
      (stoi number_token.value).bind fun value =>
      (p3.consume TokenType.SEMICOLON "Expected ';' after enum value").bind fun (_, p4) =>
      parse_enum_loop fuel p4
        { enum_decl with
          values :=
            enum_decl.values ++
              [{ name := name_token.value, value := value, location := value_loc }] }
    else Parsed.ok (enum_decl, p)

/-- `Parser::parse_enum`. -/
def parse_enum (fuel : Nat) (p : Parser) : Parsed (EnumDecl × Parser) :=
  let loc := p.current_token_.location
  (p.consume TokenType.ENUM "Expected 'enum'").bind fun (_, p1) =>
  (p1.consume TokenType.IDENTIFIER "Expected enum name").bind fun (name_token, p2) =>
  (p2.consume TokenType.LBRACE "Expected '\x7b' after enum name").bind fun (_, p3) =>
  (parse_enum_loop fuel p3 { name := name_token.value, values := [], location := loc }).bind
    fun (enum_decl, p4) =>
  (p4.consume TokenType.RBRACE "Expected '\x7d' after enum body").bind fun (_, p5) =>
  Parsed.ok (enum_decl, p5)

/-- `Parser::parse_modifiers`: the loop, with the set read so far. -/
def parse_modifiers : Nat → Parser → Nat → Parsed (Nat × Parser)
  | 0, _, _ => Parsed.out_of_fuel
  | fuel + 1, p, modifiers =>
    if is_field_modifier p.current_token_.type then
      parse_modifiers fuel p.advance
        (match p.current_token_.type with
         | TokenType.OPTIONAL => modifiers ||| MOD_OPTIONAL
         | TokenType.REPEATED => modifiers ||| MOD_REPEATED
         | TokenType.PACKED => modifiers ||| MOD_PACKED
         | TokenType.INTERNED => modifiers ||| MOD_INTERNED
         | TokenType.BITMAP => modifiers ||| MOD_BITMAP
         | _ => modifiers)
    else Parsed.ok (modifiers, p)

/-- `Parser::parse_type`. -/
def parse_type (p : Parser) : Parsed (Ty × Parser) :=
  let loc := p.current_token_.location
  if is_primitive_type p.current_token_.type then
    (token_to_primitive_type p.current_token_.type).bind fun kind =>
    Parsed.ok (Ty.PrimitiveType kind loc, p.advance)
  else if p.check TokenType.IDENTIFIER then
    Parsed.ok (Ty.UserType p.current_token_.value loc, p.advance)
  else Parsed.thrown (p.error "Expected type name")

/-- `Parser::parse_field`. -/
def parse_field (fuel : Nat) (p : Parser) : Parsed (Field × Parser) :=
  let loc := p.current_token_.location
  (parse_modifiers fuel p 0).bind fun (modifiers, p1) =>
  (parse_type p1).bind fun (type, p2) =>
  (p2.consume TokenType.IDENTIFIER "Expected field name").bind fun (name_token, p3) =>
  (p3.consume TokenType.EQUALS "Expected '=' after field name").bind fun (_, p4) =>
  (p4.consume TokenType.NUMBER "Expected field number").bind fun (number_token, p5) =>
  (stoi number_token.value).bind fun field_number =>
  (p5.consume TokenType.SEMICOLON "Expected ';' after field declaration").bind fun (_, p6) =>
  Parsed.ok
    ({ type := type, name := name_token.value, number := field_number
       modifiers := modifiers, location := loc }, p6)

/-- The `while` loop of `Parser::parse_model`. -/
def parse_model_loop : Nat → Parser → ModelDecl → Parsed (ModelDecl × Parser)
  | 0, _, _ => Parsed.out_of_fuel
  | fuel + 1, p, model_decl =>
    if !p.check TokenType.RBRACE && !p.check TokenType.END_OF_FILE then
      (parse_field fuel p).bind fun (field, p1) =>
      parse_model_loop fuel p1 { model_decl with fields := model_decl.fields ++ [field] }
    else Parsed.ok (model_decl, p)

/-- `Parser::parse_model`. -/
def parse_model (fuel : Nat) (p : Parser) : Parsed (ModelDecl × Parser) :=
  let loc := p.current_token_.location
  (p.consume TokenType.MODEL "Expected 'model'").bind fun (_, p1) =>
  (p1.consume TokenType.IDENTIFIER "Expected model name").bind fun (name_token, p2) =>
  (p2.consume TokenType.LBRACE "Expected '\x7b' after model name").bind fun (_, p3) =>
  (parse_model_loop fuel p3 { name := name_token.value, fields := [], location := loc }).bind
    fun (model_decl, p4) =>
  (p4.consume TokenType.RBRACE "Expected '\x7d' after model body").bind fun (_, p5) =>
  Parsed.ok (model_decl, p5)

/-- `Parser::parse_declaration`. -/
def parse_declaration (fuel : Nat) (p : Parser) : Parsed (Declaration × Parser) :=
  if p.check TokenType.ENUM then
    (parse_enum fuel p).bind fun (enum_decl, p1) => Parsed.ok (Declaration.Enum enum_decl, p1)
  else if p.check TokenType.MODEL then
    (parse_model fuel p).bind fun (model_decl, p1) =>
      Parsed.ok (Declaration.Model model_decl, p1)
  else Parsed.thrown (p.error "Expected 'enum' or 'model' declaration")

/-- The `while (!check(TokenType::END_OF_FILE))` loop of `Parser::parse_schema`. -/
def parse_schema_loop : Nat → Parser → Schema → Parsed (Schema × Parser)
  | 0, _, _ => Parsed.out_of_fuel
  | fuel + 1, p, schema =>
    if !p.check TokenType.END_OF_FILE then
      (parse_declaration fuel p).bind fun (decl, p1) =>
      parse_schema_loop fuel p1 { schema with declarations := schema.declarations ++ [decl] }
    else Parsed.ok (schema, p)

/-- `Parser::parse_schema`; `fuel` bounds the number of rounds of each loop. -/
def Parser.parse_schema (fuel : Nat) (p : Parser) : Parsed Schema :=
  (parse_namespace fuel p
      { namespace_name := "", declarations := [], location := p.current_token_.location }).bind
    fun (schema, p1) =>
  (parse_schema_loop fuel p1 schema).bind fun (schema1, _) => Parsed.ok schema1

/-- The number of tokens the parser can still consume: the current token,
unless it is `END_OF_FILE`, and the tokens the scanner has yet to return. -/
def Parser.budget (p : Parser) : Nat :=
  p.lexer_.pending.length + if p.current_token_.type = TokenType.END_OF_FILE then 0 else 1

/-! ### Spec side: the grammar of schemas

The EBNF of the parser, on the kinds of the tokens: a production is the set
of the lists of kinds it derives, and `{ x }` is the concatenation of a list
of derivations of `x`. -/

/-- Spec side: `modifier = 'optional' | 'repeated' | 'packed' | 'interned' | 'bitmap'`. -/
def modifier_keywords : List TokenType :=
  [TokenType.OPTIONAL, TokenType.REPEATED, TokenType.PACKED, TokenType.INTERNED,
   TokenType.BITMAP]

/-- Spec side: the thirteen names of `primitiveType`. -/
def primitive_type_names : List TokenType :=
  [TokenType.INT8, TokenType.INT16, TokenType.INT32, TokenType.INT64, TokenType.UINT8,
   TokenType.UINT16, TokenType.UINT32, TokenType.UINT64, TokenType.FLOAT, TokenType.DOUBLE,
   TokenType.BOOL, TokenType.STRING, TokenType.BYTE]

/-- Spec side: `type = primitiveType | ident`. -/
def grammar_type (kind : TokenType) : Prop :=
  kind ∈ primitive_type_names ∨ kind = TokenType.IDENTIFIER

/-- Spec side: `namespace = 'namespace' , ident , { '.' , ident } , ';'`. -/
def grammar_namespace (kinds : List TokenType) : Prop :=
  ∃ n : Nat,
    kinds =
      [TokenType.NAMESPACE, TokenType.IDENTIFIER] ++
        ((List.replicate n [TokenType.DOT, TokenType.IDENTIFIER]).flatten ++
          [TokenType.SEMICOLON])

/-- Spec side: `enumValue = ident , '=' , number , ';'`. -/
def grammar_enum_value : List TokenType :=
  [TokenType.IDENTIFIER, TokenType.EQUALS, TokenType.NUMBER, TokenType.SEMICOLON]

/-- Spec side: `enum = 'enum' , ident , '{' , { enumValue } , '}'`. -/
def grammar_enum (kinds : List TokenType) : Prop :=
  ∃ n : Nat,
    kinds =
      [TokenType.ENUM, TokenType.IDENTIFIER, TokenType.LBRACE] ++
        ((List.replicate n grammar_enum_value).flatten ++ [TokenType.RBRACE])

/-- Spec side: `field = { modifier } , type , ident , '=' , number , ';'`. -/
def grammar_field (kinds : List TokenType) : Prop :=
  ∃ (modifiers : List TokenType) (type : TokenType),
    (∀ modifier ∈ modifiers, modifier ∈ modifier_keywords) ∧ grammar_type type ∧
    kinds =
      modifiers ++
        [type, TokenType.IDENTIFIER, TokenType.EQUALS, TokenType.NUMBER, TokenType.SEMICOLON]

/-- Spec side: `model = 'model' , ident , '{' , { field } , '}'`. -/
def grammar_model (kinds : List TokenType) : Prop :=
  ∃ fields : List (List TokenType),
    (∀ field ∈ fields, grammar_field field) ∧
    kinds =
      [TokenType.MODEL, TokenType.IDENTIFIER, TokenType.LBRACE] ++
        (fields.flatten ++ [TokenType.RBRACE])

/-- Spec side: `declaration = enum | model`. -/
def grammar_declaration (kinds : List TokenType) : Prop :=
  grammar_enum kinds ∨ grammar_model kinds

/-- Spec side: `{ declaration } , EOF`. -/
def grammar_declarations (kinds : List TokenType) : Prop :=
  ∃ declarations : List (List TokenType),
    (∀ declaration ∈ declarations, grammar_declaration declaration) ∧
    kinds = declarations.flatten ++ [TokenType.END_OF_FILE]

/-- Spec side: `schema = namespace , { declaration } , EOF`. -/
def grammar_schema (kinds : List TokenType) : Prop :=
  ∃ (namespace_part rest : List TokenType),
    grammar_namespace namespace_part ∧ grammar_declarations rest ∧
    kinds = namespace_part ++ rest

/-- Spec side: the list of kinds begins a schema of the grammar. -/
def viable (kinds : List TokenType) : Prop :=
  ∃ rest : List TokenType, grammar_schema (kinds ++ rest)

/-- The token the scanner returns at the end of the source. -/
def TokenStream.end_token (lexer : TokenStream) : Token :=
  { type := TokenType.END_OF_FILE, value := "", location := lexer.end_location }

/-- The token sequence of a source: the tokens of the scanner and the
`END_OF_FILE` token that ends them. -/
def TokenStream.tokens (lexer : TokenStream) : List Token :=
  lexer.pending ++ [lexer.end_token]

/-! ### The positions in the grammar

A deterministic automaton for the grammar: `step` gives the position after a
token, or `none` when no schema goes on with that token. -/

/-- The positions of the grammar at which the next token is awaited. -/
inductive Position where
  | start | namespace_name | namespace_rest | namespace_part | declarations
  | enum_name | enum_open | enum_body | enum_equals | enum_number | enum_semicolon
  | model_name | model_open | model_body | field_type | field_name | field_equals
  | field_number | field_semicolon | done
deriving DecidableEq, Repr

/-- The position after a token of the given kind. -/
def step (position : Position) (kind : TokenType) : Option Position :=
  match position with
  | Position.start =>
    if kind = TokenType.NAMESPACE then some Position.namespace_name else none
  | Position.namespace_name =>
    if kind = TokenType.IDENTIFIER then some Position.namespace_rest else none
  | Position.namespace_rest =>
    if kind = TokenType.DOT then some Position.namespace_part
    else if kind = TokenType.SEMICOLON then some Position.declarations else none
  | Position.namespace_part =>
    if kind = TokenType.IDENTIFIER then some Position.namespace_rest else none
  | Position.declarations =>
    if kind = TokenType.ENUM then some Position.enum_name
    else if kind = TokenType.MODEL then some Position.model_name
    else if kind = TokenType.END_OF_FILE then some Position.done else none
  | Position.enum_name =>
    if kind = TokenType.IDENTIFIER then some Position.enum_open else none
  | Position.enum_open => if kind = TokenType.LBRACE then some Position.enum_body else none
  | Position.enum_body =>
    if kind = TokenType.RBRACE then some Position.declarations
    else if kind = TokenType.IDENTIFIER then some Position.enum_equals else none
  | Position.enum_equals =>
    if kind = TokenType.EQUALS then some Position.enum_number else none
  | Position.enum_number =>
    if kind = TokenType.NUMBER then some Position.enum_semicolon else none
  | Position.enum_semicolon =>
    if kind = TokenType.SEMICOLON then some Position.enum_body else none
  | Position.model_name =>
    if kind = TokenType.IDENTIFIER then some Position.model_open else none
  | Position.model_open => if kind = TokenType.LBRACE then some Position.model_body else none
  | Position.model_body =>
    if kind = TokenType.RBRACE then some Position.declarations
    else if kind ∈ modifier_keywords then some Position.field_type
    else if kind ∈ primitive_type_names ∨ kind = TokenType.IDENTIFIER then
      some Position.field_name
    else none
  | Position.field_type =>
    if kind ∈ modifier_keywords then some Position.field_type
    else if kind ∈ primitive_type_names ∨ kind = TokenType.IDENTIFIER then
      some Position.field_name
    else none
  | Position.field_name =>
    if kind = TokenType.IDENTIFIER then some Position.field_equals else none
  | Position.field_equals =>
    if kind = TokenType.EQUALS then some Position.field_number else none
  | Position.field_number =>
    if kind = TokenType.NUMBER then some Position.field_semicolon else none
  | Position.field_semicolon =>
    if kind = TokenType.SEMICOLON then some Position.model_body else none
  | Position.done => none

/-- The position after a list of tokens, if every one of them is awaited. -/
def run : Position → List TokenType → Option Position
  | position, [] => some position
  | position, kind :: rest =>
    match step position kind with
    | some next => run next rest
    | none => none

/-- A list of kinds that leads from the position to the end of a schema. -/
def completion (position : Position) : List TokenType :=
  match position with
  | Position.start =>
    [TokenType.NAMESPACE, TokenType.IDENTIFIER, TokenType.SEMICOLON, TokenType.END_OF_FILE]
  | Position.namespace_name =>
    [TokenType.IDENTIFIER, TokenType.SEMICOLON, TokenType.END_OF_FILE]
  | Position.namespace_rest => [TokenType.SEMICOLON, TokenType.END_OF_FILE]
  | Position.namespace_part =>
    [TokenType.IDENTIFIER, TokenType.SEMICOLON, TokenType.END_OF_FILE]
  | Position.declarations => [TokenType.END_OF_FILE]
  | Position.enum_name =>
    [TokenType.IDENTIFIER, TokenType.LBRACE, TokenType.RBRACE, TokenType.END_OF_FILE]
  | Position.enum_open => [TokenType.LBRACE, TokenType.RBRACE, TokenType.END_OF_FILE]
  | Position.enum_body => [TokenType.RBRACE, TokenType.END_OF_FILE]
  | Position.enum_equals =>
    [TokenType.EQUALS, TokenType.NUMBER, TokenType.SEMICOLON, TokenType.RBRACE,
     TokenType.END_OF_FILE]
  | Position.enum_number =>
    [TokenType.NUMBER, TokenType.SEMICOLON, TokenType.RBRACE, TokenType.END_OF_FILE]
  | Position.enum_semicolon =>
    [TokenType.SEMICOLON, TokenType.RBRACE, TokenType.END_OF_FILE]
  | Position.model_name =>
    [TokenType.IDENTIFIER, TokenType.LBRACE, TokenType.RBRACE, TokenType.END_OF_FILE]
  | Position.model_open => [TokenType.LBRACE, TokenType.RBRACE, TokenType.END_OF_FILE]
  | Position.model_body => [TokenType.RBRACE, TokenType.END_OF_FILE]
  | Position.field_type =>
    [TokenType.IDENTIFIER, TokenType.IDENTIFIER, TokenType.EQUALS, TokenType.NUMBER,
     TokenType.SEMICOLON, TokenType.RBRACE, TokenType.END_OF_FILE]
  | Position.field_name =>
    [TokenType.IDENTIFIER, TokenType.EQUALS, TokenType.NUMBER, TokenType.SEMICOLON,
     TokenType.RBRACE, TokenType.END_OF_FILE]
  | Position.field_equals =>
    [TokenType.EQUALS, TokenType.NUMBER, TokenType.SEMICOLON, TokenType.RBRACE,
     TokenType.END_OF_FILE]
  | Position.field_number =>
    [TokenType.NUMBER, TokenType.SEMICOLON, TokenType.RBRACE, TokenType.END_OF_FILE]
  | Position.field_semicolon =>
    [TokenType.SEMICOLON, TokenType.RBRACE, TokenType.END_OF_FILE]
  | Position.done => []

/-- The lists `kinds` that go on with `first` and then with a list of `rest`. -/
def after (first : List TokenType) (rest : List TokenType → Prop)
    (kinds : List TokenType) : Prop :=
  ∃ tail : List TokenType, rest tail ∧ kinds = first ++ tail

/-- What may follow inside a namespace declaration, after an identifier. -/
def in_namespace (kinds : List TokenType) : Prop :=
  ∃ (n : Nat) (rest : List TokenType), grammar_declarations rest ∧
    kinds =
      (List.replicate n [TokenType.DOT, TokenType.IDENTIFIER]).flatten ++
        TokenType.SEMICOLON :: rest

/-- What may follow inside the braces of an enum, before a value. -/
def in_enum_body (kinds : List TokenType) : Prop :=
  ∃ (n : Nat) (rest : List TokenType), grammar_declarations rest ∧
    kinds = (List.replicate n grammar_enum_value).flatten ++ TokenType.RBRACE :: rest

/-- What may follow inside the braces of a model, before a field. -/
def in_model_body (kinds : List TokenType) : Prop :=
  ∃ (fields : List (List TokenType)) (rest : List TokenType),
    (∀ field ∈ fields, grammar_field field) ∧ grammar_declarations rest ∧
    kinds = fields.flatten ++ TokenType.RBRACE :: rest

/-- What the grammar allows from a position on. -/
def residual (position : Position) : List TokenType → Prop :=
  match position with
  | Position.start => after [TokenType.NAMESPACE, TokenType.IDENTIFIER] in_namespace
  | Position.namespace_name => after [TokenType.IDENTIFIER] in_namespace
  | Position.namespace_rest => in_namespace
  | Position.namespace_part => after [TokenType.IDENTIFIER] in_namespace
  | Position.declarations => grammar_declarations
  | Position.enum_name => after [TokenType.IDENTIFIER, TokenType.LBRACE] in_enum_body
  | Position.enum_open => after [TokenType.LBRACE] in_enum_body
  | Position.enum_body => in_enum_body
  | Position.enum_equals =>
    after [TokenType.EQUALS, TokenType.NUMBER, TokenType.SEMICOLON] in_enum_body
  | Position.enum_number => after [TokenType.NUMBER, TokenType.SEMICOLON] in_enum_body
  | Position.enum_semicolon => after [TokenType.SEMICOLON] in_enum_body
  | Position.model_name => after [TokenType.IDENTIFIER, TokenType.LBRACE] in_model_body
  | Position.model_open => after [TokenType.LBRACE] in_model_body
  | Position.model_body => in_model_body
  | Position.field_type => fun kinds =>
    ∃ field tail : List TokenType, grammar_field field ∧ in_model_body tail ∧
      kinds = field ++ tail
  | Position.field_name =>
    after [TokenType.IDENTIFIER, TokenType.EQUALS, TokenType.NUMBER, TokenType.SEMICOLON]
      in_model_body
  | Position.field_equals =>
    after [TokenType.EQUALS, TokenType.NUMBER, TokenType.SEMICOLON] in_model_body
  | Position.field_number => after [TokenType.NUMBER, TokenType.SEMICOLON] in_model_body
  | Position.field_semicolon => after [TokenType.SEMICOLON] in_model_body
  | Position.done => fun kinds => kinds = []

/-! ### What reading a token sequence comes to -/

/-- The outcome of reading tokens along the positions of the grammar: the
schema is complete, or a token is not awaited (with its location), or the
conversion of a number token throws. -/
inductive Verdict where
  | accepted
  | mismatch (location : SourceLocation)
  | bad_number (e : Thrown)
deriving DecidableEq, Repr

/-- The verdict after a token was read: that of the conversion if the token
is a number that `std::stoi` rejects, `otherwise` else. -/
def number_verdict (token : Token) (otherwise : Verdict) : Verdict :=
  if token.type = TokenType.NUMBER then
    match stoi token.value with
    | Parsed.thrown e => Verdict.bad_number e
    | _ => otherwise
  else otherwise

/-- Reading the tokens from a position; after the last token the scanner
returns `END_OF_FILE` at `end_location`. -/
def scan : Position → List Token → SourceLocation → Verdict
  | position, [], end_location =>
    match step position TokenType.END_OF_FILE with
    | some _ => Verdict.accepted
    | none => Verdict.mismatch end_location
  | position, token :: rest, end_location =>
    match step position token.type with
    | none => Verdict.mismatch token.location
    | some next =>
      if next = Position.done then Verdict.accepted
      else number_verdict token (scan next rest end_location)

/-- Reading, from a position, the tokens the parser has before it. -/
def Parser.verdict (p : Parser) (position : Position) : Verdict :=
  scan position (p.current_token_ :: p.lexer_.pending) p.lexer_.end_location

/-- The call throws what the verdict says: a `ParseError` at the location
of the mismatch, or the exception of the conversion. -/
def fails_as {α : Type} (r : Parsed α) (v : Verdict) : Prop :=
  (∃ message location,
    v = Verdict.mismatch location ∧ r = Parsed.thrown (Thrown.ParseError message location)) ∨
  ∃ e, v = Verdict.bad_number e ∧ r = Parsed.thrown e

/-- The call `r`, made in state `p` where the verdict on the tokens ahead is
`v`, either returns in a state with at least `cost` tokens fewer that
satisfies `post`, or throws what `v` says. -/
def Triple {α : Type} (cost : Nat) (p : Parser) (v : Verdict) (r : Parsed (α × Parser))
    (post : Verdict → Parser → Prop) : Prop :=
  (∃ a p1, r = Parsed.ok (a, p1) ∧ p1.budget + cost ≤ p.budget ∧ post v p1) ∨ fails_as r v

/-! ### The token sequences of the parser scenarios -/

/-- The tokens the scanner returns for `namespace t; model M { int32 x = `
in line 1. -/
def field_start_tokens : List Token :=
  [{ type := TokenType.NAMESPACE, value := "namespace"
     location := { line := 1, column := 1, offset := 0 } },
   { type := TokenType.IDENTIFIER, value := "t"
     location := { line := 1, column := 11, offset := 10 } },
   { type := TokenType.SEMICOLON, value := ";"
     location := { line := 1, column := 13, offset := 12 } },
   { type := TokenType.MODEL, value := "model"
     location := { line := 1, column := 14, offset := 13 } },
   { type := TokenType.IDENTIFIER, value := "M"
     location := { line := 1, column := 20, offset := 19 } },
   { type := TokenType.LBRACE, value := "\x7b"
     location := { line := 1, column := 23, offset := 22 } },
   { type := TokenType.INT32, value := "int32"
     location := { line := 1, column := 24, offset := 23 } },
   { type := TokenType.IDENTIFIER, value := "x"
     location := { line := 1, column := 30, offset := 29 } },
   { type := TokenType.EQUALS, value := "="
     location := { line := 1, column := 33, offset := 32 } }]

/-- The closing brace of `namespace t; model M { int32 x = 1 }`; as for
every punctuation token the scanner records the location after it. -/
def missing_semicolon_brace : Token :=
  { type := TokenType.RBRACE, value := "\x7d"
    location := { line := 1, column := 37, offset := 36 } }

/-- The scanner on `namespace t; model M { int32 x = 1 }`: the field has no
`;` after its number. -/
def missing_semicolon_source : TokenStream :=
  { pending :=
      field_start_tokens ++
        [{ type := TokenType.NUMBER, value := "1"
           location := { line := 1, column := 34, offset := 33 } },
         missing_semicolon_brace]
    end_location := { line := 1, column := 37, offset := 36 } }

/-- The scanner on `namespace t; model M { int32 x = 99999999999 }`: the
field has no `;` after its number, and the number does not fit an `int`. -/
def overflow_source : TokenStream :=
  { pending :=
      field_start_tokens ++
        [{ type := TokenType.NUMBER, value := "99999999999"
           location := { line := 1, column := 34, offset := 33 } },
         { type := TokenType.RBRACE, value := "\x7d"
           location := { line := 1, column := 47, offset := 46 } }]
    end_location := { line := 1, column := 47, offset := 46 } }

/-! ## The scanner (`lexer.hpp`, `lexer.cpp`)

A `char` of the source is a `Char`; the source is the list of its
characters.  The classification functions of `<cctype>` are those of the C
locale. -/

/-- The table `keywords` of `lexer.cpp`. -/
def keywords : List (String × TokenType) :=
  [("namespace", TokenType.NAMESPACE), ("enum", TokenType.ENUM),
   ("model", TokenType.MODEL), ("optional", TokenType.OPTIONAL),
   ("repeated", TokenType.REPEATED), ("packed", TokenType.PACKED),
   ("interned", TokenType.INTERNED), ("bitmap", TokenType.BITMAP),
   ("int8", TokenType.INT8), ("int16", TokenType.INT16),
   ("int32", TokenType.INT32), ("int64", TokenType.INT64),
   ("uint8", TokenType.UINT8), ("uint16", TokenType.UINT16),
   ("uint32", TokenType.UINT32), ("uint64", TokenType.UINT64),
   ("float", TokenType.FLOAT), ("double", TokenType.DOUBLE),
   ("bool", TokenType.BOOL), ("string", TokenType.STRING),
   ("byte", TokenType.BYTE)]

/-- The members of the class `Lexer`. -/
structure Lexer where
  source_ : List Char
  position_ : Nat
  line_ : Nat
  column_ : Nat
  peeked_token_ : Option Token
deriving DecidableEq, Repr

/-- The constructor `Lexer::Lexer`. -/
def Lexer.new (source : List Char) : Lexer :=
  { source_ := source, position_ := 0, line_ := 1, column_ := 1, peeked_token_ := none }

/-- `Lexer::is_at_end`. -/
def Lexer.is_at_end (l : Lexer) : Bool := l.position_ ≥ l.source_.length

/-- `Lexer::current_location`. -/
def Lexer.current_location (l : Lexer) : SourceLocation :=
  { line := l.line_, column := l.column_, offset := l.position_ }

/-- `Lexer::current_char`. -/
def Lexer.current_char (l : Lexer) : Char :=
  if l.is_at_end then '\x00' else l.source_.getD l.position_ '\x00'

/-- `Lexer::peek_char`. -/
def Lexer.peek_char (l : Lexer) (offset : Nat) : Char :=
  let pos := l.position_ + offset
  if pos ≥ l.source_.length then '\x00' else l.source_.getD pos '\x00'

/-- `Lexer::advance`. -/
def Lexer.advance (l : Lexer) : Lexer :=
  if l.is_at_end then l
  else
    let c := l.current_char
    if c = '\n' then { l with position_ := l.position_ + 1, line_ := l.line_ + 1, column_ := 1 }
    else { l with position_ := l.position_ + 1, column_ := l.column_ + 1 }

/-- The number of characters from the cursor to the end of the source: no
loop of the scanner makes more rounds than that. -/
def Lexer.remaining (l : Lexer) : Nat := l.source_.length - l.position_

/-- `Lexer::is_identifier_start`. -/
def is_identifier_start (c : Char) : Bool := c.isAlpha || c = '_'

/-- `Lexer::is_identifier_continue`. -/
def is_identifier_continue (c : Char) : Bool := c.isAlphanum || c = '_'

/-- `Lexer::is_digit`. -/
def is_digit (c : Char) : Bool := c.isDigit

/-- The loops `while (!is_at_end() && p(current_char())) advance();` of
`skip_line_comment`, `read_identifier_or_keyword` and `read_number`; the
first argument bounds the number of rounds. -/
def Lexer.advance_while (p : Char → Bool) : Nat → Lexer → Lexer
  | 0, l => l
  | rounds + 1, l =>
    if !l.is_at_end && p l.current_char then Lexer.advance_while p rounds l.advance else l

/-- `Lexer::skip_line_comment`. -/
def Lexer.skip_line_comment (l : Lexer) : Lexer :=
  Lexer.advance_while (fun c => c != '\n') l.advance.advance.remaining l.advance.advance

/-- The loop of `Lexer::skip_block_comment`. -/
def Lexer.skip_block_comment_loop : Nat → Lexer → Lexer
  | 0, l => l
  | rounds + 1, l =>
    if !l.is_at_end then
      if l.current_char = '*' && l.peek_char 1 = '/' then l.advance.advance
      else Lexer.skip_block_comment_loop rounds l.advance
    else l

/-- `Lexer::skip_block_comment`. -/
def Lexer.skip_block_comment (l : Lexer) : Lexer :=
  Lexer.skip_block_comment_loop l.advance.advance.remaining l.advance.advance

/-- The loop of `Lexer::skip_whitespace_and_comments`. -/
def Lexer.skip_whitespace_and_comments_loop : Nat → Lexer → Lexer
  | 0, l => l
  | rounds + 1, l =>
    if !l.is_at_end then
      if isspace l.current_char then Lexer.skip_whitespace_and_comments_loop rounds l.advance
      else if l.current_char = '/' && l.peek_char 1 = '/' then
        Lexer.skip_whitespace_and_comments_loop rounds l.skip_line_comment
      else if l.current_char = '/' && l.peek_char 1 = '*' then
        Lexer.skip_whitespace_and_comments_loop rounds l.skip_block_comment
      else l
    else l

/-- `Lexer::skip_whitespace_and_comments`. -/
def Lexer.skip_whitespace_and_comments (l : Lexer) : Lexer :=
  Lexer.skip_whitespace_and_comments_loop l.remaining l

/-- `Lexer::keyword_or_identifier`. -/
def keyword_or_identifier (word : String) : TokenType :=
  match keywords.find? fun entry => entry.1 = word with
  | some entry => entry.2
  | none => TokenType.IDENTIFIER

/-- `source_.substr(start, position_ - start)`. -/
def Lexer.substr (l : Lexer) (start : Nat) : String :=
  String.mk ((l.source_.drop start).take (l.position_ - start))

/-- `Lexer::read_identifier_or_keyword`. -/
def Lexer.read_identifier_or_keyword (l : Lexer) : Token × Lexer :=
  let start_loc := l.current_location
  let start := l.position_
  let l1 := Lexer.advance_while is_identifier_continue l.remaining l
  let identifier := l1.substr start
  ({ type := keyword_or_identifier identifier, value := identifier, location := start_loc }, l1)

/-- `Lexer::read_number`. -/
def Lexer.read_number (l : Lexer) : Token × Lexer :=
  let start_loc := l.current_location
  let start := l.position_
  let l1 := if l.current_char = '-' then l.advance else l
  let l2 := Lexer.advance_while is_digit l1.remaining l1
  ({ type := TokenType.NUMBER, value := l2.substr start, location := start_loc }, l2)

/-- `Lexer::make_token`: the token carries the location of the cursor at
the time of the call. -/
def Lexer.make_token (l : Lexer) (type : TokenType) (value : String) : Token :=
  { type := type, value := value, location := l.current_location }

/-- `Lexer::next_token`. -/
def Lexer.next_token (l : Lexer) : Token × Lexer :=
  match l.peeked_token_ with
  | some token => (token, { l with peeked_token_ := none })
  | none =>
    let l1 := l.skip_whitespace_and_comments
    if l1.is_at_end then (l1.make_token TokenType.END_OF_FILE "", l1)
    else
      let c := l1.current_char
      if c = ';' then (l1.advance.make_token TokenType.SEMICOLON ";", l1.advance)
      else if c = '=' then (l1.advance.make_token TokenType.EQUALS "=", l1.advance)
      else if c = '\x7b' then (l1.advance.make_token TokenType.LBRACE "\x7b", l1.advance)
      else if c = '\x7d' then (l1.advance.make_token TokenType.RBRACE "\x7d", l1.advance)
      else if c = '.' then (l1.advance.make_token TokenType.DOT ".", l1.advance)
      else if c = '-' then
        if l1.peek_char 1 != '\x00' && is_digit (l1.peek_char 1) then l1.read_number
        else (l1.advance.make_token TokenType.INVALID (String.singleton c), l1.advance)
      else if is_identifier_start c then l1.read_identifier_or_keyword
      else if is_digit c then l1.read_number
      else (l1.advance.make_token TokenType.INVALID (String.singleton c), l1.advance)

/-- `Lexer::peek_token`. -/
def Lexer.peek_token (l : Lexer) : Token × Lexer :=
  match l.peeked_token_ with
  | some token => (token, l)
  | none => (l.next_token.1, { l.next_token.2 with peeked_token_ := some l.next_token.1 })

/-- `Lexer::has_more_tokens`. -/
def Lexer.has_more_tokens (l : Lexer) : Bool := !l.is_at_end

/-- `Lexer::format_error`. -/
def Lexer.format_error (message : String) (loc : SourceLocation) : String :=
  "Error at line " ++ toString loc.line ++ ", column " ++ toString loc.column ++ ": " ++ message

/-- The tokens before `END_OF_FILE` that successive `next_token` calls
return, and the scanner once `END_OF_FILE` has been returned; the first
argument bounds the number of calls. -/
def Lexer.scan_tokens : Nat → Lexer → List Token × Lexer
  | 0, l => ([], l)
  | calls + 1, l =>
    if l.next_token.1.type = TokenType.END_OF_FILE then ([], l)
    else ((l.next_token.1 :: (Lexer.scan_tokens calls l.next_token.2).1),
      (Lexer.scan_tokens calls l.next_token.2).2)

/-- The scanner as the parser uses it: the tokens a scanner returns before
`END_OF_FILE`, and the location of that `END_OF_FILE`. -/
def Lexer.stream (l : Lexer) : TokenStream :=
  { pending := (Lexer.scan_tokens (l.remaining + 1) l).1
    end_location := (Lexer.scan_tokens (l.remaining + 1) l).2.next_token.1.location }

/-- The scanner on a source text, as the parser uses it. -/
def tokenize (source : String) : TokenStream := (Lexer.new source.data).stream

/-! ### The scanner on the characters ahead of the cursor

What the scanner does depends on the source only through the characters
from the cursor on.  The functions below compute, on that list, where a
step of the scanner leaves the cursor and which token it returns; the
theorems show that they describe the scanner. -/

/-- The characters from the cursor to the end of the source. -/
def Lexer.rest (l : Lexer) : List Char := l.source_.drop l.position_

/-- The kind and the lexeme of a token. -/
def Token.shape (token : Token) : TokenType × String := (token.type, token.value)

/-- Where `skip_line_comment` leaves the cursor. -/
def after_line_comment (rest : List Char) : List Char :=
  rest.tail.tail.dropWhile fun c => c != '\n'

/-- Where the loop of `skip_block_comment` leaves the cursor. -/
def block_comment_end : List Char → List Char
  | [] => []
  | c :: rest => if c = '*' && rest.headD '\x00' = '/' then rest.tail else block_comment_end rest

/-- Where `skip_block_comment` leaves the cursor. -/
def after_block_comment (rest : List Char) : List Char := block_comment_end rest.tail.tail

/-- Where the loop of `skip_whitespace_and_comments` leaves the cursor. -/
def skip_blank : Nat → List Char → List Char
  | 0, rest => rest
  | _ + 1, [] => []
  | rounds + 1, c :: rest =>
    if isspace c then skip_blank rounds rest
    else if c = '/' && rest.headD '\x00' = '/' then
      skip_blank rounds (after_line_comment (c :: rest))
    else if c = '/' && rest.headD '\x00' = '*' then
      skip_blank rounds (after_block_comment (c :: rest))
    else c :: rest

/-- The kind and lexeme of the token that starts at the cursor, white space
and comments being skipped, and the characters after it. -/
def token_at : List Char → (TokenType × String) × List Char
  | [] => ((TokenType.END_OF_FILE, ""), [])
  | c :: rest =>
    if c = ';' then ((TokenType.SEMICOLON, ";"), rest)
    else if c = '=' then ((TokenType.EQUALS, "="), rest)
    else if c = '\x7b' then ((TokenType.LBRACE, "\x7b"), rest)
    else if c = '\x7d' then ((TokenType.RBRACE, "\x7d"), rest)
    else if c = '.' then ((TokenType.DOT, "."), rest)
    else if c = '-' then
      if rest.headD '\x00' != '\x00' && is_digit (rest.headD '\x00') then
        ((TokenType.NUMBER, String.mk (c :: rest.takeWhile is_digit)), rest.dropWhile is_digit)
      else ((TokenType.INVALID, String.singleton c), rest)
    else if is_identifier_start c then
      ((keyword_or_identifier (String.mk ((c :: rest).takeWhile is_identifier_continue)),
        String.mk ((c :: rest).takeWhile is_identifier_continue)),
       (c :: rest).dropWhile is_identifier_continue)
    else if is_digit c then
      ((TokenType.NUMBER, String.mk ((c :: rest).takeWhile is_digit)),
       (c :: rest).dropWhile is_digit)
    else ((TokenType.INVALID, String.singleton c), rest)

/-- The kinds and lexemes of the tokens before `END_OF_FILE`; the first
argument bounds their number. -/
def shapes : Nat → List Char → List (TokenType × String)
  | 0, _ => []
  | calls + 1, rest =>
    match skip_blank rest.length rest with
    | [] => []
    | c :: tail => (token_at (c :: tail)).1 :: shapes calls (token_at (c :: tail)).2

/-- The scanner `l1` is the scanner `l` after some calls of `advance`. -/
def Lexer.reaches (l l1 : Lexer) : Prop := ∃ k : Nat, l1 = Lexer.advance^[k] l

/-- A sequence of calls on a scanner, `true` for `next_token` and `false`
for `peek_token`: the tokens the `next_token` calls return. -/
def Lexer.run_calls : List Bool → Lexer → List Token
  | [], _ => []
  | true :: calls, l => l.next_token.1 :: Lexer.run_calls calls l.next_token.2
  | false :: calls, l => Lexer.run_calls calls l.peek_token.2

/-- Spec side: the location of the character at `offset` of a source:
line 1 plus the newlines before it, column 1 plus the characters after the
last of these newlines, and the offset. -/
def location_of (source : List Char) (offset : Nat) : SourceLocation :=
  { line := 1 + (source.take offset).count '\n'
    column := 1 + ((source.take offset).reverse.takeWhile fun c => c != '\n').length
    offset := offset }

/-- Spec side: the 8 keywords and the 13 names of primitive types. -/
def reserved_words : List String :=
  ["namespace", "enum", "model", "optional", "repeated", "packed", "interned", "bitmap",
   "int8", "int16", "int32", "int64", "uint8", "uint16", "uint32", "uint64",
   "float", "double", "bool", "string", "byte"]

/-! ### Spec side: the modifier set of a sequence of keywords -/

/-- Spec side: the modifier set of the keywords written before the type of
a field: the flag of each keyword that occurs among them. -/
def modifier_set (keywords : List TokenType) : Nat :=
  (if TokenType.OPTIONAL ∈ keywords then MOD_OPTIONAL else 0) |||
  (if TokenType.REPEATED ∈ keywords then MOD_REPEATED else 0) |||
  (if TokenType.PACKED ∈ keywords then MOD_PACKED else 0) |||
  (if TokenType.INTERNED ∈ keywords then MOD_INTERNED else 0) |||
  (if TokenType.BITMAP ∈ keywords then MOD_BITMAP else 0)

/-- The field `repeated packed repeated uint32 xs = 3;` of
`namespace t; model M { repeated packed repeated uint32 xs = 3; }`. -/
def field_xs_repeated_twice : Field :=
  { type := Ty.PrimitiveType PrimitiveTypeKind.UINT32 { line := 1, column := 49, offset := 48 }
    name := "xs", number := 3, modifiers := MOD_PACKED ||| MOD_REPEATED
    location := { line := 1, column := 24, offset := 23 } }

/-! ## The code emitter: the text of the two artifacts (`codegen.hpp`, `codegen.cpp`)

A stream of the generator is the string it holds; `out << x` appends the
text of `x` to it.  For each printing function the text it appends is given
first, then the function on the state of the generator. -/

/-- The C++ `int` that has the given 32 bits (two's complement). -/
def int_of_bits32 (bits : Nat) : Int :=
  if bits < 2 ^ 31 then (bits : Int) else (bits : Int) - 2 ^ 32

/-- The cast `dynamic_cast<const PrimitiveType *>(field.type.get())`: the
kind of the type when the cast succeeds. -/
def primitive_type_of (type : Ty) : Option PrimitiveTypeKind :=
  match type with
  | Ty.PrimitiveType kind _ => some kind
  | Ty.UserType _ _ => none

/-- The test `user_type && schema_.find_enum(user_type->name)` of
`generate_field_serializer` and `generate_field_deserializer`. -/
def names_enum (schema : Schema) (type : Ty) : Bool :=
  match type with
  | Ty.PrimitiveType _ _ => false
  | Ty.UserType name _ => (schema.find_enum name).isSome

/-- `CodeGenerator::get_field_type`. -/
def get_field_type (field : Field) : String :=
  if field.is_repeated then "std::vector<" ++ get_cpp_type field.type ++ ">"
  else if field.is_optional then "std::optional<" ++ get_cpp_type field.type ++ ">"
  else get_cpp_type field.type

/-- What `generate_includes` prints. -/
def includes_text : String :=
  String.join [
    "#include <cstdint>\n",
    "#include <string>\n",
    "#include <vector>\n",
    "#include <optional>\n",
    "#include <memory>\n\n"]

/-- What `generate_namespace_open` prints. -/
def namespace_open_text (schema : Schema) : String :=
  "namespace " ++ schema.namespace_name ++ " \x7b\n\n"

/-- What `generate_namespace_close` prints. -/
def namespace_close_text (schema : Schema) : String :=
  "\x7d // namespace " ++ schema.namespace_name ++ "\n"

/-- The loop of `generate_enum_declaration`, on the values from index `i`
on: a comma follows every value but the last. -/
def enum_values_text : List EnumValue → String
  | [] => ""
  | [value] => "  " ++ value.name ++ " = " ++ toString value.value ++ "\n"
  | value :: next :: rest =>
    "  " ++ value.name ++ " = " ++ toString value.value ++ "," ++ "\n" ++
      enum_values_text (next :: rest)

/-- What `generate_enum_declaration` prints. -/
def enum_declaration_text (enum_decl : EnumDecl) : String :=
  String.join [
    "enum class " ++ enum_decl.name ++ " : int32_t \x7b\n",
    enum_values_text enum_decl.values,
    "\x7d;\n\n"]

/-- What the body of the loop of `generate_model_declaration` prints for a
field. -/
def member_text (field : Field) : String :=
  String.join [
    "  " ++ get_field_type field ++ " " ++ field.name,
    (if field.is_repeated then ";\n"
     else if field.is_optional then ";\n"
     else
      match field.type with
      | Ty.PrimitiveType kind _ =>
        match kind with
        | PrimitiveTypeKind.BOOL => " = false;\n"
        | PrimitiveTypeKind.STRING => ";\n"
        | _ => " = 0;\n"
      | Ty.UserType _ _ => ";\n")]

/-- What `generate_model_declaration` prints. -/
def model_declaration_text (model : ModelDecl) : String :=
  String.join [
    "class " ++ model.name ++ " \x7b\n",
    "public:\n",
    "  " ++ model.name ++ "() = default;\n\n",
    String.join (model.fields.map member_text),
    "\n",
    "  std::vector<uint8_t> serialize() const;\n",
    "  bool deserialize(const std::vector<uint8_t>& data);\n",
    "\x7d;\n\n"]

/-- What `generate_field_serializer` prints. -/
def field_serializer_text (schema : Schema) (field : Field) (indent : String) : String :=
  let wire_type := get_wire_type_value field.type field
  let tag := make_tag field.number wire_type
  let prim_type := primitive_type_of field.type
  String.join [
    (if field.is_repeated then
      String.join [
        indent ++ "if (!" ++ field.name ++ ".empty()) \x7b\n",
        (if field.is_packed && prim_type.isSome then
          String.join [
            indent ++ "  uint32_t packed_tag = " ++
              toString (int_of_bits32 (make_tag field.number 2)) ++ ";\n",
            indent ++ "  \x7b\n",
            indent ++ "    uint64_t val = packed_tag;\n",
            indent ++ "    while (val > 0x7F) \x7b\n",
            indent ++ "      buffer.push_back(static_cast<uint8_t>((val & 0x7F) | 0x80));\n",
            indent ++ "      val >>= 7;\n",
            indent ++ "    \x7d\n",
            indent ++ "    buffer.push_back(static_cast<uint8_t>(val));\n",
            indent ++ "  \x7d\n\n",
            indent ++ "  std::vector<uint8_t> packed_data;\n",
            indent ++ "  for (const auto& item : " ++ field.name ++ ") \x7b\n",
            (if prim_type = some PrimitiveTypeKind.INT8 ∨ prim_type = some PrimitiveTypeKind.INT16 ∨
                prim_type = some PrimitiveTypeKind.INT32 ∨ prim_type = some PrimitiveTypeKind.INT64 ∨
                prim_type = some PrimitiveTypeKind.UINT8 ∨ prim_type = some PrimitiveTypeKind.UINT16 ∨
                prim_type = some PrimitiveTypeKind.UINT32 ∨ prim_type = some PrimitiveTypeKind.UINT64 then
              String.join [
                indent ++ "    uint64_t val = static_cast<uint64_t>(item);\n",
                indent ++ "    while (val > 0x7F) \x7b\n",
                indent ++
                  "      packed_data.push_back(static_cast<uint8_t>((val & 0x7F) | 0x80));\n",
                indent ++ "      val >>= 7;\n",
                indent ++ "    \x7d\n",
                indent ++ "    packed_data.push_back(static_cast<uint8_t>(val));\n"]
             else
              (if prim_type = some PrimitiveTypeKind.FLOAT then
                String.join [
                  indent ++ "    float fval = item;\n",
                  indent ++ "    uint32_t val;\n",
                  indent ++ "    std::memcpy(&val, &fval, sizeof(float));\n",
                  indent ++ "    packed_data.push_back(static_cast<uint8_t>(val & 0xFF));\n",
                  indent ++
                    "    packed_data.push_back(static_cast<uint8_t>((val >> 8) & 0xFF));\n",
                  indent ++
                    "    packed_data.push_back(static_cast<uint8_t>((val >> 16) & 0xFF));\n",
                  indent ++
                    "    packed_data.push_back(static_cast<uint8_t>((val >> 24) & 0xFF));\n"]
               else
                (if prim_type = some PrimitiveTypeKind.DOUBLE then
                  String.join [
                    indent ++ "    double dval = item;\n",
                    indent ++ "    uint64_t val;\n",
                    indent ++ "    std::memcpy(&val, &dval, sizeof(double));\n",
                    indent ++ "    for (int i = 0; i < 8; ++i) \x7b\n",
                    indent ++
                      "      packed_data.push_back(static_cast<uint8_t>((val >> (i * 8)) & 0xFF));\n",
                    indent ++ "    \x7d\n"]
                 else ""))),
            indent ++ "  \x7d\n\n",
            indent ++ "  uint64_t length = packed_data.size();\n",
            indent ++ "  while (length > 0x7F) \x7b\n",
            indent ++ "    buffer.push_back(static_cast<uint8_t>((length & 0x7F) | 0x80));\n",
            indent ++ "    length >>= 7;\n",
            indent ++ "  \x7d\n",
            indent ++ "  buffer.push_back(static_cast<uint8_t>(length));\n",
            indent ++ "  buffer.insert(buffer.end(), packed_data.begin(), packed_data.end());\n"]
         else
          String.join [
            indent ++ "  for (const auto& item : " ++ field.name ++ ") \x7b\n",
            indent ++ "    uint32_t item_tag = " ++ toString tag ++ ";\n",
            indent ++ "    \x7b\n",
            indent ++ "      uint64_t val = item_tag;\n",
            indent ++ "      while (val > 0x7F) \x7b\n",
            indent ++ "        buffer.push_back(static_cast<uint8_t>((val & 0x7F) | 0x80));\n",
            indent ++ "        val >>= 7;\n",
            indent ++ "      \x7d\n",
            indent ++ "      buffer.push_back(static_cast<uint8_t>(val));\n",
            indent ++ "    \x7d\n",
            (if prim_type.isSome then
              String.join [
                (if prim_type = some PrimitiveTypeKind.STRING then
                  String.join [
                    indent ++ "    uint64_t length = item.size();\n",
                    indent ++ "    while (length > 0x7F) \x7b\n",
                    indent ++
                      "      buffer.push_back(static_cast<uint8_t>((length & 0x7F) | 0x80));\n",
                    indent ++ "      length >>= 7;\n",
                    indent ++ "    \x7d\n",
                    indent ++ "    buffer.push_back(static_cast<uint8_t>(length));\n",
                    indent ++ "    buffer.insert(buffer.end(), item.begin(), item.end());\n"]
                 else
                  String.join [
                    indent ++ "    uint64_t val = static_cast<uint64_t>(item);\n",
                    indent ++ "    while (val > 0x7F) \x7b\n",
                    indent ++
                      "      buffer.push_back(static_cast<uint8_t>((val & 0x7F) | 0x80));\n",
                    indent ++ "      val >>= 7;\n",
                    indent ++ "    \x7d\n",
                    indent ++ "    buffer.push_back(static_cast<uint8_t>(val));\n"])]
             else
              String.join [
                (if names_enum schema field.type then
                  String.join [
                    indent ++ "    uint64_t val = static_cast<uint64_t>(item);\n",
                    indent ++ "    while (val > 0x7F) \x7b\n",
                    indent ++
                      "      buffer.push_back(static_cast<uint8_t>((val & 0x7F) | 0x80));\n",
                    indent ++ "      val >>= 7;\n",
                    indent ++ "    \x7d\n",
                    indent ++ "    buffer.push_back(static_cast<uint8_t>(val));\n"]
                 else
                  String.join [
                    indent ++ "    auto item_data = item.serialize();\n",
                    indent ++ "    uint64_t length = item_data.size();\n",
                    indent ++ "    while (length > 0x7F) \x7b\n",
                    indent ++
                      "      buffer.push_back(static_cast<uint8_t>((length & 0x7F) | 0x80));\n",
                    indent ++ "      length >>= 7;\n",
                    indent ++ "    \x7d\n",
                    indent ++ "    buffer.push_back(static_cast<uint8_t>(length));\n",
                    indent ++
                      "    buffer.insert(buffer.end(), item_data.begin(), item_data.end());\n"])]),
            indent ++ "  \x7d\n"]),
        indent ++ "\x7d\n\n"]
     else
      (if field.is_optional then
        String.join [
          indent ++ "if (" ++ field.name ++ ".has_value()) \x7b\n",
          indent ++ "  uint32_t field_tag = " ++ toString tag ++ ";\n",
          indent ++ "  \x7b\n",
          indent ++ "    uint64_t val = field_tag;\n",
          indent ++ "    while (val > 0x7F) \x7b\n",
          indent ++ "      buffer.push_back(static_cast<uint8_t>((val & 0x7F) | 0x80));\n",
          indent ++ "      val >>= 7;\n",
          indent ++ "    \x7d\n",
          indent ++ "    buffer.push_back(static_cast<uint8_t>(val));\n",
          indent ++ "  \x7d\n",
          (if prim_type.isSome then
            String.join [
              (if prim_type = some PrimitiveTypeKind.STRING then
                String.join [
                  indent ++ "  uint64_t length = " ++ field.name ++ "->size();\n",
                  indent ++ "  while (length > 0x7F) \x7b\n",
                  indent ++
                    "    buffer.push_back(static_cast<uint8_t>((length & 0x7F) | 0x80));\n",
                  indent ++ "    length >>= 7;\n",
                  indent ++ "  \x7d\n",
                  indent ++ "  buffer.push_back(static_cast<uint8_t>(length));\n",
                  indent ++ "  buffer.insert(buffer.end(), " ++ field.name ++ "->begin(), " ++
                    field.name ++ "->end());\n"]
               else
                String.join [
                  indent ++ "  uint64_t val = static_cast<uint64_t>(*" ++ field.name ++ ");\n",
                  indent ++ "  while (val > 0x7F) \x7b\n",
                  indent ++ "    buffer.push_back(static_cast<uint8_t>((val & 0x7F) | 0x80));\n",
                  indent ++ "    val >>= 7;\n",
                  indent ++ "  \x7d\n",
                  indent ++ "  buffer.push_back(static_cast<uint8_t>(val));\n"])]
           else
            String.join [
              (if names_enum schema field.type then
                String.join [
                  indent ++ "  uint64_t val = static_cast<uint64_t>(*" ++ field.name ++ ");\n",
                  indent ++ "  while (val > 0x7F) \x7b\n",
                  indent ++ "    buffer.push_back(static_cast<uint8_t>((val & 0x7F) | 0x80));\n",
                  indent ++ "    val >>= 7;\n",
                  indent ++ "  \x7d\n",
                  indent ++ "  buffer.push_back(static_cast<uint8_t>(val));\n"]
               else
                String.join [
                  indent ++ "  auto field_data = " ++ field.name ++ "->serialize();\n",
                  indent ++ "  uint64_t length = field_data.size();\n",
                  indent ++ "  while (length > 0x7F) \x7b\n",
                  indent ++
                    "    buffer.push_back(static_cast<uint8_t>((length & 0x7F) | 0x80));\n",
                  indent ++ "    length >>= 7;\n",
                  indent ++ "  \x7d\n",
                  indent ++ "  buffer.push_back(static_cast<uint8_t>(length));\n",
                  indent ++
                    "  buffer.insert(buffer.end(), field_data.begin(), field_data.end());\n"])]),
          indent ++ "\x7d\n\n"]
       else
        String.join [
          indent ++ "\x7b\n",
          indent ++ "  uint32_t field_tag = " ++ toString tag ++ ";\n",
          indent ++ "  \x7b\n",
          indent ++ "    uint64_t val = field_tag;\n",
          indent ++ "    while (val > 0x7F) \x7b\n",
          indent ++ "      buffer.push_back(static_cast<uint8_t>((val & 0x7F) | 0x80));\n",
          indent ++ "      val >>= 7;\n",
          indent ++ "    \x7d\n",
          indent ++ "    buffer.push_back(static_cast<uint8_t>(val));\n",
          indent ++ "  \x7d\n",
          (if prim_type.isSome then
            String.join [
              (if prim_type = some PrimitiveTypeKind.STRING then
                String.join [
                  indent ++ "  uint64_t length = " ++ field.name ++ ".size();\n",
                  indent ++ "  while (length > 0x7F) \x7b\n",
                  indent ++
                    "    buffer.push_back(static_cast<uint8_t>((length & 0x7F) | 0x80));\n",
                  indent ++ "    length >>= 7;\n",
                  indent ++ "  \x7d\n",
                  indent ++ "  buffer.push_back(static_cast<uint8_t>(length));\n",
                  indent ++ "  buffer.insert(buffer.end(), " ++ field.name ++ ".begin(), " ++
                    field.name ++ ".end());\n"]
               else
                (if prim_type = some PrimitiveTypeKind.BOOL then
                  String.join [
                    indent ++ "  buffer.push_back(" ++ field.name ++ " ? 1 : 0);\n"]
                 else
                  String.join [
                    indent ++ "  uint64_t val = static_cast<uint64_t>(" ++ field.name ++ ");\n",
                    indent ++ "  while (val > 0x7F) \x7b\n",
                    indent ++ "    buffer.push_back(static_cast<uint8_t>((val & 0x7F) | 0x80));\n",
                    indent ++ "    val >>= 7;\n",
                    indent ++ "  \x7d\n",
                    indent ++ "  buffer.push_back(static_cast<uint8_t>(val));\n"]))]
           else
            String.join [
              (if names_enum schema field.type then
                String.join [
                  indent ++ "  uint64_t val = static_cast<uint64_t>(" ++ field.name ++ ");\n",
                  indent ++ "  while (val > 0x7F) \x7b\n",
                  indent ++ "    buffer.push_back(static_cast<uint8_t>((val & 0x7F) | 0x80));\n",
                  indent ++ "    val >>= 7;\n",
                  indent ++ "  \x7d\n",
                  indent ++ "  buffer.push_back(static_cast<uint8_t>(val));\n"]
               else
                String.join [
                  indent ++ "  auto field_data = " ++ field.name ++ ".serialize();\n",
                  indent ++ "  uint64_t length = field_data.size();\n",
                  indent ++ "  while (length > 0x7F) \x7b\n",
                  indent ++
                    "    buffer.push_back(static_cast<uint8_t>((length & 0x7F) | 0x80));\n",
                  indent ++ "    length >>= 7;\n",
                  indent ++ "  \x7d\n",
                  indent ++ "  buffer.push_back(static_cast<uint8_t>(length));\n",
                  indent ++
                    "  buffer.insert(buffer.end(), field_data.begin(), field_data.end());\n"])]),
          indent ++ "\x7d\n\n"]))]

/-- What `generate_field_deserializer` prints. -/
def field_deserializer_text (schema : Schema) (field : Field) (indent : String) : String :=
  let prim_type := primitive_type_of field.type
  let cpp_type := get_cpp_type field.type
  let type_name := field.type.get_name
  String.join [
    indent ++ "case " ++ toString field.number ++ ": \x7b\n",
    (if prim_type.isSome then
      String.join [
        (if prim_type = some PrimitiveTypeKind.STRING then
          String.join [
            indent ++ "  uint64_t length = 0;\n",
            indent ++ "  int shift = 0;\n",
            indent ++ "  while (pos < data.size()) \x7b\n",
            indent ++ "    uint8_t byte = data[pos++];\n",
            indent ++ "    length |= static_cast<uint64_t>(byte & 0x7F) << shift;\n",
            indent ++ "    if ((byte & 0x80) == 0) break;\n",
            indent ++ "    shift += 7;\n",
            indent ++ "  \x7d\n",
            (if field.is_repeated then
              String.join [
                indent ++
                  "  std::string str(reinterpret_cast<const char*>(&data[pos]), length);\n",
                indent ++ "  " ++ field.name ++ ".push_back(std::move(str));\n"]
             else
              (if field.is_optional then
                String.join [
                  indent ++ "  " ++ field.name ++
                    " = std::string(reinterpret_cast<const char*>(&data[pos]), length);\n"]
               else
                String.join [
                  indent ++ "  " ++ field.name ++
                    ".assign(reinterpret_cast<const char*>(&data[pos]), length);\n"])),
            indent ++ "  pos += length;\n"]
         else
          String.join [
            indent ++ "  uint64_t value = 0;\n",
            indent ++ "  int shift = 0;\n",
            indent ++ "  while (pos < data.size()) \x7b\n",
            indent ++ "    uint8_t byte = data[pos++];\n",
            indent ++ "    value |= static_cast<uint64_t>(byte & 0x7F) << shift;\n",
            indent ++ "    if ((byte & 0x80) == 0) break;\n",
            indent ++ "    shift += 7;\n",
            indent ++ "  \x7d\n",
            (if field.is_repeated then
              String.join [
                indent ++ "  " ++ field.name ++ ".push_back(static_cast<" ++ cpp_type ++
                  ">(value));\n"]
             else
              (if field.is_optional then
                String.join [
                  indent ++ "  " ++ field.name ++ " = static_cast<" ++ cpp_type ++ ">(value);\n"]
               else
                String.join [
                  indent ++ "  " ++ field.name ++ " = static_cast<" ++ cpp_type ++ ">(value);\n"]))])]
     else
      String.join [
        (if names_enum schema field.type then
          String.join [
            indent ++ "  uint64_t value = 0;\n",
            indent ++ "  int shift = 0;\n",
            indent ++ "  while (pos < data.size()) \x7b\n",
            indent ++ "    uint8_t byte = data[pos++];\n",
            indent ++ "    value |= static_cast<uint64_t>(byte & 0x7F) << shift;\n",
            indent ++ "    if ((byte & 0x80) == 0) break;\n",
            indent ++ "    shift += 7;\n",
            indent ++ "  \x7d\n",
            (if field.is_repeated then
              String.join [
                indent ++ "  " ++ field.name ++ ".push_back(static_cast<" ++ type_name ++
                  ">(value));\n"]
             else
              (if field.is_optional then
                String.join [
                  indent ++ "  " ++ field.name ++ " = static_cast<" ++ type_name ++ ">(value);\n"]
               else
                String.join [
                  indent ++ "  " ++ field.name ++ " = static_cast<" ++ type_name ++ ">(value);\n"]))]
         else
          String.join [
            indent ++ "  uint64_t length = 0;\n",
            indent ++ "  int shift = 0;\n",
            indent ++ "  while (pos < data.size()) \x7b\n",
            indent ++ "    uint8_t byte = data[pos++];\n",
            indent ++ "    length |= static_cast<uint64_t>(byte & 0x7F) << shift;\n",
            indent ++ "    if ((byte & 0x80) == 0) break;\n",
            indent ++ "    shift += 7;\n",
            indent ++ "  \x7d\n",
            (if field.is_repeated then
              String.join [
                indent ++ "  " ++ type_name ++ " item;\n",
                indent ++
                  "  std::vector<uint8_t> item_data(data.begin() + pos, data.begin() + pos + length);\n",
                indent ++ "  if (!item.deserialize(item_data)) return false;\n",
                indent ++ "  " ++ field.name ++ ".push_back(std::move(item));\n"]
             else
              (if field.is_optional then
                String.join [
                  indent ++ "  " ++ type_name ++ " value;\n",
                  indent ++
                    "  std::vector<uint8_t> item_data(data.begin() + pos, data.begin() + pos + length);\n",
                  indent ++ "  if (!value.deserialize(item_data)) return false;\n",
                  indent ++ "  " ++ field.name ++ " = std::move(value);\n"]
               else
                String.join [
                  indent ++
                    "  std::vector<uint8_t> item_data(data.begin() + pos, data.begin() + pos + length);\n",
                  indent ++ "  if (!" ++ field.name ++ ".deserialize(item_data)) return false;\n"])),
            indent ++ "  pos += length;\n"])]),
    indent ++ "  break;\n",
    indent ++ "\x7d\n"]

/-- What `generate_serialize_method` prints. -/
def serialize_method_text (schema : Schema) (model : ModelDecl) : String :=
  String.join [
    "std::vector<uint8_t> " ++ model.name ++ "::serialize() const \x7b\n",
    "  std::vector<uint8_t> buffer;\n",
    "  buffer.reserve(64);\n\n",
    String.join (model.fields.map fun field => field_serializer_text schema field "  "),
    "\n  return buffer;\n",
    "\x7d\n\n"]

/-- What `generate_deserialize_method` prints. -/
def deserialize_method_text (schema : Schema) (model : ModelDecl) : String :=
  String.join [
    "bool " ++ model.name ++ "::deserialize(const std::vector<uint8_t>& data) \x7b\n",
    "  size_t pos = 0;\n",
    "  while (pos < data.size()) \x7b\n",
    "    if (pos + 1 > data.size()) return false;\n\n",
    "    uint64_t tag = 0;\n",
    "    \x7b\n",
    "      int shift = 0;\n",
    "      while (pos < data.size()) \x7b\n",
    "        uint8_t byte = data[pos++];\n",
    "        tag |= static_cast<uint64_t>(byte & 0x7F) << shift;\n",
    "        if ((byte & 0x80) == 0) break;\n",
    "        shift += 7;\n",
    "      \x7d\n",
    "    \x7d\n\n",
    "    uint32_t field_number = static_cast<uint32_t>(tag >> 3);\n",
    "    uint8_t wire_type = static_cast<uint8_t>(tag & 0x7);\n\n",
    "    switch (field_number) \x7b\n",
    String.join (model.fields.map fun field => field_deserializer_text schema field "    "),
    "    default:\n",
    "      // Skip unknown field\n",
    "      if (wire_type == 0) \x7b\n",
    "        while (pos < data.size() && (data[pos] & 0x80)) pos++;\n",
    "        if (pos < data.size()) pos++;\n",
    "      \x7d else if (wire_type == 2) \x7b\n",
    "        uint64_t length = 0;\n",
    "        int shift = 0;\n",
    "        while (pos < data.size()) \x7b\n",
    "          uint8_t byte = data[pos++];\n",
    "          length |= static_cast<uint64_t>(byte & 0x7F) << shift;\n",
    "          if ((byte & 0x80) == 0) break;\n",
    "          shift += 7;\n",
    "        \x7d\n",
    "        pos += length;\n",
    "      \x7d else if (wire_type == 1) \x7b\n",
    "        pos += 8;\n",
    "      \x7d else if (wire_type == 5) \x7b\n",
    "        pos += 4;\n",
    "      \x7d\n",
    "      break;\n",
    "    \x7d\n",
    "  \x7d\n",
    "  return true;\n",
    "\x7d\n\n"]

/-- The two streams of the generator (`std::ostringstream`). -/
inductive Ostream where
  | header_ | source_
deriving DecidableEq, Repr

/-- The members of the class `CodeGenerator`. -/
structure CodeGenerator where
  schema_ : Schema
  header_ : String
  source_ : String
deriving DecidableEq, Repr

/-- The constructor `CodeGenerator::CodeGenerator`: both streams are empty. -/
def CodeGenerator.new (schema : Schema) : CodeGenerator :=
  { schema_ := schema, header_ := "", source_ := "" }

/-- The statement `out << text`. -/
def CodeGenerator.print (g : CodeGenerator) (out : Ostream) (text : String) : CodeGenerator :=
  match out with
  | Ostream.header_ => { g with header_ := g.header_ ++ text }
  | Ostream.source_ => { g with source_ := g.source_ ++ text }

/-- `CodeGenerator::generate_includes`. -/
def CodeGenerator.generate_includes (g : CodeGenerator) : CodeGenerator :=
  g.print Ostream.header_ includes_text

/-- `CodeGenerator::generate_namespace_open`. -/
def CodeGenerator.generate_namespace_open (g : CodeGenerator) (out : Ostream) : CodeGenerator :=
  g.print out (namespace_open_text g.schema_)

/-- `CodeGenerator::generate_namespace_close`. -/
def CodeGenerator.generate_namespace_close (g : CodeGenerator) (out : Ostream) : CodeGenerator :=
  g.print out (namespace_close_text g.schema_)

/-- `CodeGenerator::generate_enum_declaration`. -/
def CodeGenerator.generate_enum_declaration (g : CodeGenerator) (enum_decl : EnumDecl) :
    CodeGenerator :=
  g.print Ostream.header_ (enum_declaration_text enum_decl)

/-- `CodeGenerator::generate_model_declaration`. -/
def CodeGenerator.generate_model_declaration (g : CodeGenerator) (model : ModelDecl) :
    CodeGenerator :=
  g.print Ostream.header_ (model_declaration_text model)

/-- `CodeGenerator::generate_serialize_method`. -/
def CodeGenerator.generate_serialize_method (g : CodeGenerator) (model : ModelDecl) :
    CodeGenerator :=
  g.print Ostream.source_ (serialize_method_text g.schema_ model)

/-- `CodeGenerator::generate_deserialize_method`. -/
def CodeGenerator.generate_deserialize_method (g : CodeGenerator) (model : ModelDecl) :
    CodeGenerator :=
  g.print Ostream.source_ (deserialize_method_text g.schema_ model)

/-- `CodeGenerator::generate_model_implementation`. -/
def CodeGenerator.generate_model_implementation (g : CodeGenerator) (model : ModelDecl) :
    CodeGenerator :=
  (g.generate_serialize_method model).generate_deserialize_method model

/-- The loop of `generate_header` over the declarations. -/
def CodeGenerator.generate_declarations (g : CodeGenerator) : List Declaration → CodeGenerator
  | [] => g
  | Declaration.Enum enum_decl :: rest =>
    (g.generate_enum_declaration enum_decl).generate_declarations rest
  | Declaration.Model model_decl :: rest =>
    (g.generate_model_declaration model_decl).generate_declarations rest

/-- The loop of `generate_source` over the declarations. -/
def CodeGenerator.generate_implementations (g : CodeGenerator) :
    List Declaration → CodeGenerator
  | [] => g
  | Declaration.Enum _ :: rest => g.generate_implementations rest
  | Declaration.Model model_decl :: rest =>
    (g.generate_model_implementation model_decl).generate_implementations rest

/-- `CodeGenerator::generate_header`: the text it returns and the generator
after the call.  The first two statements empty the stream. -/
def CodeGenerator.generate_header (g : CodeGenerator) : String × CodeGenerator :=
  let g1 := { g with header_ := "" }
  let g2 := g1.print Ostream.header_ "#pragma once\n\n"
  let g3 := g2.generate_includes
  let g4 := g3.generate_namespace_open Ostream.header_
  let g5 := g4.generate_declarations g4.schema_.declarations
  let g6 := g5.generate_namespace_close Ostream.header_
  (g6.header_, g6)

/-- `CodeGenerator::generate_source`: the text it returns and the generator
after the call.  The first two statements empty the stream. -/
def CodeGenerator.generate_source (g : CodeGenerator) : String × CodeGenerator :=
  let g1 := { g with source_ := "" }
  let g2 := g1.print Ostream.source_
    (String.join [
      "#include \"" ++ g1.schema_.namespace_name ++ ".hpp\"\n",
      "#include <cstring>\n",
      "#include <stdexcept>\n\n"])
  let g3 := g2.generate_namespace_open Ostream.source_
  let g4 := g3.generate_implementations g3.schema_.declarations
  let g5 := g4.generate_namespace_close Ostream.source_
  (g5.source_, g5)

/-- A sequence of calls on a generator, `true` for `generate_header` and
`false` for `generate_source`: the generator after them. -/
def CodeGenerator.after_calls : List Bool → CodeGenerator → CodeGenerator
  | [], g => g
  | true :: calls, g => CodeGenerator.after_calls calls g.generate_header.2
  | false :: calls, g => CodeGenerator.after_calls calls g.generate_source.2

/-! ### Spec side: the member line of a field -/

/-- Spec side: the initializer of the member of a field: ` = false` for a
singular `bool`, ` = 0` for every other singular primitive that is not a
string, nothing for strings, user types, optional and repeated fields. -/
def member_initializer (field : Field) : String :=
  if field.is_repeated || field.is_optional then ""
  else if field.type.has_kind PrimitiveTypeKind.BOOL then " = false"
  else if field.type.is_primitive && !field.type.has_kind PrimitiveTypeKind.STRING then " = 0"
  else ""

/-- Spec side: the container of the member of a field around the base type
`base`: a vector for a repeated field, otherwise an optional for an optional
field, otherwise the base type itself. -/
def member_type (field : Field) (base : String) : String :=
  if field.is_repeated then "std::vector<" ++ base ++ ">"
  else if field.is_optional then "std::optional<" ++ base ++ ">"
  else base

/-- Spec side: the member line of a field, with the indentation and the end
of line of the artifact. -/
def member_line (field : Field) : String :=
  "  " ++ member_type field (get_cpp_type field.type) ++ " " ++ field.name ++
    member_initializer field ++ ";\n"

/-- The text the loop of `generate_header` prints for the declarations. -/
def declarations_text : List Declaration → String
  | [] => ""
  | Declaration.Enum enum_decl :: rest =>
    enum_declaration_text enum_decl ++ declarations_text rest
  | Declaration.Model model_decl :: rest =>
    model_declaration_text model_decl ++ declarations_text rest

/-- The text the loop of `generate_source` prints for the declarations. -/
def implementations_text (schema : Schema) : List Declaration → String
  | [] => ""
  | Declaration.Enum _ :: rest => implementations_text schema rest
  | Declaration.Model model_decl :: rest =>
    serialize_method_text schema model_decl ++
      (deserialize_method_text schema model_decl ++ implementations_text schema rest)

/-- The declaration artifact of a schema. -/
def header_text (schema : Schema) : String :=
  "#pragma once\n\n" ++
    (includes_text ++
      (namespace_open_text schema ++
        (declarations_text schema.declarations ++ namespace_close_text schema)))

/-- The body artifact of a schema. -/
def source_text (schema : Schema) : String :=
  String.join [
      "#include \"" ++ schema.namespace_name ++ ".hpp\"\n",
      "#include <cstring>\n",
      "#include <stdexcept>\n\n"] ++
    (namespace_open_text schema ++
      (implementations_text schema schema.declarations ++ namespace_close_text schema))

/-! ### Spec side: a source without comments and with single spaces -/

/-- Spec side: where a reader of the source is: in the code, in a line
comment, on the `*` that opens a block comment, in a block comment, or on
the `/` that closes one. -/
inductive Region where
  | code | line_comment | block_open | block_comment | block_close
deriving DecidableEq, Repr

/-- Spec side: the source with every line comment (`//` up to the end of
the line, the newline excluded) and every block comment (`/*` up to the
first `*/` after it, or up to the end of the input) replaced by one space.
The source is read from left to right; the region says where the reader
is. -/
def strip_comments : Region → List Char → List Char
  | _, [] => []
  | Region.code, c :: rest =>
    if c = '/' ∧ rest.head? = some '/' then ' ' :: strip_comments Region.line_comment rest
    else if c = '/' ∧ rest.head? = some '*' then ' ' :: strip_comments Region.block_open rest
    else c :: strip_comments Region.code rest
  | Region.line_comment, c :: rest =>
    if c = '\n' then c :: strip_comments Region.code rest
    else strip_comments Region.line_comment rest
  | Region.block_open, _ :: rest => strip_comments Region.block_comment rest
  | Region.block_comment, c :: rest =>
    if c = '*' ∧ rest.head? = some '/' then strip_comments Region.block_close rest
    else strip_comments Region.block_comment rest
  | Region.block_close, _ :: rest => strip_comments Region.code rest

/-- Spec side: every run of white space replaced by one space: a white
space character before another one is dropped, the last of a run becomes a
space. -/
def collapse_whitespace : List Char → List Char
  | [] => []
  | c :: rest =>
    if isspace c then
      if rest.head?.map isspace = some true then collapse_whitespace rest
      else ' ' :: collapse_whitespace rest
    else c :: collapse_whitespace rest

/-- Spec side: the source with comments replaced by a space and runs of
white space collapsed to a space. -/
def normalize (source : List Char) : List Char :=
  collapse_whitespace (strip_comments Region.code source)

/-! ### Spec side: a schema written out in the grammar -/

/-- The kinds and lexemes of all the tokens of a source before
`END_OF_FILE`. -/
def tokens_of (source : List Char) : List (TokenType × String) :=
  shapes (source.length + 1) source

/-- Spec side: the decimal digit of a number below ten. -/
def decimal_digit (d : Nat) : Char := Char.ofNat (48 + d)

/-- Spec side: the decimal digits of a number; the first argument bounds
their count. -/
def decimal_digits : Nat → Nat → List Char
  | 0, _ => []
  | fuel + 1, n =>
    if n < 10 then [decimal_digit n]
    else decimal_digits fuel (n / 10) ++ [decimal_digit (n % 10)]

/-- Spec side: a number written in decimal, with `-` before a negative
one. -/
def print_number (n : Int) : String :=
  if n < 0 then String.mk ('-' :: decimal_digits (n.natAbs + 1) n.natAbs)
  else String.mk (decimal_digits (n.natAbs + 1) n.natAbs)

/-- Spec side: the keywords of the modifier set of a field. -/
def modifier_words (field : Field) : List String :=
  (if field.is_optional then ["optional"] else []) ++
  (if field.is_repeated then ["repeated"] else []) ++
  (if field.is_packed then ["packed"] else []) ++
  (if field.is_interned then ["interned"] else []) ++
  (if field.is_bitmap then ["bitmap"] else [])

/-- Spec side: `field = { modifier } , type , ident , '=' , number , ';'`. -/
def field_words (field : Field) : List String :=
  modifier_words field ++
    [field.type.get_name, field.name, "=", print_number field.number, ";"]

/-- Spec side: `enumValue = ident , '=' , number , ';'`. -/
def enum_value_words (value : EnumValue) : List String :=
  [value.name, "=", print_number value.value, ";"]

/-- Spec side: an enum block and a model block. -/
def declaration_words (decl : Declaration) : List String :=
  match decl with
  | Declaration.Enum enum_decl =>
    ["enum", enum_decl.name, "\x7b"] ++
      (enum_decl.values.flatMap enum_value_words ++ ["\x7d"])
  | Declaration.Model model_decl =>
    ["model", model_decl.name, "\x7b"] ++
      (model_decl.fields.flatMap field_words ++ ["\x7d"])

/-- Spec side: the namespace line with the dotted name, then the blocks of
the declarations. -/
def schema_words (schema : Schema) : List String :=
  ["namespace", schema.namespace_name, ";"] ++ schema.declarations.flatMap declaration_words

/-- Spec side: words separated by single spaces. -/
def spaced : List String → String
  | [] => ""
  | [word] => word
  | word :: next :: rest => word ++ " " ++ spaced (next :: rest)

/-- Spec side: a schema written out in the grammar, its tokens separated
by spaces. -/
def print_schema (schema : Schema) : String := spaced (schema_words schema)

/-- Spec side: an identifier: a letter or underscore, then letters, digits
and underscores. -/
def is_identifier (name : String) : Bool :=
  match name.data with
  | [] => false
  | c :: cs => is_identifier_start c && cs.all is_identifier_continue

/-- Spec side: an identifier other than the 21 reserved words. -/
def is_plain_name (name : String) : Bool :=
  is_identifier name && !decide (name ∈ reserved_words)

/-- Spec side: names joined by dots. -/
def dotted : List String → String
  | [] => ""
  | [part] => part
  | part :: next :: rest => part ++ "." ++ dotted (next :: rest)

/-- Spec side: a dotted name: one or more identifiers other than reserved
words, joined by dots. -/
def is_dotted_name (name : String) : Prop :=
  ∃ parts : List String,
    parts ≠ [] ∧ (∀ part ∈ parts, is_plain_name part = true) ∧ name = dotted parts

/-- Spec side: the number fits a signed 32-bit integer. -/
def fits_int32 (n : Int) : Prop := -2147483648 ≤ n ∧ n ≤ 2147483647

/-- Spec side: the names of the field are identifiers other than reserved
words and its number fits. -/
def printable_field (field : Field) : Prop :=
  is_plain_name field.name = true ∧ fits_int32 field.number ∧
  ∀ name location, field.type = Ty.UserType name location → is_plain_name name = true

/-- Spec side: the name of the enum value is an identifier other than a
reserved word and its number fits. -/
def printable_enum_value (value : EnumValue) : Prop :=
  is_plain_name value.name = true ∧ fits_int32 value.value

/-- Spec side: the names of the declaration are identifiers other than
reserved words and its numbers fit. -/
def printable_declaration (decl : Declaration) : Prop :=
  match decl with
  | Declaration.Enum enum_decl =>
    is_plain_name enum_decl.name = true ∧
      ∀ value ∈ enum_decl.values, printable_enum_value value
  | Declaration.Model model_decl =>
    is_plain_name model_decl.name = true ∧
      ∀ field ∈ model_decl.fields, printable_field field

/-- Spec side: a schema whose names are identifiers other than the reserved
words, whose namespace name is a dotted name, and whose numbers fit a
signed 32-bit integer. -/
def printable (schema : Schema) : Prop :=
  is_dotted_name schema.namespace_name ∧
  ∀ decl ∈ schema.declarations, printable_declaration decl

/-- The location that stands for every location when locations are left
out of a comparison. -/
def no_location : SourceLocation := { line := 0, column := 0, offset := 0 }

/-- Spec side: the type without its location. -/
def Ty.content (type : Ty) : Ty :=
  match type with
  | Ty.PrimitiveType kind _ => Ty.PrimitiveType kind no_location
  | Ty.UserType name _ => Ty.UserType name no_location

/-- Spec side: the type, name, number and modifier set of a field: the
field without its locations, with the five modifier flags of its set. -/
def Field.content (field : Field) : Field :=
  { type := field.type.content, name := field.name, number := field.number
    modifiers := field.modifiers % 32, location := no_location }

/-- Spec side: the name and number of an enum value. -/
def EnumValue.content (value : EnumValue) : EnumValue :=
  { name := value.name, value := value.value, location := no_location }

/-- Spec side: the kind, the name and the members of a declaration, in
order, without locations. -/
def Declaration.content (decl : Declaration) : Declaration :=
  match decl with
  | Declaration.Enum enum_decl =>
    Declaration.Enum
      { name := enum_decl.name, values := enum_decl.values.map EnumValue.content
        location := no_location }
  | Declaration.Model model_decl =>
    Declaration.Model
      { name := model_decl.name, fields := model_decl.fields.map Field.content
        location := no_location }

/-- Spec side: the namespace name and the declarations of a schema, in
order, without locations. -/
def Schema.content (schema : Schema) : Schema :=
  { namespace_name := schema.namespace_name
    declarations := schema.declarations.map Declaration.content
    location := no_location }

/-- The kinds and lexemes of the tokens of a word. -/
def word_tokens (word : String) : List (TokenType × String) := tokens_of word.data

/-- The scanner reads the word, wherever it is followed by a space or by
the end of the source, as the given tokens and goes on after it. -/
def lexes (word : String) (tokens : List (TokenType × String)) : Prop :=
  ∀ rest : List Char, (∀ x ∈ rest.head?, x = ' ') →
    tokens_of (word.data ++ rest) = tokens ++ tokens_of rest

/-- Spec side: the kinds and lexemes of the tokens of a dotted name. -/
def dotted_tokens : List String → List (TokenType × String)
  | [] => []
  | [part] => [(TokenType.IDENTIFIER, part)]
  | part :: next :: rest =>
    (TokenType.IDENTIFIER, part) :: (TokenType.DOT, ".") :: dotted_tokens (next :: rest)

/-! ### Successive validations on one validator -/

/-- Successive `validate` calls on one `Validator`, whose context is `ctx`
before the first: the flags they return. -/
def Validator.validate_each : ValidationContext → List Schema → List Bool
  | _, [] => []
  | ctx, schema :: rest =>
    (Validator.validate ctx schema).1 ::
      Validator.validate_each (Validator.validate ctx schema).2 rest

/-! ### The scanner after a sequence of calls -/

/-- A sequence of calls on a scanner, `true` for `next_token` and `false`
for `peek_token`: the scanner after them. -/
def Lexer.after_calls : List Bool → Lexer → Lexer
  | [], l => l
  | true :: calls, l => Lexer.after_calls calls l.next_token.2
  | false :: calls, l => Lexer.after_calls calls l.peek_token.2

/-! ## The driver (`main.cpp`) -/

/-- The part of `compile_schema` of `main.cpp` from the construction of the
`CodeGenerator` on: the files it writes, in the order of the `write_file`
calls, each with its path and its content.  The messages and the creation of
the output directory are left out. -/
def write_artifacts (schema : Schema) (output_dir filename : String) :
    List (String × String) :=
  let codegen := CodeGenerator.new schema
  let header_content := codegen.generate_header.1
  let source_content := codegen.generate_header.2.generate_source.1
  let base_name := if !filename.isEmpty then filename else schema.namespace_name
  let header_file := output_dir ++ "/" ++ base_name ++ ".hpp"
  let source_file := output_dir ++ "/" ++ base_name ++ ".cpp"
  [(header_file, header_content), (source_file, source_content)]

/-- `compile_schema` of `main.cpp`, on the text `source` of the input file:
the exit code and the files written.  An exception of the parser leaves the
function, as in the code. -/
def compile_schema (source output_dir filename : String) :
    Parsed (Int × List (String × String)) :=
  ((Parser.new (tokenize source)).parse_schema (source.length + 3)).bind fun schema =>
    if !(Validator.validate ValidationContext.fresh schema).1 then Parsed.ok (1, [])
    else Parsed.ok (0, write_artifacts schema output_dir filename)

/-- Spec side: the file a text names in its first `#include "..."`: the
characters between the first two double quotes. -/
def included_file (text : String) : String :=
  String.mk (((text.data.dropWhile fun c => c != '"').drop 1).takeWhile fun c => c != '"')

/-- Spec side: the file name of a path: the characters after the last `/`. -/
def file_name (path : String) : String :=
  String.mk (path.data.reverse.takeWhile fun c => c != '/').reverse

/-! ### The schemas of the packed-list scenario -/

/-- The field `packed repeated <kind> xs = 1;` of
`namespace t; model M { packed repeated <kind> xs = 1; }`. -/
def field_packed (kind : PrimitiveTypeKind) : Field :=
  { type := Ty.PrimitiveType kind { line := 1, column := 24, offset := 23 }
    name := "xs", number := 1, modifiers := MOD_PACKED ||| MOD_REPEATED
    location := { line := 1, column := 24, offset := 23 } }

/-! ## The argument parser (`arg_parser.hpp`, `arg_parser.cpp`) -/

/-- The struct `ArgParser::Option`; the short name `'\x00'` stands for no
short name. -/
structure ArgParser.Option where
  short_name : Char
  long_name : String
  description : String
  has_arg : Bool
  default_value : String
  is_set : Bool
  value : String
deriving DecidableEq, Repr

/-- The constructor `Option::Option`. -/
def ArgParser.Option.new (s : Char) (l d : String) (h : Bool) (default_value : String) :
    ArgParser.Option :=
  { short_name := s, long_name := l, description := d, has_arg := h
    default_value := default_value, is_set := false, value := default_value }

/-- `Option::set_flag`. -/
def ArgParser.Option.set_flag (opt : ArgParser.Option) : ArgParser.Option :=
  { opt with is_set := true }

/-- `Option::set_value`. -/
def ArgParser.Option.set_value (val : String) (opt : ArgParser.Option) : ArgParser.Option :=
  { opt with is_set := true, value := val }

/-- The body of the first loop of `ArgParser::parse`:
`opt->is_set = false; opt->value = opt->default_value;`. -/
def ArgParser.Option.reset (opt : ArgParser.Option) : ArgParser.Option :=
  { opt with is_set := false, value := opt.default_value }

/-- The members of the class `ArgParser`.  The options are held once, in
the order of registration, as in `options_order`; the maps `long_options`
and `short_options`, which point to the same options, are the two look-ups
below. -/
structure ArgParser where
  options_order : List ArgParser.Option
  positional_args : List String
deriving DecidableEq, Repr

/-- A newly constructed `ArgParser`. -/
def ArgParser.new : ArgParser := { options_order := [], positional_args := [] }

/-- The key of an option in `long_options`. -/
def long_key (name : String) (opt : ArgParser.Option) : Bool := opt.long_name = name

/-- The key of an option in `short_options`, which holds the options whose
short name is not 0. -/
def short_key (c : Char) (opt : ArgParser.Option) : Bool :=
  opt.short_name ≠ '\x00' && opt.short_name = c

/-- `long_options.find(name)`. -/
def ArgParser.long_options_find (p : ArgParser) (name : String) :=
  p.options_order.find? (long_key name)

/-- `short_options.find(c)`. -/
def ArgParser.short_options_find (p : ArgParser) (c : Char) :=
  p.options_order.find? (short_key c)

/-- A call on the option that a look-up has found: `f` on the first option
with the key. -/
def update_first (key : ArgParser.Option → Bool) (f : ArgParser.Option → ArgParser.Option) :
    List ArgParser.Option → List ArgParser.Option
  | [] => []
  | opt :: rest => if key opt then f opt :: rest else opt :: update_first key f rest

/-- A call on the option that `long_options.find(name)` has found. -/
def ArgParser.on_long (p : ArgParser) (name : String)
    (f : ArgParser.Option → ArgParser.Option) : ArgParser :=
  { p with options_order := update_first (long_key name) f p.options_order }

/-- A call on the option that `short_options.find(c)` has found. -/
def ArgParser.on_short (p : ArgParser) (c : Char)
    (f : ArgParser.Option → ArgParser.Option) : ArgParser :=
  { p with options_order := update_first (short_key c) f p.options_order }

/-- `ArgParser::add_option`. -/
def ArgParser.add_option (p : ArgParser) (short_name : Char) (long_name desc : String)
    (has_arg : Bool) (default_value : String) : Parsed ArgParser :=
  if long_name.isEmpty && short_name = '\x00' then Parsed.thrown Thrown.invalid_argument
  else
    let key := if long_name.isEmpty then String.singleton short_name else long_name
    if (p.long_options_find key).isSome then Parsed.thrown Thrown.invalid_argument
    else if short_name ≠ '\x00' && (p.short_options_find short_name).isSome then
      Parsed.thrown Thrown.invalid_argument
    else
      Parsed.ok
        { p with
          options_order :=
            p.options_order ++
              [ArgParser.Option.new short_name key desc has_arg default_value] }

/-- `ArgParser::add_flag`. -/
def ArgParser.add_flag (p : ArgParser) (short_name : Char) (long_name desc : String) :
    Parsed ArgParser :=
  p.add_option short_name long_name desc false ""

/-- `std::string::find(c)`: the index of the first `c`, if there is one. -/
def string_find : List Char → Char → Option Nat
  | [], _ => none
  | x :: rest, c => if x = c then some 0 else (string_find rest c).map fun i => i + 1

/-- `std::string::substr(pos)`. -/
def substr_from (text : String) (pos : Nat) : String := String.mk (text.data.drop pos)

/-- `std::string::substr(pos, count)`. -/
def substr (text : String) (pos count : Nat) : String :=
  String.mk ((text.data.drop pos).take count)

/-- `ArgParser::parse_long_option`: the parser and `i` after the call. -/
def ArgParser.parse_long_option (p : ArgParser) (token : String) (i : Nat)
    (argv : List String) : Parsed (ArgParser × Nat) :=
  let eq_pos := string_find token.data '='
  let name :=
    match eq_pos with
    | some e => substr token 2 (e - 2)
    | none => substr_from token 2
  let arg_value :=
    match eq_pos with
    | some e => substr_from token (e + 1)
    | none => ""
  match p.long_options_find name with
  | none => Parsed.thrown (Thrown.runtime_error ("Unknown option: " ++ token))
  | some opt =>
    if opt.has_arg then
      if eq_pos.isSome then
        Parsed.ok (p.on_long name (ArgParser.Option.set_value arg_value), i + 1)
      else if i + 1 < argv.length then
        Parsed.ok (p.on_long name (ArgParser.Option.set_value (argv.getD (i + 1) "")), i + 2)
      else
        Parsed.thrown (Thrown.runtime_error ("Option '" ++ token ++ "' requires an argument"))
    else if eq_pos.isSome then
      Parsed.thrown
        (Thrown.runtime_error ("Option '" ++ token ++ "' does not take an argument"))
    else Parsed.ok (p.on_long name ArgParser.Option.set_flag, i + 1)

/-- The loop `for (size_t j = 0; j < opt_str.size(); ++j)` of
`ArgParser::parse_short_option` on the characters from `j` on, with the two
statements after it: the parser and `i` after them. -/
def ArgParser.parse_short_flags (i : Nat) (argv : List String) :
    ArgParser → List Char → Parsed (ArgParser × Nat)
  | p, [] => Parsed.ok (p, i + 1)
  | p, c :: rest =>
    match p.short_options_find c with
    | none =>
      Parsed.thrown (Thrown.runtime_error ("Unknown short option: -" ++ String.singleton c))
    | some opt =>
      if opt.has_arg then
        if !rest.isEmpty then
          Parsed.ok (p.on_short c (ArgParser.Option.set_value (String.mk rest)), i + 1)
        else if i + 1 < argv.length then
          Parsed.ok
            (p.on_short c (ArgParser.Option.set_value (argv.getD (i + 1) "")), i + 2)
        else
          Parsed.thrown
            (Thrown.runtime_error
              ("Option '-" ++ String.singleton c ++ "' requires an argument"))
      else ArgParser.parse_short_flags i argv (p.on_short c ArgParser.Option.set_flag) rest

/-- `ArgParser::parse_short_option`: the parser and `i` after the call. -/
def ArgParser.parse_short_option (p : ArgParser) (token : String) (i : Nat)
    (argv : List String) : Parsed (ArgParser × Nat) :=
  let opt_str := substr_from token 1
  match string_find opt_str.data '=' with
  | some eq_pos =>
    if opt_str.isEmpty || eq_pos ≠ 1 then
      Parsed.thrown (Thrown.runtime_error ("Invalid short option format: " ++ token))
    else
      let c := opt_str.data.getD 0 '\x00'
      match p.short_options_find c with
      | none =>
        Parsed.thrown
          (Thrown.runtime_error ("Unknown short option: -" ++ String.singleton c))
      | some opt =>
        if !opt.has_arg then
          Parsed.thrown
            (Thrown.runtime_error
              ("Option '-" ++ String.singleton c ++ "' does not take an argument"))
        else
          Parsed.ok
            (p.on_short c (ArgParser.Option.set_value (substr_from opt_str (eq_pos + 1))),
              i + 1)
  | none => ArgParser.parse_short_flags i argv p opt_str.data

/-- The loop `while (i < argc)` of `ArgParser::parse`; the first argument
bounds the number of rounds. -/
def ArgParser.parse_loop : Nat → ArgParser → Nat → List String → Parsed ArgParser
  | 0, p, i, argv => if i < argv.length then Parsed.out_of_fuel else Parsed.ok p
  | fuel + 1, p, i, argv =>
    if i < argv.length then
      let token := argv.getD i ""
      if token = "--" then
        Parsed.ok { p with positional_args := p.positional_args ++ argv.drop (i + 1) }
      else if token.length ≥ 2 && token.data.getD 0 '\x00' = '-' &&
          token.data.getD 1 '\x00' = '-' then
        (p.parse_long_option token i argv).bind fun (p1, i1) =>
          ArgParser.parse_loop fuel p1 i1 argv
      else if token.length ≥ 2 && token.data.getD 0 '\x00' = '-' then
        (p.parse_short_option token i argv).bind fun (p1, i1) =>
          ArgParser.parse_loop fuel p1 i1 argv
      else
        ArgParser.parse_loop fuel { p with positional_args := p.positional_args ++ [token] }
          (i + 1) argv
    else Parsed.ok p

/-- `ArgParser::parse`, with `argc` the length of `argv`. -/
def ArgParser.parse (p : ArgParser) (argv : List String) : Parsed ArgParser :=
  ArgParser.parse_loop argv.length
    { options_order := p.options_order.map ArgParser.Option.reset, positional_args := [] }
    1 argv

/-- `ArgParser::is_set`. -/
def ArgParser.is_set (p : ArgParser) (name : String) : Parsed Bool :=
  match p.long_options_find name with
  | none => Parsed.thrown (Thrown.runtime_error ("Unknown option: " ++ name))
  | some opt => Parsed.ok opt.is_set

/-- `ArgParser::value_of`. -/
def ArgParser.value_of (p : ArgParser) (name : String) : Parsed String :=
  match p.long_options_find name with
  | none => Parsed.thrown (Thrown.runtime_error ("Unknown option: " ++ name))
  | some opt =>
    if !opt.has_arg then
      Parsed.thrown
        (Thrown.runtime_error ("Option '" ++ name ++ "' does not take an argument"))
    else Parsed.ok opt.value

/-- `ArgParser::positional`. -/
def ArgParser.positional (p : ArgParser) : List String := p.positional_args

/-- `register_options` of `main.cpp`, on a newly constructed `ArgParser`. -/
def register_options : Parsed ArgParser :=
  (ArgParser.new.add_flag 'h' "help" "Show this help message").bind fun p1 =>
  (p1.add_flag 'v' "verbose" "Enable verbose output").bind fun p2 =>
  (p2.add_flag '\x00' "version" "Show version information").bind fun p3 =>
  (p3.add_option 'o' "output" "Output directory for generated files" true ".").bind fun p4 =>
  p4.add_option 'f' "filename" "Base filename for generated files (without extension)" true ""

/-- The parser of the driver, after `register_options`. -/
def driver_options : ArgParser :=
  { options_order :=
      [ArgParser.Option.new 'h' "help" "Show this help message" false "",
       ArgParser.Option.new 'v' "verbose" "Enable verbose output" false "",
       ArgParser.Option.new '\x00' "version" "Show version information" false "",
       ArgParser.Option.new 'o' "output" "Output directory for generated files" true ".",
       ArgParser.Option.new 'f' "filename"
         "Base filename for generated files (without extension)" true ""]
    positional_args := [] }

/-! ### The nested call of the emitted `deserialize` -/

/-- The call `x.deserialize(item_data)` on an object of the class
`type_name`, as the loop of `deserialize` with the bound `fuel` on the
iterations has it. -/
def call_deserialize (fc : FloatCasts) (schema : Schema) (fuel : Nat) (type_name : String)
    (x : Value) (item_data : List Nat) : Outcome (Bool × Value) :=
  match schema.find_model type_name with
  | some model =>
    (deserialize_loop fc schema fuel model.fields x.members item_data 0).bind
      fun (ok, members1) => Outcome.ret (ok, Value.obj members1)
  | none => Outcome.undefined

/-! ### Spec side: the values of the round-trip fragment

The values of the classes generated for the models whose fields are
singular, optional or repeated and not packed, and of an integer kind,
`bool`, `byte`, `string`, an enumeration or such a model. -/

/-- Spec side: the numbers a member of an integer kind, of `bool` or of
`byte` holds. -/
def in_range (kind : PrimitiveTypeKind) (n : Int) : Bool :=
  match kind with
  | PrimitiveTypeKind.INT8 => decide (-128 ≤ n ∧ n ≤ 127)
  | PrimitiveTypeKind.INT16 => decide (-32768 ≤ n ∧ n ≤ 32767)
  | PrimitiveTypeKind.INT32 => decide (-2147483648 ≤ n ∧ n ≤ 2147483647)
  | PrimitiveTypeKind.INT64 => decide (-9223372036854775808 ≤ n ∧ n ≤ 9223372036854775807)
  | PrimitiveTypeKind.UINT8 => decide (0 ≤ n ∧ n ≤ 255)
  | PrimitiveTypeKind.UINT16 => decide (0 ≤ n ∧ n ≤ 65535)
  | PrimitiveTypeKind.UINT32 => decide (0 ≤ n ∧ n ≤ 4294967295)
  | PrimitiveTypeKind.UINT64 => decide (0 ≤ n ∧ n ≤ 18446744073709551615)
  | PrimitiveTypeKind.BOOL => decide (n = 0 ∨ n = 1)
  | PrimitiveTypeKind.BYTE => decide (0 ≤ n ∧ n ≤ 255)
  | PrimitiveTypeKind.FLOAT => false
  | PrimitiveTypeKind.DOUBLE => false
  | PrimitiveTypeKind.STRING => false

/-- Spec side: `n` is a number of the type: of an integer kind, `bool` or
`byte` in its range, or of an enumeration, which is an `int32_t`. -/
def fragment_num (schema : Schema) (type : Ty) (n : Int) : Bool :=
  match type with
  | Ty.PrimitiveType kind _ => in_range kind n
  | Ty.UserType name _ =>
    (schema.find_enum name).isSome && decide (-2147483648 ≤ n ∧ n ≤ 2147483647)

/-- Spec side: `s` is a string of the type: the type is `string`, and `s` a
list of bytes. -/
def fragment_str (type : Ty) (s : List Nat) : Bool :=
  match type with
  | Ty.PrimitiveType kind _ =>
    decide (kind = PrimitiveTypeKind.STRING) && s.all fun b => decide (b < 256)
  | Ty.UserType _ _ => false

/-- Spec side: the model of the objects of the type: the type names a
model, and no enumeration. -/
def fragment_model (schema : Schema) (type : Ty) : Option ModelDecl :=
  match type with
  | Ty.PrimitiveType _ _ => none
  | Ty.UserType name _ => if (schema.find_enum name).isSome then none else schema.find_model name

mutual
/-- Spec side: `x` is a value of the type, as the value of a singular
member, as the value an optional holds, or as an item of a vector. -/
def fragment_item (schema : Schema) (type : Ty) : Value → Bool
  | Value.num n => fragment_num schema type n
  | Value.str s => fragment_str type s
  | Value.obj members =>
    match fragment_model schema type with
    | some model => fragment_members schema model.fields members
    | none => false
  | _ => false

/-- Spec side: the items of a vector are values of the type. -/
def fragment_items (schema : Schema) (type : Ty) : List Value → Bool
  | [] => true
  | item :: rest => fragment_item schema type item && fragment_items schema type rest

/-- Spec side: `member` is a value of the member declared for the field: a
vector for a repeated field, which is not packed, an optional for an optional
field, and a value of the type for a singular field. -/
def fragment_member (schema : Schema) (field : Field) : Value → Bool
  | Value.vec items =>
    field.is_repeated && !field.is_packed && fragment_items schema field.type items
  | Value.opt none => !field.is_repeated && field.is_optional
  | Value.opt (some x) =>
    !field.is_repeated && field.is_optional && fragment_item schema field.type x
  | Value.num n =>
    !field.is_repeated && !field.is_optional && fragment_num schema field.type n
  | Value.str s => !field.is_repeated && !field.is_optional && fragment_str field.type s
  | Value.obj members =>
    !field.is_repeated && !field.is_optional &&
      match fragment_model schema field.type with
      | some model => fragment_members schema model.fields members
      | none => false
  | Value.real _ => false

/-- Spec side: the members are values of the members declared for the
fields, one for each field. -/
def fragment_members (schema : Schema) : List Field → List Value → Bool
  | [], [] => true
  | field :: fields, member :: members =>
    fragment_member schema field member && fragment_members schema fields members
  | _, _ => false
end

/-- Spec side: `this` is an object of the class generated for the model. -/
def fragment_object (schema : Schema) (model : ModelDecl) (this : Value) : Bool :=
  match this with
  | Value.obj members => fragment_members schema model.fields members
  | _ => false

/-! ### The schemas of the scenarios with a hidden member -/

/-- The field `packed repeated uint32 packed_data = 1;` of
`namespace t; model M { packed repeated uint32 packed_data = 1; }`. -/
def field_packed_data : Field :=
  { type := Ty.PrimitiveType PrimitiveTypeKind.UINT32 { line := 1, column := 40, offset := 39 }
    name := "packed_data", number := 1, modifiers := MOD_PACKED ||| MOD_REPEATED
    location := { line := 1, column := 24, offset := 23 } }

/-- The field `uint32 field_tag = 1;` of
`namespace t; model M { uint32 field_tag = 1; }`. -/
def field_field_tag : Field :=
  { type := Ty.PrimitiveType PrimitiveTypeKind.UINT32 { line := 1, column := 24, offset := 23 }
    name := "field_tag", number := 1, modifiers := 0
    location := { line := 1, column := 24, offset := 23 } }

/-- The field `packed repeated bool buffer = 1;` of
`namespace t; model M { packed repeated bool buffer = 1; }`. -/
def field_buffer : Field :=
  { type := Ty.PrimitiveType PrimitiveTypeKind.BOOL { line := 1, column := 40, offset := 39 }
    name := "buffer", number := 1, modifiers := MOD_PACKED ||| MOD_REPEATED
    location := { line := 1, column := 24, offset := 23 } }

/-- The field `int32 value = 1;` of `namespace t; model M { int32 value = 1; }`
(the field of the model in `GenerateIncludeGuards` of `tests/test_codegen.cpp`). -/
def field_value : Field :=
  { type := Ty.PrimitiveType PrimitiveTypeKind.INT32 { line := 1, column := 24, offset := 23 }
    name := "value", number := 1, modifiers := 0
    location := { line := 1, column := 24, offset := 23 } }

/-! # Theorems -/

/-! ## Bit arithmetic of the printed loops -/

theorem and_0x7F (x : Nat) : x &&& 0x7F = x % 128 := by
  have h := Nat.and_pow_two_sub_one_eq_mod x 7
  simpa using h

theorem and_0x7 (x : Nat) : x &&& 0x7 = x % 8 := by
  have h := Nat.and_pow_two_sub_one_eq_mod x 3
  simpa using h

theorem low_byte_facts : ∀ y, y < 128 →
    (y ||| 0x80) % 256 = y + 128 ∧ (y + 128) &&& 0x80 ≠ 0 ∧ y &&& 0x80 = 0 := by
  decide

theorem or_mul_two_pow (acc x s : Nat) (h : acc < 2 ^ s) :
    acc ||| x * 2 ^ s = acc + x * 2 ^ s := by
  rw [Nat.or_comm, Nat.mul_comm x, ← Nat.mul_add_lt_is_or h, Nat.add_comm]

/-- The byte pushed inside the encoder loop is the low seven bits plus 128. -/
theorem continuation_byte (val : Nat) : ((val &&& 0x7F) ||| 0x80) % 256 = val % 128 + 128 := by
  rw [and_0x7F]
  exact (low_byte_facts (val % 128) (Nat.mod_lt _ (by decide))).1

/-- The decoder loop on a byte without the high bit: it stops there. -/
theorem read_varint_loop_last (val acc shift : Nat) (rest : List Nat) (hval : val ≤ 127)
    (hacc : acc < 2 ^ shift) (hshift : shift < 64) (hbound : val * 2 ^ shift + acc < 2 ^ 64) :
    read_varint_loop (val % 256 :: rest) acc shift = Outcome.ret (acc + val * 2 ^ shift, 1) := by
  have h256 : val % 256 = val := Nat.mod_eq_of_lt (by omega)
  have h128 : val % 128 = val := Nat.mod_eq_of_lt (by omega)
  have hhigh : val &&& 0x80 = 0 := (low_byte_facts val (by omega)).2.2
  have hmod : val * 2 ^ shift % 2 ^ 64 = val * 2 ^ shift := Nat.mod_eq_of_lt (by omega)
  rw [read_varint_loop, h256, and_0x7F, h128, Nat.shiftLeft_eq, hmod,
    or_mul_two_pow acc val shift hacc]
  simp [Nat.not_le.mpr hshift, hhigh]

/-- The decoder loop on a byte pushed inside the encoder loop: it takes the
seven bits and goes on. -/
theorem read_varint_loop_more (val acc shift : Nat) (rest : List Nat)
    (hacc : acc < 2 ^ shift) (hshift : shift < 64) (hbound : val * 2 ^ shift + acc < 2 ^ 64) :
    read_varint_loop ((((val &&& 0x7F) ||| 0x80) % 256) :: rest) acc shift =
      match read_varint_loop rest (acc + val % 128 * 2 ^ shift) (shift + 7) with
      | Outcome.ret (v, n) => Outcome.ret (v, n + 1)
      | Outcome.undefined => Outcome.undefined
      | Outcome.out_of_fuel => Outcome.out_of_fuel := by
  have hr : val % 128 < 128 := Nat.mod_lt _ (by decide)
  have hle : val % 128 * 2 ^ shift ≤ val * 2 ^ shift := Nat.mul_le_mul_right _ (Nat.mod_le _ _)
  have hmod : val % 128 * 2 ^ shift % 2 ^ 64 = val % 128 * 2 ^ shift := Nat.mod_eq_of_lt (by omega)
  have hlow : (val % 128 + 128) &&& 0x7F = val % 128 := by
    rw [and_0x7F]; omega
  have hhigh : (val % 128 + 128) &&& 0x80 ≠ 0 := (low_byte_facts (val % 128) hr).2.1
  rw [continuation_byte, read_varint_loop, hlow, Nat.shiftLeft_eq, hmod,
    or_mul_two_pow acc (val % 128) shift hacc]
  simp [Nat.not_le.mpr hshift, hhigh]

/-- Decoding what the encoder loop wrote gives the value back, whatever
follows, and goes over exactly the bytes written. -/
theorem read_varint_loop_varint_loop (fuel : Nat) : ∀ (val acc shift : Nat) (rest : List Nat),
    val < 2 ^ (7 * (fuel + 1)) → acc < 2 ^ shift → shift < 64 →
    val * 2 ^ shift + acc < 2 ^ 64 →
    read_varint_loop (varint_loop fuel val ++ rest) acc shift =
      Outcome.ret (acc + val * 2 ^ shift, (varint_loop fuel val).length) := by
  induction fuel with
  | zero =>
    intro val acc shift rest hval hacc hshift hbound
    have hv : val ≤ 127 := by
      have : val < 128 := by simpa using hval
      omega
    simpa [varint_loop] using read_varint_loop_last val acc shift rest hv hacc hshift hbound
  | succ fuel ih =>
    intro val acc shift rest hval hacc hshift hbound
    by_cases hbig : val > 0x7F
    · have hq : 1 ≤ val / 128 := by omega
      have hsplit : val = 128 * (val / 128) + val % 128 := (Nat.div_add_mod val 128).symm
      have hp : 0 < 2 ^ shift := Nat.two_pow_pos shift
      have hpow : 2 ^ (shift + 7) = 2 ^ shift * 128 := by rw [Nat.pow_add]
      have hr : val % 128 < 128 := Nat.mod_lt _ (by decide)
      have hrp : val % 128 * 2 ^ shift ≤ 127 * 2 ^ shift := Nat.mul_le_mul_right _ (by omega)
      have hqp : 1 * (2 ^ shift * 128) ≤ val / 128 * (2 ^ shift * 128) :=
        Nat.mul_le_mul_right _ hq
      have hsum : val / 128 * (2 ^ shift * 128) + val % 128 * 2 ^ shift = val * 2 ^ shift := by
        conv_rhs => rw [hsplit]
        ring
      have hshift7 : shift + 7 < 64 := by
        have h1 : 2 ^ (shift + 7) < 2 ^ 64 := by rw [hpow]; omega
        exact (Nat.pow_lt_pow_iff_right (by decide)).mp h1
      have hval7 : val / 128 < 2 ^ (7 * (fuel + 1)) := by
        have h2 : 2 ^ (7 * (fuel + 1 + 1)) = 2 ^ (7 * (fuel + 1)) * 128 := by
          rw [show 7 * (fuel + 1 + 1) = 7 * (fuel + 1) + 7 by ring, Nat.pow_add]
        rw [h2] at hval
        exact Nat.div_lt_of_lt_mul (by rw [Nat.mul_comm]; exact hval)
      have hrec := ih (val / 128) (acc + val % 128 * 2 ^ shift) (shift + 7) rest hval7
        (by rw [hpow]; omega) hshift7 (by rw [hpow]; omega)
      rw [varint_loop, if_pos hbig, List.cons_append, Nat.shiftRight_eq_div_pow,
        read_varint_loop_more val acc shift _ hacc hshift hbound]
      rw [show (2:Nat) ^ 7 = 128 by decide, hrec, hpow]
      simp only [List.length_cons]
      congr 2
      omega
    · have hv : val ≤ 127 := by omega
      rw [varint_loop, if_neg hbig]
      simpa using read_varint_loop_last val acc shift rest hv hacc hshift hbound

/-- Shape of what the encoder loop writes: at least one byte and at most
`fuel + 1`; every byte carries the next seven bits; the high bit is set on
every byte but the last. -/
theorem varint_loop_shape (fuel : Nat) : ∀ (val : Nat), val < 2 ^ (7 * (fuel + 1)) →
    1 ≤ (varint_loop fuel val).length ∧ (varint_loop fuel val).length ≤ fuel + 1 ∧
    ∀ i, i < (varint_loop fuel val).length →
      (varint_loop fuel val).getD i 0 < 256 ∧
      (varint_loop fuel val).getD i 0 &&& 0x7F = (val >>> (7 * i)) &&& 0x7F ∧
      ((varint_loop fuel val).getD i 0 &&& 0x80 ≠ 0 ↔ i + 1 < (varint_loop fuel val).length) := by
  have hlast : ∀ val, val ≤ 127 → ∀ i, i < [val % 256].length →
      [val % 256].getD i 0 < 256 ∧ [val % 256].getD i 0 &&& 0x7F = (val >>> (7 * i)) &&& 0x7F ∧
      ([val % 256].getD i 0 &&& 0x80 ≠ 0 ↔ i + 1 < [val % 256].length) := by
    intro val hv i hi
    have hi0 : i = 0 := by simpa using hi
    subst hi0
    have h256 : val % 256 = val := Nat.mod_eq_of_lt (by omega)
    have hhigh : val &&& 0x80 = 0 := (low_byte_facts val (by omega)).2.2
    simp [h256, hhigh]
    omega
  induction fuel with
  | zero =>
    intro val hval
    have hv : val ≤ 127 := by
      have : val < 128 := by simpa using hval
      omega
    refine ⟨by simp [varint_loop], by simp [varint_loop], ?_⟩
    simpa [varint_loop] using hlast val hv
  | succ fuel ih =>
    intro val hval
    by_cases hbig : val > 0x7F
    · have hval7 : val >>> 7 < 2 ^ (7 * (fuel + 1)) := by
        have h2 : 2 ^ (7 * (fuel + 1 + 1)) = 2 ^ (7 * (fuel + 1)) * 2 ^ 7 := by
          rw [show 7 * (fuel + 1 + 1) = 7 * (fuel + 1) + 7 by ring, Nat.pow_add]
        rw [h2] at hval
        rw [Nat.shiftRight_eq_div_pow]
        exact Nat.div_lt_of_lt_mul (by rw [Nat.mul_comm]; exact hval)
      obtain ⟨h1, h2, h3⟩ := ih (val >>> 7) hval7
      have hr : val % 128 < 128 := Nat.mod_lt _ (by decide)
      rw [varint_loop, if_pos hbig, continuation_byte]
      refine ⟨by simp, by simp; omega, ?_⟩
      intro i hi
      cases i with
      | zero =>
        have hlow : (val % 128 + 128) &&& 0x7F = val % 128 := by rw [and_0x7F]; omega
        have hhigh : (val % 128 + 128) &&& 0x80 ≠ 0 := (low_byte_facts (val % 128) hr).2.1
        refine ⟨by simp; omega, ?_, ?_⟩
        · simp only [List.getD_cons_zero, Nat.mul_zero, Nat.shiftRight_zero]
          rw [hlow, and_0x7F]
        · simp only [List.getD_cons_zero, List.length_cons]
          constructor
          · intro _; omega
          · intro _; exact hhigh
      | succ j =>
        have hj : j < (varint_loop fuel (val >>> 7)).length := by simpa using hi
        obtain ⟨g1, g2, g3⟩ := h3 j hj
        refine ⟨by simpa using g1, ?_, ?_⟩
        · simp only [List.getD_cons_succ]
          rw [g2, ← Nat.shiftRight_add, show 7 + 7 * j = 7 * (j + 1) by ring]
        · simp only [List.getD_cons_succ, List.length_cons]
          rw [g3]; omega
    · have hv : val ≤ 127 := by omega
      rw [varint_loop, if_neg hbig]
      exact ⟨by simp, by simp, hlast val hv⟩

/-- The bound on the encoder loop is never reached on a value that fits: a
larger bound gives the same bytes, so `write_varint` is the loop run to its
end on every 64-bit value. -/
theorem varint_loop_enough (fuel : Nat) : ∀ (val extra : Nat), val < 2 ^ (7 * (fuel + 1)) →
    varint_loop (fuel + extra) val = varint_loop fuel val := by
  induction fuel with
  | zero =>
    intro val extra hval
    have hv : ¬ val > 0x7F := by
      have : val < 128 := by simpa using hval
      omega
    cases extra with
    | zero => rfl
    | succ extra =>
      rw [show 0 + (extra + 1) = extra + 1 by omega]
      simp only [varint_loop, if_neg hv]
  | succ fuel ih =>
    intro val extra hval
    rw [show fuel + 1 + extra = (fuel + extra) + 1 by omega, varint_loop, varint_loop]
    by_cases hbig : val > 0x7F
    · have hval7 : val >>> 7 < 2 ^ (7 * (fuel + 1)) := by
        have h2 : 2 ^ (7 * (fuel + 1 + 1)) = 2 ^ (7 * (fuel + 1)) * 2 ^ 7 := by
          rw [show 7 * (fuel + 1 + 1) = 7 * (fuel + 1) + 7 by ring, Nat.pow_add]
        rw [h2] at hval
        rw [Nat.shiftRight_eq_div_pow]
        exact Nat.div_lt_of_lt_mul (by rw [Nat.mul_comm]; exact hval)
      rw [if_pos hbig, if_pos hbig, ih (val >>> 7) extra hval7]
    · rw [if_neg hbig, if_neg hbig]

/-- C2. Varint round trip: for every unsigned 64-bit value `v` the encoder
loop writes between 1 and 10 bytes; every byte carries the next 7 low-order
bits of `v`; the high bit is set on every byte but the last and clear on the
last; and the decoder loop started at the first of these bytes, wherever they
lie in a buffer, returns `v` and moves the cursor by the number of bytes
written. -/
theorem varint_round_trip (v : Nat) (hv : v < 2 ^ 64) :
    1 ≤ (write_varint v).length ∧ (write_varint v).length ≤ 10 ∧
    (∀ i, i < (write_varint v).length →
      (write_varint v).getD i 0 < 256 ∧
      (write_varint v).getD i 0 &&& 0x7F = (v >>> (7 * i)) &&& 0x7F ∧
      ((write_varint v).getD i 0 &&& 0x80 ≠ 0 ↔ i + 1 < (write_varint v).length)) ∧
    (∀ (before after : List Nat),
      read_varint (before ++ write_varint v ++ after) before.length =
        Outcome.ret (v, before.length + (write_varint v).length)) := by
  have hmod : v % 2 ^ 64 = v := Nat.mod_eq_of_lt hv
  have hfuel : v < 2 ^ (7 * (9 + 1)) := lt_trans hv (by decide)
  obtain ⟨h1, h2, h3⟩ := varint_loop_shape 9 v hfuel
  unfold write_varint
  rw [hmod]
  refine ⟨h1, h2, h3, ?_⟩
  intro before after
  have hdec := read_varint_loop_varint_loop 9 v 0 0 after hfuel (by decide) (by decide)
    (by simpa using hv)
  unfold read_varint
  rw [List.append_assoc, List.drop_left, hdec]
  simp

/-- Witness for C2 at `v = 300`. -/
theorem varint_round_trip_witness :
    (300 : Nat) < 2 ^ 64 ∧
    read_varint ([0x12] ++ write_varint 300 ++ [0x07]) [0x12].length =
      Outcome.ret (300, [0x12].length + (write_varint 300).length) :=
  ⟨by decide, (varint_round_trip 300 (by decide)).2.2.2 [0x12] [0x07]⟩

/-- For a valid field number the emitted tag constant is `8 * n + w`. -/
theorem tag_packing_aux (n : Int) (w : Nat) (hlo : 1 ≤ n) (hhi : n ≤ 536870911) (hw : w ≤ 7) :
    ((make_tag n w : Nat) : Int) = 8 * n + (w : Int) := by
  obtain ⟨m, rfl⟩ := Int.eq_ofNat_of_zero_le (by omega : 0 ≤ n)
  have hm : m ≤ 536870911 := by omega
  have hbits : int_bits32 (m : Int) = m := by
    unfold int_bits32
    have : ((m : Int) % 2 ^ 32) = ((m % 2 ^ 32 : Nat) : Int) := by norm_cast
    rw [this, Int.toNat_ofNat]
    exact Nat.mod_eq_of_lt (by omega)
  have htag : make_tag (m : Int) w = 8 * m + w := by
    unfold make_tag
    rw [hbits, Nat.shiftLeft_eq, Nat.or_comm, or_mul_two_pow w m 3 (by omega)]
    omega
  rw [htag]
  push_cast
  ring

/-- C3. Tag packing: for a field number `n` with `1 ≤ n ≤ 536870911` and a
wire type `w ≤ 7` the emitted constant `(n << 3) | w` is `8 * n + w`, it is
below `2 ^ 32`, and the split of the decoder gives both parts back. -/
theorem tag_packing (n : Int) (w : Nat) (hlo : 1 ≤ n) (hhi : n ≤ 536870911) (hw : w ≤ 7) :
    ((make_tag n w : Nat) : Int) = 8 * n + (w : Int) ∧ make_tag n w < 2 ^ 32 ∧
    (((split_tag (make_tag n w)).1 : Nat) : Int) = n ∧ (split_tag (make_tag n w)).2 = w := by
  have htag := tag_packing_aux n w hlo hhi hw
  have hsplit : split_tag (make_tag n w) =
      ((make_tag n w / 8) % 2 ^ 32, (make_tag n w % 8) % 256) := by
    unfold split_tag
    rw [Nat.shiftRight_eq_div_pow, and_0x7]
  rw [hsplit]
  refine ⟨htag, by omega, ?_, ?_⟩
  · simp only []
    omega
  · simp only []
    omega

/-- Witness for C3 at field number 3 and wire type 2. -/
theorem tag_packing_witness :
    ((make_tag 3 2 : Nat) : Int) = 8 * 3 + ((2 : Nat) : Int) ∧ make_tag 3 2 < 2 ^ 32 ∧
    (((split_tag (make_tag 3 2)).1 : Nat) : Int) = 3 ∧ (split_tag (make_tag 3 2)).2 = 2 :=
  tag_packing 3 2 (by decide) (by decide) (by decide)

/-- C4. Wire-type selection: `get_wire_type_value` gives 3 for a packed
field whatever its type; otherwise 7 for a bitmap field; otherwise 6 for an
interned string; otherwise 0 for the eight integer kinds and bool, 1 for
double, 5 for float, 2 for string and byte and 2 for every user type.  It is
never 4 and never above 7. -/
theorem wire_type_selection (type : Ty) (field : Field) :
    (field.is_packed = true → get_wire_type_value type field = 3) ∧
    (field.is_packed = false → field.is_bitmap = true → get_wire_type_value type field = 7) ∧
    (field.is_packed = false → field.is_bitmap = false →
      (∀ loc, type = Ty.PrimitiveType PrimitiveTypeKind.STRING loc → field.is_interned = true →
        get_wire_type_value type field = 6) ∧
      (∀ kind loc, type = Ty.PrimitiveType kind loc →
        kind ∈ [PrimitiveTypeKind.INT8, PrimitiveTypeKind.INT16, PrimitiveTypeKind.INT32,
          PrimitiveTypeKind.INT64, PrimitiveTypeKind.UINT8, PrimitiveTypeKind.UINT16,
          PrimitiveTypeKind.UINT32, PrimitiveTypeKind.UINT64, PrimitiveTypeKind.BOOL] →
        get_wire_type_value type field = 0) ∧
      (∀ loc, type = Ty.PrimitiveType PrimitiveTypeKind.DOUBLE loc →
        get_wire_type_value type field = 1) ∧
      (∀ loc, type = Ty.PrimitiveType PrimitiveTypeKind.FLOAT loc →
        get_wire_type_value type field = 5) ∧
      (∀ loc, type = Ty.PrimitiveType PrimitiveTypeKind.STRING loc → field.is_interned = false →
        get_wire_type_value type field = 2) ∧
      (∀ loc, type = Ty.PrimitiveType PrimitiveTypeKind.BYTE loc →
        get_wire_type_value type field = 2) ∧
      (∀ name loc, type = Ty.UserType name loc → get_wire_type_value type field = 2)) ∧
    get_wire_type_value type field ≠ 4 ∧ get_wire_type_value type field ≤ 7 := by
  refine ⟨?_, ?_, ?_, ?_, ?_⟩
  · intro hp
    simp [get_wire_type_value, hp]
  · intro hp hb
    simp [get_wire_type_value, hp, hb]
  · intro hp hb
    refine ⟨?_, ?_, ?_, ?_, ?_, ?_, ?_⟩
    · intro loc ht hi
      simp [get_wire_type_value, hp, hb, ht, hi]
    · intro kind loc ht hk
      subst ht
      simp only [List.mem_cons, List.mem_singleton, List.not_mem_nil, or_false] at hk
      rcases hk with h | h | h | h | h | h | h | h | h <;> subst h <;>
        simp [get_wire_type_value, hp, hb]
    · intro loc ht
      simp [get_wire_type_value, hp, hb, ht]
    · intro loc ht
      simp [get_wire_type_value, hp, hb, ht]
    · intro loc ht hi
      simp [get_wire_type_value, hp, hb, ht, hi]
    · intro loc ht
      simp [get_wire_type_value, hp, hb, ht]
    · intro name loc ht
      simp [get_wire_type_value, hp, hb, ht]
  · unfold get_wire_type_value
    split
    · decide
    · split
      · decide
      · split
        · split
          · decide
          · split <;> decide
        · decide
  · unfold get_wire_type_value
    split
    · decide
    · split
      · decide
      · split
        · split
          · decide
          · split <;> decide
        · decide

/-- Witness for C4 at the field `interned string s = 2`: it is neither
packed nor bitmap, so the third part applies, and its first clause gives 6. -/
theorem wire_type_selection_witness :
    get_wire_type_value field_interned_s.type field_interned_s = 6 :=
  ((wire_type_selection field_interned_s.type field_interned_s).2.2.1 rfl rfl).1
    { line := 1, column := 33, offset := 32 } rfl rfl

/-! ## Unfolding of the emitted `serialize` -/

theorem Outcome.bind_ret {α β : Type} (a : α) (f : α → Outcome β) :
    (Outcome.ret a).bind f = f a := rfl

theorem Outcome.bind_undefined {α β : Type} (f : α → Outcome β) :
    (Outcome.undefined : Outcome α).bind f = Outcome.undefined := rfl

theorem generate_serialize_method_cons (fc : FloatCasts) (schema : Schema) (field : Field)
    (fields : List Field) (member : Value) (members : List Value) (buffer : List Nat) :
    generate_serialize_method fc schema (field :: fields) (member :: members) buffer =
      (generate_field_serializer fc schema field member buffer).bind fun buffer1 =>
        generate_serialize_method fc schema fields members buffer1 := by
  rw [generate_serialize_method]

theorem generate_serialize_method_nil_left (fc : FloatCasts) (schema : Schema)
    (members : List Value) (buffer : List Nat) :
    generate_serialize_method fc schema [] members buffer = Outcome.ret buffer := by
  cases members <;> rfl

theorem generate_serialize_method_nil_right (fc : FloatCasts) (schema : Schema)
    (fields : List Field) (buffer : List Nat) :
    generate_serialize_method fc schema fields [] buffer = Outcome.ret buffer := by
  cases fields <;> rfl

theorem serialize_items_nil (fc : FloatCasts) (schema : Schema) (type : Ty) (item_tag : Nat) :
    serialize_items fc schema type item_tag [] = Outcome.ret [] := by
  rw [serialize_items]

theorem serialize_items_cons (fc : FloatCasts) (schema : Schema) (type : Ty) (item_tag : Nat)
    (item : Value) (rest : List Value) :
    serialize_items fc schema type item_tag (item :: rest) =
      (serialize_value fc schema type item).bind fun item_bytes =>
      (serialize_items fc schema type item_tag rest).bind fun rest_bytes =>
      Outcome.ret (write_varint item_tag ++ (item_bytes ++ rest_bytes)) := by
  rw [serialize_items]

/-- The block printed for a field, unfolded. -/
theorem generate_field_serializer_def (fc : FloatCasts) (schema : Schema) (field : Field)
    (member : Value) (buffer : List Nat) :
    generate_field_serializer fc schema field member buffer =
      if field.name ∈ block_locals schema field then
        captured_field_serializer fc schema field member buffer
      else
        if field.is_repeated then
          match member with
          | Value.vec items =>
            if items.isEmpty then Outcome.ret buffer
            else
              match field.is_packed, field.type with
              | true, Ty.PrimitiveType kind _ =>
                Outcome.ret (buffer ++ packed_block fc field kind items)
              | _, _ =>
                (serialize_items fc schema field.type
                  (make_tag field.number (get_wire_type_value field.type field)) items).bind
                  fun bytes => Outcome.ret (buffer ++ bytes)
          | _ => Outcome.ret buffer
        else if field.is_optional then
          match member with
          | Value.opt (some x) =>
            (serialize_value fc schema field.type x).bind fun bytes =>
            Outcome.ret (buffer ++
              (write_varint (make_tag field.number (get_wire_type_value field.type field)) ++ bytes))
          | _ => Outcome.ret buffer
        else
          match field.type with
          | Ty.PrimitiveType kind _ =>
            if kind = PrimitiveTypeKind.STRING then
              Outcome.ret (buffer ++
                (write_varint (make_tag field.number (get_wire_type_value field.type field)) ++
                  (write_varint member.size ++ member.bytes)))
            else if kind = PrimitiveTypeKind.BOOL then
              Outcome.ret (buffer ++
                (write_varint (make_tag field.number (get_wire_type_value field.type field)) ++
                  [if member.truth then 1 else 0]))
            else
              Outcome.ret (buffer ++
                (write_varint (make_tag field.number (get_wire_type_value field.type field)) ++
                  write_cast fc field.type member))
          | Ty.UserType name _ =>
            if (schema.find_enum name).isSome then
              Outcome.ret (buffer ++
                (write_varint (make_tag field.number (get_wire_type_value field.type field)) ++
                  write_cast fc field.type member))
            else
              let field_data :=
                match member with
                | Value.obj members =>
                  match schema.find_model name with
                  | some model => generate_serialize_method fc schema model.fields members []
                  | none => Outcome.ret []
                | _ => Outcome.ret []
              field_data.bind fun field_data =>
              Outcome.ret (buffer ++
                (write_varint (make_tag field.number (get_wire_type_value field.type field)) ++
                  (write_varint field_data.length ++ field_data))) := by
  cases member with
  | opt v => cases v <;> rfl
  | _ => rfl

/-- The block of a field whose name no local hides. -/
theorem generate_field_serializer_eq (fc : FloatCasts) (schema : Schema) (field : Field)
    (member : Value) (buffer : List Nat) (hname : field.name ∉ block_locals schema field) :
    generate_field_serializer fc schema field member buffer =
      if field.is_repeated then
        match member with
        | Value.vec items =>
          if items.isEmpty then Outcome.ret buffer
          else
            match field.is_packed, field.type with
            | true, Ty.PrimitiveType kind _ =>
              Outcome.ret (buffer ++ packed_block fc field kind items)
            | _, _ =>
              (serialize_items fc schema field.type
                (make_tag field.number (get_wire_type_value field.type field)) items).bind
                fun bytes => Outcome.ret (buffer ++ bytes)
        | _ => Outcome.ret buffer
      else if field.is_optional then
        match member with
        | Value.opt (some x) =>
          (serialize_value fc schema field.type x).bind fun bytes =>
          Outcome.ret (buffer ++
            (write_varint (make_tag field.number (get_wire_type_value field.type field)) ++ bytes))
        | _ => Outcome.ret buffer
      else
        match field.type with
        | Ty.PrimitiveType kind _ =>
          if kind = PrimitiveTypeKind.STRING then
            Outcome.ret (buffer ++
              (write_varint (make_tag field.number (get_wire_type_value field.type field)) ++
                (write_varint member.size ++ member.bytes)))
          else if kind = PrimitiveTypeKind.BOOL then
            Outcome.ret (buffer ++
              (write_varint (make_tag field.number (get_wire_type_value field.type field)) ++
                [if member.truth then 1 else 0]))
          else
            Outcome.ret (buffer ++
              (write_varint (make_tag field.number (get_wire_type_value field.type field)) ++
                write_cast fc field.type member))
        | Ty.UserType name _ =>
          if (schema.find_enum name).isSome then
            Outcome.ret (buffer ++
              (write_varint (make_tag field.number (get_wire_type_value field.type field)) ++
                write_cast fc field.type member))
          else
            let field_data :=
              match member with
              | Value.obj members =>
                match schema.find_model name with
                | some model => generate_serialize_method fc schema model.fields members []
                | none => Outcome.ret []
              | _ => Outcome.ret []
            field_data.bind fun field_data =>
            Outcome.ret (buffer ++
              (write_varint (make_tag field.number (get_wire_type_value field.type field)) ++
                (write_varint field_data.length ++ field_data))) := by
  rw [generate_field_serializer_def, if_neg hname]

/-- The block of a field whose name a local hides. -/
theorem generate_field_serializer_captured (fc : FloatCasts) (schema : Schema) (field : Field)
    (member : Value) (buffer : List Nat) (hname : field.name ∈ block_locals schema field) :
    generate_field_serializer fc schema field member buffer =
      captured_field_serializer fc schema field member buffer := by
  rw [generate_field_serializer_def, if_pos hname]

theorem Outcome.bind_assoc {α β γ : Type} (r : Outcome α) (f : α → Outcome β)
    (g : β → Outcome γ) : (r.bind f).bind g = r.bind fun a => (f a).bind g := by
  cases r <;> rfl

theorem generate_serialize_method_append (fc : FloatCasts) (schema : Schema)
    (fields_after : List Field) (members_after : List Value) :
    ∀ (fields_before : List Field) (members_before : List Value) (buffer : List Nat),
      members_before.length = fields_before.length →
      generate_serialize_method fc schema (fields_before ++ fields_after)
          (members_before ++ members_after) buffer =
        (generate_serialize_method fc schema fields_before members_before buffer).bind
          fun buffer1 => generate_serialize_method fc schema fields_after members_after buffer1 := by
  intro fields_before
  induction fields_before with
  | nil =>
    intro members_before buffer hlen
    have hnil : members_before = [] := List.length_eq_zero.mp (by simpa using hlen)
    subst hnil
    simp [generate_serialize_method_nil_left, Outcome.bind_ret]
  | cons field fields ih =>
    intro members_before buffer hlen
    cases members_before with
    | nil => simp at hlen
    | cons member members =>
      have hlen1 : members.length = fields.length := by simpa using hlen
      simp only [List.cons_append, generate_serialize_method_cons, Outcome.bind_assoc]
      congr 1
      funext buffer1
      exact ih members buffer1 hlen1

theorem write_cast_integer (fc : FloatCasts) (kind : PrimitiveTypeKind) (loc : SourceLocation)
    (hkind : kind.is_integer = true) (x : Value) :
    write_cast fc (Ty.PrimitiveType kind loc) x = write_varint x.to_uint64 := by
  cases kind <;> simp [PrimitiveTypeKind.is_integer] at hkind <;> rfl

theorem packed_item_integer (fc : FloatCasts) (kind : PrimitiveTypeKind) (loc : SourceLocation)
    (hkind : kind.is_integer = true) (x : Value) :
    packed_item fc (Ty.PrimitiveType kind loc) kind x = write_varint x.to_uint64 := by
  cases kind <;> simp [PrimitiveTypeKind.is_integer] at hkind <;>
    simp [packed_item, write_cast]

theorem get_wire_type_value_integer (field : Field) (kind : PrimitiveTypeKind)
    (loc : SourceLocation) (hkind : kind.is_integer = true)
    (hpacked : field.is_packed = false) (hbitmap : field.is_bitmap = false) :
    get_wire_type_value (Ty.PrimitiveType kind loc) field = 0 := by
  cases kind <;> simp [PrimitiveTypeKind.is_integer] at hkind <;>
    simp [get_wire_type_value, hpacked, hbitmap]

/-- The locals in scope in the packed branch. -/
theorem block_locals_packed (schema : Schema) (field : Field) (kind : PrimitiveTypeKind)
    (loc : SourceLocation) (htype : field.type = Ty.PrimitiveType kind loc)
    (hrep : field.is_repeated = true) (hpacked : field.is_packed = true) :
    block_locals schema field = ["buffer", "packed_tag", "packed_data"] := by
  simp [block_locals, htype, hrep, hpacked]

/-- The locals in scope in the singular branch of a primitive type that is
neither `string` nor `bool`. -/
theorem block_locals_singular_cast (schema : Schema) (field : Field) (kind : PrimitiveTypeKind)
    (loc : SourceLocation) (htype : field.type = Ty.PrimitiveType kind loc)
    (hrep : field.is_repeated = false) (hstr : kind ≠ PrimitiveTypeKind.STRING)
    (hbool : kind ≠ PrimitiveTypeKind.BOOL) :
    block_locals schema field = ["buffer", "field_tag", "val"] := by
  simp [block_locals, htype, hrep, hstr, hbool]

/-- Packed encoding where no local hides the member: for a packed repeated
field of an integer kind whose name is none of `buffer`, `packed_tag` and
`packed_data`, the emitted block writes nothing for an empty vector and
otherwise the tag `(number << 3) | 2`, the byte length of the payload as a
varint, and the payload, which is the varints of the items in order. -/
theorem packed_encoding_unhidden (fc : FloatCasts) (schema : Schema) (field : Field)
    (kind : PrimitiveTypeKind) (loc : SourceLocation) (xs : List Value) (buffer : List Nat)
    (htype : field.type = Ty.PrimitiveType kind loc) (hkind : kind.is_integer = true)
    (hrep : field.is_repeated = true) (hpacked : field.is_packed = true)
    (hname : field.name ∉ ["buffer", "packed_tag", "packed_data"]) :
    generate_field_serializer fc schema field (Value.vec xs) buffer =
      if xs.isEmpty then Outcome.ret buffer
      else
        Outcome.ret (buffer ++ (write_varint (make_tag field.number 2) ++
          (write_varint (xs.flatMap fun x => write_varint x.to_uint64).length ++
            xs.flatMap fun x => write_varint x.to_uint64))) := by
  have hitem : packed_item fc field.type kind = fun x => write_varint x.to_uint64 := by
    funext x
    rw [htype]
    exact packed_item_integer fc kind loc hkind x
  rw [generate_field_serializer_eq fc schema field _ buffer
    (by rw [block_locals_packed schema field kind loc htype hrep hpacked]; exact hname),
    if_pos hrep]
  simp only [hpacked, htype]
  by_cases hempty : xs.isEmpty = true
  · simp [hempty]
  · simp only [hempty, if_false, Bool.false_eq_true]
    unfold packed_block
    simp only [hitem]

/-- C5 on the code. Packed encoding fails for a field named `packed_data`.
The validator accepts `packed repeated uint32 packed_data = 1`, a packed
repeated field of an integer kind.  With the list `[1, 300]` in the member
the emitted `serialize` gives `[0x0A, 0x00]`, the tag and the length 0: the
loop that fills the payload is printed as
`for (const auto& item : packed_data)` right after the declaration of the
local `std::vector<uint8_t> packed_data;`, so it runs over the empty local
and not over the member.  The same field under the name `xs` gives the
bytes of the claim, `[0x0A, 0x03, 0x01, 0xAC, 0x02]`. -/
theorem packed_encoding_fails (fc : FloatCasts) :
    accepted (scenario_schema [field_packed_data]) ∧
    (field_packed_data.is_packed = true ∧ field_packed_data.is_repeated = true ∧
      field_packed_data.type =
        Ty.PrimitiveType PrimitiveTypeKind.UINT32 { line := 1, column := 40, offset := 39 } ∧
      field_packed_data.number = 1) ∧
    serialize fc (scenario_schema [field_packed_data]) (scenario_model [field_packed_data])
        (Value.obj [Value.vec [Value.num 1, Value.num 300]]) = Outcome.ret [0x0A, 0x00] ∧
    write_varint (make_tag 1 2) ++
        (write_varint (write_varint 1 ++ write_varint 300).length ++
          (write_varint 1 ++ write_varint 300)) = [0x0A, 0x03, 0x01, 0xAC, 0x02] ∧
    serialize fc (scenario_schema [field_packed PrimitiveTypeKind.UINT32])
        (scenario_model [field_packed PrimitiveTypeKind.UINT32])
        (Value.obj [Value.vec [Value.num 1, Value.num 300]]) =
      Outcome.ret [0x0A, 0x03, 0x01, 0xAC, 0x02] := by
  refine ⟨?_, ⟨rfl, rfl, rfl, rfl⟩, rfl, by decide, rfl⟩
  unfold accepted
  decide

/-- The tag of a field whose number the validator accepts is `8 * number + wire_type`. -/
theorem make_tag_valid (n : Int) (w : Nat) (hlo : 1 ≤ n) (hhi : n ≤ 536870911) (hw : w ≤ 7) :
    make_tag n w = (8 * n + (w : Int)).toNat := by
  have h := (tag_packing_aux n w hlo hhi hw)
  rw [← h, Int.toNat_ofNat]

theorem not_of_requires_repeated {flag repeated : Bool} (hrule : flag = true → repeated = true)
    (hrep : repeated = false) : flag = false := by
  cases flag
  · rfl
  · rw [hrule rfl] at hrep; cases hrep

/-- Singular integer field where no local hides the member: a singular field
of an integer kind with a valid number `n` whose name is none of `buffer`,
`field_tag` and `val` contributes, at its position in declaration order,
exactly `varint(8 * n)` followed by the varint of its value converted to
unsigned 64 bits. -/
theorem singular_integer_field_unhidden (fc : FloatCasts) (schema : Schema) (field : Field)
    (kind : PrimitiveTypeKind) (loc : SourceLocation) (v : Int) (buffer : List Nat)
    (htype : field.type = Ty.PrimitiveType kind loc) (hkind : kind.is_integer = true)
    (hrep : field.is_repeated = false) (hopt : field.is_optional = false)
    (hpacked : field.is_packed = true → field.is_repeated = true)
    (hbitmap : field.is_bitmap = true → field.is_repeated = true)
    (hlo : 1 ≤ field.number) (hhi : field.number ≤ 536870911)
    (hname : field.name ∉ ["buffer", "field_tag", "val"]) :
    generate_field_serializer fc schema field (Value.num v) buffer =
      Outcome.ret (buffer ++
        (write_varint (8 * field.number).toNat ++ write_varint (v % 2 ^ 64).toNat)) := by
  have hp : field.is_packed = false := not_of_requires_repeated hpacked hrep
  have hb : field.is_bitmap = false := not_of_requires_repeated hbitmap hrep
  have hstr : kind ≠ PrimitiveTypeKind.STRING := by
    intro h; subst h; simp [PrimitiveTypeKind.is_integer] at hkind
  have hbool : kind ≠ PrimitiveTypeKind.BOOL := by
    intro h; subst h; simp [PrimitiveTypeKind.is_integer] at hkind
  rw [generate_field_serializer_eq fc schema field _ buffer
    (by rw [block_locals_singular_cast schema field kind loc htype hrep hstr hbool]; exact hname)]
  simp only [hrep, hopt, htype, hstr, hbool, if_false, Bool.false_eq_true]
  rw [get_wire_type_value_integer field kind loc hkind hp hb, write_cast_integer fc kind loc hkind,
    make_tag_valid field.number 0 hlo hhi (by decide)]
  simp [Value.to_uint64]

/-- C6 on the code. Singular integer field fails for a field named
`field_tag`.  The validator accepts `uint32 field_tag = 1`, a singular field
of an integer kind.  With the value 7 in the member the emitted `serialize`
gives `[0x08, 0x08]`, the tag twice: the block declares the local
`uint32_t field_tag = 8;` and then reads the value as
`static_cast<uint64_t>(field_tag)`, which is the local and not the member.
The same field under the name `id` gives the bytes of the claim,
`[0x08, 0x07]`. -/
theorem singular_integer_field_fails (fc : FloatCasts) :
    accepted (scenario_schema [field_field_tag]) ∧
    (field_field_tag.is_repeated = false ∧ field_field_tag.is_optional = false ∧
      field_field_tag.type =
        Ty.PrimitiveType PrimitiveTypeKind.UINT32 { line := 1, column := 24, offset := 23 } ∧
      field_field_tag.number = 1) ∧
    serialize fc (scenario_schema [field_field_tag]) (scenario_model [field_field_tag])
        (Value.obj [Value.num 7]) = Outcome.ret [0x08, 0x08] ∧
    write_varint (8 * 1) ++ write_varint 7 = [0x08, 0x07] ∧
    serialize fc (scenario_schema [field_id]) (scenario_model [field_id])
        (Value.obj [Value.num 7]) = Outcome.ret [0x08, 0x07] := by
  refine ⟨?_, ⟨rfl, rfl, rfl, rfl⟩, rfl, by decide, rfl⟩
  unfold accepted
  decide

/-- What the emitted block writes for a singular `byte` field of a model that
satisfies the validator's rules, when no local hides the member: the tag with
wire type 2, then the value of the member as one varint. -/
theorem singular_byte_payload (fc : FloatCasts) (schema : Schema) (field : Field)
    (loc : SourceLocation) (v : Int) (buffer : List Nat)
    (htype : field.type = Ty.PrimitiveType PrimitiveTypeKind.BYTE loc)
    (hrep : field.is_repeated = false) (hopt : field.is_optional = false)
    (hpacked : field.is_packed = true → field.is_repeated = true)
    (hbitmap : field.is_bitmap = true → field.is_repeated = true)
    (hname : field.name ∉ ["buffer", "field_tag", "val"]) :
    generate_field_serializer fc schema field (Value.num v) buffer =
      Outcome.ret (buffer ++
        (write_varint (make_tag field.number 2) ++ write_varint (v % 2 ^ 64).toNat)) := by
  have hp : field.is_packed = false := not_of_requires_repeated hpacked hrep
  have hb : field.is_bitmap = false := not_of_requires_repeated hbitmap hrep
  have hwire : get_wire_type_value (Ty.PrimitiveType PrimitiveTypeKind.BYTE loc) field = 2 := by
    simp [get_wire_type_value, hp, hb]
  rw [generate_field_serializer_eq fc schema field _ buffer
    (by rw [block_locals_singular_cast schema field PrimitiveTypeKind.BYTE loc htype hrep
      (by decide) (by decide)]; exact hname)]
  simp only [hrep, hopt, htype, if_false, Bool.false_eq_true, hwire]
  rfl

/-- C8 on the code. Singular byte field: for the model `byte b = 1` with
`b = 5` the emitted `serialize` gives `[0x0A, 0x05]`: the tag, which carries
wire type 2, and then the value of the member as one varint.  No length is
written, so the output is not the length-delimited `[0x0A, 0x01, 0x05]`. -/
theorem singular_byte_field_is_varint (fc : FloatCasts) :
    get_wire_type_value field_b.type field_b = 2 ∧
    serialize fc (scenario_schema [field_b]) (scenario_model [field_b])
        (Value.obj [Value.num 5]) = Outcome.ret [0x0A, 0x05] ∧
    serialize fc (scenario_schema [field_b]) (scenario_model [field_b])
        (Value.obj [Value.num 5]) ≠
      Outcome.ret (write_varint (make_tag 1 2) ++ (write_varint [0x05].length ++ [0x05])) := by
  have hser : serialize fc (scenario_schema [field_b]) (scenario_model [field_b])
      (Value.obj [Value.num 5]) = Outcome.ret [0x0A, 0x05] := rfl
  refine ⟨rfl, hser, ?_⟩
  rw [hser]
  decide

/-! ## Unfolding of the emitted `deserialize` -/

theorem deserialize_loop_at_end (fc : FloatCasts) (schema : Schema) (fuel : Nat)
    (fields : List Field) (members : List Value) (data : List Nat) (pos : Nat)
    (hend : data.length ≤ pos) :
    deserialize_loop fc schema fuel fields members data pos = Outcome.ret (true, members) := by
  have hnot : ¬ pos < data.length := Nat.not_lt.mpr hend
  cases fuel with
  | zero => rw [deserialize_loop, if_neg hnot]
  | succ fuel => rw [deserialize_loop, if_neg hnot]

theorem deserialize_loop_unknown (fc : FloatCasts) (schema : Schema) (fuel : Nat)
    (fields : List Field) (members : List Value) (data : List Nat) (pos tag pos1 : Nat)
    (hpos : pos < data.length) (htag : read_varint data pos = Outcome.ret (tag, pos1))
    (hcase : case_index (split_tag tag).1 fields = none) :
    deserialize_loop fc schema (fuel + 1) fields members data pos =
      (skip_unknown data pos1 (split_tag tag).2).bind fun pos2 =>
        deserialize_loop fc schema fuel fields members data pos2 := by
  have hguard : ¬ pos + 1 > data.length := by omega
  rw [deserialize_loop, if_pos hpos, if_neg hguard, htag]
  simp only [Outcome.bind, hcase]

theorem read_varint_loop_count (bytes : List Nat) : ∀ (value shift v n : Nat),
    read_varint_loop bytes value shift = Outcome.ret (v, n) → n ≤ bytes.length := by
  induction bytes with
  | nil =>
    intro value shift v n h
    simp [read_varint_loop] at h
    omega
  | cons byte rest ih =>
    intro value shift v n h
    rw [read_varint_loop] at h
    by_cases hshift : 64 ≤ shift
    · simp [hshift] at h
    · by_cases hhigh : byte &&& 0x80 = 0
      · simp [hshift, hhigh] at h
        simp
        omega
      · simp only [hshift, hhigh, if_false] at h
        cases hrec : read_varint_loop rest (value ||| (byte &&& 0x7F) <<< shift % 2 ^ 64)
            (shift + 7) with
        | ret r =>
          obtain ⟨v1, n1⟩ := r
          rw [hrec] at h
          simp at h
          have := ih _ _ _ _ hrec
          simp
          omega
        | undefined => rw [hrec] at h; simp at h
        | out_of_fuel => rw [hrec] at h; simp at h

/-- The decoder loop never moves the cursor past the end of the buffer. -/
theorem read_varint_within (data : List Nat) (pos v pos1 : Nat)
    (h : read_varint data pos = Outcome.ret (v, pos1)) (hpos : pos ≤ data.length) :
    pos ≤ pos1 ∧ pos1 ≤ data.length := by
  unfold read_varint at h
  cases hrec : read_varint_loop (data.drop pos) 0 0 with
  | ret r =>
    obtain ⟨v1, n1⟩ := r
    rw [hrec] at h
    simp at h
    have := read_varint_loop_count _ _ _ _ _ hrec
    simp at this
    omega
  | undefined => rw [hrec] at h; simp at h
  | out_of_fuel => rw [hrec] at h; simp at h

theorem skip_continuation_all (bytes : List Nat) (hall : ∀ b ∈ bytes, b &&& 0x80 ≠ 0) :
    skip_continuation bytes = bytes.length := by
  induction bytes with
  | nil => rfl
  | cons byte rest ih =>
    have h1 : byte &&& 0x80 ≠ 0 := hall byte (List.mem_cons_self _ _)
    have h2 : ∀ b ∈ rest, b &&& 0x80 ≠ 0 := fun b hb => hall b (List.mem_cons_of_mem _ hb)
    simp [skip_continuation, h1, ih h2]

/-- C9 as stated fails on the code: for the model `uint32 id = 1` the buffer
`[0x12, 0x05, 0x01]` holds the unknown field 2 of wire type 2 with declared
length 5 and a single byte after it, and `deserialize` returns true. -/
theorem truncated_input_counterexample :
    split_tag 0x12 = (2, 2) ∧
    read_varint [0x12, 0x05, 0x01] 1 = Outcome.ret (5, 2) ∧
    [0x12, 0x05, 0x01].length < 2 + 5 ∧
    deserialize unused_casts (scenario_schema [field_id]) (scenario_model [field_id]) 1
        (default_construct (scenario_schema [field_id]) (scenario_model [field_id]))
        [0x12, 0x05, 0x01] =
      Outcome.ret (true, Value.obj [Value.num 0]) := by
  refine ⟨rfl, rfl, by decide, rfl⟩

/-- C9, amended. The emitted `deserialize` returns true when the cursor is
at the end of the buffer, and it does not reject truncated input: when an
unknown length-delimited field declares a length that extends past the end of
the buffer, and when the varint of an unknown field of wire type 0 is cut off
by the end of the buffer, it returns true with the object as it is. -/
theorem truncated_input_is_tolerated (fc : FloatCasts) (schema : Schema) (fuel : Nat)
    (fields : List Field) (members : List Value) (data : List Nat) (pos : Nat) :
    (data.length ≤ pos →
      deserialize_loop fc schema fuel fields members data pos = Outcome.ret (true, members)) ∧
    (∀ tag pos1 length pos2 : Nat, pos < data.length →
      read_varint data pos = Outcome.ret (tag, pos1) →
      case_index (split_tag tag).1 fields = none → (split_tag tag).2 = 2 →
      read_varint data pos1 = Outcome.ret (length, pos2) →
      data.length < pos2 + length → pos2 + length < 2 ^ 64 →
      deserialize_loop fc schema (fuel + 1) fields members data pos =
        Outcome.ret (true, members)) ∧
    (∀ tag pos1 : Nat, pos < data.length →
      read_varint data pos = Outcome.ret (tag, pos1) →
      case_index (split_tag tag).1 fields = none → (split_tag tag).2 = 0 →
      (∀ b ∈ data.drop pos1, b &&& 0x80 ≠ 0) →
      deserialize_loop fc schema (fuel + 1) fields members data pos =
        Outcome.ret (true, members)) := by
  refine ⟨deserialize_loop_at_end fc schema fuel fields members data pos, ?_, ?_⟩
  · intro tag pos1 length pos2 hpos htag hcase hwire hlen hover hwrap
    rw [deserialize_loop_unknown fc schema fuel fields members data pos tag pos1 hpos htag hcase,
      hwire]
    simp only [skip_unknown, hlen, Outcome.bind]
    simp only [Nat.reduceEqDiff, if_false, if_true]
    apply deserialize_loop_at_end
    rw [Nat.mod_eq_of_lt hwrap]
    omega
  · intro tag pos1 hpos htag hcase hwire hall
    have hwithin := read_varint_within data pos tag pos1 htag (by omega)
    rw [deserialize_loop_unknown fc schema fuel fields members data pos tag pos1 hpos htag hcase,
      hwire]
    have hskip : pos1 + skip_continuation (data.drop pos1) = data.length := by
      rw [skip_continuation_all _ hall, List.length_drop]
      omega
    simp only [skip_unknown, if_true, hskip, Nat.lt_irrefl, if_false, Outcome.bind]
    exact deserialize_loop_at_end fc schema fuel fields members data data.length (Nat.le_refl _)

/-- Witness for C9, amended: the second part applied to the model
`uint32 id = 1` and the buffer `[0x12, 0x05, 0x01]`. -/
theorem truncated_input_is_tolerated_witness :
    deserialize_loop unused_casts (scenario_schema [field_id]) (0 + 1) [field_id] [Value.num 0]
        [0x12, 0x05, 0x01] 0 =
      Outcome.ret (true, [Value.num 0]) :=
  (truncated_input_is_tolerated unused_casts (scenario_schema [field_id]) 0 [field_id]
    [Value.num 0] [0x12, 0x05, 0x01] 0).2.1 0x12 1 5 2 (by decide) rfl rfl rfl rfl
    (by decide) (by decide)

/-- C10 as stated fails on the code: for the model `uint32 id = 1` the buffer
`[0x13]` holds a tag with the undeclared field number 2 and wire type 3, and
`deserialize` returns true. -/
theorem unskippable_unknown_field_counterexample :
    split_tag 0x13 = (2, 3) ∧ case_index 2 [field_id] = none ∧
    deserialize unused_casts (scenario_schema [field_id]) (scenario_model [field_id]) 1
        (default_construct (scenario_schema [field_id]) (scenario_model [field_id])) [0x13] =
      Outcome.ret (true, Value.obj [Value.num 0]) := by
  refine ⟨rfl, rfl, rfl⟩

/-- C10, amended. When the buffer holds a tag whose field number the model
does not declare and whose wire type is not 0, 1, 2 or 5, the emitted
`deserialize` does not return false on that account: the iteration leaves the
object as it is and the cursor right after the tag, and the loop goes on
from there. -/
theorem unskippable_unknown_field_is_passed_over (fc : FloatCasts) (schema : Schema)
    (fuel : Nat) (fields : List Field) (members : List Value) (data : List Nat)
    (pos tag pos1 : Nat) (hpos : pos < data.length)
    (htag : read_varint data pos = Outcome.ret (tag, pos1))
    (hcase : case_index (split_tag tag).1 fields = none)
    (h0 : (split_tag tag).2 ≠ 0) (h1 : (split_tag tag).2 ≠ 1)
    (h2 : (split_tag tag).2 ≠ 2) (h5 : (split_tag tag).2 ≠ 5) :
    deserialize_loop fc schema (fuel + 1) fields members data pos =
      deserialize_loop fc schema fuel fields members data pos1 := by
  rw [deserialize_loop_unknown fc schema fuel fields members data pos tag pos1 hpos htag hcase]
  simp only [skip_unknown, h0, h1, h2, h5, if_false, Outcome.bind]

/-- Witness for C10, amended, at the model `uint32 id = 1` and the buffer
`[0x13, 0x08, 0x07]`: after the unknown tag the loop goes on at the byte
`0x08`. -/
theorem unskippable_unknown_field_is_passed_over_witness :
    deserialize_loop unused_casts (scenario_schema [field_id]) (1 + 1) [field_id] [Value.num 0]
        [0x13, 0x08, 0x07] 0 =
      deserialize_loop unused_casts (scenario_schema [field_id]) 1 [field_id] [Value.num 0]
        [0x13, 0x08, 0x07] 1 :=
  unskippable_unknown_field_is_passed_over unused_casts (scenario_schema [field_id]) 1
    [field_id] [Value.num 0] [0x13, 0x08, 0x07] 0 0x13 1 (by decide) rfl rfl
    (by decide) (by decide) (by decide) (by decide)

/-- C1 on the code. Round trip fails for a packed field: for the model
`packed repeated uint32 xs = 3` the value `xs = [1, 300]` serializes to
`[0x1A, 0x03, 0x01, 0xAC, 0x02]`, and `deserialize` run on these bytes in a
default-constructed object returns true and leaves `xs = [3]`: the `case`
printed for the field reads the length as if it were one item. -/
theorem packed_round_trip_fails (fc : FloatCasts) (fuel : Nat) :
    serialize fc (scenario_schema [field_xs]) (scenario_model [field_xs])
        (Value.obj [Value.vec [Value.num 1, Value.num 300]]) =
      Outcome.ret [0x1A, 0x03, 0x01, 0xAC, 0x02] ∧
    ((serialize fc (scenario_schema [field_xs]) (scenario_model [field_xs])
        (Value.obj [Value.vec [Value.num 1, Value.num 300]])).bind fun data =>
      deserialize fc (scenario_schema [field_xs]) (scenario_model [field_xs]) (fuel + 2)
        (default_construct (scenario_schema [field_xs]) (scenario_model [field_xs])) data) =
      Outcome.ret (true, Value.obj [Value.vec [Value.num 3]]) ∧
    Value.obj [Value.vec [Value.num 3]] ≠ Value.obj [Value.vec [Value.num 1, Value.num 300]] := by
  have hser : serialize fc (scenario_schema [field_xs]) (scenario_model [field_xs])
      (Value.obj [Value.vec [Value.num 1, Value.num 300]]) =
        Outcome.ret [0x1A, 0x03, 0x01, 0xAC, 0x02] := rfl
  refine ⟨hser, ?_, by simp⟩
  rw [hser, Outcome.bind_ret]
  cases fuel <;> rfl

/-! ## The validator appends what the diagnostics functions say -/

theorem ValidationContext.append_nil (ctx : ValidationContext) : ctx.append [] = ctx := by
  simp [ValidationContext.append]

theorem ValidationContext.append_append (ctx : ValidationContext)
    (first second : List ValidationError) :
    (ctx.append first).append second = ctx.append (first ++ second) := by
  simp [ValidationContext.append]

theorem ValidationContext.add_error_eq_append (ctx : ValidationContext) (message : String)
    (location : SourceLocation) :
    ctx.add_error message location =
      ctx.append [{ message := message, location := location }] := rfl

theorem ValidationContext.type_exists_append (ctx : ValidationContext)
    (added : List ValidationError) : (ctx.append added).type_exists = ctx.type_exists := rfl

theorem visit_enum_value_eq (value : EnumValue) (ctx : ValidationContext) :
    visit_enum_value value ctx = ctx.append (enum_value_diagnostics value) := by
  unfold visit_enum_value enum_value_diagnostics
  split <;> simp [ValidationContext.add_error_eq_append, ValidationContext.append_nil]

theorem validate_field_number_eq (field : Field) (ctx : ValidationContext) :
    validate_field_number field ctx = ctx.append (field_number_diagnostics field) := by
  unfold validate_field_number field_number_diagnostics
  simp only [ValidationContext.add_error_eq_append]
  split <;> split <;>
    simp [ValidationContext.append_nil, ValidationContext.append_append]

theorem validate_field_modifiers_eq (field : Field) (ctx : ValidationContext) :
    validate_field_modifiers field ctx = ctx.append (field_modifier_diagnostics field) := by
  unfold validate_field_modifiers field_modifier_diagnostics
  simp only [ValidationContext.add_error_eq_append]
  split <;> split <;> split <;> split <;> split <;>
    simp [ValidationContext.append_nil, ValidationContext.append_append]

theorem validate_type_exists_eq (type : Ty) (location : SourceLocation)
    (ctx : ValidationContext) :
    validate_type_exists type location ctx =
      ctx.append (type_exists_diagnostics ctx.type_exists type location) := by
  unfold validate_type_exists type_exists_diagnostics
  cases type with
  | PrimitiveType kind loc => simp [Ty.is_primitive, ValidationContext.append_nil]
  | UserType name loc =>
    simp only [Ty.is_primitive, ValidationContext.add_error_eq_append, Bool.not_false,
      if_true]
    split <;> simp [ValidationContext.append_nil]

theorem check_modifier_compatibility_eq (field : Field) (ctx : ValidationContext) :
    check_modifier_compatibility field ctx =
      ctx.append (modifier_compatibility_diagnostics field) := by
  unfold check_modifier_compatibility modifier_compatibility_diagnostics
  simp only [ValidationContext.add_error_eq_append]
  cases hp : field.is_packed <;> cases hprim : field.type.is_primitive <;>
    cases hi : field.is_interned <;> cases hb : field.is_bitmap <;>
    simp [ValidationContext.append_nil, ValidationContext.append_append] <;>
    (try split) <;> (try split) <;>
    simp [ValidationContext.append_nil, ValidationContext.append_append]

theorem visit_field_eq (field : Field) (ctx : ValidationContext) :
    visit_field field ctx = ctx.append (field_diagnostics ctx.type_exists field) := by
  unfold visit_field field_diagnostics
  rw [validate_field_number_eq, validate_field_modifiers_eq, validate_type_exists_eq,
    check_modifier_compatibility_eq]
  simp only [ValidationContext.append_append, ValidationContext.type_exists_append,
    List.append_assoc]

theorem visit_fields_eq (fields : List Field) : ∀ ctx : ValidationContext,
    visit_fields fields ctx = ctx.append (fields.flatMap (field_diagnostics ctx.type_exists)) := by
  induction fields with
  | nil => intro ctx; simp [visit_fields, ValidationContext.append_nil]
  | cons field rest ih =>
    intro ctx
    rw [visit_fields, visit_field_eq, ih]
    simp [ValidationContext.append_append, ValidationContext.type_exists_append]

theorem visit_enum_values_eq (values : List EnumValue) : ∀ ctx : ValidationContext,
    visit_enum_values values ctx = ctx.append (values.flatMap enum_value_diagnostics) := by
  induction values with
  | nil => intro ctx; simp [visit_enum_values, ValidationContext.append_nil]
  | cons value rest ih =>
    intro ctx
    rw [visit_enum_values, visit_enum_value_eq, ih]
    simp [ValidationContext.append_append]

theorem check_duplicate_field_numbers_loop_eq (model_name : String) (fields : List Field) :
    ∀ (field_numbers : List Int) (ctx : ValidationContext),
      check_duplicate_field_numbers_loop model_name fields field_numbers ctx =
        ctx.append ((later_duplicates Field.number field_numbers fields).map
          (duplicate_field_number_diagnostic model_name)) := by
  induction fields with
  | nil =>
    intro field_numbers ctx
    simp [check_duplicate_field_numbers_loop, later_duplicates, ValidationContext.append_nil]
  | cons field rest ih =>
    intro field_numbers ctx
    rw [check_duplicate_field_numbers_loop, later_duplicates]
    by_cases h : field.number ∈ field_numbers
    · rw [if_pos h, if_pos h, ih, ValidationContext.add_error_eq_append,
        ValidationContext.append_append]
      rfl
    · rw [if_neg h, if_neg h, ih]

theorem check_duplicate_enum_values_loop_eq (enum_name : String) (values : List EnumValue) :
    ∀ (value_names : List String) (value_numbers : List Int) (ctx : ValidationContext),
      check_duplicate_enum_values_loop enum_name values value_names value_numbers ctx =
        ctx.append
          (duplicate_enum_value_diagnostics enum_name values value_names value_numbers) := by
  induction values with
  | nil =>
    intro value_names value_numbers ctx
    simp [check_duplicate_enum_values_loop, duplicate_enum_value_diagnostics,
      ValidationContext.append_nil]
  | cons value rest ih =>
    intro value_names value_numbers ctx
    rw [check_duplicate_enum_values_loop, duplicate_enum_value_diagnostics]
    simp only [ih, ValidationContext.add_error_eq_append]
    by_cases h1 : value.name ∈ value_names <;> by_cases h2 : value.value ∈ value_numbers <;>
      simp [h1, h2, ValidationContext.append_append]

theorem visit_enum_eq (enum_decl : EnumDecl) (ctx : ValidationContext) :
    visit_enum enum_decl ctx = ctx.append (enum_diagnostics enum_decl) := by
  unfold visit_enum enum_diagnostics check_duplicate_enum_values
  split
  · rfl
  · rw [check_duplicate_enum_values_loop_eq, visit_enum_values_eq,
      ValidationContext.append_append]

theorem visit_model_eq (model : ModelDecl) (ctx : ValidationContext) :
    visit_model model ctx = ctx.append (model_diagnostics ctx.type_exists model) := by
  unfold visit_model model_diagnostics check_duplicate_field_numbers
  split
  · rfl
  · rw [check_duplicate_field_numbers_loop_eq, visit_fields_eq,
      ValidationContext.append_append, ValidationContext.type_exists_append]

theorem visit_declarations_eq (declarations : List Declaration) : ∀ ctx : ValidationContext,
    visit_declarations declarations ctx =
      ctx.append (declarations.flatMap (declaration_diagnostics ctx.type_exists)) := by
  induction declarations with
  | nil => intro ctx; simp [visit_declarations, ValidationContext.append_nil]
  | cons decl rest ih =>
    intro ctx
    cases decl with
    | Enum enum_decl =>
      rw [visit_declarations, visit_enum_eq, ih]
      simp [ValidationContext.append_append, ValidationContext.type_exists_append,
        declaration_diagnostics]
    | Model model_decl =>
      rw [visit_declarations, visit_model_eq, ih]
      simp [ValidationContext.append_append, ValidationContext.type_exists_append,
        declaration_diagnostics]

theorem check_declaration_names_eq (declarations : List Declaration) :
    ∀ (declaration_names : List String) (ctx : ValidationContext),
      check_declaration_names declarations declaration_names ctx =
        ctx.append ((later_duplicates Declaration.name declaration_names declarations).map
          duplicate_declaration_diagnostic) := by
  induction declarations with
  | nil =>
    intro declaration_names ctx
    simp [check_declaration_names, later_duplicates, ValidationContext.append_nil]
  | cons decl rest ih =>
    intro declaration_names ctx
    rw [check_declaration_names, later_duplicates]
    by_cases h : decl.name ∈ declaration_names
    · rw [if_pos h, if_pos h, ih, ValidationContext.add_error_eq_append,
        ValidationContext.append_append]
      rfl
    · rw [if_neg h, if_neg h, ih]

theorem register_declarations_errors (declarations : List Declaration) :
    ∀ ctx : ValidationContext,
      (register_declarations declarations ctx).errors_ = ctx.errors_ := by
  induction declarations with
  | nil => intro ctx; rfl
  | cons decl rest ih =>
    intro ctx
    cases decl <;> simp [register_declarations, ih, ValidationContext.register_enum,
      ValidationContext.register_model]

theorem register_declarations_append (declarations : List Declaration) :
    ∀ (ctx : ValidationContext) (added : List ValidationError),
      register_declarations declarations (ctx.append added) =
        (register_declarations declarations ctx).append added := by
  induction declarations with
  | nil => intro ctx added; rfl
  | cons decl rest ih =>
    intro ctx added
    cases decl with
    | Enum enum_decl =>
      simp only [register_declarations]
      rw [← ih]
      rfl
    | Model model_decl =>
      simp only [register_declarations]
      rw [← ih]
      rfl

theorem register_declarations_type_exists (declarations : List Declaration) :
    ∀ (ctx : ValidationContext) (name : String),
      (register_declarations declarations ctx).type_exists name =
        (ctx.type_exists name || declarations.any fun decl => decl.name = name) := by
  induction declarations with
  | nil => intro ctx name; simp [register_declarations]
  | cons decl rest ih =>
    intro ctx name
    cases decl with
    | Enum enum_decl =>
      rw [register_declarations, ih]
      simp only [ValidationContext.type_exists, ValidationContext.register_enum, List.any_cons,
        Declaration.name]
      generalize decide (enum_decl.name = name) = here
      generalize (ctx.enums_.any fun entry => decide (entry.1 = name)) = in_enums
      generalize (ctx.models_.any fun entry => decide (entry.1 = name)) = in_models
      generalize (rest.any fun decl => decide (decl.name = name)) = later
      cases here <;> cases in_enums <;> cases in_models <;> cases later <;> rfl
    | Model model_decl =>
      rw [register_declarations, ih]
      simp only [ValidationContext.type_exists, ValidationContext.register_model, List.any_cons,
        Declaration.name]
      generalize decide (model_decl.name = name) = here
      generalize (ctx.enums_.any fun entry => decide (entry.1 = name)) = in_enums
      generalize (ctx.models_.any fun entry => decide (entry.1 = name)) = in_models
      generalize (rest.any fun decl => decide (decl.name = name)) = later
      cases here <;> cases in_enums <;> cases in_models <;> cases later <;> rfl

/-- `visit_schema` enters the declarations in the symbol tables and appends
`schema_diagnostics`. -/
theorem visit_schema_eq (schema : Schema) (ctx : ValidationContext) :
    visit_schema schema ctx =
      (register_declarations schema.declarations ctx).append
        (schema_diagnostics ctx.type_exists schema) := by
  have hknown : (register_declarations schema.declarations ctx).type_exists =
      fun name => ctx.type_exists name || schema.declares name := by
    funext name
    rw [register_declarations_type_exists]
    rfl
  unfold visit_schema schema_diagnostics
  simp only [ValidationContext.add_error_eq_append]
  by_cases hns : schema.namespace_name.isEmpty = true
  · simp only [hns, if_true]
    rw [check_declaration_names_eq, ValidationContext.append_append,
      register_declarations_append, visit_declarations_eq, ValidationContext.append_append,
      ValidationContext.type_exists_append, hknown]
    simp
  · simp only [hns, if_false, Bool.false_eq_true]
    rw [check_declaration_names_eq, register_declarations_append, visit_declarations_eq,
      ValidationContext.append_append, ValidationContext.type_exists_append, hknown]
    simp

/-- The diagnostics of a newly constructed validator after one `validate`. -/
theorem validate_fresh_errors (schema : Schema) :
    (Validator.validate ValidationContext.fresh schema).2.errors_ =
      schema_diagnostics (fun _ => false) schema := by
  unfold Validator.validate
  simp only [visit_schema_eq]
  simp only [ValidationContext.append, register_declarations_errors]
  have : ValidationContext.fresh.type_exists = fun _ => false := by
    funext name; rfl
  rw [this]
  rfl

/-- A schema is accepted exactly when `visit_schema` appends nothing. -/
theorem accepted_iff (schema : Schema) :
    accepted schema ↔ schema_diagnostics (fun _ => false) schema = [] := by
  unfold accepted
  have h := validate_fresh_errors schema
  unfold Validator.validate at h ⊢
  simp only [ValidationContext.has_errors] at h ⊢
  rw [h]
  cases schema_diagnostics (fun _ => false) schema <;> simp

/-! ## Duplicates -/

theorem later_duplicates_eq_nil_iff {α κ : Type} [DecidableEq κ] (key : α → κ)
    (xs : List α) : ∀ seen : List κ,
    later_duplicates key seen xs = [] ↔ (xs.map key).Nodup ∧ ∀ x ∈ xs, key x ∉ seen := by
  induction xs with
  | nil => intro seen; simp [later_duplicates]
  | cons x rest ih =>
    intro seen
    rw [later_duplicates]
    by_cases h : key x ∈ seen
    · simp [h]
    · rw [if_neg h, ih]
      simp only [List.map_cons, List.nodup_cons, List.mem_cons, List.mem_map, not_or,
        forall_eq_or_imp]
      constructor
      · rintro ⟨hnd, hall⟩
        refine ⟨⟨?_, hnd⟩, h, fun y hy => (hall y hy).2⟩
        rintro ⟨y, hy, hxy⟩
        exact (hall y hy).1 hxy
      · rintro ⟨⟨hx, hnd⟩, -, hall⟩
        refine ⟨hnd, fun y hy => ⟨?_, hall y hy⟩⟩
        intro hxy
        exact hx ⟨y, hy, hxy⟩

theorem later_duplicates_length {α κ : Type} [DecidableEq κ] (key : α → κ) (xs : List α) :
    ∀ seen : List κ,
    (later_duplicates key seen xs).length + (seen.toFinset ∪ (xs.map key).toFinset).card =
      xs.length + seen.toFinset.card := by
  induction xs with
  | nil => intro seen; simp [later_duplicates]
  | cons x rest ih =>
    intro seen
    rw [later_duplicates]
    by_cases h : key x ∈ seen
    · rw [if_pos h]
      have hset : seen.toFinset ∪ ((x :: rest).map key).toFinset =
          seen.toFinset ∪ (rest.map key).toFinset := by
        ext k
        simp only [List.map_cons, List.toFinset_cons, Finset.mem_union, List.mem_toFinset,
          Finset.mem_insert]
        constructor
        · rintro (hk | hk | hk)
          · exact Or.inl hk
          · exact Or.inl (hk ▸ h)
          · exact Or.inr hk
        · rintro (hk | hk)
          · exact Or.inl hk
          · exact Or.inr (Or.inr hk)
      rw [hset, List.length_cons, List.length_cons]
      have := ih seen
      omega
    · rw [if_neg h]
      have hset : seen.toFinset ∪ ((x :: rest).map key).toFinset =
          (key x :: seen).toFinset ∪ (rest.map key).toFinset := by
        ext k
        simp only [List.map_cons, List.toFinset_cons, Finset.mem_union, List.mem_toFinset,
          Finset.mem_insert]
        tauto
      have hcard : (key x :: seen).toFinset.card = seen.toFinset.card + 1 := by
        rw [List.toFinset_cons, Finset.card_insert_of_not_mem]
        simpa using h
      rw [hset, List.length_cons]
      have := ih (key x :: seen)
      omega

theorem later_duplicates_eq_filter {α κ : Type} [DecidableEq κ] (key : α → κ) (xs : List α) :
    ∀ seen : List κ,
    later_duplicates key seen xs =
      ((xs.inits.zip xs).filter fun entry =>
        key entry.2 ∈ seen ∨ key entry.2 ∈ entry.1.map key).map Prod.snd := by
  induction xs with
  | nil => intro seen; simp [later_duplicates]
  | cons x rest ih =>
    intro seen
    have hzip : (x :: rest).inits.zip (x :: rest) =
        ([], x) :: (rest.inits.zip rest).map fun entry => (x :: entry.1, entry.2) := by
      rw [List.inits_cons, List.zip_cons_cons, List.zip_map_left]
      rfl
    have hshift : ∀ (p : List α × α → Bool) (l : List (List α × α)),
        ((l.map fun entry => (x :: entry.1, entry.2)).filter p).map Prod.snd =
          (l.filter fun entry => p (x :: entry.1, entry.2)).map Prod.snd := by
      intro p l
      rw [List.filter_map, List.map_map]
      rfl
    rw [later_duplicates, hzip, List.filter_cons]
    by_cases h : key x ∈ seen
    · have hhead : decide (key (([] : List α), x).2 ∈ seen ∨
          key (([] : List α), x).2 ∈ List.map key (([] : List α), x).1) = true := by
        simp [h]
      rw [if_pos h, if_pos hhead, List.map_cons, hshift, ih seen]
      congr 2
      apply List.filter_congr
      intro entry _
      simp only [List.map_cons, List.mem_cons, decide_eq_decide]
      constructor
      · rintro (hk | hk)
        · exact Or.inl hk
        · exact Or.inr (Or.inr hk)
      · rintro (hk | hk | hk)
        · exact Or.inl hk
        · exact Or.inl (hk ▸ h)
        · exact Or.inr hk
    · have hhead : ¬ decide (key (([] : List α), x).2 ∈ seen ∨
          key (([] : List α), x).2 ∈ List.map key (([] : List α), x).1) = true := by
        simp [h]
      rw [if_neg h, if_neg hhead, hshift, ih (key x :: seen)]
      congr 1
      apply List.filter_congr
      intro entry _
      simp only [List.map_cons, List.mem_cons, decide_eq_decide]
      tauto

/-- From an empty set, the loop reports the elements whose key occurs before. -/
theorem later_duplicates_eq_repeats {α κ : Type} [DecidableEq κ] (key : α → κ)
    (xs : List α) : later_duplicates key [] xs = repeats key xs := by
  rw [later_duplicates_eq_filter, repeats]
  simp

/-- The number of repeats is the length minus the number of distinct keys. -/
theorem repeats_length {α κ : Type} [DecidableEq κ] (key : α → κ) (xs : List α) :
    (repeats key xs).length = xs.length - (xs.map key).toFinset.card := by
  have h := later_duplicates_length key xs []
  rw [later_duplicates_eq_repeats] at h
  simp only [List.toFinset_nil, Finset.empty_union, Finset.card_empty, add_zero] at h
  omega

theorem duplicate_enum_value_diagnostics_eq_nil_iff (enum_name : String)
    (values : List EnumValue) : ∀ (value_names : List String) (value_numbers : List Int),
    duplicate_enum_value_diagnostics enum_name values value_names value_numbers = [] ↔
      ((values.map EnumValue.name).Nodup ∧ ∀ value ∈ values, value.name ∉ value_names) ∧
      ((values.map EnumValue.value).Nodup ∧ ∀ value ∈ values, value.value ∉ value_numbers) := by
  induction values with
  | nil => intro value_names value_numbers; simp [duplicate_enum_value_diagnostics]
  | cons value rest ih =>
    intro value_names value_numbers
    rw [duplicate_enum_value_diagnostics]
    by_cases h1 : value.name ∈ value_names
    · simp [h1]
    · by_cases h2 : value.value ∈ value_numbers
      · simp [h2]
      · simp only [h1, h2, if_false, List.nil_append, ih, List.map_cons, List.nodup_cons,
          List.mem_cons, List.mem_map, not_or, forall_eq_or_imp, not_false_eq_true, true_and]
        constructor
        · rintro ⟨⟨hnd1, hall1⟩, hnd2, hall2⟩
          refine ⟨⟨⟨?_, hnd1⟩, fun y hy => (hall1 y hy).2⟩, ⟨?_, hnd2⟩,
            fun y hy => (hall2 y hy).2⟩
          · rintro ⟨y, hy, hxy⟩
            exact (hall1 y hy).1 hxy
          · rintro ⟨y, hy, hxy⟩
            exact (hall2 y hy).1 hxy
        · rintro ⟨⟨⟨hx1, hnd1⟩, hall1⟩, ⟨hx2, hnd2⟩, hall2⟩
          refine ⟨⟨hnd1, fun y hy => ⟨?_, hall1 y hy⟩⟩, hnd2, fun y hy => ⟨?_, hall2 y hy⟩⟩
          · intro hxy
            exact hx1 ⟨y, hy, hxy⟩
          · intro hxy
            exact hx2 ⟨y, hy, hxy⟩

/-! ## A schema is accepted exactly when it is well formed -/

theorem enum_value_diagnostics_eq_nil_iff (value : EnumValue) :
    enum_value_diagnostics value = [] ↔ 0 ≤ value.value := by
  unfold enum_value_diagnostics
  split
  · simp only [List.cons_ne_nil, false_iff]; omega
  · simp only [true_iff]; omega

theorem field_number_diagnostics_eq_nil_iff (field : Field) :
    field_number_diagnostics field = [] ↔ valid_field_number field.number := by
  unfold field_number_diagnostics valid_field_number
  by_cases h1 : field.number < 1 ∨ field.number > 536870911
  · rw [if_pos h1]
    constructor
    · intro h
      simp at h
    · rintro ⟨h3, h4, -⟩
      omega
  · by_cases h2 : field.number ≥ 19000 ∧ field.number ≤ 19999
    · rw [if_neg h1, if_pos h2]
      constructor
      · intro h
        simp at h
      · rintro ⟨-, -, h3⟩
        exact absurd h2 h3
    · rw [if_neg h1, if_neg h2]
      constructor
      · intro _
        exact ⟨by omega, by omega, h2⟩
      · intro _
        rfl

theorem PrimitiveTypeKind.get_name_eq_string (kind : PrimitiveTypeKind) :
    kind.get_name = "string" ↔ kind = PrimitiveTypeKind.STRING := by
  cases kind <;> simp [PrimitiveTypeKind.get_name]

theorem modifier_diagnostics_eq_nil_iff (field : Field) :
    field_modifier_diagnostics field ++ modifier_compatibility_diagnostics field = [] ↔
      satisfies_modifier_rules field := by
  unfold field_modifier_diagnostics modifier_compatibility_diagnostics satisfies_modifier_rules
  generalize field.is_optional = o
  generalize field.is_repeated = r
  generalize field.is_packed = p
  generalize field.is_interned = i
  generalize field.is_bitmap = b
  generalize field.location = location
  cases field.type with
  | UserType name loc =>
    cases o <;> cases r <;> cases p <;> cases i <;> cases b <;>
      simp [Ty.is_primitive, Ty.has_kind, Ty.get_name]
  | PrimitiveType kind loc =>
    cases kind <;> cases o <;> cases r <;> cases p <;> cases i <;> cases b <;>
      simp [Ty.is_primitive, Ty.has_kind, Ty.get_name, PrimitiveTypeKind.get_name]

theorem type_exists_diagnostics_eq_nil_iff (known : String → Bool) (type : Ty)
    (location : SourceLocation) :
    type_exists_diagnostics known type location = [] ↔
      ∀ name loc, type = Ty.UserType name loc → known name = true := by
  unfold type_exists_diagnostics
  cases type with
  | PrimitiveType kind loc => simp
  | UserType name loc =>
    cases h : known name <;> simp [h]

theorem Schema.declares_iff (schema : Schema) (name : String) :
    schema.declares name = true ↔ ∃ decl ∈ schema.declarations, decl.name = name := by
  simp [Schema.declares]

theorem field_diagnostics_eq_nil_iff (schema : Schema) (field : Field) :
    field_diagnostics (fun name => false || schema.declares name) field = [] ↔
      well_formed_field schema field := by
  unfold field_diagnostics well_formed_field
  have hmods := modifier_diagnostics_eq_nil_iff field
  simp only [List.append_eq_nil] at hmods ⊢
  rw [field_number_diagnostics_eq_nil_iff, type_exists_diagnostics_eq_nil_iff, ← hmods]
  simp only [Bool.false_or, Schema.declares_iff]
  tauto

theorem enum_diagnostics_eq_nil_iff (enum_decl : EnumDecl) :
    enum_diagnostics enum_decl = [] ↔ well_formed_enum enum_decl := by
  unfold enum_diagnostics well_formed_enum
  cases hvalues : enum_decl.values with
  | nil => simp
  | cons value rest =>
    simp only [List.isEmpty_cons, Bool.false_eq_true, if_false, List.append_eq_nil,
      duplicate_enum_value_diagnostics_eq_nil_iff, List.flatMap_eq_nil_iff,
      enum_value_diagnostics_eq_nil_iff, ne_eq, List.cons_ne_nil, not_false_eq_true, true_and,
      List.not_mem_nil, not_false_eq_true, implies_true, and_true]
    tauto

theorem model_diagnostics_eq_nil_iff (schema : Schema) (model : ModelDecl) :
    model_diagnostics (fun name => false || schema.declares name) model = [] ↔
      well_formed_model schema model := by
  unfold model_diagnostics well_formed_model
  cases hfields : model.fields with
  | nil => simp
  | cons field rest =>
    simp only [List.isEmpty_cons, Bool.false_eq_true, if_false, List.append_eq_nil,
      List.map_eq_nil_iff, later_duplicates_eq_nil_iff, List.flatMap_eq_nil_iff,
      field_diagnostics_eq_nil_iff, ne_eq, List.cons_ne_nil, not_false_eq_true, true_and,
      List.not_mem_nil, implies_true, and_true]

/-- The validator accepts exactly the well-formed schemas. -/
theorem accepted_iff_well_formed (schema : Schema) : accepted schema ↔ well_formed schema := by
  rw [accepted_iff]
  unfold schema_diagnostics well_formed
  simp only [List.append_eq_nil, List.map_eq_nil_iff, later_duplicates_eq_nil_iff,
    List.flatMap_eq_nil_iff, List.not_mem_nil, not_false_eq_true, implies_true, and_true]
  have hdecl : (∀ decl ∈ schema.declarations,
      declaration_diagnostics (fun name => false || schema.declares name) decl = []) ↔
      (∀ enum_decl, Declaration.Enum enum_decl ∈ schema.declarations →
        well_formed_enum enum_decl) ∧
      (∀ model, Declaration.Model model ∈ schema.declarations →
        well_formed_model schema model) := by
    constructor
    · intro h
      refine ⟨fun enum_decl hmem => ?_, fun model hmem => ?_⟩
      · exact (enum_diagnostics_eq_nil_iff enum_decl).1 (h _ hmem)
      · exact (model_diagnostics_eq_nil_iff schema model).1 (h _ hmem)
    · rintro ⟨henum, hmodel⟩ decl hmem
      cases decl with
      | Enum enum_decl => exact (enum_diagnostics_eq_nil_iff enum_decl).2 (henum _ hmem)
      | Model model => exact (model_diagnostics_eq_nil_iff schema model).2 (hmodel _ hmem)
  rw [hdecl]
  cases schema.namespace_name.isEmpty <;> simp

/-! ## The validator claims -/

theorem valid_schema_accepted : accepted valid_schema := by
  unfold accepted
  decide

/-- What a field of a model of the schema draws is among the diagnostics
of the whole validation. -/
theorem field_diagnostics_mem_validate (schema : Schema) (model : ModelDecl) (field : Field)
    (e : ValidationError) (hmodel : Declaration.Model model ∈ schema.declarations)
    (hfield : field ∈ model.fields)
    (he : e ∈ field_diagnostics (fun name => false || schema.declares name) field) :
    e ∈ (Validator.validate ValidationContext.fresh schema).2.errors_ := by
  rw [validate_fresh_errors]
  unfold schema_diagnostics
  refine List.mem_append_right _ (List.mem_append_right _ ?_)
  rw [List.mem_flatMap]
  refine ⟨Declaration.Model model, hmodel, ?_⟩
  show e ∈ model_diagnostics _ model
  unfold model_diagnostics
  have hne : model.fields.isEmpty = false := by
    cases hfields : model.fields with
    | nil => rw [hfields] at hfield; simp at hfield
    | cons first rest => rfl
  rw [hne]
  refine List.mem_append_right _ ?_
  rw [List.mem_flatMap]
  exact ⟨field, hfield, he⟩

/-- What a value of a non-empty enum of the schema draws is among the
diagnostics of the whole validation. -/
theorem enum_value_diagnostics_mem_validate (schema : Schema) (enum_decl : EnumDecl)
    (value : EnumValue) (e : ValidationError)
    (henum : Declaration.Enum enum_decl ∈ schema.declarations)
    (hvalue : value ∈ enum_decl.values) (he : e ∈ enum_value_diagnostics value) :
    e ∈ (Validator.validate ValidationContext.fresh schema).2.errors_ := by
  rw [validate_fresh_errors]
  unfold schema_diagnostics
  refine List.mem_append_right _ (List.mem_append_right _ ?_)
  rw [List.mem_flatMap]
  refine ⟨Declaration.Enum enum_decl, henum, ?_⟩
  show e ∈ enum_diagnostics enum_decl
  unfold enum_diagnostics
  have hne : enum_decl.values.isEmpty = false := by
    cases hvalues : enum_decl.values with
    | nil => rw [hvalues] at hvalue; simp at hvalue
    | cons first rest => rfl
  rw [hne]
  refine List.mem_append_right _ ?_
  rw [List.mem_flatMap]
  exact ⟨value, hvalue, he⟩

/-- C12. `validate_field_number` appends the 'out of valid range' diagnostic
exactly when the number is below 1 or above 536870911, and the 'reserved
range' diagnostic exactly when the number lies in 19000..19999, never both;
for a field of a model of the schema both are then among the diagnostics of
the validation.  So every field number of an accepted schema lies in
1..536870911 outside 19000..19999, and a schema with a negative field number
is not accepted. -/
theorem field_number_range :
    (∀ (field : Field) (ctx : ValidationContext),
      (validate_field_number field ctx).errors_ =
        ctx.errors_ ++
          ((if field.number < 1 ∨ field.number > 536870911 then
              [{ message :=
                   "Field number " ++ toString field.number ++
                     " is out of valid range (1-536870911)"
                 location := field.location }]
            else []) ++
          (if 19000 ≤ field.number ∧ field.number ≤ 19999 then
            [{ message :=
                 "Field number " ++ toString field.number ++
                   " is in reserved range (19000-19999)"
               location := field.location }]
          else []))) ∧
    (∀ field : Field,
      ¬((field.number < 1 ∨ field.number > 536870911) ∧
        (19000 ≤ field.number ∧ field.number ≤ 19999))) ∧
    (∀ (schema : Schema) (model : ModelDecl) (field : Field),
      Declaration.Model model ∈ schema.declarations → field ∈ model.fields →
      (field.number < 1 ∨ field.number > 536870911) →
      { message :=
          "Field number " ++ toString field.number ++ " is out of valid range (1-536870911)"
        location := field.location } ∈
        (Validator.validate ValidationContext.fresh schema).2.errors_) ∧
    (∀ (schema : Schema) (model : ModelDecl) (field : Field),
      Declaration.Model model ∈ schema.declarations → field ∈ model.fields →
      (19000 ≤ field.number ∧ field.number ≤ 19999) →
      { message :=
          "Field number " ++ toString field.number ++ " is in reserved range (19000-19999)"
        location := field.location } ∈
        (Validator.validate ValidationContext.fresh schema).2.errors_) ∧
    (∀ (schema : Schema) (model : ModelDecl) (field : Field),
      accepted schema → Declaration.Model model ∈ schema.declarations →
      field ∈ model.fields →
      1 ≤ field.number ∧ field.number ≤ 536870911 ∧
        ¬(19000 ≤ field.number ∧ field.number ≤ 19999)) ∧
    (∀ (schema : Schema) (model : ModelDecl) (field : Field),
      Declaration.Model model ∈ schema.declarations → field ∈ model.fields →
      field.number < 0 → ¬accepted schema) := by
  have haccepted : ∀ (schema : Schema) (model : ModelDecl) (field : Field),
      accepted schema → Declaration.Model model ∈ schema.declarations →
      field ∈ model.fields → valid_field_number field.number := by
    intro schema model field hacc hmodel hfield
    exact ((((accepted_iff_well_formed schema).1 hacc).2.2.2 model hmodel).2.2 field hfield).1
  refine ⟨?_, ?_, ?_, ?_, haccepted, ?_⟩
  · intro field ctx
    rw [validate_field_number_eq]
    rfl
  · intro field
    omega
  · intro schema model field hmodel hfield hrange
    apply field_diagnostics_mem_validate schema model field _ hmodel hfield
    unfold field_diagnostics field_number_diagnostics
    rw [if_pos hrange]
    simp
  · intro schema model field hmodel hfield hreserved
    apply field_diagnostics_mem_validate schema model field _ hmodel hfield
    unfold field_diagnostics field_number_diagnostics
    rw [if_pos hreserved]
    simp
  · intro schema model field hmodel hfield hneg hacc
    have := (haccepted schema model field hacc hmodel hfield).1
    omega

theorem field_number_range_witness :
    accepted valid_schema ∧ Declaration.Model valid_model ∈ valid_schema.declarations ∧
      field_forward ∈ valid_model.fields ∧
      (1 ≤ field_forward.number ∧ field_forward.number ≤ 536870911 ∧
        ¬(19000 ≤ field_forward.number ∧ field_forward.number ≤ 19999)) :=
  ⟨valid_schema_accepted, by decide, by decide,
    field_number_range.2.2.2.2.1 valid_schema valid_model field_forward valid_schema_accepted
      (by decide) (by decide)⟩

/-- C13. In every schema the validator accepts, the field numbers of each
model are pairwise distinct, and in each enum the value names are pairwise
distinct and the value numbers are pairwise distinct. -/
theorem accepted_uniqueness (schema : Schema) (haccepted : accepted schema) :
    (∀ model, Declaration.Model model ∈ schema.declarations →
      (model.fields.map Field.number).Nodup) ∧
    (∀ enum_decl, Declaration.Enum enum_decl ∈ schema.declarations →
      (enum_decl.values.map EnumValue.name).Nodup ∧
        (enum_decl.values.map EnumValue.value).Nodup) := by
  have h := (accepted_iff_well_formed schema).1 haccepted
  refine ⟨fun model hmodel => (h.2.2.2 model hmodel).2.1, fun enum_decl henum => ?_⟩
  exact ⟨(h.2.2.1 enum_decl henum).2.1, (h.2.2.1 enum_decl henum).2.2.1⟩

theorem accepted_uniqueness_witness :
    accepted valid_schema ∧
      ((∀ model, Declaration.Model model ∈ valid_schema.declarations →
        (model.fields.map Field.number).Nodup) ∧
      (∀ enum_decl, Declaration.Enum enum_decl ∈ valid_schema.declarations →
        (enum_decl.values.map EnumValue.name).Nodup ∧
          (enum_decl.values.map EnumValue.value).Nodup)) :=
  ⟨valid_schema_accepted, accepted_uniqueness valid_schema valid_schema_accepted⟩

/-- C14. For every field, `validate_field_modifiers` or
`check_modifier_compatibility` appends a diagnostic exactly when the field
violates one of the modifier rules, and every diagnostic they append carries
the location of the field.  So every field of an accepted schema satisfies
the rules.  For a field that is both optional and repeated, the first
diagnostic the modifier checks of `visit_field` append is the 'both optional
and repeated' one: it follows directly the diagnostics of the number check. -/
theorem modifier_rules :
    (∀ (field : Field) (ctx ctx1 : ValidationContext),
      ((validate_field_modifiers field ctx).errors_ ≠ ctx.errors_ ∨
        (check_modifier_compatibility field ctx1).errors_ ≠ ctx1.errors_) ↔
      ¬satisfies_modifier_rules field) ∧
    (∀ (field : Field) (ctx : ValidationContext), ∃ added : List ValidationError,
      (validate_field_modifiers field ctx).errors_ = ctx.errors_ ++ added ∧
        ∀ e ∈ added, e.location = field.location) ∧
    (∀ (field : Field) (ctx : ValidationContext), ∃ added : List ValidationError,
      (check_modifier_compatibility field ctx).errors_ = ctx.errors_ ++ added ∧
        ∀ e ∈ added, e.location = field.location) ∧
    (∀ (schema : Schema) (model : ModelDecl) (field : Field),
      accepted schema → Declaration.Model model ∈ schema.declarations →
      field ∈ model.fields → satisfies_modifier_rules field) ∧
    (∀ (field : Field) (ctx : ValidationContext),
      field.is_optional = true → field.is_repeated = true →
      ∃ rest : List ValidationError,
        (visit_field field ctx).errors_ =
          (validate_field_number field ctx).errors_ ++
            { message := "Field cannot be both 'optional' and 'repeated'"
              location := field.location } :: rest) ∧
    (Validator.validate ValidationContext.fresh
        (scenario_schema [field_optional_repeated])).2.errors_ =
      [{ message := "Field cannot be both 'optional' and 'repeated'"
         location := { line := 1, column := 24, offset := 23 } }] := by
  refine ⟨?_, ?_, ?_, ?_, ?_, by decide⟩
  · intro field ctx ctx1
    rw [validate_field_modifiers_eq, check_modifier_compatibility_eq,
      ← modifier_diagnostics_eq_nil_iff]
    simp only [ValidationContext.append, ne_eq, List.append_right_eq_self, List.append_eq_nil]
    tauto
  · intro field ctx
    refine ⟨field_modifier_diagnostics field, by rw [validate_field_modifiers_eq]; rfl, ?_⟩
    intro e he
    unfold field_modifier_diagnostics at he
    simp only [List.mem_append] at he
    rcases he with he | he | he | he | he <;>
      · split at he
        · rw [List.mem_singleton] at he
          rw [he]
        · simp at he
  · intro field ctx
    refine ⟨modifier_compatibility_diagnostics field,
      by rw [check_modifier_compatibility_eq]; rfl, ?_⟩
    intro e he
    unfold modifier_compatibility_diagnostics at he
    simp only [List.mem_append] at he
    rcases he with he | he | he
    · split at he
      · rw [List.mem_singleton] at he
        rw [he]
      · simp at he
    · split at he
      · split at he
        · simp at he
        · rw [List.mem_singleton] at he
          rw [he]
      · simp at he
    · split at he
      · split at he
        · simp at he
        · rw [List.mem_singleton] at he
          rw [he]
      · simp at he
  · intro schema model field hacc hmodel hfield
    exact ((((accepted_iff_well_formed schema).1 hacc).2.2.2 model hmodel).2.2 field
      hfield).2.1
  · intro field ctx hoptional hrepeated
    rw [visit_field_eq, validate_field_number_eq]
    unfold field_diagnostics field_modifier_diagnostics
    simp only [hoptional, hrepeated, Bool.and_self, if_true, ValidationContext.append,
      List.append_assoc, List.cons_append, List.nil_append]
    exact ⟨_, rfl⟩

theorem modifier_rules_witness :
    accepted valid_schema ∧ Declaration.Model valid_model ∈ valid_schema.declarations ∧
      field_packed_xs ∈ valid_model.fields ∧ satisfies_modifier_rules field_packed_xs :=
  ⟨valid_schema_accepted, by decide, by decide,
    modifier_rules.2.2.2.1 valid_schema valid_model field_packed_xs valid_schema_accepted
      (by decide) (by decide)⟩

/-- C15. In every schema the validator accepts, every enum has a value and
no negative value, and every model has a field.  `visit_enum` on an enum
without values and `visit_model` on a model without fields append exactly
one diagnostic, at the location of the declaration; `visit_enum_value`
appends the 'cannot be negative' diagnostic at the location of a negative
value, and for a value of an enum of the schema that diagnostic is among the
diagnostics of the validation. -/
theorem non_empty_declarations :
    (∀ schema : Schema, accepted schema →
      (∀ enum_decl, Declaration.Enum enum_decl ∈ schema.declarations →
        enum_decl.values ≠ [] ∧ ∀ value ∈ enum_decl.values, 0 ≤ value.value) ∧
      (∀ model, Declaration.Model model ∈ schema.declarations → model.fields ≠ [])) ∧
    (∀ (enum_decl : EnumDecl) (ctx : ValidationContext), enum_decl.values = [] →
      (visit_enum enum_decl ctx).errors_ =
        ctx.errors_ ++
          [{ message := "Enum '" ++ enum_decl.name ++ "' must have at least one value"
             location := enum_decl.location }]) ∧
    (∀ (model : ModelDecl) (ctx : ValidationContext), model.fields = [] →
      (visit_model model ctx).errors_ =
        ctx.errors_ ++
          [{ message := "Model '" ++ model.name ++ "' must have at least one field"
             location := model.location }]) ∧
    (∀ (value : EnumValue) (ctx : ValidationContext), value.value < 0 →
      (visit_enum_value value ctx).errors_ =
        ctx.errors_ ++
          [{ message := "Enum value '" ++ value.name ++ "' cannot be negative"
             location := value.location }]) ∧
    (∀ (schema : Schema) (enum_decl : EnumDecl) (value : EnumValue),
      Declaration.Enum enum_decl ∈ schema.declarations → value ∈ enum_decl.values →
      value.value < 0 →
      { message := "Enum value '" ++ value.name ++ "' cannot be negative"
        location := value.location } ∈
        (Validator.validate ValidationContext.fresh schema).2.errors_) := by
  refine ⟨?_, ?_, ?_, ?_, ?_⟩
  · intro schema hacc
    have h := (accepted_iff_well_formed schema).1 hacc
    refine ⟨fun enum_decl henum => ?_, fun model hmodel => (h.2.2.2 model hmodel).1⟩
    exact ⟨(h.2.2.1 enum_decl henum).1, (h.2.2.1 enum_decl henum).2.2.2⟩
  · intro enum_decl ctx hempty
    unfold visit_enum
    rw [hempty]
    rfl
  · intro model ctx hempty
    unfold visit_model
    rw [hempty]
    rfl
  · intro value ctx hneg
    unfold visit_enum_value
    rw [if_pos hneg]
    rfl
  · intro schema enum_decl value henum hvalue hneg
    apply enum_value_diagnostics_mem_validate schema enum_decl value _ henum hvalue
    unfold enum_value_diagnostics
    rw [if_pos hneg]
    simp

theorem non_empty_declarations_witness :
    accepted valid_schema ∧
      ((∀ enum_decl, Declaration.Enum enum_decl ∈ valid_schema.declarations →
        enum_decl.values ≠ [] ∧ ∀ value ∈ enum_decl.values, 0 ≤ value.value) ∧
      (∀ model, Declaration.Model model ∈ valid_schema.declarations → model.fields ≠ [])) :=
  ⟨valid_schema_accepted, non_empty_declarations.1 valid_schema valid_schema_accepted⟩

/-- C16. `check_duplicate_field_numbers` appends one 'Duplicate field number'
diagnostic for each field whose number occurs in an earlier field of the
model, in order, each at the location of that later field; so their number
is the number of such fields.  Validation of
`namespace t; model M { int32 a = 1; int32 b = 1; }` yields exactly one
diagnostic, located at field `b`. -/
theorem duplicate_numbers_at_later_field :
    (∀ (model : ModelDecl) (ctx : ValidationContext),
      (check_duplicate_field_numbers model ctx).errors_ =
        ctx.errors_ ++
          (repeats Field.number model.fields).map fun field =>
            { message :=
                "Duplicate field number " ++ toString field.number ++ " in model '" ++
                  model.name ++ "'"
              location := field.location }) ∧
    (∀ (model : ModelDecl) (ctx : ValidationContext),
      (check_duplicate_field_numbers model ctx).errors_.length =
        ctx.errors_.length + (repeats Field.number model.fields).length) ∧
    (Validator.validate ValidationContext.fresh
        (scenario_schema [field_a, field_b_again])).2.errors_ =
      [{ message := "Duplicate field number 1 in model 'M'"
         location := field_b_again.location }] := by
  have hfirst : ∀ (model : ModelDecl) (ctx : ValidationContext),
      (check_duplicate_field_numbers model ctx).errors_ =
        ctx.errors_ ++
          (repeats Field.number model.fields).map fun field =>
            { message :=
                "Duplicate field number " ++ toString field.number ++ " in model '" ++
                  model.name ++ "'"
              location := field.location } := by
    intro model ctx
    unfold check_duplicate_field_numbers
    rw [check_duplicate_field_numbers_loop_eq, later_duplicates_eq_repeats]
    rfl
  refine ⟨hfirst, ?_, by decide⟩
  intro model ctx
  rw [hfirst, List.length_append, List.length_map]

/-- C17. The first loop of `visit_schema` appends one 'Duplicate declaration
name' diagnostic for each declaration whose name was used by an earlier
declaration, enum or model, at the location of that later declaration; their
number is the number of declarations minus the number of distinct names.  So
the declaration names of an accepted schema are pairwise distinct. -/
theorem duplicate_names_at_later_declaration :
    (∀ (declarations : List Declaration) (ctx : ValidationContext),
      (check_declaration_names declarations [] ctx).errors_ =
        ctx.errors_ ++
          (repeats Declaration.name declarations).map fun decl =>
            { message := "Duplicate declaration name '" ++ decl.name ++ "'"
              location := decl.location }) ∧
    (∀ declarations : List Declaration,
      (repeats Declaration.name declarations).length =
        declarations.length - (declarations.map Declaration.name).toFinset.card) ∧
    (∀ schema : Schema, accepted schema →
      (schema.declarations.map Declaration.name).Nodup) := by
  refine ⟨?_, ?_, ?_⟩
  · intro declarations ctx
    rw [check_declaration_names_eq, later_duplicates_eq_repeats]
    rfl
  · intro declarations
    exact repeats_length Declaration.name declarations
  · intro schema hacc
    exact ((accepted_iff_well_formed schema).1 hacc).2.1

theorem duplicate_names_at_later_declaration_witness :
    accepted valid_schema ∧ (valid_schema.declarations.map Declaration.name).Nodup :=
  ⟨valid_schema_accepted, duplicate_names_at_later_declaration.2.2 valid_schema valid_schema_accepted⟩

/-- C19. A newly constructed validator returns true with an empty list of
diagnostics for every well-formed schema: non-empty namespace, distinct
declaration names, enums with a value and with distinct value names and
distinct non-negative numbers, models with a field and with distinct field
numbers in 1..536870911 outside 19000..19999, fields that satisfy the
modifier rules, user types that name a declared enum or model. -/
theorem no_false_rejections (schema : Schema) (hwell : well_formed schema) :
    (Validator.validate ValidationContext.fresh schema).1 = true ∧
      (Validator.validate ValidationContext.fresh schema).2.get_errors = [] := by
  have hacc := (accepted_iff_well_formed schema).2 hwell
  refine ⟨hacc, ?_⟩
  unfold ValidationContext.get_errors
  rw [validate_fresh_errors]
  exact (accepted_iff schema).1 hacc

/-! ## Which diagnostics are 'Unknown type' diagnostics

Every message of the validator other than `Unknown type '...'` starts with a
character other than `U`. -/

theorem head_append_of_head (a b : String) (c : Char) (h : a.data.head? = some c) :
    (a ++ b).data.head? = some c := by
  rw [String.data_append]
  cases hdata : a.data with
  | nil => rw [hdata] at h; simp at h
  | cons x rest => rw [hdata] at h; simpa using h

theorem String.append_left_cancel (a b c : String) (h : a ++ b = a ++ c) : b = c := by
  have hdata := congrArg String.data h
  simp only [String.data_append, List.append_cancel_left_eq] at hdata
  exact String.ext hdata

theorem String.append_right_cancel (a b c : String) (h : a ++ c = b ++ c) : a = b := by
  have hdata := congrArg String.data h
  simp only [String.data_append, List.append_cancel_right_eq] at hdata
  exact String.ext hdata

theorem not_starts_with_U_of_head (message tail : String) (location : SourceLocation)
    (c : Char) (h : message.data.head? = some c) (hc : c ≠ 'U') :
    ¬starts_with_U { message := message ++ tail, location := location } := by
  unfold starts_with_U
  rw [head_append_of_head message tail c h]
  simpa using hc

theorem not_starts_with_U_of_literal (message : String) (location : SourceLocation)
    (h : message.data.head? ≠ some 'U') :
    ¬starts_with_U { message := message, location := location } := h

theorem enum_value_diagnostics_not_U (value : EnumValue) :
    ∀ e ∈ enum_value_diagnostics value, ¬starts_with_U e := by
  intro e he
  unfold enum_value_diagnostics at he
  split at he
  · rw [List.mem_singleton] at he
    rw [he]
    exact not_starts_with_U_of_head _ _ _ 'E' (head_append_of_head _ _ 'E' rfl) (by decide)
  · simp at he

theorem field_number_diagnostics_not_U (field : Field) :
    ∀ e ∈ field_number_diagnostics field, ¬starts_with_U e := by
  intro e he
  unfold field_number_diagnostics at he
  rw [List.mem_append] at he
  rcases he with he | he <;>
    · split at he
      · rw [List.mem_singleton] at he
        rw [he]
        exact not_starts_with_U_of_head _ _ _ 'F' (head_append_of_head _ _ 'F' rfl)
          (by decide)
      · simp at he

theorem field_modifier_diagnostics_not_U (field : Field) :
    ∀ e ∈ field_modifier_diagnostics field, ¬starts_with_U e := by
  intro e he
  unfold field_modifier_diagnostics at he
  simp only [List.mem_append] at he
  rcases he with he | he | he | he | he <;>
    · split at he
      · rw [List.mem_singleton] at he
        rw [he]
        exact not_starts_with_U_of_literal _ _ (by decide)
      · simp at he

theorem modifier_compatibility_diagnostics_not_U (field : Field) :
    ∀ e ∈ modifier_compatibility_diagnostics field, ¬starts_with_U e := by
  intro e he
  unfold modifier_compatibility_diagnostics at he
  simp only [List.mem_append] at he
  rcases he with he | he | he
  · split at he
    · rw [List.mem_singleton] at he
      rw [he]
      exact not_starts_with_U_of_literal _ _ (by decide)
    · simp at he
  · split at he
    · split at he
      · simp at he
      · rw [List.mem_singleton] at he
        rw [he]
        exact not_starts_with_U_of_literal _ _ (by decide)
    · simp at he
  · split at he
    · split at he
      · simp at he
      · rw [List.mem_singleton] at he
        rw [he]
        exact not_starts_with_U_of_literal _ _ (by decide)
    · simp at he

theorem duplicate_enum_value_diagnostics_not_U (enum_name : String) (values : List EnumValue) :
    ∀ (value_names : List String) (value_numbers : List Int),
      ∀ e ∈ duplicate_enum_value_diagnostics enum_name values value_names value_numbers,
        ¬starts_with_U e := by
  induction values with
  | nil =>
    intro value_names value_numbers e he
    simp [duplicate_enum_value_diagnostics] at he
  | cons value rest ih =>
    intro value_names value_numbers e he
    rw [duplicate_enum_value_diagnostics] at he
    simp only [List.mem_append] at he
    rcases he with he | he | he
    · split at he
      · rw [List.mem_singleton] at he
        rw [he]
        exact not_starts_with_U_of_head _ _ _ 'D'
          (head_append_of_head _ _ 'D'
            (head_append_of_head _ _ 'D' (head_append_of_head _ _ 'D' rfl)))
          (by decide)
      · simp at he
    · split at he
      · rw [List.mem_singleton] at he
        rw [he]
        exact not_starts_with_U_of_head _ _ _ 'D'
          (head_append_of_head _ _ 'D'
            (head_append_of_head _ _ 'D' (head_append_of_head _ _ 'D' rfl)))
          (by decide)
      · simp at he
    · exact ih _ _ e he

theorem enum_diagnostics_not_U (enum_decl : EnumDecl) :
    ∀ e ∈ enum_diagnostics enum_decl, ¬starts_with_U e := by
  intro e he
  unfold enum_diagnostics at he
  split at he
  · rw [List.mem_singleton] at he
    rw [he]
    exact not_starts_with_U_of_head _ _ _ 'E' (head_append_of_head _ _ 'E' rfl) (by decide)
  · rw [List.mem_append, List.mem_flatMap] at he
    rcases he with he | ⟨value, -, he⟩
    · exact duplicate_enum_value_diagnostics_not_U _ _ _ _ e he
    · exact enum_value_diagnostics_not_U value e he

/-- An 'Unknown type' diagnostic among the diagnostics of a validation
stems from a field of a model of the schema whose type names no
declaration. -/
theorem starts_with_U_origin (schema : Schema) (e : ValidationError)
    (he : e ∈ (Validator.validate ValidationContext.fresh schema).2.errors_)
    (hU : starts_with_U e) :
    ∃ (model : ModelDecl) (field : Field) (name : String) (location : SourceLocation),
      Declaration.Model model ∈ schema.declarations ∧ field ∈ model.fields ∧
      field.type = Ty.UserType name location ∧ schema.declares name = false ∧
      e = { message := "Unknown type '" ++ name ++ "'", location := field.location } := by
  rw [validate_fresh_errors] at he
  unfold schema_diagnostics at he
  simp only [List.mem_append, List.mem_map, List.mem_flatMap] at he
  rcases he with he | ⟨decl, -, he⟩ | ⟨decl, hdecl, he⟩
  · exfalso
    split at he
    · rw [List.mem_singleton] at he
      rw [he] at hU
      exact absurd hU (not_starts_with_U_of_literal _ _ (by decide))
    · simp at he
  · exfalso
    rw [← he] at hU
    exact absurd hU
      (not_starts_with_U_of_head _ _ _ 'D' (head_append_of_head _ _ 'D' rfl) (by decide))
  · cases decl with
    | Enum enum_decl => exact absurd hU (enum_diagnostics_not_U enum_decl e he)
    | Model model =>
      have he1 : e ∈ model_diagnostics (fun name => false || schema.declares name) model := he
      unfold model_diagnostics at he1
      split at he1
      · exfalso
        rw [List.mem_singleton] at he1
        rw [he1] at hU
        exact absurd hU
          (not_starts_with_U_of_head _ _ _ 'M' (head_append_of_head _ _ 'M' rfl) (by decide))
      · simp only [List.mem_append, List.mem_map, List.mem_flatMap] at he1
        rcases he1 with ⟨field, -, he1⟩ | ⟨field, hfield, he1⟩
        · exfalso
          rw [← he1] at hU
          exact absurd hU
            (not_starts_with_U_of_head _ _ _ 'D'
              (head_append_of_head _ _ 'D'
                (head_append_of_head _ _ 'D' (head_append_of_head _ _ 'D' rfl)))
              (by decide))
        · unfold field_diagnostics at he1
          simp only [List.mem_append] at he1
          rcases he1 with he1 | he1 | he1 | he1
          · exact absurd hU (field_number_diagnostics_not_U field e he1)
          · exact absurd hU (field_modifier_diagnostics_not_U field e he1)
          · unfold type_exists_diagnostics at he1
            split at he1
            · rename_i name location htype
              split at he1
              · rename_i hknown
                rw [List.mem_singleton] at he1
                refine ⟨model, field, name, location, hdecl, hfield, htype, ?_, he1⟩
                simpa using hknown
              · simp at he1
            · simp at he1
          · exact absurd hU (modifier_compatibility_diagnostics_not_U field e he1)

/-- C18. With a newly constructed validator, the 'Unknown type' diagnostic
for a field of user type `T` of a model of the schema is among the
diagnostics of the validation exactly when no declaration of the schema,
enum or model, before or after the model, is named `T`. -/
theorem type_resolution (schema : Schema) (model : ModelDecl) (field : Field)
    (name : String) (location : SourceLocation)
    (hmodel : Declaration.Model model ∈ schema.declarations) (hfield : field ∈ model.fields)
    (htype : field.type = Ty.UserType name location) :
    { message := "Unknown type '" ++ name ++ "'", location := field.location } ∈
        (Validator.validate ValidationContext.fresh schema).2.errors_ ↔
      ¬∃ decl ∈ schema.declarations, decl.name = name := by
  rw [← Schema.declares_iff]
  constructor
  · intro he
    have hU : starts_with_U
        { message := "Unknown type '" ++ name ++ "'", location := field.location } := by
      unfold starts_with_U
      exact head_append_of_head _ _ 'U' (head_append_of_head _ _ 'U' rfl)
    obtain ⟨model1, field1, name1, location1, -, -, -, hundeclared, heq⟩ :=
      starts_with_U_origin schema _ he hU
    have hmessage := congrArg ValidationError.message heq
    have hname : name = name1 :=
      String.append_left_cancel _ _ _ (String.append_right_cancel _ _ _ hmessage)
    rw [hname, hundeclared]
    simp
  · intro hundeclared
    apply field_diagnostics_mem_validate schema model field _ hmodel hfield
    unfold field_diagnostics type_exists_diagnostics
    rw [htype]
    have hfalse : schema.declares name = false := by simpa using hundeclared
    simp [hfalse]

theorem type_resolution_witness :
    Declaration.Model valid_model ∈ valid_schema.declarations ∧
      field_forward ∈ valid_model.fields ∧
      field_forward.type = Ty.UserType "Later" { line := 3, column := 70, offset := 117 } ∧
      ({ message := "Unknown type '" ++ "Later" ++ "'", location := field_forward.location } ∈
          (Validator.validate ValidationContext.fresh valid_schema).2.errors_ ↔
        ¬∃ decl ∈ valid_schema.declarations, decl.name = "Later") :=
  ⟨by decide, by decide, rfl,
    type_resolution valid_schema valid_model field_forward "Later"
      { line := 3, column := 70, offset := 117 } (by decide) (by decide) rfl⟩

theorem valid_schema_well_formed : well_formed valid_schema := by
  refine ⟨by decide, by decide, ?_, ?_⟩
  · intro enum_decl henum
    have heq : enum_decl = valid_enum := by
      simpa [valid_schema] using henum
    rw [heq]
    exact ⟨by decide, by decide, by decide, by decide⟩
  · intro model hmodel
    have heq : model = valid_model ∨ model = valid_model_later := by
      simpa [valid_schema] using hmodel
    have hfield : ∀ field : Field, satisfies_modifier_rules field →
        valid_field_number field.number →
        (∀ name location, field.type = Ty.UserType name location →
          name = "Color" ∨ name = "Later") → well_formed_field valid_schema field := by
      intro field hrules hnumber htype
      refine ⟨hnumber, hrules, ?_⟩
      intro name location hname
      rcases htype name location hname with h | h
      · exact ⟨Declaration.Enum valid_enum, by decide, by rw [h]; rfl⟩
      · exact ⟨Declaration.Model valid_model_later, by decide, by rw [h]; rfl⟩
    rcases heq with heq | heq
    · rw [heq]
      refine ⟨by decide, by decide, ?_⟩
      intro field hmem
      simp only [valid_model, List.mem_cons, List.mem_singleton, List.not_mem_nil,
        or_false] at hmem
      rcases hmem with h | h | h | h <;> rw [h] <;>
        refine hfield _ (by unfold satisfies_modifier_rules; decide)
          (by unfold valid_field_number; decide) ?_ <;>
        intro name location hname <;>
        simp [field_packed_xs, field_forward] at hname <;>
        simp [hname]
    · rw [heq]
      refine ⟨by decide, by decide, ?_⟩
      intro field hmem
      simp only [valid_model_later, List.mem_cons, List.mem_singleton, List.not_mem_nil,
        or_false] at hmem
      rcases hmem with h | h <;> rw [h] <;>
        refine hfield _ (by unfold satisfies_modifier_rules; decide)
          (by unfold valid_field_number; decide) ?_ <;>
        intro name location hname <;>
        simp at hname

theorem no_false_rejections_witness :
    well_formed valid_schema ∧
      ((Validator.validate ValidationContext.fresh valid_schema).1 = true ∧
        (Validator.validate ValidationContext.fresh valid_schema).2.get_errors = []) :=
  ⟨valid_schema_well_formed, no_false_rejections valid_schema valid_schema_well_formed⟩

/-! ## Forward compatibility -/

/-- C11 on the code. Forward compatibility fails when the larger model has
a `byte` field before a common field.  Both `model M { uint32 id = 2; }` and
`model M { byte b = 1; uint32 id = 2; }` are accepted, and the second
declares the field of the first with the same name, number, type and
modifiers.  The value `b = 2, id = 7` of the larger model serializes to
`[0x0A, 0x02, 0x10, 0x07]`; `deserialize` of the smaller model, run on these
bytes in a default-constructed object, returns true and leaves `id = 0`:
the tag of `b` carries wire type 2, so the reader takes the value 2 of `b`
for a length and skips the two bytes that hold `id`. -/
theorem forward_compatibility_fails (fc : FloatCasts) (fuel : Nat) :
    accepted (scenario_schema [field_id_two]) ∧
    accepted (scenario_schema [field_b, field_id_two_after_b]) ∧
    (field_id_two_after_b.name = field_id_two.name ∧
      field_id_two_after_b.number = field_id_two.number ∧
      field_id_two_after_b.type.get_name = field_id_two.type.get_name ∧
      field_id_two_after_b.modifiers = field_id_two.modifiers ∧
      field_b.number ≠ field_id_two.number) ∧
    serialize fc (scenario_schema [field_b, field_id_two_after_b])
        (scenario_model [field_b, field_id_two_after_b])
        (Value.obj [Value.num 2, Value.num 7]) =
      Outcome.ret [0x0A, 0x02, 0x10, 0x07] ∧
    ((serialize fc (scenario_schema [field_b, field_id_two_after_b])
        (scenario_model [field_b, field_id_two_after_b])
        (Value.obj [Value.num 2, Value.num 7])).bind fun data =>
      deserialize fc (scenario_schema [field_id_two]) (scenario_model [field_id_two]) (fuel + 2)
        (default_construct (scenario_schema [field_id_two]) (scenario_model [field_id_two]))
        data) =
      Outcome.ret (true, Value.obj [Value.num 0]) ∧
    Value.obj [Value.num 0] ≠ Value.obj [Value.num 7] := by
  have hser : serialize fc (scenario_schema [field_b, field_id_two_after_b])
      (scenario_model [field_b, field_id_two_after_b])
      (Value.obj [Value.num 2, Value.num 7]) = Outcome.ret [0x0A, 0x02, 0x10, 0x07] := rfl
  refine ⟨by unfold accepted; decide, by unfold accepted; decide, by decide, hser, ?_, by simp⟩
  rw [hser, Outcome.bind_ret]
  cases fuel <;> rfl

/-! ## The automaton of positions accepts the grammar -/

theorem run_append (kinds rest : List TokenType) : ∀ position : Position,
    run position (kinds ++ rest) = (run position kinds).bind fun next => run next rest := by
  induction kinds with
  | nil => intro position; rfl
  | cons kind tail ih =>
    intro position
    simp only [List.cons_append, run]
    cases step position kind with
    | none => rfl
    | some next => exact ih next

theorem run_completion (position : Position) :
    run position (completion position) = some Position.done := by
  cases position <;> decide

theorem step_end_of_file (position next : Position)
    (h : step position TokenType.END_OF_FILE = some next) : next = Position.done := by
  cases position <;> simp [step, modifier_keywords, primitive_type_names] at h
  exact h.symm

theorem step_done_iff (position next : Position) (kind : TokenType)
    (h : step position kind = some next) :
    next = Position.done ↔ kind = TokenType.END_OF_FILE := by
  constructor
  · intro hnext
    rw [hnext] at h
    cases position
    case done => simp [step] at h
    all_goals
      simp only [step] at h
      split_ifs at h <;> simp_all
  · intro hkind
    rw [hkind] at h
    exact step_end_of_file position next h

/-- One step back: what the grammar allows after a token is allowed, with
the token in front, at the position before it. -/
theorem residual_step (position next : Position) (kind : TokenType) (kinds : List TokenType)
    (hstep : step position kind = some next) (h : residual next kinds) :
    residual position (kind :: kinds) := by
  cases position
  case done => simp [step] at hstep
  all_goals
    simp only [step] at hstep
    split_ifs at hstep <;> simp only [Option.some.injEq, reduceCtorEq] at hstep <;>
      subst hstep
  -- start
  · rename_i hk; subst hk
    obtain ⟨tail, htail, rfl⟩ := h
    exact ⟨tail, htail, rfl⟩
  -- namespace_name
  · rename_i hk; subst hk
    exact ⟨kinds, h, rfl⟩
  -- namespace_rest, '.'
  · rename_i hk; subst hk
    obtain ⟨tail, ⟨n, rest, hrest, rfl⟩, rfl⟩ := h
    exact ⟨n + 1, rest, hrest, by simp [List.replicate_succ]⟩
  -- namespace_rest, ';'
  · rename_i hk; subst hk
    exact ⟨0, kinds, h, by simp⟩
  -- namespace_part
  · rename_i hk; subst hk
    exact ⟨kinds, h, rfl⟩
  -- declarations, 'enum'
  · rename_i hk; subst hk
    obtain ⟨tail, ⟨n, rest, ⟨declarations, hdecls, rfl⟩, rfl⟩, rfl⟩ := h
    refine ⟨([TokenType.ENUM, TokenType.IDENTIFIER, TokenType.LBRACE] ++
      ((List.replicate n grammar_enum_value).flatten ++ [TokenType.RBRACE])) :: declarations,
      ?_, by simp⟩
    intro declaration hmem
    rcases List.mem_cons.1 hmem with heq | hmem
    · exact Or.inl ⟨n, heq⟩
    · exact hdecls declaration hmem
  -- declarations, 'model'
  · rename_i hk; subst hk
    obtain ⟨tail, ⟨fields, rest, hfields, ⟨declarations, hdecls, rfl⟩, rfl⟩, rfl⟩ := h
    refine ⟨([TokenType.MODEL, TokenType.IDENTIFIER, TokenType.LBRACE] ++
      (fields.flatten ++ [TokenType.RBRACE])) :: declarations, ?_, by simp⟩
    intro declaration hmem
    rcases List.mem_cons.1 hmem with heq | hmem
    · exact Or.inr ⟨fields, hfields, heq⟩
    · exact hdecls declaration hmem
  -- declarations, end of file
  · rename_i hk; subst hk
    have hnil : kinds = [] := h
    subst hnil
    exact ⟨[], by simp, by simp⟩
  -- enum_name
  · rename_i hk; subst hk
    obtain ⟨tail, htail, rfl⟩ := h
    exact ⟨tail, htail, rfl⟩
  -- enum_open
  · rename_i hk; subst hk
    exact ⟨kinds, h, rfl⟩
  -- enum_body, '}'
  · rename_i hk; subst hk
    exact ⟨0, kinds, h, by simp⟩
  -- enum_body, value name
  · rename_i hk; subst hk
    obtain ⟨tail, ⟨n, rest, hrest, rfl⟩, rfl⟩ := h
    exact ⟨n + 1, rest, hrest, by simp [List.replicate_succ, grammar_enum_value]⟩
  -- enum_equals
  · rename_i hk; subst hk
    obtain ⟨tail, htail, rfl⟩ := h
    exact ⟨tail, htail, rfl⟩
  -- enum_number
  · rename_i hk; subst hk
    obtain ⟨tail, htail, rfl⟩ := h
    exact ⟨tail, htail, rfl⟩
  -- enum_semicolon
  · rename_i hk; subst hk
    exact ⟨kinds, h, rfl⟩
  -- model_name
  · rename_i hk; subst hk
    obtain ⟨tail, htail, rfl⟩ := h
    exact ⟨tail, htail, rfl⟩
  -- model_open
  · rename_i hk; subst hk
    exact ⟨kinds, h, rfl⟩
  -- model_body, '}'
  · rename_i hk; subst hk
    exact ⟨[], kinds, by simp, h, by simp⟩
  -- model_body, modifier
  · rename_i hk
    obtain ⟨field, tail, ⟨modifiers, type, hmods, htype, rfl⟩, ⟨fields, rest, hfields, hrest,
      rfl⟩, rfl⟩ := h
    refine ⟨((kind :: modifiers) ++ [type, TokenType.IDENTIFIER, TokenType.EQUALS,
      TokenType.NUMBER, TokenType.SEMICOLON]) :: fields, rest, ?_, hrest, by simp⟩
    intro field hmem
    rcases List.mem_cons.1 hmem with heq | hmem
    · refine ⟨kind :: modifiers, type, ?_, htype, heq⟩
      intro modifier hmod
      rcases List.mem_cons.1 hmod with h1 | h1
      · rw [h1]; exact hk
      · exact hmods modifier h1
    · exact hfields field hmem
  -- model_body, type
  · rename_i hk
    obtain ⟨tail, ⟨fields, rest, hfields, hrest, rfl⟩, rfl⟩ := h
    refine ⟨[kind, TokenType.IDENTIFIER, TokenType.EQUALS, TokenType.NUMBER,
      TokenType.SEMICOLON] :: fields, rest, ?_, hrest, by simp⟩
    intro field hmem
    rcases List.mem_cons.1 hmem with heq | hmem
    · exact ⟨[], kind, by simp, hk, by simp [heq]⟩
    · exact hfields field hmem
  -- field_type, modifier
  · rename_i hk
    obtain ⟨field, tail, ⟨modifiers, type, hmods, htype, rfl⟩, htail, rfl⟩ := h
    refine ⟨(kind :: modifiers) ++ [type, TokenType.IDENTIFIER, TokenType.EQUALS,
      TokenType.NUMBER, TokenType.SEMICOLON], tail, ⟨kind :: modifiers, type, ?_, htype, rfl⟩,
      htail, by simp⟩
    intro modifier hmod
    rcases List.mem_cons.1 hmod with h1 | h1
    · rw [h1]; exact hk
    · exact hmods modifier h1
  -- field_type, type
  · rename_i hk
    obtain ⟨tail, htail, rfl⟩ := h
    exact ⟨[kind, TokenType.IDENTIFIER, TokenType.EQUALS, TokenType.NUMBER,
      TokenType.SEMICOLON], tail, ⟨[], kind, by simp, hk, by simp⟩, htail, by simp⟩
  -- field_name
  · rename_i hk; subst hk
    obtain ⟨tail, htail, rfl⟩ := h
    exact ⟨tail, htail, rfl⟩
  -- field_equals
  · rename_i hk; subst hk
    obtain ⟨tail, htail, rfl⟩ := h
    exact ⟨tail, htail, rfl⟩
  -- field_number
  · rename_i hk; subst hk
    obtain ⟨tail, htail, rfl⟩ := h
    exact ⟨tail, htail, rfl⟩
  -- field_semicolon
  · rename_i hk; subst hk
    exact ⟨kinds, h, rfl⟩

/-- What the automaton accepts from a position is allowed by the grammar. -/
theorem residual_of_run (kinds : List TokenType) : ∀ position : Position,
    run position kinds = some Position.done → residual position kinds := by
  induction kinds with
  | nil =>
    intro position h
    simp only [run, Option.some.injEq] at h
    rw [h]
    rfl
  | cons kind tail ih =>
    intro position h
    simp only [run] at h
    cases hstep : step position kind with
    | none => rw [hstep] at h; simp at h
    | some next =>
      rw [hstep] at h
      exact residual_step position next kind tail hstep (ih next h)

theorem grammar_schema_of_run (kinds : List TokenType)
    (h : run Position.start kinds = some Position.done) : grammar_schema kinds := by
  obtain ⟨tail, ⟨n, rest, hrest, rfl⟩, rfl⟩ := residual_of_run kinds Position.start h
  exact ⟨[TokenType.NAMESPACE, TokenType.IDENTIFIER] ++
    ((List.replicate n [TokenType.DOT, TokenType.IDENTIFIER]).flatten ++ [TokenType.SEMICOLON]),
    rest, ⟨n, rfl⟩, hrest, by simp⟩

/-! ## The grammar is accepted by the automaton of positions -/

theorem step_modifier (kind : TokenType) (h : kind ∈ modifier_keywords) :
    step Position.model_body kind = some Position.field_type ∧
      step Position.field_type kind = some Position.field_type := by
  simp only [modifier_keywords, List.mem_cons, List.mem_singleton, List.not_mem_nil,
    or_false] at h
  rcases h with h | h | h | h | h <;> rw [h] <;> exact ⟨rfl, rfl⟩

theorem step_type (kind : TokenType) (h : grammar_type kind) :
    step Position.model_body kind = some Position.field_name ∧
      step Position.field_type kind = some Position.field_name := by
  unfold grammar_type at h
  simp only [primitive_type_names, List.mem_cons, List.mem_singleton, List.not_mem_nil,
    or_false] at h
  rcases h with (h | h | h | h | h | h | h | h | h | h | h | h | h) | h <;> rw [h] <;>
    exact ⟨rfl, rfl⟩

theorem run_namespace_rest (n : Nat) :
    run Position.namespace_rest
        ((List.replicate n [TokenType.DOT, TokenType.IDENTIFIER]).flatten ++
          [TokenType.SEMICOLON]) =
      some Position.declarations := by
  induction n with
  | zero => rfl
  | succ n ih =>
    simp only [List.replicate_succ, List.flatten_cons, List.append_assoc, List.cons_append,
      List.nil_append]
    exact ih

theorem run_enum_body (n : Nat) :
    run Position.enum_body
        ((List.replicate n grammar_enum_value).flatten ++ [TokenType.RBRACE]) =
      some Position.declarations := by
  induction n with
  | zero => rfl
  | succ n ih =>
    simp only [List.replicate_succ, List.flatten_cons, List.append_assoc, grammar_enum_value,
      List.cons_append, List.nil_append]
    exact ih

theorem run_field_type (modifiers : List TokenType) (type : TokenType)
    (hmods : ∀ modifier ∈ modifiers, modifier ∈ modifier_keywords) (htype : grammar_type type) :
    run Position.field_type
        (modifiers ++
          [type, TokenType.IDENTIFIER, TokenType.EQUALS, TokenType.NUMBER,
            TokenType.SEMICOLON]) =
      some Position.model_body := by
  induction modifiers with
  | nil =>
    simp only [List.nil_append, run, (step_type type htype).2]
    rfl
  | cons modifier rest ih =>
    simp only [List.cons_append, run,
      (step_modifier modifier (hmods modifier (List.mem_cons_self _ _))).2]
    exact ih fun m hm => hmods m (List.mem_cons_of_mem _ hm)

theorem run_field (field : List TokenType) (h : grammar_field field) :
    run Position.model_body field = some Position.model_body := by
  obtain ⟨modifiers, type, hmods, htype, rfl⟩ := h
  cases modifiers with
  | nil =>
    simp only [List.nil_append, run, (step_type type htype).1]
    rfl
  | cons modifier rest =>
    simp only [List.cons_append, run,
      (step_modifier modifier (hmods modifier (List.mem_cons_self _ _))).1]
    exact run_field_type rest type (fun m hm => hmods m (List.mem_cons_of_mem _ hm)) htype

theorem run_model_body (fields : List (List TokenType))
    (h : ∀ field ∈ fields, grammar_field field) :
    run Position.model_body (fields.flatten ++ [TokenType.RBRACE]) =
      some Position.declarations := by
  induction fields with
  | nil => rfl
  | cons field rest ih =>
    rw [List.flatten_cons, List.append_assoc, run_append,
      run_field field (h field (List.mem_cons_self _ _))]
    exact ih fun f hf => h f (List.mem_cons_of_mem _ hf)

theorem run_declaration (declaration : List TokenType)
    (h : grammar_declaration declaration) :
    run Position.declarations declaration = some Position.declarations := by
  rcases h with ⟨n, rfl⟩ | ⟨fields, hfields, rfl⟩
  · exact run_enum_body n
  · exact run_model_body fields hfields

theorem run_declarations (kinds : List TokenType) (h : grammar_declarations kinds) :
    run Position.declarations kinds = some Position.done := by
  obtain ⟨declarations, hdecls, rfl⟩ := h
  induction declarations with
  | nil => rfl
  | cons declaration rest ih =>
    rw [List.flatten_cons, List.append_assoc, run_append,
      run_declaration declaration (hdecls declaration (List.mem_cons_self _ _))]
    exact ih fun d hd => hdecls d (List.mem_cons_of_mem _ hd)

theorem run_of_grammar_schema (kinds : List TokenType) (h : grammar_schema kinds) :
    run Position.start kinds = some Position.done := by
  obtain ⟨namespace_part, rest, ⟨n, rfl⟩, hrest, rfl⟩ := h
  have hns : run Position.start
      ([TokenType.NAMESPACE, TokenType.IDENTIFIER] ++
        ((List.replicate n [TokenType.DOT, TokenType.IDENTIFIER]).flatten ++
          [TokenType.SEMICOLON])) = some Position.declarations := run_namespace_rest n
  rw [run_append, hns]
  exact run_declarations rest hrest

/-- The automaton accepts exactly the schemas of the grammar. -/
theorem grammar_schema_iff_run (kinds : List TokenType) :
    grammar_schema kinds ↔ run Position.start kinds = some Position.done :=
  ⟨run_of_grammar_schema kinds, grammar_schema_of_run kinds⟩

/-- A list of kinds begins a schema exactly when the automaton can read it. -/
theorem viable_iff_run (kinds : List TokenType) :
    viable kinds ↔ ∃ position, run Position.start kinds = some position := by
  constructor
  · rintro ⟨rest, h⟩
    have hrun := run_of_grammar_schema _ h
    rw [run_append] at hrun
    cases hkinds : run Position.start kinds with
    | none => rw [hkinds] at hrun; simp at hrun
    | some position => exact ⟨position, rfl⟩
  · rintro ⟨position, h⟩
    refine ⟨completion position, grammar_schema_of_run _ ?_⟩
    rw [run_append, h]
    exact run_completion position

/-- Where the automaton stops: the first token that is not awaited. -/
theorem run_first_failure (kinds : List TokenType) : ∀ position : Position,
    run position kinds = none →
    ∃ (before : List TokenType) (kind : TokenType) (rest : List TokenType) (stop : Position),
      kinds = before ++ kind :: rest ∧ run position before = some stop ∧
        step stop kind = none := by
  induction kinds with
  | nil => intro position h; simp [run] at h
  | cons kind tail ih =>
    intro position h
    cases hstep : step position kind with
    | none => exact ⟨[], kind, tail, position, rfl, rfl, hstep⟩
    | some next =>
      simp only [run, hstep] at h
      obtain ⟨before, failing, rest, stop, hsplit, hrun, hfail⟩ := ih next h
      refine ⟨kind :: before, failing, rest, stop, by rw [hsplit]; rfl, ?_, hfail⟩
      simp only [run, hstep]
      exact hrun

/-! ## The parser follows the positions of the grammar -/

theorem stoi_ne_out_of_fuel (str : String) : stoi str ≠ Parsed.out_of_fuel := by
  unfold stoi
  simp only
  split_ifs <;> simp

theorem number_verdict_of_ne (token : Token) (v : Verdict)
    (h : token.type ≠ TokenType.NUMBER) : number_verdict token v = v := by
  unfold number_verdict
  rw [if_neg h]

theorem number_verdict_of_ok (token : Token) (v : Verdict) (value : Int)
    (h : stoi token.value = Parsed.ok value) : number_verdict token v = v := by
  unfold number_verdict
  rw [h]
  simp

theorem scan_end_token (position : Position) (value : String) (end_location : SourceLocation) :
    scan position [{ type := TokenType.END_OF_FILE, value := value, location := end_location }]
        end_location =
      scan position [] end_location := by
  simp only [scan]
  cases hstep : step position TokenType.END_OF_FILE with
  | none => rfl
  | some next =>
    have hdone := step_end_of_file position next hstep
    simp [hdone]

theorem Parser.verdict_advance (p : Parser) (position next : Position)
    (hkind : p.current_token_.type ≠ TokenType.END_OF_FILE)
    (hstep : step position p.current_token_.type = some next) :
    p.verdict position = number_verdict p.current_token_ (p.advance.verdict next) := by
  have hnext : next ≠ Position.done := fun h =>
    hkind ((step_done_iff position next _ hstep).1 h)
  obtain ⟨⟨pending, end_location⟩, current⟩ := p
  simp only [Parser.verdict, scan] at hstep ⊢
  rw [hstep]
  simp only [hnext, if_false]
  congr 1
  cases pending with
  | nil => exact (scan_end_token next "" end_location).symm
  | cons token rest => rfl

theorem Parser.verdict_mismatch (p : Parser) (position : Position)
    (hstep : step position p.current_token_.type = none) :
    p.verdict position = Verdict.mismatch p.current_token_.location := by
  obtain ⟨⟨pending, end_location⟩, current⟩ := p
  simp only [Parser.verdict, scan] at hstep ⊢
  rw [hstep]

theorem Parser.budget_advance (p : Parser)
    (hkind : p.current_token_.type ≠ TokenType.END_OF_FILE) :
    p.advance.budget + 1 ≤ p.budget := by
  obtain ⟨⟨pending, end_location⟩, current⟩ := p
  simp only at hkind
  cases pending with
  | nil => simp [Parser.budget, Parser.advance, TokenStream.next_token, hkind]
  | cons token rest =>
    simp only [Parser.budget, Parser.advance, TokenStream.next_token, List.length_cons, hkind,
      if_false]
    split_ifs <;> omega

theorem fails_as_bind {α β : Type} (r : Parsed α) (f : α → Parsed β) (v : Verdict)
    (h : fails_as r v) : fails_as (r.bind f) v := by
  rcases h with ⟨message, location, hv, hr⟩ | ⟨e, hv, hr⟩
  · exact Or.inl ⟨message, location, hv, by rw [hr]; rfl⟩
  · exact Or.inr ⟨e, hv, by rw [hr]; rfl⟩

theorem triple_weaken {α : Type} (cost cost1 : Nat) (p : Parser) (v : Verdict)
    (r : Parsed (α × Parser)) (post : Verdict → Parser → Prop)
    (h : Triple cost p v r post) (hle : cost1 ≤ cost) : Triple cost1 p v r post := by
  rcases h with ⟨a, p1, hr, hbudget, hpost⟩ | h
  · exact Or.inl ⟨a, p1, hr, by omega, hpost⟩
  · exact Or.inr h

theorem triple_ret {α : Type} (p : Parser) (v : Verdict) (a : α)
    (post : Verdict → Parser → Prop) (h : post v p) :
    Triple 0 p v (Parsed.ok (a, p)) post :=
  Or.inl ⟨a, p, rfl, by omega, h⟩

/-- Sequencing of two calls. -/
theorem triple_bind {α β : Type} (cost cost1 : Nat) (p : Parser) (v : Verdict)
    (r : Parsed (α × Parser)) (f : α × Parser → Parsed (β × Parser))
    (mid post : Verdict → Parser → Prop) (h : Triple cost p v r mid)
    (hf : ∀ a p1, p1.budget + cost ≤ p.budget → mid v p1 → Triple cost1 p1 v (f (a, p1)) post) :
    Triple (cost + cost1) p v (r.bind f) post := by
  rcases h with ⟨a, p1, hr, hbudget, hmid⟩ | h
  · rcases hf a p1 hbudget hmid with ⟨b, p2, hr2, hbudget2, hpost⟩ | h2
    · refine Or.inl ⟨b, p2, ?_, by omega, hpost⟩
      rw [hr]
      exact hr2
    · refine Or.inr ?_
      rw [hr]
      exact h2
  · exact Or.inr (fails_as_bind r f v h)

/-- The step `consume(type, message)` at a position that awaits `type`
and, the current token being what it is, nothing else. -/
theorem triple_consume {β : Type} (cost : Nat) (p : Parser) (position next : Position)
    (type : TokenType) (message : String) (f : Token × Parser → Parsed (β × Parser))
    (post : Verdict → Parser → Prop) (htype : type ≠ TokenType.END_OF_FILE)
    (hyes : step position type = some next)
    (hno : p.current_token_.type ≠ type → step position p.current_token_.type = none)
    (hf : p.current_token_.type = type → p.advance.budget + 1 ≤ p.budget →
      Triple cost p.advance (number_verdict p.current_token_ (p.advance.verdict next))
        (f (p.current_token_, p.advance)) post) :
    Triple (cost + 1) p (p.verdict position) ((p.consume type message).bind f) post := by
  by_cases h : p.current_token_.type = type
  · have hkind : p.current_token_.type ≠ TokenType.END_OF_FILE := by rw [h]; exact htype
    have hbudget := p.budget_advance hkind
    have hconsume : p.consume type message = Parsed.ok (p.current_token_, p.advance) := by
      simp [Parser.consume, Parser.check, h]
    rw [hconsume, p.verdict_advance position next hkind (by rw [h]; exact hyes)]
    rcases hf h hbudget with ⟨b, p2, hr2, hbudget2, hpost⟩ | h2
    · exact Or.inl ⟨b, p2, hr2, by omega, hpost⟩
    · exact Or.inr h2
  · have hconsume : p.consume type message = Parsed.thrown (p.error message) := by
      simp [Parser.consume, Parser.check, h]
    rw [hconsume, p.verdict_mismatch position (hno h)]
    exact Or.inr (Or.inl ⟨_, _, rfl, rfl⟩)

/-- The conversion of the number token that was just consumed. -/
theorem triple_stoi {β : Type} (cost : Nat) (p : Parser) (token : Token) (v : Verdict)
    (f : Int → Parsed (β × Parser)) (post : Verdict → Parser → Prop)
    (hkind : token.type = TokenType.NUMBER)
    (hf : ∀ value, stoi token.value = Parsed.ok value → Triple cost p v (f value) post) :
    Triple cost p (number_verdict token v) ((stoi token.value).bind f) post := by
  cases hstoi : stoi token.value with
  | ok value =>
    rw [number_verdict_of_ok token v value hstoi]
    exact hf value hstoi
  | thrown e =>
    refine Or.inr (Or.inr ⟨e, ?_, rfl⟩)
    unfold number_verdict
    rw [if_pos hkind, hstoi]
  | out_of_fuel => exact absurd hstoi (stoi_ne_out_of_fuel token.value)

theorem triple_shift {α : Type} (cost : Nat) (p p1 : Parser) (v : Verdict)
    (r : Parsed (α × Parser)) (post : Verdict → Parser → Prop)
    (hbudget : p1.budget ≤ p.budget) (h : Triple cost p1 v r post) :
    Triple cost p v r post := by
  rcases h with ⟨a, p2, hr, hbudget2, hpost⟩ | h
  · exact Or.inl ⟨a, p2, hr, by omega, hpost⟩
  · exact Or.inr h

/-- Sequencing of two calls, with the number of tokens they use up. -/
theorem triple_then {α β : Type} (cost cost1 total : Nat) (p : Parser) (v : Verdict)
    (r : Parsed (α × Parser)) (f : α × Parser → Parsed (β × Parser))
    (mid post : Verdict → Parser → Prop) (h : Triple cost p v r mid)
    (hf : ∀ a p1, p1.budget + cost ≤ p.budget → mid v p1 → Triple cost1 p1 v (f (a, p1)) post)
    (htotal : total ≤ cost + cost1) : Triple total p v (r.bind f) post :=
  triple_weaken _ _ _ _ _ _ (triple_bind cost cost1 p v r f mid post h hf) htotal

/-- The step `consume(TokenType::NUMBER, message)`. -/
theorem triple_consume_number {β : Type} (total : Nat) (p : Parser)
    (position next : Position) (message : String)
    (f : Token × Parser → Parsed (β × Parser)) (post : Verdict → Parser → Prop)
    (hyes : step position TokenType.NUMBER = some next)
    (hno : p.current_token_.type ≠ TokenType.NUMBER →
      step position p.current_token_.type = none)
    (hf : p.current_token_.type = TokenType.NUMBER → p.advance.budget + 1 ≤ p.budget →
      Triple 0 p.advance (number_verdict p.current_token_ (p.advance.verdict next))
        (f (p.current_token_, p.advance)) post)
    (htotal : total ≤ 1) :
    Triple total p (p.verdict position) ((p.consume TokenType.NUMBER message).bind f) post :=
  triple_weaken _ _ _ _ _ _
    (triple_consume 0 p position next TokenType.NUMBER message f post (by decide) hyes hno hf)
    htotal

/-- The step `consume(type, message)` for a token other than a number. -/
theorem triple_consume_plain {β : Type} (total : Nat) (p : Parser) (position next : Position)
    (type : TokenType) (message : String) (f : Token × Parser → Parsed (β × Parser))
    (post : Verdict → Parser → Prop) (htype : type ≠ TokenType.END_OF_FILE)
    (hnumber : type ≠ TokenType.NUMBER) (hyes : step position type = some next)
    (hno : p.current_token_.type ≠ type → step position p.current_token_.type = none)
    (hf : p.current_token_.type = type → p.advance.budget + 1 ≤ p.budget →
      Triple 0 p.advance (p.advance.verdict next) (f (p.current_token_, p.advance)) post)
    (htotal : total ≤ 1) :
    Triple total p (p.verdict position) ((p.consume type message).bind f) post := by
  refine triple_weaken _ _ _ _ _ _
    (triple_consume 0 p position next type message f post htype hyes hno ?_) htotal
  intro hcurrent hbudget
  rw [number_verdict_of_ne _ _ (by rw [hcurrent]; exact hnumber)]
  exact hf hcurrent hbudget

theorem parse_namespace_loop_spec : ∀ (fuel : Nat) (p : Parser) (ns_name : String),
    p.budget + 1 ≤ fuel →
    Triple 0 p (p.verdict Position.namespace_rest) (parse_namespace_loop fuel p ns_name)
      fun v p1 =>
        v = p1.verdict Position.namespace_rest ∧ p1.current_token_.type ≠ TokenType.DOT := by
  intro fuel
  induction fuel with
  | zero => intro p ns_name h; omega
  | succ fuel ih =>
    intro p ns_name hfuel
    unfold parse_namespace_loop
    by_cases hdot : p.current_token_.type = TokenType.DOT
    · have hkind : p.current_token_.type ≠ TokenType.END_OF_FILE := by rw [hdot]; decide
      have hbudget := p.budget_advance hkind
      have hverdict : p.verdict Position.namespace_rest =
          p.advance.verdict Position.namespace_part := by
        rw [p.verdict_advance Position.namespace_rest Position.namespace_part hkind
          (by rw [hdot]; rfl), number_verdict_of_ne _ _ (by rw [hdot]; decide)]
      simp only [Parser.match_type, Parser.check, hdot, decide_True, if_true]
      rw [hverdict]
      refine triple_shift 0 p p.advance _ _ _ (by omega) ?_
      refine triple_consume_plain 0 p.advance Position.namespace_part Position.namespace_rest
        TokenType.IDENTIFIER _ _ _ (by decide) (by decide) rfl
        (fun hne => by simp [step, hne]) ?_ (by omega)
      intro _ hbudget1
      exact ih p.advance.advance _ (by omega)
    · simp only [Parser.match_type, Parser.check, hdot, decide_False, if_false,
        Bool.false_eq_true]
      exact triple_ret p _ _ _ ⟨rfl, hdot⟩

theorem parse_namespace_spec (fuel : Nat) (p : Parser) (schema : Schema)
    (hfuel : p.budget + 1 ≤ fuel) :
    Triple 0 p (p.verdict Position.start) (parse_namespace fuel p schema)
      fun v p1 => v = p1.verdict Position.declarations := by
  unfold parse_namespace
  refine triple_consume_plain 0 p Position.start Position.namespace_name TokenType.NAMESPACE
    _ _ _ (by decide) (by decide) rfl (fun hne => by simp [step, hne]) ?_ (by omega)
  intro _ hbudget1
  refine triple_consume_plain 0 p.advance Position.namespace_name Position.namespace_rest
    TokenType.IDENTIFIER _ _ _ (by decide) (by decide) rfl (fun hne => by simp [step, hne]) ?_
    (by omega)
  intro _ hbudget2
  refine triple_then 0 0 0 _ _ _ _ _ _
    (parse_namespace_loop_spec fuel p.advance.advance _ (by omega)) ?_ (by omega)
  intro name_part p3 hbudget3 hmid
  obtain ⟨hverdict, hdot⟩ := hmid
  rw [hverdict]
  refine triple_consume_plain 0 p3 Position.namespace_rest Position.declarations
    TokenType.SEMICOLON _ _ _ (by decide) (by decide) rfl
    (fun hne => by simp [step, hne, hdot]) ?_ (by omega)
  intro _ hbudget4
  exact triple_ret _ _ _ _ rfl

theorem parse_enum_loop_spec : ∀ (fuel : Nat) (p : Parser) (enum_decl : EnumDecl),
    p.budget + 1 ≤ fuel →
    Triple 0 p (p.verdict Position.enum_body) (parse_enum_loop fuel p enum_decl)
      fun v p1 =>
        v = p1.verdict Position.enum_body ∧
          (p1.current_token_.type = TokenType.RBRACE ∨
            p1.current_token_.type = TokenType.END_OF_FILE) := by
  intro fuel
  induction fuel with
  | zero => intro p enum_decl h; omega
  | succ fuel ih =>
    intro p enum_decl hfuel
    unfold parse_enum_loop
    by_cases hbrace : p.current_token_.type = TokenType.RBRACE
    · simp only [Parser.check, hbrace, decide_True, Bool.not_true, Bool.false_and,
        Bool.false_eq_true, if_false]
      exact triple_ret p _ _ _ ⟨rfl, Or.inl hbrace⟩
    · by_cases hend : p.current_token_.type = TokenType.END_OF_FILE
      · simp only [Parser.check, hend, decide_True, Bool.not_true, Bool.and_false,
          Bool.false_eq_true, if_false]
        exact triple_ret p _ _ _ ⟨rfl, Or.inr hend⟩
      · simp only [Parser.check, hbrace, hend, decide_False, Bool.not_false, Bool.and_self,
          if_true]
        refine triple_consume_plain 0 p Position.enum_body Position.enum_equals
          TokenType.IDENTIFIER _ _ _ (by decide) (by decide) rfl
          (fun hne => by simp [step, hne, hbrace]) ?_ (by omega)
        intro _ hbudget1
        refine triple_consume_plain 0 p.advance Position.enum_equals Position.enum_number
          TokenType.EQUALS _ _ _ (by decide) (by decide) rfl
          (fun hne => by simp [step, hne]) ?_ (by omega)
        intro _ hbudget2
        refine triple_consume_number 0 p.advance.advance Position.enum_number
          Position.enum_semicolon _ _ _ rfl (fun hne => by simp [step, hne]) ?_ (by omega)
        intro hnumber hbudget3
        refine triple_stoi _ _ _ _ _ _ hnumber ?_
        intro value _
        refine triple_consume_plain 0 p.advance.advance.advance Position.enum_semicolon
          Position.enum_body TokenType.SEMICOLON _ _ _ (by decide) (by decide) rfl
          (fun hne => by simp [step, hne]) ?_ (by omega)
        intro _ hbudget4
        exact ih p.advance.advance.advance.advance _ (by omega)

theorem parse_enum_spec (fuel : Nat) (p : Parser) (hfuel : p.budget + 1 ≤ fuel)
    (hcurrent : p.current_token_.type = TokenType.ENUM) :
    Triple 1 p (p.verdict Position.declarations) (parse_enum fuel p)
      fun v p1 => v = p1.verdict Position.declarations := by
  unfold parse_enum
  refine triple_consume_plain 1 p Position.declarations Position.enum_name TokenType.ENUM
    _ _ _ (by decide) (by decide) rfl (fun hne => absurd hcurrent hne) ?_ (by omega)
  intro _ hbudget1
  refine triple_consume_plain 0 p.advance Position.enum_name Position.enum_open
    TokenType.IDENTIFIER _ _ _ (by decide) (by decide) rfl (fun hne => by simp [step, hne]) ?_
    (by omega)
  intro _ hbudget2
  refine triple_consume_plain 0 p.advance.advance Position.enum_open Position.enum_body
    TokenType.LBRACE _ _ _ (by decide) (by decide) rfl (fun hne => by simp [step, hne]) ?_
    (by omega)
  intro _ hbudget3
  refine triple_then 0 0 0 _ _ _ _ _ _
    (parse_enum_loop_spec fuel p.advance.advance.advance _ (by omega)) ?_ (by omega)
  intro enum_decl p4 hbudget4 hmid
  obtain ⟨hverdict, hexit⟩ := hmid
  rw [hverdict]
  refine triple_consume_plain 0 p4 Position.enum_body Position.declarations
    TokenType.RBRACE _ _ _ (by decide) (by decide) rfl ?_ ?_ (by omega)
  · intro hne
    rcases hexit with h | h
    · exact absurd h hne
    · rw [h]; rfl
  · intro _ hbudget5
    exact triple_ret _ _ _ _ rfl

theorem step_field_modifier (kind : TokenType) (h : is_field_modifier kind = true) :
    step Position.field_type kind = some Position.field_type ∧
      kind ≠ TokenType.END_OF_FILE ∧ kind ≠ TokenType.NUMBER := by
  cases kind <;> simp [is_field_modifier] at h <;> exact ⟨rfl, by decide, by decide⟩

theorem step_primitive_type (kind : TokenType) (h : is_primitive_type kind = true) :
    step Position.field_type kind = some Position.field_name ∧
      kind ≠ TokenType.END_OF_FILE ∧ kind ≠ TokenType.NUMBER ∧
      ∃ primitive, token_to_primitive_type kind = Parsed.ok primitive := by
  cases kind <;> simp [is_primitive_type] at h <;>
    exact ⟨rfl, by decide, by decide, _, rfl⟩

theorem step_no_type (kind : TokenType) (hmodifier : is_field_modifier kind = false)
    (hprimitive : is_primitive_type kind = false) (hident : kind ≠ TokenType.IDENTIFIER) :
    step Position.field_type kind = none := by
  cases kind <;> simp [is_field_modifier] at hmodifier <;>
    simp [is_primitive_type] at hprimitive <;> first | rfl | exact absurd rfl hident

theorem step_model_body (kind : TokenType) (h : kind ≠ TokenType.RBRACE) :
    step Position.model_body kind = step Position.field_type kind := by
  simp [step, h]

theorem Parser.verdict_model_body (p : Parser)
    (h : p.current_token_.type ≠ TokenType.RBRACE) :
    p.verdict Position.model_body = p.verdict Position.field_type := by
  obtain ⟨⟨pending, end_location⟩, current⟩ := p
  simp only [Parser.verdict, scan] at h ⊢
  rw [step_model_body _ h]

theorem parse_modifiers_spec : ∀ (fuel : Nat) (p : Parser) (modifiers : Nat),
    p.budget + 1 ≤ fuel →
    Triple 0 p (p.verdict Position.field_type) (parse_modifiers fuel p modifiers)
      fun v p1 =>
        v = p1.verdict Position.field_type ∧
          is_field_modifier p1.current_token_.type = false := by
  intro fuel
  induction fuel with
  | zero => intro p modifiers h; omega
  | succ fuel ih =>
    intro p modifiers hfuel
    unfold parse_modifiers
    cases hmodifier : is_field_modifier p.current_token_.type with
    | true =>
      obtain ⟨hstep, hkind, hnumber⟩ := step_field_modifier _ hmodifier
      have hbudget := p.budget_advance hkind
      simp only [if_true]
      rw [p.verdict_advance Position.field_type Position.field_type hkind hstep,
        number_verdict_of_ne _ _ hnumber]
      exact triple_shift 0 p p.advance _ _ _ (by omega) (ih p.advance _ (by omega))
    | false =>
      simp only [Bool.false_eq_true, if_false]
      exact triple_ret p _ _ _ ⟨rfl, hmodifier⟩

theorem parse_type_spec (p : Parser)
    (hmodifier : is_field_modifier p.current_token_.type = false) :
    Triple 1 p (p.verdict Position.field_type) (parse_type p)
      fun v p1 => v = p1.verdict Position.field_name := by
  unfold parse_type
  cases hprimitive : is_primitive_type p.current_token_.type with
  | true =>
    obtain ⟨hstep, hkind, hnumber, primitive, hkind1⟩ := step_primitive_type _ hprimitive
    simp only [if_true, hkind1, Parsed.bind]
    rw [p.verdict_advance Position.field_type Position.field_name hkind hstep,
      number_verdict_of_ne _ _ hnumber]
    exact Or.inl ⟨_, _, rfl, p.budget_advance hkind, rfl⟩
  | false =>
    simp only [Bool.false_eq_true, if_false]
    by_cases hident : p.current_token_.type = TokenType.IDENTIFIER
    · have hkind : p.current_token_.type ≠ TokenType.END_OF_FILE := by rw [hident]; decide
      simp only [Parser.check, hident, decide_True, if_true]
      rw [p.verdict_advance Position.field_type Position.field_name hkind
        (by rw [hident]; rfl), number_verdict_of_ne _ _ (by rw [hident]; decide)]
      exact Or.inl ⟨_, _, rfl, p.budget_advance hkind, rfl⟩
    · simp only [Parser.check, hident, decide_False, Bool.false_eq_true, if_false]
      rw [p.verdict_mismatch Position.field_type
        (step_no_type _ hmodifier hprimitive hident)]
      exact Or.inr (Or.inl ⟨_, _, rfl, rfl⟩)

theorem parse_field_spec (fuel : Nat) (p : Parser) (hfuel : p.budget + 1 ≤ fuel)
    (hbrace : p.current_token_.type ≠ TokenType.RBRACE) :
    Triple 1 p (p.verdict Position.model_body) (parse_field fuel p)
      fun v p1 => v = p1.verdict Position.model_body := by
  unfold parse_field
  rw [p.verdict_model_body hbrace]
  refine triple_then 0 1 1 _ _ _ _ _ _ (parse_modifiers_spec fuel p 0 hfuel) ?_ (by omega)
  intro modifiers p1 hbudget1 hmid
  obtain ⟨hverdict, hmodifier⟩ := hmid
  rw [hverdict]
  refine triple_then 1 0 1 _ _ _ _ _ _ (parse_type_spec p1 hmodifier) ?_ (by omega)
  intro type p2 hbudget2 hverdict2
  rw [hverdict2]
  refine triple_consume_plain 0 p2 Position.field_name Position.field_equals
    TokenType.IDENTIFIER _ _ _ (by decide) (by decide) rfl (fun hne => by simp [step, hne]) ?_
    (by omega)
  intro _ hbudget3
  refine triple_consume_plain 0 p2.advance Position.field_equals Position.field_number
    TokenType.EQUALS _ _ _ (by decide) (by decide) rfl (fun hne => by simp [step, hne]) ?_
    (by omega)
  intro _ hbudget4
  refine triple_consume_number 0 p2.advance.advance Position.field_number
    Position.field_semicolon _ _ _ rfl (fun hne => by simp [step, hne]) ?_ (by omega)
  intro hnumber hbudget5
  refine triple_stoi _ _ _ _ _ _ hnumber ?_
  intro value _
  refine triple_consume_plain 0 p2.advance.advance.advance Position.field_semicolon
    Position.model_body TokenType.SEMICOLON _ _ _ (by decide) (by decide) rfl
    (fun hne => by simp [step, hne]) ?_ (by omega)
  intro _ hbudget6
  exact triple_ret _ _ _ _ rfl

theorem parse_model_loop_spec : ∀ (fuel : Nat) (p : Parser) (model_decl : ModelDecl),
    p.budget + 2 ≤ fuel →
    Triple 0 p (p.verdict Position.model_body) (parse_model_loop fuel p model_decl)
      fun v p1 =>
        v = p1.verdict Position.model_body ∧
          (p1.current_token_.type = TokenType.RBRACE ∨
            p1.current_token_.type = TokenType.END_OF_FILE) := by
  intro fuel
  induction fuel with
  | zero => intro p model_decl h; omega
  | succ fuel ih =>
    intro p model_decl hfuel
    unfold parse_model_loop
    by_cases hbrace : p.current_token_.type = TokenType.RBRACE
    · simp only [Parser.check, hbrace, decide_True, Bool.not_true, Bool.false_and,
        Bool.false_eq_true, if_false]
      exact triple_ret p _ _ _ ⟨rfl, Or.inl hbrace⟩
    · by_cases hend : p.current_token_.type = TokenType.END_OF_FILE
      · simp only [Parser.check, hend, decide_True, Bool.not_true, Bool.and_false,
          Bool.false_eq_true, if_false]
        exact triple_ret p _ _ _ ⟨rfl, Or.inr hend⟩
      · simp only [Parser.check, hbrace, hend, decide_False, Bool.not_false, Bool.and_self,
          if_true]
        refine triple_then 1 0 0 _ _ _ _ _ _ (parse_field_spec fuel p (by omega) hbrace) ?_
          (by omega)
        intro field p1 hbudget1 hverdict
        rw [hverdict]
        exact ih p1 _ (by omega)

theorem parse_model_spec (fuel : Nat) (p : Parser) (hfuel : p.budget + 2 ≤ fuel)
    (hcurrent : p.current_token_.type = TokenType.MODEL) :
    Triple 1 p (p.verdict Position.declarations) (parse_model fuel p)
      fun v p1 => v = p1.verdict Position.declarations := by
  unfold parse_model
  refine triple_consume_plain 1 p Position.declarations Position.model_name TokenType.MODEL
    _ _ _ (by decide) (by decide) rfl (fun hne => absurd hcurrent hne) ?_ (by omega)
  intro _ hbudget1
  refine triple_consume_plain 0 p.advance Position.model_name Position.model_open
    TokenType.IDENTIFIER _ _ _ (by decide) (by decide) rfl (fun hne => by simp [step, hne]) ?_
    (by omega)
  intro _ hbudget2
  refine triple_consume_plain 0 p.advance.advance Position.model_open Position.model_body
    TokenType.LBRACE _ _ _ (by decide) (by decide) rfl (fun hne => by simp [step, hne]) ?_
    (by omega)
  intro _ hbudget3
  refine triple_then 0 0 0 _ _ _ _ _ _
    (parse_model_loop_spec fuel p.advance.advance.advance _ (by omega)) ?_ (by omega)
  intro model_decl p4 hbudget4 hmid
  obtain ⟨hverdict, hexit⟩ := hmid
  rw [hverdict]
  refine triple_consume_plain 0 p4 Position.model_body Position.declarations
    TokenType.RBRACE _ _ _ (by decide) (by decide) rfl ?_ ?_ (by omega)
  · intro hne
    rcases hexit with h | h
    · exact absurd h hne
    · rw [h]; rfl
  · intro _ hbudget5
    exact triple_ret _ _ _ _ rfl

theorem parse_declaration_spec (fuel : Nat) (p : Parser) (hfuel : p.budget + 2 ≤ fuel)
    (hend : p.current_token_.type ≠ TokenType.END_OF_FILE) :
    Triple 1 p (p.verdict Position.declarations) (parse_declaration fuel p)
      fun v p1 => v = p1.verdict Position.declarations := by
  unfold parse_declaration
  by_cases henum : p.current_token_.type = TokenType.ENUM
  · simp only [Parser.check, henum, decide_True, if_true]
    refine triple_then 1 0 1 _ _ _ _ _ _ (parse_enum_spec fuel p (by omega) henum) ?_
      (by omega)
    intro enum_decl p1 _ hverdict
    exact triple_ret _ _ _ _ hverdict
  · by_cases hmodel : p.current_token_.type = TokenType.MODEL
    · simp only [Parser.check, hmodel, decide_True, if_true, reduceCtorEq, decide_False,
        Bool.false_eq_true, if_false]
      refine triple_then 1 0 1 _ _ _ _ _ _ (parse_model_spec fuel p hfuel hmodel) ?_
        (by omega)
      intro model_decl p1 _ hverdict
      exact triple_ret _ _ _ _ hverdict
    · simp only [Parser.check, henum, hmodel, decide_False, Bool.false_eq_true, if_false]
      rw [p.verdict_mismatch Position.declarations (by simp [step, henum, hmodel, hend])]
      exact Or.inr (Or.inl ⟨_, _, rfl, rfl⟩)

theorem Parser.verdict_end_of_file (p : Parser)
    (h : p.current_token_.type = TokenType.END_OF_FILE) :
    p.verdict Position.declarations = Verdict.accepted := by
  obtain ⟨⟨pending, end_location⟩, current⟩ := p
  simp only [Parser.verdict, scan] at h ⊢
  rw [h]
  rfl

theorem parse_schema_loop_spec : ∀ (fuel : Nat) (p : Parser) (schema : Schema),
    p.budget + 3 ≤ fuel →
    Triple 0 p (p.verdict Position.declarations) (parse_schema_loop fuel p schema)
      fun v _ => v = Verdict.accepted := by
  intro fuel
  induction fuel with
  | zero => intro p schema h; omega
  | succ fuel ih =>
    intro p schema hfuel
    unfold parse_schema_loop
    by_cases hend : p.current_token_.type = TokenType.END_OF_FILE
    · simp only [Parser.check, hend, decide_True, Bool.not_true, Bool.false_eq_true, if_false]
      exact triple_ret p _ _ _ (p.verdict_end_of_file hend)
    · simp only [Parser.check, hend, decide_False, Bool.not_false, if_true]
      refine triple_then 1 0 0 _ _ _ _ _ _ (parse_declaration_spec fuel p (by omega) hend) ?_
        (by omega)
      intro decl p1 hbudget1 hverdict
      rw [hverdict]
      exact ih p1 _ (by omega)

/-- `parse_schema` comes to what reading the tokens along the positions of
the grammar comes to: a schema when every token is awaited up to the end of
file, a `ParseError` at the first token that is not awaited, and the
exception of `std::stoi` when a number before that token is rejected. -/
theorem parse_schema_verdict (fuel : Nat) (p : Parser) (hfuel : p.budget + 3 ≤ fuel) :
    (p.verdict Position.start = Verdict.accepted ∧
      ∃ schema, p.parse_schema fuel = Parsed.ok schema) ∨
    fails_as (p.parse_schema fuel) (p.verdict Position.start) := by
  unfold Parser.parse_schema
  rcases parse_namespace_spec fuel p
      { namespace_name := "", declarations := [], location := p.current_token_.location }
      (by omega) with ⟨schema, p1, hr, hbudget, hverdict⟩ | hfail
  · rw [hr, hverdict]
    simp only [Parsed.bind]
    rcases parse_schema_loop_spec fuel p1 schema (by omega) with
      ⟨schema1, p2, hr2, -, haccepted⟩ | hfail2
    · left
      rw [hr2]
      exact ⟨haccepted, schema1, rfl⟩
    · right
      rcases hfail2 with ⟨message, location, hv, hr2⟩ | ⟨e, hv, hr2⟩
      · rw [hr2]
        exact Or.inl ⟨message, location, hv, rfl⟩
      · rw [hr2]
        exact Or.inr ⟨e, hv, rfl⟩
  · right
    exact fails_as_bind _ _ _ hfail

/-! ## Fail-fast parsing -/

theorem Parser.new_verdict (lexer : TokenStream) (position : Position) :
    (Parser.new lexer).verdict position = scan position lexer.pending lexer.end_location := by
  obtain ⟨pending, end_location⟩ := lexer
  cases pending with
  | nil => exact scan_end_token position "" end_location
  | cons token rest => rfl

theorem Parser.new_budget (lexer : TokenStream) :
    (Parser.new lexer).budget ≤ lexer.pending.length := by
  obtain ⟨pending, end_location⟩ := lexer
  cases pending with
  | nil => simp [Parser.new, Parser.budget, TokenStream.next_token]
  | cons token rest =>
    simp only [Parser.new, Parser.budget, TokenStream.next_token, List.length_cons]
    split_ifs <;> omega

/-- Reading stops with a mismatch at the first token that is not awaited. -/
theorem scan_mismatch_of_run (end_location : SourceLocation) (before : List Token) :
    ∀ (tokens : List Token) (position stop : Position) (failing : Token) (rest : List Token),
      (∀ token ∈ tokens, token.type ≠ TokenType.END_OF_FILE) →
      (∀ token ∈ tokens, token.type = TokenType.NUMBER →
        ∃ value, stoi token.value = Parsed.ok value) →
      tokens ++
          [{ type := TokenType.END_OF_FILE, value := "", location := end_location }] =
        before ++ failing :: rest →
      run position (before.map Token.type) = some stop → step stop failing.type = none →
      scan position tokens end_location = Verdict.mismatch failing.location := by
  induction before with
  | nil =>
    intro tokens position stop failing rest _ _ hsplit hrun hstep
    simp only [List.map_nil, run, Option.some.injEq] at hrun
    subst hrun
    cases tokens with
    | nil =>
      simp only [List.nil_append, List.cons.injEq] at hsplit
      rw [← hsplit.1] at hstep ⊢
      simp only [scan]
      rw [hstep]
    | cons token tail =>
      simp only [List.cons_append, List.nil_append, List.cons.injEq] at hsplit
      rw [← hsplit.1] at hstep ⊢
      simp only [scan]
      rw [hstep]
  | cons first others ih =>
    intro tokens position stop failing rest hno_eof hnumbers hsplit hrun hstep
    cases tokens with
    | nil =>
      simp only [List.nil_append, List.cons_append, List.cons.injEq] at hsplit
      have := hsplit.2
      simp at this
    | cons token tail =>
      simp only [List.cons_append, List.cons.injEq] at hsplit
      obtain ⟨hfirst, htail⟩ := hsplit
      subst hfirst
      simp only [List.map_cons, run] at hrun
      cases hnext : step position token.type with
      | none => rw [hnext] at hrun; simp at hrun
      | some next =>
        rw [hnext] at hrun
        have hkind := hno_eof token (List.mem_cons_self _ _)
        have hdone : next ≠ Position.done := fun h =>
          hkind ((step_done_iff position next _ hnext).1 h)
        have hverdict : ∀ v, number_verdict token v = v := by
          intro v
          by_cases hnumber : token.type = TokenType.NUMBER
          · obtain ⟨value, hvalue⟩ := hnumbers token (List.mem_cons_self _ _) hnumber
            exact number_verdict_of_ok token v value hvalue
          · exact number_verdict_of_ne token v hnumber
        simp only [scan]
        rw [hnext]
        simp only [hdone, if_false, hverdict]
        exact ih tail next stop failing rest
          (fun t ht => hno_eof t (List.mem_cons_of_mem _ ht))
          (fun t ht => hnumbers t (List.mem_cons_of_mem _ ht)) htail hrun hstep

/-- Where the automaton stops on a list of tokens. -/
theorem first_failure (tokens : List Token) : ∀ position : Position,
    run position (tokens.map Token.type) = none →
    ∃ (before : List Token) (failing : Token) (rest : List Token) (stop : Position),
      tokens = before ++ failing :: rest ∧
        run position (before.map Token.type) = some stop ∧ step stop failing.type = none := by
  induction tokens with
  | nil => intro position h; simp [run] at h
  | cons token tail ih =>
    intro position h
    cases hstep : step position token.type with
    | none => exact ⟨[], token, tail, position, rfl, rfl, hstep⟩
    | some next =>
      simp only [List.map_cons, run, hstep] at h
      obtain ⟨before, failing, rest, stop, hsplit, hrun, hfail⟩ := ih next h
      refine ⟨token :: before, failing, rest, stop, by rw [hsplit]; rfl, ?_, hfail⟩
      simp only [List.map_cons, run, hstep]
      exact hrun

theorem run_end_of_file (kinds : List TokenType) (position last : Position)
    (h : run position (kinds ++ [TokenType.END_OF_FILE]) = some last) :
    last = Position.done := by
  rw [run_append] at h
  cases hkinds : run position kinds with
  | none => rw [hkinds] at h; simp at h
  | some stop =>
    rw [hkinds] at h
    simp only [Option.bind, run] at h
    cases hstep : step stop TokenType.END_OF_FILE with
    | none => rw [hstep] at h; simp at h
    | some next =>
      rw [hstep] at h
      simp only [Option.some.injEq] at h
      rw [← h]
      exact step_end_of_file stop next hstep

/-- C20 on the code. Fail-fast parsing fails for a number that does not
fit an `int`.  The token sequence of
`namespace t; model M { int32 x = 99999999999 }` does not match the grammar,
a `;` is missing before `}`, and `parse_schema` throws `std::out_of_range`,
which is not a `ParseError` and has no location: `std::stoi` runs on the
number, with no handler around it, before the next token is looked at.  The
same source with the number 1 throws the `ParseError` of the claim, at the
location the scanner records for the `}`. -/
theorem fail_fast_fails :
    ¬grammar_schema (overflow_source.tokens.map Token.type) ∧
    (Parser.new overflow_source).parse_schema 14 = Parsed.thrown Thrown.out_of_range ∧
    (∀ message location,
      (Parser.new overflow_source).parse_schema 14 ≠
        Parsed.thrown (Thrown.ParseError message location)) ∧
    ¬grammar_schema (missing_semicolon_source.tokens.map Token.type) ∧
    (Parser.new missing_semicolon_source).parse_schema 14 =
      Parsed.thrown
        (Thrown.ParseError
          "Parse error at line 1, column 37: Expected ';' after field declaration"
          missing_semicolon_brace.location) := by
  have hthrown : (Parser.new overflow_source).parse_schema 14 =
      Parsed.thrown Thrown.out_of_range := by decide
  refine ⟨?_, hthrown, ?_, ?_, by decide⟩
  · rw [grammar_schema_iff_run]
    decide
  · intro message location
    rw [hthrown]
    simp
  · rw [grammar_schema_iff_run]
    decide

/-- Fail-fast parsing where every number converts: when the token sequence
of a source does not match the grammar and every number token converts to an
`int`,
`parse_schema` returns no schema and throws one `ParseError`, whose location
is that of the token at which the match fails: the tokens before it begin a
schema of the grammar, and with that token they do not. -/
theorem fail_fast (lexer : TokenStream) (fuel : Nat)
    (hfuel : lexer.pending.length + 3 ≤ fuel)
    (hno_eof : ∀ token ∈ lexer.pending, token.type ≠ TokenType.END_OF_FILE)
    (hnumbers : ∀ token ∈ lexer.pending, token.type = TokenType.NUMBER →
      ∃ value, stoi token.value = Parsed.ok value)
    (hbad : ¬grammar_schema (lexer.tokens.map Token.type)) :
    ∃ (before : List Token) (failing : Token) (rest : List Token) (message : String),
      lexer.tokens = before ++ failing :: rest ∧
      viable (before.map Token.type) ∧
      ¬viable ((before ++ [failing]).map Token.type) ∧
      (Parser.new lexer).parse_schema fuel =
        Parsed.thrown (Thrown.ParseError message failing.location) := by
  have hrun : run Position.start (lexer.tokens.map Token.type) = none := by
    cases h : run Position.start (lexer.tokens.map Token.type) with
    | none => rfl
    | some last =>
      exfalso
      apply hbad
      rw [grammar_schema_iff_run, h]
      have hkinds : lexer.tokens.map Token.type =
          lexer.pending.map Token.type ++ [TokenType.END_OF_FILE] := by
        simp [TokenStream.tokens, TokenStream.end_token]
      rw [hkinds] at h
      rw [run_end_of_file _ _ _ h]
  obtain ⟨before, failing, rest, stop, hsplit, hbefore, hstep⟩ :=
    first_failure lexer.tokens Position.start hrun
  have hverdict : (Parser.new lexer).verdict Position.start =
      Verdict.mismatch failing.location := by
    rw [Parser.new_verdict]
    exact scan_mismatch_of_run lexer.end_location before lexer.pending Position.start stop
      failing rest hno_eof hnumbers hsplit hbefore hstep
  have hviable : viable (before.map Token.type) := (viable_iff_run _).2 ⟨stop, hbefore⟩
  have hnot : ¬viable ((before ++ [failing]).map Token.type) := by
    rw [viable_iff_run]
    rintro ⟨position, hposition⟩
    rw [List.map_append, run_append, hbefore] at hposition
    simp [run, hstep] at hposition
  have hbudget := Parser.new_budget lexer
  rcases parse_schema_verdict fuel (Parser.new lexer) (by omega) with ⟨haccepted, -⟩ | hfails
  · rw [hverdict] at haccepted
    simp at haccepted
  · rw [hverdict] at hfails
    rcases hfails with ⟨message, location, hv, hr⟩ | ⟨e, hv, -⟩
    · simp only [Verdict.mismatch.injEq] at hv
      rw [← hv] at hr
      exact ⟨before, failing, rest, message, hsplit, hviable, hnot, hr⟩
    · simp at hv

theorem fail_fast_witness :
    missing_semicolon_source.pending.length + 3 ≤ 14 ∧
    (∀ token ∈ missing_semicolon_source.pending, token.type ≠ TokenType.END_OF_FILE) ∧
    (∀ token ∈ missing_semicolon_source.pending, token.type = TokenType.NUMBER →
      ∃ value, stoi token.value = Parsed.ok value) ∧
    ¬grammar_schema (missing_semicolon_source.tokens.map Token.type) ∧
    (∃ (before : List Token) (failing : Token) (rest : List Token) (message : String),
      missing_semicolon_source.tokens = before ++ failing :: rest ∧
      viable (before.map Token.type) ∧
      ¬viable ((before ++ [failing]).map Token.type) ∧
      (Parser.new missing_semicolon_source).parse_schema 14 =
        Parsed.thrown (Thrown.ParseError message failing.location)) ∧
    (Parser.new missing_semicolon_source).parse_schema 14 =
      Parsed.thrown
        (Thrown.ParseError
          "Parse error at line 1, column 37: Expected ';' after field declaration"
          missing_semicolon_brace.location) := by
  have hno_eof : ∀ token ∈ missing_semicolon_source.pending,
      token.type ≠ TokenType.END_OF_FILE := by decide
  have hnumbers : ∀ token ∈ missing_semicolon_source.pending,
      token.type = TokenType.NUMBER → ∃ value, stoi token.value = Parsed.ok value := by
    intro token hmem hnumber
    have hvalue : token.value = "1" := by
      revert hnumber
      revert token
      decide
    exact ⟨1, by rw [hvalue]; decide⟩
  have hbad : ¬grammar_schema (missing_semicolon_source.tokens.map Token.type) := by
    rw [grammar_schema_iff_run]
    decide
  exact ⟨by decide, hno_eof, hnumbers, hbad,
    fail_fast missing_semicolon_source 14 (by decide) hno_eof hnumbers hbad, by decide⟩

/-! ## The scanner on the characters ahead of the cursor -/

theorem Lexer.is_at_end_iff (l : Lexer) : l.is_at_end = true ↔ l.rest = [] := by
  simp [Lexer.is_at_end, Lexer.rest, List.drop_eq_nil_iff]

theorem Lexer.is_at_end_eq_false_iff (l : Lexer) : l.is_at_end = false ↔ l.rest ≠ [] := by
  rw [Ne, ← l.is_at_end_iff]
  simp

theorem Lexer.remaining_eq (l : Lexer) : l.remaining = l.rest.length := by
  simp [Lexer.remaining, Lexer.rest]

theorem Lexer.current_char_eq (l : Lexer) : l.current_char = l.rest.headD '\x00' := by
  unfold Lexer.current_char Lexer.rest
  by_cases h : l.is_at_end = true
  · have hnil := (l.is_at_end_iff).1 h
    unfold Lexer.rest at hnil
    simp [h, hnil]
  · simp only [h, Bool.false_eq_true, if_false]
    rw [List.headD_eq_head?_getD, List.head?_drop, List.getD_eq_getElem?_getD]

theorem Lexer.peek_char_eq (l : Lexer) : l.peek_char 1 = l.rest.tail.headD '\x00' := by
  unfold Lexer.peek_char Lexer.rest
  simp only [List.tail_drop]
  by_cases h : l.position_ + 1 ≥ l.source_.length
  · have hnil : l.source_.drop (l.position_ + 1) = [] := List.drop_eq_nil_iff.2 h
    simp [h, hnil]
  · simp only [h, if_false]
    rw [List.headD_eq_head?_getD, List.head?_drop, List.getD_eq_getElem?_getD]

theorem Lexer.advance_source (l : Lexer) : l.advance.source_ = l.source_ := by
  simp only [Lexer.advance]
  split_ifs <;> rfl

theorem Lexer.advance_peeked (l : Lexer) : l.advance.peeked_token_ = l.peeked_token_ := by
  simp only [Lexer.advance]
  split_ifs <;> rfl

theorem Lexer.advance_position (l : Lexer) :
    l.advance.position_ = if l.rest = [] then l.position_ else l.position_ + 1 := by
  by_cases h : l.is_at_end = true
  · simp [Lexer.advance, h, (l.is_at_end_iff).1 h]
  · have hrest : l.rest ≠ [] := fun hnil => h ((l.is_at_end_iff).2 hnil)
    simp only [Lexer.advance, h, hrest, Bool.false_eq_true, if_false]
    split_ifs <;> rfl

theorem Lexer.advance_rest (l : Lexer) : l.advance.rest = l.rest.tail := by
  by_cases h : l.rest = []
  · have hend := (l.is_at_end_iff).2 h
    unfold Lexer.advance
    simp [hend, h]
  · unfold Lexer.rest at h ⊢
    rw [l.advance_source, l.advance_position]
    unfold Lexer.rest
    rw [if_neg h, List.tail_drop]

theorem Lexer.iterate_rest (k : Nat) : ∀ l : Lexer, (Lexer.advance^[k] l).rest = l.rest.drop k := by
  induction k with
  | zero => intro l; rfl
  | succ k ih =>
    intro l
    rw [Function.iterate_succ_apply, ih, l.advance_rest, List.drop_tail]

theorem Lexer.iterate_source (k : Nat) : ∀ l : Lexer, (Lexer.advance^[k] l).source_ = l.source_ := by
  induction k with
  | zero => intro l; rfl
  | succ k ih =>
    intro l
    rw [Function.iterate_succ_apply, ih, l.advance_source]

theorem Lexer.iterate_peeked (k : Nat) :
    ∀ l : Lexer, (Lexer.advance^[k] l).peeked_token_ = l.peeked_token_ := by
  induction k with
  | zero => intro l; rfl
  | succ k ih =>
    intro l
    rw [Function.iterate_succ_apply, ih, l.advance_peeked]

theorem Lexer.iterate_position (k : Nat) :
    ∀ l : Lexer, k ≤ l.rest.length → (Lexer.advance^[k] l).position_ = l.position_ + k := by
  induction k with
  | zero => intro l _; rfl
  | succ k ih =>
    intro l hk
    have hne : l.rest ≠ [] := by
      intro h
      rw [h] at hk
      simp at hk
    rw [Function.iterate_succ_apply, ih l.advance, l.advance_position, if_neg hne]
    · omega
    · rw [l.advance_rest, List.length_tail]
      omega

theorem Lexer.reaches_refl (l : Lexer) : l.reaches l := ⟨0, rfl⟩

theorem Lexer.reaches_trans (l l1 l2 : Lexer) (h1 : l.reaches l1) (h2 : l1.reaches l2) :
    l.reaches l2 := by
  obtain ⟨k1, rfl⟩ := h1
  obtain ⟨k2, rfl⟩ := h2
  exact ⟨k2 + k1, by rw [Function.iterate_add_apply]⟩

theorem Lexer.reaches_advance (l : Lexer) : l.reaches l.advance := ⟨1, rfl⟩

theorem Lexer.reaches_source (l l1 : Lexer) (h : l.reaches l1) : l1.source_ = l.source_ := by
  obtain ⟨k, rfl⟩ := h
  exact Lexer.iterate_source k l

theorem Lexer.reaches_peeked (l l1 : Lexer) (h : l.reaches l1) :
    l1.peeked_token_ = l.peeked_token_ := by
  obtain ⟨k, rfl⟩ := h
  exact Lexer.iterate_peeked k l

theorem List.drop_takeWhile_length {α : Type} (p : α → Bool) (xs : List α) :
    xs.drop (xs.takeWhile p).length = xs.dropWhile p := by
  induction xs with
  | nil => rfl
  | cons x rest ih =>
    by_cases h : p x = true
    · simp [List.takeWhile_cons, List.dropWhile_cons, h, ih]
    · simp [List.takeWhile_cons, List.dropWhile_cons, h]

theorem List.take_takeWhile_length {α : Type} (p : α → Bool) (xs : List α) :
    xs.take (xs.takeWhile p).length = xs.takeWhile p := by
  induction xs with
  | nil => rfl
  | cons x rest ih =>
    by_cases h : p x = true
    · simp [List.takeWhile_cons, h, ih]
    · simp [List.takeWhile_cons, h]

theorem List.takeWhile_length_le {α : Type} (p : α → Bool) (xs : List α) :
    (xs.takeWhile p).length ≤ xs.length := by
  induction xs with
  | nil => simp
  | cons x rest ih =>
    by_cases h : p x = true
    · simp [List.takeWhile_cons, h, ih]
    · simp [List.takeWhile_cons, h]

/-- A loop `while (!is_at_end() && p(current_char())) advance();` advances
over the characters that satisfy `p`. -/
theorem Lexer.advance_while_eq (p : Char → Bool) : ∀ (rounds : Nat) (l : Lexer),
    l.rest.length ≤ rounds →
    Lexer.advance_while p rounds l = Lexer.advance^[(l.rest.takeWhile p).length] l := by
  intro rounds
  induction rounds with
  | zero =>
    intro l h
    have hnil : l.rest = [] := List.length_eq_zero.1 (Nat.le_zero.1 h)
    rw [hnil]
    rfl
  | succ rounds ih =>
    intro l h
    rw [Lexer.advance_while]
    cases hrest : l.rest with
    | nil =>
      have hend := (l.is_at_end_iff).2 hrest
      simp [hend]
    | cons c cs =>
      have hend : l.is_at_end = false := (l.is_at_end_eq_false_iff).2 (by rw [hrest]; simp)
      have hcurrent : l.current_char = c := by rw [l.current_char_eq, hrest]; rfl
      have hadvance : l.advance.rest = cs := by rw [l.advance_rest, hrest]; rfl
      by_cases hp : p c = true
      · simp only [hend, hcurrent, hp, Bool.not_false, Bool.and_self, if_true,
          List.takeWhile_cons, List.length_cons]
        rw [ih l.advance (by rw [hadvance]; rw [hrest] at h; simpa using h), hadvance,
          Function.iterate_succ_apply]
      · simp only [hend, hcurrent, hp, Bool.not_false, Bool.true_and, Bool.false_eq_true,
          if_false, List.takeWhile_cons, List.length_nil]
        rfl

theorem Lexer.advance_while_rest (p : Char → Bool) (l : Lexer) :
    (Lexer.advance_while p l.remaining l).rest = l.rest.dropWhile p := by
  rw [Lexer.advance_while_eq p _ l (by rw [l.remaining_eq]), Lexer.iterate_rest,
    List.drop_takeWhile_length]

theorem Lexer.advance_while_reaches (p : Char → Bool) (l : Lexer) :
    l.reaches (Lexer.advance_while p l.remaining l) :=
  ⟨_, Lexer.advance_while_eq p _ l (by rw [l.remaining_eq])⟩

/-- The lexeme `source_.substr(start, position_ - start)` after a loop that
began at `start`. -/
theorem Lexer.advance_while_substr (p : Char → Bool) (l : Lexer) :
    (Lexer.advance_while p l.remaining l).substr l.position_ =
      String.mk (l.rest.takeWhile p) := by
  rw [Lexer.advance_while_eq p _ l (by rw [l.remaining_eq])]
  unfold Lexer.substr
  rw [Lexer.iterate_source, Lexer.iterate_position _ l (List.takeWhile_length_le p _)]
  have hrest : l.source_.drop l.position_ = l.rest := rfl
  rw [hrest, Nat.add_sub_cancel_left, List.take_takeWhile_length]

theorem Lexer.skip_line_comment_rest (l : Lexer) :
    l.skip_line_comment.rest = after_line_comment l.rest := by
  unfold Lexer.skip_line_comment after_line_comment
  rw [Lexer.advance_while_rest, Lexer.advance_rest, Lexer.advance_rest]

theorem Lexer.skip_line_comment_reaches (l : Lexer) : l.reaches l.skip_line_comment :=
  Lexer.reaches_trans _ _ _
    (Lexer.reaches_trans _ _ _ l.reaches_advance l.advance.reaches_advance)
    (Lexer.advance_while_reaches _ _)

theorem Lexer.skip_block_comment_loop_spec : ∀ (rounds : Nat) (l : Lexer),
    l.rest.length ≤ rounds →
    (Lexer.skip_block_comment_loop rounds l).rest = block_comment_end l.rest ∧
      l.reaches (Lexer.skip_block_comment_loop rounds l) := by
  intro rounds
  induction rounds with
  | zero =>
    intro l h
    have hnil : l.rest = [] := List.length_eq_zero.1 (Nat.le_zero.1 h)
    rw [Lexer.skip_block_comment_loop, hnil]
    exact ⟨rfl, l.reaches_refl⟩
  | succ rounds ih =>
    intro l h
    rw [Lexer.skip_block_comment_loop]
    cases hrest : l.rest with
    | nil =>
      have hend := (l.is_at_end_iff).2 hrest
      simp only [hend, Bool.not_true, Bool.false_eq_true, if_false]
      exact ⟨by rw [hrest]; rfl, l.reaches_refl⟩
    | cons c cs =>
      have hend : l.is_at_end = false := (l.is_at_end_eq_false_iff).2 (by rw [hrest]; simp)
      have hcurrent : l.current_char = c := by rw [l.current_char_eq, hrest]; rfl
      have hpeek : l.peek_char 1 = cs.headD '\x00' := by rw [l.peek_char_eq, hrest]; rfl
      have hadvance : l.advance.rest = cs := by rw [l.advance_rest, hrest]; rfl
      simp only [hend, hcurrent, hpeek, Bool.not_false, if_true, block_comment_end]
      by_cases hclose : (decide (c = '*') && decide (cs.headD '\x00' = '/')) = true
      · simp only [hclose, if_true]
        refine ⟨by rw [Lexer.advance_rest, hadvance], ?_⟩
        exact Lexer.reaches_trans _ _ _ l.reaches_advance l.advance.reaches_advance
      · simp only [hclose, Bool.false_eq_true, if_false]
        have hih := ih l.advance (by rw [hadvance]; rw [hrest] at h; simpa using h)
        rw [hadvance] at hih
        exact ⟨hih.1, Lexer.reaches_trans _ _ _ l.reaches_advance hih.2⟩

theorem Lexer.skip_block_comment_rest (l : Lexer) :
    l.skip_block_comment.rest = after_block_comment l.rest := by
  unfold Lexer.skip_block_comment after_block_comment
  rw [(Lexer.skip_block_comment_loop_spec _ _ (by rw [Lexer.remaining_eq])).1,
    Lexer.advance_rest, Lexer.advance_rest]

theorem Lexer.skip_block_comment_reaches (l : Lexer) : l.reaches l.skip_block_comment :=
  Lexer.reaches_trans _ _ _
    (Lexer.reaches_trans _ _ _ l.reaches_advance l.advance.reaches_advance)
    (Lexer.skip_block_comment_loop_spec _ _ (by rw [Lexer.remaining_eq])).2

theorem List.dropWhile_length_le {α : Type} (p : α → Bool) (xs : List α) :
    (xs.dropWhile p).length ≤ xs.length := by
  induction xs with
  | nil => simp
  | cons x rest ih =>
    by_cases h : p x = true
    · simp only [List.dropWhile_cons, h, if_true, List.length_cons]
      omega
    · simp [List.dropWhile_cons, h]

theorem after_line_comment_length (c : Char) (rest : List Char) :
    (after_line_comment (c :: rest)).length ≤ rest.length := by
  unfold after_line_comment
  have h := List.dropWhile_length_le (fun c => c != '\n') rest.tail
  simp only [List.tail_cons]
  have htail : rest.tail.length ≤ rest.length := by simp
  omega

theorem block_comment_end_length (rest : List Char) :
    (block_comment_end rest).length ≤ rest.length := by
  induction rest with
  | nil => simp [block_comment_end]
  | cons c rest ih =>
    rw [block_comment_end]
    split_ifs
    · simp only [List.length_tail, List.length_cons]
      omega
    · simp only [List.length_cons]
      omega

theorem after_block_comment_length (c : Char) (rest : List Char) :
    (after_block_comment (c :: rest)).length ≤ rest.length := by
  unfold after_block_comment
  have h := block_comment_end_length rest.tail
  simp only [List.tail_cons]
  have htail : rest.tail.length ≤ rest.length := by simp
  omega

theorem skip_blank_length : ∀ (rounds : Nat) (rest : List Char),
    (skip_blank rounds rest).length ≤ rest.length := by
  intro rounds
  induction rounds with
  | zero => intro rest; simp [skip_blank]
  | succ rounds ih =>
    intro rest
    cases rest with
    | nil => simp [skip_blank]
    | cons c cs =>
      rw [skip_blank]
      split_ifs
      · have := ih cs
        simp only [List.length_cons]
        omega
      · have := ih (after_line_comment (c :: cs))
        have := after_line_comment_length c cs
        simp only [List.length_cons]
        omega
      · have := ih (after_block_comment (c :: cs))
        have := after_block_comment_length c cs
        simp only [List.length_cons]
        omega
      · exact Nat.le_refl _

/-- More rounds than characters do not change where the loop stops. -/
theorem skip_blank_rounds : ∀ (rounds : Nat) (rest : List Char), rest.length ≤ rounds →
    skip_blank rounds rest = skip_blank rest.length rest := by
  intro rounds
  induction rounds using Nat.strong_induction_on with
  | _ rounds ih =>
    intro rest h
    cases rest with
    | nil => cases rounds <;> rfl
    | cons c cs =>
      cases rounds with
      | zero => simp at h
      | succ rounds =>
        simp only [List.length_cons] at h ⊢
        rw [skip_blank, skip_blank]
        have hcs : cs.length ≤ rounds := by omega
        split_ifs
        · exact ih rounds (by omega) cs hcs
        · have hlen := after_line_comment_length c cs
          rw [ih rounds (by omega) _ (by omega), ih cs.length (by omega) _ hlen]
        · have hlen := after_block_comment_length c cs
          rw [ih rounds (by omega) _ (by omega), ih cs.length (by omega) _ hlen]
        · rfl

theorem Lexer.skip_whitespace_and_comments_loop_spec : ∀ (rounds : Nat) (l : Lexer),
    (Lexer.skip_whitespace_and_comments_loop rounds l).rest = skip_blank rounds l.rest ∧
      l.reaches (Lexer.skip_whitespace_and_comments_loop rounds l) := by
  intro rounds
  induction rounds with
  | zero => intro l; exact ⟨rfl, l.reaches_refl⟩
  | succ rounds ih =>
    intro l
    rw [Lexer.skip_whitespace_and_comments_loop]
    cases hrest : l.rest with
    | nil =>
      have hend := (l.is_at_end_iff).2 hrest
      simp only [hend, Bool.not_true, Bool.false_eq_true, if_false]
      exact ⟨by rw [hrest]; rfl, l.reaches_refl⟩
    | cons c cs =>
      have hend : l.is_at_end = false := (l.is_at_end_eq_false_iff).2 (by rw [hrest]; simp)
      have hcurrent : l.current_char = c := by rw [l.current_char_eq, hrest]; rfl
      have hpeek : l.peek_char 1 = cs.headD '\x00' := by rw [l.peek_char_eq, hrest]; rfl
      simp only [hend, hcurrent, hpeek, Bool.not_false, if_true, skip_blank]
      split_ifs
      · have hih := ih l.advance
        rw [l.advance_rest, hrest] at hih
        exact ⟨hih.1, Lexer.reaches_trans _ _ _ l.reaches_advance hih.2⟩
      · have hih := ih l.skip_line_comment
        rw [l.skip_line_comment_rest, hrest] at hih
        exact ⟨hih.1, Lexer.reaches_trans _ _ _ l.skip_line_comment_reaches hih.2⟩
      · have hih := ih l.skip_block_comment
        rw [l.skip_block_comment_rest, hrest] at hih
        exact ⟨hih.1, Lexer.reaches_trans _ _ _ l.skip_block_comment_reaches hih.2⟩
      · exact ⟨hrest, l.reaches_refl⟩

theorem Lexer.skip_whitespace_and_comments_rest (l : Lexer) :
    l.skip_whitespace_and_comments.rest = skip_blank l.rest.length l.rest := by
  unfold Lexer.skip_whitespace_and_comments
  rw [(Lexer.skip_whitespace_and_comments_loop_spec _ l).1, l.remaining_eq]

theorem Lexer.skip_whitespace_and_comments_reaches (l : Lexer) :
    l.reaches l.skip_whitespace_and_comments :=
  (Lexer.skip_whitespace_and_comments_loop_spec _ l).2

theorem Lexer.read_identifier_or_keyword_spec (l : Lexer) :
    l.read_identifier_or_keyword.1 =
        { type := keyword_or_identifier (String.mk (l.rest.takeWhile is_identifier_continue))
          value := String.mk (l.rest.takeWhile is_identifier_continue)
          location := l.current_location } ∧
      l.read_identifier_or_keyword.2.rest = l.rest.dropWhile is_identifier_continue ∧
      l.reaches l.read_identifier_or_keyword.2 := by
  unfold Lexer.read_identifier_or_keyword
  simp only [Lexer.advance_while_substr, Lexer.advance_while_rest]
  exact ⟨trivial, trivial, Lexer.advance_while_reaches _ l⟩

theorem Lexer.read_number_spec (l : Lexer) (c : Char) (cs : List Char)
    (hrest : l.rest = c :: cs) :
    l.read_number.1 =
        { type := TokenType.NUMBER
          value :=
            String.mk
              (if c = '-' then c :: cs.takeWhile is_digit else (c :: cs).takeWhile is_digit)
          location := l.current_location } ∧
      l.read_number.2.rest =
        (if c = '-' then cs.dropWhile is_digit else (c :: cs).dropWhile is_digit) ∧
      l.reaches l.read_number.2 := by
  have hcurrent : l.current_char = c := by rw [l.current_char_eq, hrest]; rfl
  unfold Lexer.read_number
  simp only [hcurrent]
  by_cases hminus : c = '-'
  · simp only [hminus, if_true]
    have hadvance : l.advance.rest = cs := by rw [l.advance_rest, hrest]; rfl
    refine ⟨?_, by rw [Lexer.advance_while_rest, hadvance],
      Lexer.reaches_trans _ _ _ l.reaches_advance (Lexer.advance_while_reaches _ _)⟩
    congr 1
    rw [Lexer.advance_while_eq _ _ l.advance (by rw [Lexer.remaining_eq])]
    unfold Lexer.substr
    rw [Lexer.iterate_source, l.advance_source,
      Lexer.iterate_position _ l.advance (List.takeWhile_length_le _ _), l.advance_position]
    have hsrc : l.source_.drop l.position_ = l.rest := rfl
    rw [hsrc, hrest, hadvance]
    simp only [reduceCtorEq, if_false, ← hminus]
    have hlen : l.position_ + 1 + (cs.takeWhile is_digit).length - l.position_ =
        (cs.takeWhile is_digit).length + 1 := by omega
    rw [hlen, List.take_succ_cons, List.take_takeWhile_length]
  · simp only [hminus, if_false]
    refine ⟨?_, by rw [Lexer.advance_while_rest, hrest], Lexer.advance_while_reaches _ _⟩
    rw [Lexer.advance_while_substr, hrest]

/-- The token `next_token` returns and the cursor it leaves, when no token
is held back by `peek_token`. -/
theorem Lexer.next_token_spec (l : Lexer) (hpeeked : l.peeked_token_ = none) :
    l.next_token.1.shape = (token_at (skip_blank l.rest.length l.rest)).1 ∧
      l.next_token.2.rest = (token_at (skip_blank l.rest.length l.rest)).2 ∧
      l.reaches l.next_token.2 := by
  have hskip := l.skip_whitespace_and_comments_rest
  have hreach := l.skip_whitespace_and_comments_reaches
  unfold Lexer.next_token
  rw [hpeeked]
  simp only
  generalize l.skip_whitespace_and_comments = l1 at hskip hreach
  rw [← hskip]
  cases hrest : l1.rest with
  | nil =>
    have hend := (l1.is_at_end_iff).2 hrest
    simp only [hend, if_true, token_at]
    exact ⟨rfl, hrest, hreach⟩
  | cons c cs =>
    have hend : l1.is_at_end = false := (l1.is_at_end_eq_false_iff).2 (by rw [hrest]; simp)
    have hcurrent : l1.current_char = c := by rw [l1.current_char_eq, hrest]; rfl
    have hpeek : l1.peek_char 1 = cs.headD '\x00' := by rw [l1.peek_char_eq, hrest]; rfl
    have hadvance : l1.advance.rest = cs := by rw [l1.advance_rest, hrest]; rfl
    have hstep : l.reaches l1.advance := Lexer.reaches_trans _ _ _ hreach l1.reaches_advance
    simp only [hend, Bool.false_eq_true, if_false, hcurrent, hpeek, token_at]
    split_ifs
    · exact ⟨rfl, hadvance, hstep⟩
    · exact ⟨rfl, hadvance, hstep⟩
    · exact ⟨rfl, hadvance, hstep⟩
    · exact ⟨rfl, hadvance, hstep⟩
    · exact ⟨rfl, hadvance, hstep⟩
    · rename_i hminus _
      obtain ⟨htoken, hrest2, hreach2⟩ := l1.read_number_spec c cs hrest
      rw [htoken, hrest2]
      simp only [hminus, if_true]
      exact ⟨rfl, trivial, Lexer.reaches_trans _ _ _ hreach hreach2⟩
    · exact ⟨rfl, hadvance, hstep⟩
    · obtain ⟨htoken, hrest2, hreach2⟩ := l1.read_identifier_or_keyword_spec
      rw [htoken, hrest2, hrest]
      exact ⟨rfl, rfl, Lexer.reaches_trans _ _ _ hreach hreach2⟩
    · rename_i hminus _ _
      obtain ⟨htoken, hrest2, hreach2⟩ := l1.read_number_spec c cs hrest
      rw [htoken, hrest2]
      simp only [hminus, if_false]
      exact ⟨rfl, trivial, Lexer.reaches_trans _ _ _ hreach hreach2⟩
    · exact ⟨rfl, hadvance, hstep⟩

theorem Lexer.next_token_peeked (l : Lexer) : l.next_token.2.peeked_token_ = none := by
  cases hpeeked : l.peeked_token_ with
  | some token =>
    unfold Lexer.next_token
    rw [hpeeked]
  | none =>
    rw [Lexer.reaches_peeked _ _ (l.next_token_spec hpeeked).2.2, hpeeked]

theorem keyword_or_identifier_mem (word : String) :
    keyword_or_identifier word = TokenType.IDENTIFIER ∨
      (word, keyword_or_identifier word) ∈ keywords := by
  unfold keyword_or_identifier
  cases hfind : keywords.find? fun entry => entry.1 = word with
  | none => exact Or.inl rfl
  | some entry =>
    right
    have hmem := List.mem_of_find?_eq_some hfind
    have hword := List.find?_some hfind
    simp only [decide_eq_true_eq] at hword
    rw [← hword]
    exact hmem

theorem keyword_or_identifier_ne (word : String) :
    keyword_or_identifier word ≠ TokenType.END_OF_FILE ∧
      keyword_or_identifier word ≠ TokenType.NUMBER ∧
      keyword_or_identifier word ≠ TokenType.INVALID := by
  rcases keyword_or_identifier_mem word with h | h
  · rw [h]
    exact ⟨by decide, by decide, by decide⟩
  · generalize keyword_or_identifier word = kind at h
    simp only [keywords, List.mem_cons, Prod.mk.injEq, List.mem_singleton, List.not_mem_nil,
      or_false] at h
    rcases h with h | h | h | h | h | h | h | h | h | h | h | h | h | h | h | h | h | h | h |
      h | h <;> rw [h.2] <;> exact ⟨by decide, by decide, by decide⟩

theorem token_at_ne_end_of_file (c : Char) (cs : List Char) :
    (token_at (c :: cs)).1.1 ≠ TokenType.END_OF_FILE := by
  rw [token_at]
  split_ifs <;> first | exact (keyword_or_identifier_ne _).1 | simp

/-- A token other than `END_OF_FILE` covers at least one character. -/
theorem token_at_length (c : Char) (cs : List Char) :
    (token_at (c :: cs)).2.length ≤ cs.length := by
  rw [token_at]
  split_ifs
  any_goals exact Nat.le_refl _
  · exact List.dropWhile_length_le _ _
  · rename_i hstart
    have hcontinue : is_identifier_continue c = true := by
      unfold is_identifier_start at hstart
      unfold is_identifier_continue
      simp only [Bool.or_eq_true, decide_eq_true_eq] at hstart ⊢
      rcases hstart with h | h
      · left
        unfold Char.isAlphanum
        rw [h]
        rfl
      · exact Or.inr h
    rw [List.dropWhile_cons, if_pos hcontinue]
    exact List.dropWhile_length_le _ _
  · rename_i hdigit
    rw [List.dropWhile_cons, if_pos hdigit]
    exact List.dropWhile_length_le _ _

/-- The kinds and lexemes of the tokens `next_token` returns before
`END_OF_FILE`. -/
theorem Lexer.scan_tokens_shapes : ∀ (calls : Nat) (l : Lexer), l.peeked_token_ = none →
    (Lexer.scan_tokens calls l).1.map Token.shape = shapes calls l.rest := by
  intro calls
  induction calls with
  | zero => intro l _; rfl
  | succ calls ih =>
    intro l hpeeked
    obtain ⟨hshape, hrest, -⟩ := l.next_token_spec hpeeked
    rw [Lexer.scan_tokens, shapes]
    cases hskip : skip_blank l.rest.length l.rest with
    | nil =>
      rw [hskip] at hshape
      have htype : l.next_token.1.type = TokenType.END_OF_FILE := congrArg Prod.fst hshape
      simp [htype]
    | cons c cs =>
      rw [hskip] at hshape hrest
      have htype : l.next_token.1.type ≠ TokenType.END_OF_FILE := by
        have h := token_at_ne_end_of_file c cs
        rw [← hshape] at h
        exact h
      simp only [htype, if_false, List.map_cons]
      rw [hshape, ih l.next_token.2 l.next_token_peeked, hrest]

/-! ## The scanner claims -/

/-- C24 on the code. The location of a punctuation token and of an invalid
token is not that of its first character: `next_token` calls `advance` before
`make_token`, which reads the cursor.  On the sources `;`, `=`, `{`, `}`,
`.`, `$` and `-` the token carries line 1, column 2, offset 1, where the
character is at line 1, column 1, offset 0; in `a;` the token `;` carries
column 3.  Identifiers and numbers carry the location of their first
character. -/
theorem punctuation_location_is_past :
    (∀ source ∈ [";", "=", "\x7b", "\x7d", ".", "$", "-"],
      (Lexer.new (String.data source)).next_token.1.value = source ∧
      (Lexer.new (String.data source)).next_token.1.location =
        { line := 1, column := 2, offset := 1 } ∧
      location_of (String.data source) 0 = { line := 1, column := 1, offset := 0 }) ∧
    (tokenize "a;").pending =
      [{ type := TokenType.IDENTIFIER, value := "a"
         location := { line := 1, column := 1, offset := 0 } },
       { type := TokenType.SEMICOLON, value := ";"
         location := { line := 1, column := 3, offset := 2 } }] ∧
    location_of (String.data "a;") 1 = { line := 1, column := 2, offset := 1 } ∧
    (Lexer.new (String.data "-7")).next_token.1 =
      { type := TokenType.NUMBER, value := "-7"
        location := { line := 1, column := 1, offset := 0 } } := by
  refine ⟨by decide, by decide, by decide, by decide⟩

theorem Lexer.peek_token_next_token (l : Lexer) : l.peek_token.2.next_token = l.next_token := by
  cases hpeeked : l.peeked_token_ with
  | some token =>
    unfold Lexer.peek_token
    rw [hpeeked]
  | none =>
    have hnone := l.next_token_peeked
    unfold Lexer.peek_token
    rw [hpeeked]
    simp only
    generalize l.next_token = result at hnone
    obtain ⟨token, l1⟩ := result
    simp only at hnone
    simp only [Lexer.next_token]
    cases l1
    simp only at hnone
    subst hnone
    rfl

theorem Lexer.peek_token_peek_token (l : Lexer) : l.peek_token.2.peek_token = l.peek_token := by
  cases hpeeked : l.peeked_token_ with
  | some token =>
    have h : l.peek_token = (token, l) := by
      unfold Lexer.peek_token
      rw [hpeeked]
    rw [h]
    exact h
  | none =>
    unfold Lexer.peek_token
    rw [hpeeked]

theorem Lexer.run_calls_peek (calls : List Bool) (l : Lexer)
    (hcalls : ∀ call ∈ calls, call = true) :
    Lexer.run_calls calls l.peek_token.2 = Lexer.run_calls calls l := by
  cases calls with
  | nil => rfl
  | cons call rest =>
    have hcall : call = true := hcalls call (List.mem_cons_self _ _)
    subst hcall
    simp only [Lexer.run_calls, l.peek_token_next_token]

/-- C25. `peek_token` is idempotent and does not consume: a second
`peek_token` returns the same token and leaves the scanner as it is, any
number of `peek_token` calls return the token that the `next_token` call
after them returns, that call returns what `next_token` would have returned
without them, and a sequence of calls yields the same tokens as the sequence
without its `peek_token` calls. -/
theorem peek_is_idempotent :
    (∀ l : Lexer, l.peek_token.2.peek_token = l.peek_token) ∧
    (∀ (l : Lexer) (n : Nat),
      ((fun s : Lexer => s.peek_token.2)^[n] l).peek_token.1 = l.peek_token.1 ∧
      ((fun s : Lexer => s.peek_token.2)^[n + 1] l).next_token.1 = l.peek_token.1 ∧
      ((fun s : Lexer => s.peek_token.2)^[n] l).next_token = l.next_token) ∧
    (∀ (calls : List Bool) (l : Lexer),
      Lexer.run_calls calls l = Lexer.run_calls (calls.filter id) l) := by
  have hiterate : ∀ (n : Nat) (l : Lexer),
      ((fun s : Lexer => s.peek_token.2)^[n] l).peek_token.1 = l.peek_token.1 ∧
      ((fun s : Lexer => s.peek_token.2)^[n] l).next_token = l.next_token := by
    intro n
    induction n with
    | zero => intro l; exact ⟨rfl, rfl⟩
    | succ n ih =>
      intro l
      rw [Function.iterate_succ_apply]
      obtain ⟨h1, h2⟩ := ih l.peek_token.2
      exact ⟨by rw [h1, l.peek_token_peek_token], by rw [h2, l.peek_token_next_token]⟩
  have hpeek_next : ∀ l : Lexer, l.next_token.1 = l.peek_token.1 := by
    intro l
    unfold Lexer.peek_token
    cases hpeeked : l.peeked_token_ with
    | some token =>
      unfold Lexer.next_token
      rw [hpeeked]
    | none => rfl
  refine ⟨Lexer.peek_token_peek_token, ?_, ?_⟩
  · intro l n
    refine ⟨(hiterate n l).1, ?_, (hiterate n l).2⟩
    rw [(hiterate (n + 1) l).2]
    exact hpeek_next l
  · intro calls
    induction calls with
    | nil => intro l; rfl
    | cons call rest ih =>
      intro l
      cases call with
      | true =>
        simp only [List.filter_cons, id, if_true, Lexer.run_calls]
        rw [ih]
      | false =>
        simp only [List.filter_cons, id, Bool.false_eq_true, if_false, Lexer.run_calls]
        rw [ih, Lexer.run_calls_peek _ _ (by
          intro call hmem
          exact (List.mem_filter.1 hmem).2)]

theorem List.dropWhile_head_not {α : Type} (p : α → Bool) (xs : List α) :
    ∀ x ∈ (xs.dropWhile p).head?, p x = false := by
  induction xs with
  | nil => simp
  | cons y rest ih =>
    by_cases h : p y = true
    · simpa [List.dropWhile_cons, h] using ih
    · simp [List.dropWhile_cons, h]

theorem List.takeWhile_all {α : Type} (p : α → Bool) (xs : List α) :
    ∀ x ∈ xs.takeWhile p, p x = true := by
  induction xs with
  | nil => simp
  | cons y rest ih =>
    by_cases h : p y = true
    · simp only [List.takeWhile_cons, h, if_true, List.mem_cons]
      rintro x (hx | hx)
      · rw [hx]; exact h
      · exact ih x hx
    · simp [List.takeWhile_cons, h]

theorem is_identifier_start_ne (c : Char) (h : is_identifier_start c = true) :
    isspace c = false ∧ c ≠ '/' ∧ c ≠ ';' ∧ c ≠ '=' ∧ c ≠ '\x7b' ∧ c ≠ '\x7d' ∧ c ≠ '.' ∧
      c ≠ '-' := by
  have hne : ∀ d : Char, is_identifier_start d = false → c ≠ d := by
    intro d hd heq
    rw [heq, hd] at h
    simp at h
  refine ⟨?_, hne _ (by decide), hne _ (by decide), hne _ (by decide), hne _ (by decide),
    hne _ (by decide), hne _ (by decide), hne _ (by decide)⟩
  unfold isspace
  simp only [Bool.or_eq_false_iff, decide_eq_false_iff_not]
  exact ⟨⟨⟨⟨⟨hne _ (by decide), hne _ (by decide)⟩, hne _ (by decide)⟩, hne _ (by decide)⟩,
    hne _ (by decide)⟩, hne _ (by decide)⟩

/-- At a character that is neither white space nor the start of a comment
`skip_whitespace_and_comments` leaves the scanner as it is. -/
theorem Lexer.skip_whitespace_and_comments_at_token (l : Lexer) (c : Char) (cs : List Char)
    (hrest : l.rest = c :: cs) (hspace : isspace c = false)
    (hcomment : c ≠ '/' ∨ (cs.headD '\x00' ≠ '/' ∧ cs.headD '\x00' ≠ '*')) :
    l.skip_whitespace_and_comments = l := by
  have hend : l.is_at_end = false := (l.is_at_end_eq_false_iff).2 (by rw [hrest]; simp)
  have hcurrent : l.current_char = c := by rw [l.current_char_eq, hrest]; rfl
  have hpeek : l.peek_char 1 = cs.headD '\x00' := by rw [l.peek_char_eq, hrest]; rfl
  have hremaining : l.remaining = cs.length + 1 := by rw [l.remaining_eq, hrest]; rfl
  unfold Lexer.skip_whitespace_and_comments
  rw [hremaining, Lexer.skip_whitespace_and_comments_loop]
  simp only [hend, hcurrent, hpeek, hspace, Bool.not_false, if_true, Bool.false_eq_true,
    if_false]
  have hb1 : (decide (c = '/') && decide (cs.headD '\x00' = '/')) = false := by
    rcases hcomment with h | ⟨h1, -⟩
    · simp [h]
    · rw [Bool.and_eq_false_iff]
      exact Or.inr (decide_eq_false h1)
  have hb2 : (decide (c = '/') && decide (cs.headD '\x00' = '*')) = false := by
    rcases hcomment with h | ⟨-, h2⟩
    · simp [h]
    · rw [Bool.and_eq_false_iff]
      exact Or.inr (decide_eq_false h2)
  rw [hb1, hb2]
  simp

/-- C26. Keyword classification: when the cursor is at a letter or an
underscore, `next_token` returns one token whose lexeme is the run of
letters, digits and underscores that starts there, up to the first character
that is none of these, whose location is that of the cursor, and whose kind
is looked up in the table of the 8 keywords and 13 primitive type names,
`IDENTIFIER` for every other lexeme; the look-up is case-sensitive. -/
theorem keyword_classification :
    (∀ (l : Lexer) (c : Char) (cs : List Char), l.peeked_token_ = none → l.rest = c :: cs →
      is_identifier_start c = true →
      l.next_token.1 =
        { type :=
            keyword_or_identifier (String.mk ((c :: cs).takeWhile is_identifier_continue))
          value := String.mk ((c :: cs).takeWhile is_identifier_continue)
          location := l.current_location } ∧
      l.next_token.2.rest = (c :: cs).dropWhile is_identifier_continue ∧
      c :: cs = (c :: cs).takeWhile is_identifier_continue ++ l.next_token.2.rest ∧
      ∀ next ∈ l.next_token.2.rest.head?, is_identifier_continue next = false) ∧
    (∀ entry ∈ keywords, keyword_or_identifier entry.1 = entry.2) ∧
    keywords.map Prod.fst = reserved_words ∧
    keywords.map Prod.snd =
      [TokenType.NAMESPACE, TokenType.ENUM, TokenType.MODEL, TokenType.OPTIONAL,
       TokenType.REPEATED, TokenType.PACKED, TokenType.INTERNED, TokenType.BITMAP,
       TokenType.INT8, TokenType.INT16, TokenType.INT32, TokenType.INT64, TokenType.UINT8,
       TokenType.UINT16, TokenType.UINT32, TokenType.UINT64, TokenType.FLOAT,
       TokenType.DOUBLE, TokenType.BOOL, TokenType.STRING, TokenType.BYTE] ∧
    (∀ word : String, word ∉ reserved_words →
      keyword_or_identifier word = TokenType.IDENTIFIER) ∧
    keyword_or_identifier "Namespace" = TokenType.IDENTIFIER := by
  refine ⟨?_, by decide, by decide, by decide, ?_, by decide⟩
  · intro l c cs hpeeked hrest hstart
    obtain ⟨hspace, hslash, h1, h2, h3, h4, h5, h6⟩ := is_identifier_start_ne c hstart
    have hskip := l.skip_whitespace_and_comments_at_token c cs hrest hspace (Or.inl hslash)
    have hend : l.is_at_end = false := (l.is_at_end_eq_false_iff).2 (by rw [hrest]; simp)
    have hcurrent : l.current_char = c := by rw [l.current_char_eq, hrest]; rfl
    have hnext : l.next_token = l.read_identifier_or_keyword := by
      unfold Lexer.next_token
      rw [hpeeked]
      simp only [hskip, hend, hcurrent, h1, h2, h3, h4, h5, h6, hstart, Bool.false_eq_true,
        if_false, if_true]
    obtain ⟨htoken, hrest2, -⟩ := l.read_identifier_or_keyword_spec
    rw [hnext, htoken, hrest2, hrest]
    exact ⟨rfl, rfl, (List.takeWhile_append_dropWhile _ _).symm,
      List.dropWhile_head_not _ _⟩
  · intro word hword
    rcases keyword_or_identifier_mem word with h | h
    · exact h
    · exfalso
      apply hword
      have hmem : word ∈ keywords.map Prod.fst := List.mem_map.2 ⟨_, h, rfl⟩
      exact hmem

theorem keyword_classification_witness :
    (Lexer.new (String.data "model_1 M")).peeked_token_ = none ∧
    (Lexer.new (String.data "model_1 M")).rest = 'm' :: String.data "odel_1 M" ∧
    is_identifier_start 'm' = true ∧
    ((Lexer.new (String.data "model_1 M")).next_token.1 =
        { type :=
            keyword_or_identifier
              (String.mk (('m' :: String.data "odel_1 M").takeWhile is_identifier_continue))
          value := String.mk (('m' :: String.data "odel_1 M").takeWhile is_identifier_continue)
          location := (Lexer.new (String.data "model_1 M")).current_location } ∧
      (Lexer.new (String.data "model_1 M")).next_token.2.rest =
        ('m' :: String.data "odel_1 M").dropWhile is_identifier_continue ∧
      'm' :: String.data "odel_1 M" =
        ('m' :: String.data "odel_1 M").takeWhile is_identifier_continue ++
          (Lexer.new (String.data "model_1 M")).next_token.2.rest ∧
      ∀ next ∈ (Lexer.new (String.data "model_1 M")).next_token.2.rest.head?,
        is_identifier_continue next = false) :=
  ⟨rfl, by decide, by decide,
    keyword_classification.1 (Lexer.new (String.data "model_1 M")) 'm'
      (String.data "odel_1 M") rfl (by decide) (by decide)⟩

theorem token_at_number (rest : List Char)
    (h : (token_at rest).1.1 = TokenType.NUMBER) :
    ∃ sign digits : List Char,
      (sign = [] ∨ sign = ['-']) ∧ digits ≠ [] ∧ (∀ d ∈ digits, is_digit d = true) ∧
      (token_at rest).1.2 = String.mk (sign ++ digits) ∧
      rest = sign ++ digits ++ (token_at rest).2 ∧
      ∀ next ∈ (token_at rest).2.head?, is_digit next = false := by
  cases rest with
  | nil => simp [token_at] at h
  | cons c cs =>
    by_cases hminus : c = '-'
    · subst hminus
      by_cases hdigit : (cs.headD '\x00' != '\x00' && is_digit (cs.headD '\x00')) = true
      · have htoken : token_at ('-' :: cs) =
            ((TokenType.NUMBER, String.mk ('-' :: cs.takeWhile is_digit)),
              cs.dropWhile is_digit) := by
          rw [token_at]
          simp only [hdigit, if_true]
          rfl
        rw [htoken]
        refine ⟨['-'], cs.takeWhile is_digit, Or.inr rfl, ?_, List.takeWhile_all _ _, rfl, ?_,
          List.dropWhile_head_not _ _⟩
        · cases cs with
          | nil => simp at hdigit
          | cons d ds =>
            simp only [List.headD_cons, Bool.and_eq_true] at hdigit
            simp [List.takeWhile_cons, hdigit.2]
        · simp [List.takeWhile_append_dropWhile]
      · exfalso
        have htoken : token_at ('-' :: cs) =
            ((TokenType.INVALID, String.singleton '-'), cs) := by
          rw [token_at]
          simp only [hdigit, Bool.false_eq_true, if_false]
          rfl
        rw [htoken] at h
        simp at h
    · by_cases hstart : is_identifier_start c = true
      · exfalso
        obtain ⟨-, -, h1, h2, h3, h4, h5, -⟩ := is_identifier_start_ne c hstart
        rw [token_at] at h
        simp only [h1, h2, h3, h4, h5, hminus, hstart, if_false, if_true] at h
        exact (keyword_or_identifier_ne _).2.1 h
      · by_cases hdigit : is_digit c = true
        · have hne : ∀ d : Char, is_digit d = false → c ≠ d := by
            intro d hd heq
            rw [heq, hd] at hdigit
            simp at hdigit
          have htoken : token_at (c :: cs) =
              ((TokenType.NUMBER, String.mk ((c :: cs).takeWhile is_digit)),
                (c :: cs).dropWhile is_digit) := by
            rw [token_at]
            simp only [hne ';' (by decide), hne '=' (by decide), hne '\x7b' (by decide),
              hne '\x7d' (by decide), hne '.' (by decide), hminus, hstart, hdigit, if_false,
              if_true, Bool.false_eq_true]
          rw [htoken]
          refine ⟨[], (c :: cs).takeWhile is_digit, Or.inl rfl, ?_, List.takeWhile_all _ _, rfl,
            ?_, List.dropWhile_head_not _ _⟩
          · simp [List.takeWhile_cons, hdigit]
          · simp [List.takeWhile_append_dropWhile]
        · exfalso
          rw [token_at] at h
          simp only [hminus, hstart, hdigit, Bool.false_eq_true, if_false] at h
          split_ifs at h

/-- C27. Number tokens: the lexeme of every `NUMBER` token that `next_token`
returns is an optional `-` and one or more decimal digits, it stands in the
source where the token starts, and the character after it is not a digit.
A `-` that is not followed by a digit gives an `INVALID` token with the
lexeme `-`, and every other character that starts no token and no comment
gives an `INVALID` token whose lexeme is that character. -/
theorem number_tokens :
    (∀ l : Lexer, l.peeked_token_ = none → l.next_token.1.type = TokenType.NUMBER →
      ∃ sign digits : List Char,
        (sign = [] ∨ sign = ['-']) ∧ digits ≠ [] ∧ (∀ d ∈ digits, d.isDigit = true) ∧
        l.next_token.1.value = String.mk (sign ++ digits) ∧
        skip_blank l.rest.length l.rest = sign ++ digits ++ l.next_token.2.rest ∧
        ∀ next ∈ l.next_token.2.rest.head?, next.isDigit = false) ∧
    (∀ (l : Lexer) (cs : List Char), l.peeked_token_ = none → l.rest = '-' :: cs →
      (∀ next ∈ cs.head?, next.isDigit = false) →
      l.next_token.1.shape = (TokenType.INVALID, "-") ∧ l.next_token.2.rest = cs) ∧
    (∀ (l : Lexer) (c : Char) (cs : List Char), l.peeked_token_ = none → l.rest = c :: cs →
      isspace c = false → c ∉ [';', '=', '\x7b', '\x7d', '.', '-'] →
      is_identifier_start c = false → is_digit c = false →
      (c = '/' → cs.head? ≠ some '/' ∧ cs.head? ≠ some '*') →
      l.next_token.1.shape = (TokenType.INVALID, String.singleton c) ∧
        l.next_token.2.rest = cs) := by
  refine ⟨?_, ?_, ?_⟩
  · intro l hpeeked hnumber
    obtain ⟨hshape, hrest, -⟩ := l.next_token_spec hpeeked
    have htype : (token_at (skip_blank l.rest.length l.rest)).1.1 = TokenType.NUMBER := by
      rw [← hshape]
      exact hnumber
    obtain ⟨sign, digits, hsign, hdigits, hall, hvalue, hsplit, hnext⟩ :=
      token_at_number _ htype
    refine ⟨sign, digits, hsign, hdigits, hall, ?_, ?_, ?_⟩
    · rw [← hvalue, ← hshape]
      rfl
    · rw [hrest]
      exact hsplit
    · rw [hrest]
      exact hnext
  · intro l cs hpeeked hrest hnext
    obtain ⟨hshape, hrest2, -⟩ := l.next_token_spec hpeeked
    have hskip : skip_blank l.rest.length l.rest = '-' :: cs := by
      rw [hrest]
      simp only [List.length_cons, skip_blank]
      have hspace : isspace '-' = false := by decide
      simp [hspace]
    rw [hskip] at hshape hrest2
    have hnot : (cs.headD '\x00' != '\x00' && is_digit (cs.headD '\x00')) = false := by
      cases cs with
      | nil => rfl
      | cons d ds =>
        have hd : d.isDigit = false := hnext d (by simp)
        simp [is_digit, hd]
    rw [hshape, hrest2, token_at]
    simp only [hnot, Bool.false_eq_true, if_false]
    exact ⟨rfl, rfl⟩
  · intro l c cs hpeeked hrest hspace hpunct hstart hdigit hcomment
    obtain ⟨hshape, hrest2, -⟩ := l.next_token_spec hpeeked
    simp only [List.mem_cons, List.mem_singleton, List.not_mem_nil, or_false, not_or] at hpunct
    obtain ⟨h1, h2, h3, h4, h5, h6⟩ := hpunct
    have hskip : skip_blank l.rest.length l.rest = c :: cs := by
      rw [hrest]
      simp only [List.length_cons, skip_blank, hspace, Bool.false_eq_true, if_false]
      by_cases hslash : c = '/'
      · obtain ⟨hc1, hc2⟩ := hcomment hslash
        have hhead1 : cs.headD '\x00' ≠ '/' := by
          cases cs with
          | nil => decide
          | cons d ds =>
            intro h
            apply hc1
            simp only [List.headD_cons] at h
            rw [h]
            rfl
        have hhead2 : cs.headD '\x00' ≠ '*' := by
          cases cs with
          | nil => decide
          | cons d ds =>
            intro h
            apply hc2
            simp only [List.headD_cons] at h
            rw [h]
            rfl
        have hb1 : (decide (c = '/') && decide (cs.headD '\x00' = '/')) = false := by
          rw [Bool.and_eq_false_iff]
          exact Or.inr (decide_eq_false hhead1)
        have hb2 : (decide (c = '/') && decide (cs.headD '\x00' = '*')) = false := by
          rw [Bool.and_eq_false_iff]
          exact Or.inr (decide_eq_false hhead2)
        rw [hb1, hb2]
        simp
      · simp [hslash]
    rw [hskip] at hshape hrest2
    rw [hshape, hrest2, token_at]
    simp only [h1, h2, h3, h4, h5, h6, hstart, hdigit, Bool.false_eq_true, if_false]
    constructor <;> first | rfl | trivial

theorem number_tokens_witness :
    (Lexer.new (String.data " -12a")).peeked_token_ = none ∧
    (Lexer.new (String.data " -12a")).next_token.1.type = TokenType.NUMBER ∧
    ∃ sign digits : List Char,
      (sign = [] ∨ sign = ['-']) ∧ digits ≠ [] ∧ (∀ d ∈ digits, d.isDigit = true) ∧
      (Lexer.new (String.data " -12a")).next_token.1.value = String.mk (sign ++ digits) ∧
      skip_blank (Lexer.new (String.data " -12a")).rest.length
          (Lexer.new (String.data " -12a")).rest =
        sign ++ digits ++ (Lexer.new (String.data " -12a")).next_token.2.rest ∧
      ∀ next ∈ (Lexer.new (String.data " -12a")).next_token.2.rest.head?,
        next.isDigit = false :=
  ⟨rfl, by decide, number_tokens.1 (Lexer.new (String.data " -12a")) rfl (by decide)⟩

/-! ### The sources of the parser scenarios, scanned -/

set_option maxRecDepth 100000 in
/-- The scanner on the source of the missing-semicolon scenario. -/
theorem tokenize_missing_semicolon :
    tokenize "namespace t; model M \x7b int32 x = 1 \x7d" = missing_semicolon_source := by
  decide

set_option maxRecDepth 100000 in
/-- The scanner on the source of the overflow scenario. -/
theorem tokenize_overflow :
    tokenize "namespace t; model M \x7b int32 x = 99999999999 \x7d" = overflow_source := by
  decide

/-- `std::stoi` throws nothing but its two exceptions. -/
theorem stoi_thrown (str : String) (e : Thrown) (h : stoi str = Parsed.thrown e) :
    e = Thrown.invalid_argument ∨ e = Thrown.out_of_range := by
  unfold stoi at h
  simp only at h
  split_ifs at h <;> injection h with h <;> subst h <;> simp

set_option maxRecDepth 100000 in
/-- C21 on the code.  A number literal that does not fit an `int` does not
raise a `ParseError`: `std::stoi` throws `std::out_of_range`, which the
parser does not catch, so the exception that leaves `parse_schema` carries
neither a message nor the location of the number token.  Shown for a field
number and for an enum value. -/
theorem out_of_range_number_is_not_a_parse_error :
    stoi "99999999999" = Parsed.thrown Thrown.out_of_range ∧
    (Parser.new (tokenize "namespace t; model M \x7b int32 x = 99999999999; \x7d")).parse_schema
        64 = Parsed.thrown Thrown.out_of_range ∧
    (Parser.new (tokenize "namespace t; enum E \x7b x = 99999999999; \x7d")).parse_schema
        64 = Parsed.thrown Thrown.out_of_range ∧
    (Parser.new (tokenize "namespace t; enum E \x7b x = -2147483649; \x7d")).parse_schema
        64 = Parsed.thrown Thrown.out_of_range ∧
    ∀ (message : String) (location : SourceLocation),
      Thrown.out_of_range ≠ Thrown.ParseError message location := by
  refine ⟨by decide, by decide, by decide, by decide, ?_⟩
  intro message location h
  cases h

/-! ## The parser on the tokens ahead

Every state of the parser is `Parser.new` of the tokens that are left. -/

theorem Parser.advance_new (t : Token) (rest : List Token) (e : SourceLocation) :
    (Parser.new ⟨t :: rest, e⟩).advance = Parser.new ⟨rest, e⟩ := rfl

theorem Parser.current_new (t : Token) (rest : List Token) (e : SourceLocation) :
    (Parser.new ⟨t :: rest, e⟩).current_token_ = t := rfl

theorem Parser.current_new_nil (e : SourceLocation) :
    (Parser.new ⟨[], e⟩).current_token_ =
      { type := TokenType.END_OF_FILE, value := "", location := e } := rfl

theorem Parser.check_new (t : Token) (rest : List Token) (e : SourceLocation)
    (type : TokenType) : (Parser.new ⟨t :: rest, e⟩).check type = decide (t.type = type) := rfl

theorem Parser.consume_new (t : Token) (rest : List Token) (e : SourceLocation)
    (type : TokenType) (message : String) (h : t.type = type) :
    (Parser.new ⟨t :: rest, e⟩).consume type message =
      Parsed.ok (t, Parser.new ⟨rest, e⟩) := by
  unfold Parser.consume
  rw [Parser.check_new, Parser.current_new, Parser.advance_new]
  simp [h]

theorem modifier_set_cons (keyword : TokenType) (keywords : List TokenType) (modifiers : Nat) :
    is_field_modifier keyword = true →
    (match keyword with
      | TokenType.OPTIONAL => modifiers ||| MOD_OPTIONAL
      | TokenType.REPEATED => modifiers ||| MOD_REPEATED
      | TokenType.PACKED => modifiers ||| MOD_PACKED
      | TokenType.INTERNED => modifiers ||| MOD_INTERNED
      | TokenType.BITMAP => modifiers ||| MOD_BITMAP
      | _ => modifiers) ||| modifier_set keywords =
      modifiers ||| modifier_set (keyword :: keywords) := by
  intro h
  have hflags : ∀ a b c d f : Bool,
      ((if a then 1 else 0) ||| (if b then 2 else 0) ||| (if c then 4 else 0) |||
        (if d then 8 else 0) ||| (if f then 16 else 0) : Nat) < 32 := by decide
  have key : ∀ flag : Nat, ∀ a b c d f a1 b1 c1 d1 f1 : Bool,
      (flag ||| ((if a then 1 else 0) ||| (if b then 2 else 0) ||| (if c then 4 else 0) |||
        (if d then 8 else 0) ||| (if f then 16 else 0)) : Nat) =
      ((if a1 then 1 else 0) ||| (if b1 then 2 else 0) ||| (if c1 then 4 else 0) |||
        (if d1 then 8 else 0) ||| (if f1 then 16 else 0)) →
      (modifiers ||| flag) ||| ((if a then 1 else 0) ||| (if b then 2 else 0) |||
        (if c then 4 else 0) ||| (if d then 8 else 0) ||| (if f then 16 else 0)) =
      modifiers ||| ((if a1 then 1 else 0) ||| (if b1 then 2 else 0) |||
        (if c1 then 4 else 0) ||| (if d1 then 8 else 0) ||| (if f1 then 16 else 0)) := by
    intro flag a b c d f a1 b1 c1 d1 f1 h
    rw [Nat.lor_assoc, h]
  have hset : ∀ ks : List TokenType, modifier_set ks =
      ((if decide (TokenType.OPTIONAL ∈ ks) then 1 else 0) |||
        (if decide (TokenType.REPEATED ∈ ks) then 2 else 0) |||
        (if decide (TokenType.PACKED ∈ ks) then 4 else 0) |||
        (if decide (TokenType.INTERNED ∈ ks) then 8 else 0) |||
        (if decide (TokenType.BITMAP ∈ ks) then 16 else 0) : Nat) := by
    intro ks
    simp [modifier_set, MOD_OPTIONAL, MOD_REPEATED, MOD_PACKED, MOD_INTERNED, MOD_BITMAP]
  rw [hset, hset]
  have hall : ∀ a b c d f : Bool,
      ((1 : Nat) ||| ((if a then 1 else 0) ||| (if b then 2 else 0) ||| (if c then 4 else 0) |||
        (if d then 8 else 0) ||| (if f then 16 else 0)) =
        ((if true then 1 else 0) ||| (if b then 2 else 0) ||| (if c then 4 else 0) |||
        (if d then 8 else 0) ||| (if f then 16 else 0))) ∧
      ((2 : Nat) ||| ((if a then 1 else 0) ||| (if b then 2 else 0) ||| (if c then 4 else 0) |||
        (if d then 8 else 0) ||| (if f then 16 else 0)) =
        ((if a then 1 else 0) ||| (if true then 2 else 0) ||| (if c then 4 else 0) |||
        (if d then 8 else 0) ||| (if f then 16 else 0))) ∧
      ((4 : Nat) ||| ((if a then 1 else 0) ||| (if b then 2 else 0) ||| (if c then 4 else 0) |||
        (if d then 8 else 0) ||| (if f then 16 else 0)) =
        ((if a then 1 else 0) ||| (if b then 2 else 0) ||| (if true then 4 else 0) |||
        (if d then 8 else 0) ||| (if f then 16 else 0))) ∧
      ((8 : Nat) ||| ((if a then 1 else 0) ||| (if b then 2 else 0) ||| (if c then 4 else 0) |||
        (if d then 8 else 0) ||| (if f then 16 else 0)) =
        ((if a then 1 else 0) ||| (if b then 2 else 0) ||| (if c then 4 else 0) |||
        (if true then 8 else 0) ||| (if f then 16 else 0))) ∧
      ((16 : Nat) ||| ((if a then 1 else 0) ||| (if b then 2 else 0) ||| (if c then 4 else 0) |||
        (if d then 8 else 0) ||| (if f then 16 else 0)) =
        ((if a then 1 else 0) ||| (if b then 2 else 0) ||| (if c then 4 else 0) |||
        (if d then 8 else 0) ||| (if true then 16 else 0))) := by decide
  cases keyword
  case OPTIONAL =>
    unfold MOD_OPTIONAL
    apply key
    simp only [List.mem_cons, true_or, decide_True]
    simp only [reduceCtorEq, false_or]
    exact (hall _ _ _ _ _).1
  case REPEATED =>
    unfold MOD_REPEATED
    apply key
    simp only [List.mem_cons, true_or, decide_True]
    simp only [reduceCtorEq, false_or]
    exact (hall _ _ _ _ _).2.1
  case PACKED =>
    unfold MOD_PACKED
    apply key
    simp only [List.mem_cons, true_or, decide_True]
    simp only [reduceCtorEq, false_or]
    exact (hall _ _ _ _ _).2.2.1
  case INTERNED =>
    unfold MOD_INTERNED
    apply key
    simp only [List.mem_cons, true_or, decide_True]
    simp only [reduceCtorEq, false_or]
    exact (hall _ _ _ _ _).2.2.2.1
  case BITMAP =>
    unfold MOD_BITMAP
    apply key
    simp only [List.mem_cons, true_or, decide_True]
    simp only [reduceCtorEq, false_or]
    exact (hall _ _ _ _ _).2.2.2.2
  all_goals simp [is_field_modifier] at h

theorem parse_modifiers_new (rest : List Token) (e : SourceLocation)
    (hrest : is_field_modifier (Parser.new ⟨rest, e⟩).current_token_.type = false) :
    ∀ (mods : List Token) (fuel modifiers : Nat),
      (∀ m ∈ mods, is_field_modifier m.type = true) → mods.length < fuel →
      parse_modifiers fuel (Parser.new ⟨mods ++ rest, e⟩) modifiers =
        Parsed.ok (modifiers ||| modifier_set (mods.map Token.type), Parser.new ⟨rest, e⟩) := by
  intro mods
  induction mods with
  | nil =>
    intro fuel modifiers _ hfuel
    obtain ⟨fuel, rfl⟩ : ∃ k, fuel = k + 1 := ⟨fuel - 1, by simp at hfuel; omega⟩
    rw [List.nil_append, parse_modifiers, hrest]
    simp [modifier_set]
  | cons t ts ih =>
    intro fuel modifiers hmods hfuel
    obtain ⟨fuel, rfl⟩ : ∃ k, fuel = k + 1 := ⟨fuel - 1, by simp at hfuel; omega⟩
    have ht : is_field_modifier t.type = true := hmods t (List.mem_cons_self _ _)
    rw [List.cons_append, parse_modifiers, Parser.current_new, Parser.advance_new, if_pos ht,
      ih fuel _ (fun m hm => hmods m (List.mem_cons_of_mem _ hm))
        (by simp at hfuel; omega), List.map_cons]
    exact congrArg (fun set => Parsed.ok (set, Parser.new ⟨rest, e⟩))
      (modifier_set_cons t.type (ts.map Token.type) modifiers ht)

theorem parse_type_primitive (t : Token) (rest : List Token) (e : SourceLocation)
    (kind : PrimitiveTypeKind) (h : token_to_primitive_type t.type = Parsed.ok kind) :
    parse_type (Parser.new ⟨t :: rest, e⟩) =
      Parsed.ok (Ty.PrimitiveType kind t.location, Parser.new ⟨rest, e⟩) := by
  have hprimitive : is_primitive_type t.type = true := by
    cases htype : t.type <;> rw [htype] at h <;> first | rfl | simp [token_to_primitive_type] at h
  unfold parse_type
  simp only [Parser.current_new, Parser.advance_new, hprimitive, if_true, h, Parsed.bind]

theorem parse_type_user (t : Token) (rest : List Token) (e : SourceLocation)
    (h : t.type = TokenType.IDENTIFIER) :
    parse_type (Parser.new ⟨t :: rest, e⟩) =
      Parsed.ok (Ty.UserType t.value t.location, Parser.new ⟨rest, e⟩) := by
  unfold parse_type
  simp [Parser.current_new, Parser.advance_new, Parser.check_new, h, is_primitive_type]

theorem parse_type_new (t : Token) (e : SourceLocation)
    (h : is_primitive_type t.type = true ∨ t.type = TokenType.IDENTIFIER) :
    ∃ type : Ty, ∀ rest : List Token,
      parse_type (Parser.new ⟨t :: rest, e⟩) = Parsed.ok (type, Parser.new ⟨rest, e⟩) := by
  rcases h with h | h
  · have hkind : ∃ kind, token_to_primitive_type t.type = Parsed.ok kind := by
      cases htype : t.type <;> rw [htype] at h <;>
        first | exact ⟨_, rfl⟩ | simp [is_primitive_type] at h
    obtain ⟨kind, hkind⟩ := hkind
    exact ⟨_, fun rest => parse_type_primitive t rest e kind hkind⟩
  · exact ⟨_, fun rest => parse_type_user t rest e h⟩

/-- `parse_field` on the tokens of a field. -/
theorem parse_field_new (mods : List Token) (type_token name equals number semicolon : Token)
    (rest : List Token) (e : SourceLocation) (type : Ty) (n : Int) (fuel : Nat)
    (hmods : ∀ m ∈ mods, is_field_modifier m.type = true)
    (htype_token : is_field_modifier type_token.type = false)
    (htype : ∀ rest1 : List Token,
      parse_type (Parser.new ⟨type_token :: rest1, e⟩) =
        Parsed.ok (type, Parser.new ⟨rest1, e⟩))
    (hname : name.type = TokenType.IDENTIFIER) (hequals : equals.type = TokenType.EQUALS)
    (hnumber : number.type = TokenType.NUMBER) (hn : stoi number.value = Parsed.ok n)
    (hsemicolon : semicolon.type = TokenType.SEMICOLON) (hfuel : mods.length < fuel) :
    parse_field fuel
        (Parser.new ⟨mods ++ type_token :: name :: equals :: number :: semicolon :: rest, e⟩) =
      Parsed.ok
        ({ type := type, name := name.value, number := n
           modifiers := modifier_set (mods.map Token.type)
           location := ((mods ++ [type_token]).headD type_token).location },
         Parser.new ⟨rest, e⟩) := by
  have hloc : (Parser.new
      ⟨mods ++ type_token :: name :: equals :: number :: semicolon :: rest, e⟩).current_token_ =
      (mods ++ [type_token]).headD type_token := by
    cases mods <;> rfl
  unfold parse_field
  simp only
  rw [parse_modifiers_new (type_token :: name :: equals :: number :: semicolon :: rest) e
    htype_token mods fuel 0 hmods hfuel]
  simp only [Parsed.bind]
  rw [htype]
  simp only [Parsed.bind]
  rw [Parser.consume_new _ _ _ _ _ hname]
  simp only [Parsed.bind]
  rw [Parser.consume_new _ _ _ _ _ hequals]
  simp only [Parsed.bind]
  rw [Parser.consume_new _ _ _ _ _ hnumber]
  simp only [Parsed.bind]
  rw [hn]
  simp only [Parsed.bind]
  rw [Parser.consume_new _ _ _ _ _ hsemicolon]
  simp only [Parsed.bind, hloc, Nat.zero_or]

theorem modifier_set_flags (keywords : List TokenType) :
    ((modifier_set keywords &&& MOD_OPTIONAL != 0) = true ↔ TokenType.OPTIONAL ∈ keywords) ∧
    ((modifier_set keywords &&& MOD_REPEATED != 0) = true ↔ TokenType.REPEATED ∈ keywords) ∧
    ((modifier_set keywords &&& MOD_PACKED != 0) = true ↔ TokenType.PACKED ∈ keywords) ∧
    ((modifier_set keywords &&& MOD_INTERNED != 0) = true ↔ TokenType.INTERNED ∈ keywords) ∧
    ((modifier_set keywords &&& MOD_BITMAP != 0) = true ↔ TokenType.BITMAP ∈ keywords) ∧
    modifier_set keywords < 32 := by
  unfold modifier_set MOD_OPTIONAL MOD_REPEATED MOD_PACKED MOD_INTERNED MOD_BITMAP
  by_cases h1 : TokenType.OPTIONAL ∈ keywords <;>
  by_cases h2 : TokenType.REPEATED ∈ keywords <;>
  by_cases h3 : TokenType.PACKED ∈ keywords <;>
  by_cases h4 : TokenType.INTERNED ∈ keywords <;>
  by_cases h5 : TokenType.BITMAP ∈ keywords <;>
  simp only [h1, h2, h3, h4, h5, if_true, if_false, iff_true, iff_false] <;> decide

set_option maxRecDepth 100000 in
/-- C23. Modifier set semantics: for every sequence of modifier keywords
before the type of a field, `parse_field` returns the field, and its
modifier set holds a keyword exactly when the keyword occurs in the
sequence, so it depends neither on the order of the keywords nor on their
repetition; `packed repeated` and `repeated packed repeated` give the same
set, and `optional repeated` is parsed without error. -/
theorem modifier_set_semantics :
    (∀ (mods : List Token) (type_token name equals number semicolon : Token)
        (rest : List Token) (e : SourceLocation) (n : Int) (fuel : Nat),
      (∀ m ∈ mods, is_field_modifier m.type = true) →
      is_primitive_type type_token.type = true ∨ type_token.type = TokenType.IDENTIFIER →
      name.type = TokenType.IDENTIFIER → equals.type = TokenType.EQUALS →
      number.type = TokenType.NUMBER → stoi number.value = Parsed.ok n →
      semicolon.type = TokenType.SEMICOLON → mods.length < fuel →
      ∃ field : Field,
        parse_field fuel
            (Parser.new
              ⟨mods ++ type_token :: name :: equals :: number :: semicolon :: rest, e⟩) =
          Parsed.ok (field, Parser.new ⟨rest, e⟩) ∧
        field.modifiers = modifier_set (mods.map Token.type) ∧
        (field.is_optional = true ↔ TokenType.OPTIONAL ∈ mods.map Token.type) ∧
        (field.is_repeated = true ↔ TokenType.REPEATED ∈ mods.map Token.type) ∧
        (field.is_packed = true ↔ TokenType.PACKED ∈ mods.map Token.type) ∧
        (field.is_interned = true ↔ TokenType.INTERNED ∈ mods.map Token.type) ∧
        (field.is_bitmap = true ↔ TokenType.BITMAP ∈ mods.map Token.type) ∧
        field.modifiers < 32) ∧
    (∀ keywords1 keywords2 : List TokenType,
      (∀ keyword, keyword ∈ keywords1 ↔ keyword ∈ keywords2) →
      modifier_set keywords1 = modifier_set keywords2) ∧
    (Parser.new
        (tokenize "namespace t; model M \x7b packed repeated uint32 xs = 3; \x7d")).parse_schema
      64 = Parsed.ok (scenario_schema [field_xs]) ∧
    (Parser.new
        (tokenize
          "namespace t; model M \x7b repeated packed repeated uint32 xs = 3; \x7d")).parse_schema
      64 = Parsed.ok (scenario_schema [field_xs_repeated_twice]) ∧
    field_xs_repeated_twice.modifiers = field_xs.modifiers ∧
    (Parser.new
        (tokenize "namespace t; model M \x7b optional repeated string xs = 1; \x7d")).parse_schema
      64 = Parsed.ok (scenario_schema [field_optional_repeated]) := by
  refine ⟨?_, ?_, by decide, by decide, by decide, by decide⟩
  · intro mods type_token name equals number semicolon rest e n fuel hmods htype hname hequals
      hnumber hn hsemicolon hfuel
    obtain ⟨type, hparse⟩ := parse_type_new type_token e htype
    have hnot : is_field_modifier type_token.type = false := by
      rcases htype with h | h
      · cases htype_token : type_token.type <;> rw [htype_token] at h <;>
          first | rfl | simp [is_primitive_type] at h
      · rw [h]
        rfl
    refine ⟨_, parse_field_new mods type_token name equals number semicolon rest e type n fuel
      hmods hnot hparse hname hequals hnumber hn hsemicolon hfuel, rfl, ?_⟩
    exact modifier_set_flags (mods.map Token.type)
  · intro keywords1 keywords2 h
    unfold modifier_set
    simp only [h]

/-- The theorem `modifier_set_semantics` on the tokens of
`bitmap repeated bitmap bool flags = 2;`. -/
theorem modifier_set_semantics_witness :
    ∃ field : Field,
      parse_field 4
          (Parser.new
            ⟨[⟨TokenType.BITMAP, "bitmap", ⟨1, 1, 0⟩⟩, ⟨TokenType.REPEATED, "repeated", ⟨1, 8, 7⟩⟩,
                ⟨TokenType.BITMAP, "bitmap", ⟨1, 17, 16⟩⟩] ++
              ⟨TokenType.BOOL, "bool", ⟨1, 24, 23⟩⟩ :: ⟨TokenType.IDENTIFIER, "flags", ⟨1, 29, 28⟩⟩ ::
                ⟨TokenType.EQUALS, "=", ⟨1, 36, 35⟩⟩ :: ⟨TokenType.NUMBER, "2", ⟨1, 37, 36⟩⟩ ::
                ⟨TokenType.SEMICOLON, ";", ⟨1, 39, 38⟩⟩ :: [], ⟨1, 39, 38⟩⟩) =
        Parsed.ok (field, Parser.new ⟨[], ⟨1, 39, 38⟩⟩) ∧
      field.modifiers =
        modifier_set [TokenType.BITMAP, TokenType.REPEATED, TokenType.BITMAP] ∧
      (field.is_optional = true ↔
        TokenType.OPTIONAL ∈ [TokenType.BITMAP, TokenType.REPEATED, TokenType.BITMAP]) ∧
      (field.is_repeated = true ↔
        TokenType.REPEATED ∈ [TokenType.BITMAP, TokenType.REPEATED, TokenType.BITMAP]) ∧
      (field.is_packed = true ↔
        TokenType.PACKED ∈ [TokenType.BITMAP, TokenType.REPEATED, TokenType.BITMAP]) ∧
      (field.is_interned = true ↔
        TokenType.INTERNED ∈ [TokenType.BITMAP, TokenType.REPEATED, TokenType.BITMAP]) ∧
      (field.is_bitmap = true ↔
        TokenType.BITMAP ∈ [TokenType.BITMAP, TokenType.REPEATED, TokenType.BITMAP]) ∧
      field.modifiers < 32 :=
  modifier_set_semantics.1
    [⟨TokenType.BITMAP, "bitmap", ⟨1, 1, 0⟩⟩, ⟨TokenType.REPEATED, "repeated", ⟨1, 8, 7⟩⟩,
      ⟨TokenType.BITMAP, "bitmap", ⟨1, 17, 16⟩⟩]
    ⟨TokenType.BOOL, "bool", ⟨1, 24, 23⟩⟩ ⟨TokenType.IDENTIFIER, "flags", ⟨1, 29, 28⟩⟩
    ⟨TokenType.EQUALS, "=", ⟨1, 36, 35⟩⟩ ⟨TokenType.NUMBER, "2", ⟨1, 37, 36⟩⟩
    ⟨TokenType.SEMICOLON, ";", ⟨1, 39, 38⟩⟩ [] ⟨1, 39, 38⟩ 2 4 (by decide) (by decide) (by decide)
    (by decide) (by decide) (by decide) (by decide) (by decide)

/-! ## The code emitter -/

theorem String.foldl_append_eq (l : List String) :
    ∀ acc : String, List.foldl (fun r s => r ++ s) acc l = acc ++ String.join l := by
  induction l with
  | nil =>
    intro acc
    simp [String.join]
  | cons a l ih =>
    intro acc
    have hjoin : String.join (a :: l) = a ++ String.join l := by
      have h : String.join (a :: l) = List.foldl (fun r s => r ++ s) ("" ++ a) l := rfl
      rw [h, ih, String.empty_append]
    rw [List.foldl_cons, ih, hjoin, String.append_assoc]

theorem String.join_cons_eq (a : String) (l : List String) :
    String.join (a :: l) = a ++ String.join l := by
  have h : String.join (a :: l) = List.foldl (fun r s => r ++ s) ("" ++ a) l := rfl
  rw [h, String.foldl_append_eq, String.empty_append]

theorem String.join_nil_eq : String.join [] = "" := rfl

theorem CodeGenerator.generate_declarations_eq (decls : List Declaration) :
    ∀ g : CodeGenerator,
      g.generate_declarations decls = g.print Ostream.header_ (declarations_text decls) := by
  induction decls with
  | nil =>
    intro g
    simp [CodeGenerator.generate_declarations, declarations_text, CodeGenerator.print]
  | cons decl rest ih =>
    intro g
    cases decl with
    | Enum enum_decl =>
      rw [CodeGenerator.generate_declarations, ih, declarations_text]
      simp [CodeGenerator.generate_enum_declaration, CodeGenerator.print, String.append_assoc]
    | Model model_decl =>
      rw [CodeGenerator.generate_declarations, ih, declarations_text]
      simp [CodeGenerator.generate_model_declaration, CodeGenerator.print, String.append_assoc]

theorem CodeGenerator.generate_implementations_eq (decls : List Declaration) :
    ∀ g : CodeGenerator,
      g.generate_implementations decls =
        g.print Ostream.source_ (implementations_text g.schema_ decls) := by
  induction decls with
  | nil =>
    intro g
    simp [CodeGenerator.generate_implementations, implementations_text, CodeGenerator.print]
  | cons decl rest ih =>
    intro g
    cases decl with
    | Enum enum_decl =>
      rw [CodeGenerator.generate_implementations, ih, implementations_text]
    | Model model_decl =>
      rw [CodeGenerator.generate_implementations, ih, implementations_text]
      simp [CodeGenerator.generate_model_implementation,
        CodeGenerator.generate_serialize_method, CodeGenerator.generate_deserialize_method,
        CodeGenerator.print, String.append_assoc]

/-- `generate_header` returns the declaration artifact of the schema,
whatever the streams hold before the call, and leaves it in its stream. -/
theorem CodeGenerator.generate_header_eq (g : CodeGenerator) :
    g.generate_header = (header_text g.schema_, { g with header_ := header_text g.schema_ }) := by
  simp [CodeGenerator.generate_header, CodeGenerator.generate_declarations_eq,
    CodeGenerator.generate_includes, CodeGenerator.generate_namespace_open,
    CodeGenerator.generate_namespace_close, CodeGenerator.print, header_text,
    String.append_assoc]

/-- `generate_source` returns the body artifact of the schema, whatever the
streams hold before the call, and leaves it in its stream. -/
theorem CodeGenerator.generate_source_eq (g : CodeGenerator) :
    g.generate_source = (source_text g.schema_, { g with source_ := source_text g.schema_ }) := by
  simp [CodeGenerator.generate_source, CodeGenerator.generate_implementations_eq,
    CodeGenerator.generate_namespace_open,
    CodeGenerator.generate_namespace_close, CodeGenerator.print, source_text,
    String.append_assoc]

theorem CodeGenerator.after_calls_schema (calls : List Bool) :
    ∀ g : CodeGenerator, (CodeGenerator.after_calls calls g).schema_ = g.schema_ := by
  induction calls with
  | nil => intro g; rfl
  | cons call calls ih =>
    intro g
    cases call
    · rw [CodeGenerator.after_calls, ih, CodeGenerator.generate_source_eq]
    · rw [CodeGenerator.after_calls, ih, CodeGenerator.generate_header_eq]

/-- C30. Emission is deterministic and repeatable: `generate_header` and
`generate_source` return the same text on every generator that holds the
same schema, whatever its two streams hold from earlier calls; a call leaves
the schema of the generator as it is; so after any two sequences of calls of
the two functions on generators built from the same schema, each function
returns the text it returns on a new generator. -/
theorem emission_is_repeatable :
    (∀ (schema : Schema) (header1 source1 header2 source2 : String),
      (CodeGenerator.generate_header ⟨schema, header1, source1⟩).1 =
        (CodeGenerator.generate_header ⟨schema, header2, source2⟩).1 ∧
      (CodeGenerator.generate_source ⟨schema, header1, source1⟩).1 =
        (CodeGenerator.generate_source ⟨schema, header2, source2⟩).1) ∧
    (∀ g : CodeGenerator,
      g.generate_header.2.schema_ = g.schema_ ∧ g.generate_source.2.schema_ = g.schema_ ∧
      g.generate_header.2.source_ = g.source_ ∧ g.generate_source.2.header_ = g.header_) ∧
    (∀ g : CodeGenerator,
      g.generate_header.2.generate_header.1 = g.generate_header.1 ∧
      g.generate_source.2.generate_source.1 = g.generate_source.1 ∧
      g.generate_source.2.generate_header.1 = g.generate_header.1 ∧
      g.generate_header.2.generate_source.1 = g.generate_source.1) ∧
    (∀ (schema : Schema) (calls1 calls2 : List Bool),
      (CodeGenerator.after_calls calls1 (CodeGenerator.new schema)).generate_header.1 =
        (CodeGenerator.after_calls calls2 (CodeGenerator.new schema)).generate_header.1 ∧
      (CodeGenerator.after_calls calls1 (CodeGenerator.new schema)).generate_source.1 =
        (CodeGenerator.after_calls calls2 (CodeGenerator.new schema)).generate_source.1) := by
  refine ⟨?_, ?_, ?_, ?_⟩
  · intro schema header1 source1 header2 source2
    simp only [CodeGenerator.generate_header_eq, CodeGenerator.generate_source_eq, and_self]
  · intro g
    simp only [CodeGenerator.generate_header_eq, CodeGenerator.generate_source_eq, and_self]
  · intro g
    simp only [CodeGenerator.generate_header_eq, CodeGenerator.generate_source_eq, and_self]
  · intro schema calls1 calls2
    simp only [CodeGenerator.generate_header_eq, CodeGenerator.generate_source_eq,
      CodeGenerator.after_calls_schema, and_self]

theorem member_text_eq (field : Field) : member_text field = member_line field := by
  unfold member_text member_line member_type member_initializer get_field_type
  rw [String.join_cons_eq, String.join_cons_eq, String.join_nil_eq, String.append_empty]
  cases hrepeated : field.is_repeated
  · cases hoptional : field.is_optional
    · cases htype : field.type with
      | PrimitiveType kind location =>
        cases kind <;>
          simp [Ty.has_kind, Ty.is_primitive, String.append_assoc]
      | UserType name location =>
        simp [Ty.has_kind, Ty.is_primitive, String.append_assoc]
    · simp [String.append_assoc]
  · simp [String.append_assoc]

theorem String.join_map_mem {α : Type} (f : α → String) (xs : List α) (x : α) (h : x ∈ xs) :
    ∃ before after : String, String.join (xs.map f) = before ++ f x ++ after := by
  induction xs with
  | nil => simp at h
  | cons y ys ih =>
    rw [List.map_cons, String.join_cons_eq]
    rcases List.mem_cons.mp h with rfl | h
    · exact ⟨"", String.join (ys.map f), by rw [String.empty_append]⟩
    · obtain ⟨before, after, hrest⟩ := ih h
      exact ⟨f y ++ before, after, by
        rw [hrest]; simp [String.append_assoc]⟩

theorem String.occurs_left (p s x : String) (h : ∃ before after : String, s = before ++ x ++ after) :
    ∃ before after : String, p ++ s = before ++ x ++ after := by
  obtain ⟨before, after, rfl⟩ := h
  exact ⟨p ++ before, after, by simp only [String.append_assoc]⟩

theorem String.occurs_right (s q x : String)
    (h : ∃ before after : String, s = before ++ x ++ after) :
    ∃ before after : String, s ++ q = before ++ x ++ after := by
  obtain ⟨before, after, rfl⟩ := h
  exact ⟨before, after ++ q, by simp only [String.append_assoc]⟩

theorem declarations_text_mem (decls : List Declaration) (model : ModelDecl)
    (h : Declaration.Model model ∈ decls) :
    ∃ before after : String,
      declarations_text decls = before ++ model_declaration_text model ++ after := by
  induction decls with
  | nil => simp at h
  | cons decl rest ih =>
    rcases List.mem_cons.mp h with rfl | h
    · exact ⟨"", declarations_text rest, by rw [declarations_text, String.empty_append]⟩
    · obtain ⟨before, after, hrest⟩ := ih h
      cases decl with
      | Enum enum_decl =>
        exact ⟨enum_declaration_text enum_decl ++ before, after, by
          rw [declarations_text, hrest]; simp [String.append_assoc]⟩
      | Model model_decl =>
        exact ⟨model_declaration_text model_decl ++ before, after, by
          rw [declarations_text, hrest]; simp [String.append_assoc]⟩

set_option maxRecDepth 100000 in
/-- C29. Member declarations: for every field of a model of the schema the
declaration artifact contains the member line of the field, made of the
member type, the name, the initializer and `;`.  The member type is
`std::vector<B>` for a repeated field, otherwise `std::optional<B>` for an
optional field, otherwise `B`, where `B` is `get_cpp_type` of the type of
the field: `int8_t` .. `int64_t`, `uint8_t` .. `uint64_t`, `float`,
`double`, `bool`, `std::string`, `uint8_t` for `byte`, the name itself for a
user type.  The initializer is ` = false` for a singular `bool`, ` = 0` for
every other singular primitive that is not a string, and empty otherwise.
The lines of a model stand in the order of its fields. -/
theorem member_declarations :
    (∀ (schema : Schema) (model : ModelDecl) (field : Field),
      Declaration.Model model ∈ schema.declarations → field ∈ model.fields →
      ∃ before after : String,
        (CodeGenerator.new schema).generate_header.1 = before ++ member_line field ++ after) ∧
    (∀ model : ModelDecl,
      model_declaration_text model =
        "class " ++ model.name ++ " \x7b\npublic:\n  " ++ model.name ++ "() = default;\n\n" ++
          String.join (model.fields.map member_line) ++
          "\n  std::vector<uint8_t> serialize() const;\n" ++
          "  bool deserialize(const std::vector<uint8_t>& data);\n\x7d;\n\n") ∧
    (∀ location : SourceLocation,
      [PrimitiveTypeKind.INT8, PrimitiveTypeKind.INT16, PrimitiveTypeKind.INT32,
        PrimitiveTypeKind.INT64, PrimitiveTypeKind.UINT8, PrimitiveTypeKind.UINT16,
        PrimitiveTypeKind.UINT32, PrimitiveTypeKind.UINT64, PrimitiveTypeKind.FLOAT,
        PrimitiveTypeKind.DOUBLE, PrimitiveTypeKind.BOOL, PrimitiveTypeKind.STRING,
        PrimitiveTypeKind.BYTE].map (fun kind => get_cpp_type (Ty.PrimitiveType kind location)) =
      ["int8_t", "int16_t", "int32_t", "int64_t", "uint8_t", "uint16_t", "uint32_t",
        "uint64_t", "float", "double", "bool", "std::string", "uint8_t"]) ∧
    (∀ (name : String) (location : SourceLocation),
      get_cpp_type (Ty.UserType name location) = name) ∧
    [field_id, field_s, field_optional_repeated, field_forward].map member_line =
      ["  uint32_t id = 0;\n", "  std::string s;\n", "  std::vector<std::string> xs;\n",
        "  Later l;\n"] := by
  refine ⟨?_, ?_, ?_, ?_, by decide⟩
  · intro schema model field hmodel hfield
    obtain ⟨before1, after1, h1⟩ := declarations_text_mem schema.declarations model hmodel
    have h2 := String.join_map_mem member_text model.fields field hfield
    rw [member_text_eq] at h2
    rw [CodeGenerator.generate_header_eq]
    simp only [CodeGenerator.new, header_text]
    rw [h1, model_declaration_text]
    simp only [String.join_cons_eq, String.join_nil_eq]
    refine String.occurs_left _ _ _ (String.occurs_left _ _ _ (String.occurs_left _ _ _
      (String.occurs_right _ _ _ (String.occurs_right _ _ _ (String.occurs_left _ _ _ ?_)))))
    exact String.occurs_left _ _ _ (String.occurs_left _ _ _ (String.occurs_left _ _ _
      (String.occurs_right _ _ _ h2)))
  · intro model
    have hmap : model.fields.map member_text = model.fields.map member_line :=
      List.map_congr_left fun field _ => member_text_eq field
    rw [model_declaration_text, hmap]
    simp only [String.join_cons_eq, String.join_nil_eq, String.append_assoc,
      String.append_empty]
    rfl
  · intro location
    rfl
  · intro name location
    rfl

/-- The theorem `member_declarations` on the field of
`namespace t; model M { uint32 id = 1; }`. -/
theorem member_declarations_witness :
    ∃ before after : String,
      (CodeGenerator.new (scenario_schema [field_id])).generate_header.1 =
        before ++ member_line field_id ++ after :=
  member_declarations.1 (scenario_schema [field_id]) (scenario_model [field_id]) field_id
    (by simp [scenario_schema]) (by simp [scenario_model])

/-! ## Comments and white space -/

theorem List.headD_eq_iff_head? (cs : List Char) (x : Char) (hx : x ≠ '\x00') :
    cs.headD '\x00' = x ↔ cs.head? = some x := by
  cases cs with
  | nil => simp [Ne.symm hx]
  | cons c cs => simp

theorem strip_comments_plain (c : Char) (cs : List Char)
    (h : c ≠ '/' ∨ (cs.head? ≠ some '/' ∧ cs.head? ≠ some '*')) :
    strip_comments Region.code (c :: cs) = c :: strip_comments Region.code cs := by
  rw [strip_comments]
  rcases h with h | ⟨h1, h2⟩
  · simp [h]
  · simp [h1, h2]

theorem strip_comments_line (cs : List Char) :
    strip_comments Region.line_comment cs =
      strip_comments Region.code (cs.dropWhile fun c => c != '\n') := by
  induction cs with
  | nil => simp [strip_comments]
  | cons c cs ih =>
    rw [strip_comments]
    by_cases hc : c = '\n'
    · subst hc
      rw [if_pos rfl]
      have hdrop : List.dropWhile (fun c => c != '\n') ('\n' :: cs) = '\n' :: cs := by
        simp [List.dropWhile]
      rw [hdrop, strip_comments_plain _ _ (Or.inl (by decide))]
    · rw [if_neg hc, ih]
      have hdrop : List.dropWhile (fun c => c != '\n') (c :: cs) =
          List.dropWhile (fun c => c != '\n') cs := by
        have hne : (c != '\n') = true := by simp [hc]
        rw [List.dropWhile_cons, if_pos hne]
      rw [hdrop]

theorem strip_comments_block (cs : List Char) :
    strip_comments Region.block_comment cs =
      strip_comments Region.code (block_comment_end cs) := by
  induction cs with
  | nil => simp [strip_comments, block_comment_end]
  | cons c cs ih =>
    rw [strip_comments, block_comment_end]
    by_cases hc : c = '*' ∧ cs.head? = some '/'
    · rw [if_pos hc]
      obtain ⟨hstar, hslash⟩ := hc
      cases cs with
      | nil => simp at hslash
      | cons d cs =>
        simp only [List.head?_cons, Option.some.injEq] at hslash
        subst hslash
        subst hstar
        simp [strip_comments]
    · rw [if_neg hc, ih]
      have hb : (decide (c = '*') && decide (cs.headD '\x00' = '/')) = false := by
        rw [Bool.and_eq_false_iff]
        by_cases hstar : c = '*'
        · right
          rw [decide_eq_false_iff_not, List.headD_eq_iff_head? _ _ (by decide)]
          exact fun hslash => hc ⟨hstar, hslash⟩
        · left
          exact decide_eq_false hstar
      simp only [hb]
      rfl

theorem strip_comments_line_start (c : Char) (cs : List Char)
    (h : (decide (c = '/') && decide (cs.headD '\x00' = '/')) = true) :
    strip_comments Region.code (c :: cs) =
      ' ' :: strip_comments Region.code (after_line_comment (c :: cs)) := by
  simp only [Bool.and_eq_true, decide_eq_true_eq] at h
  obtain ⟨hc, hslash⟩ := h
  rw [List.headD_eq_iff_head? _ _ (by decide)] at hslash
  subst hc
  cases cs with
  | nil => simp at hslash
  | cons d cs =>
    simp only [List.head?_cons, Option.some.injEq] at hslash
    subst hslash
    rw [strip_comments]
    simp only [List.head?_cons, and_self, if_true]
    rw [strip_comments, if_neg (by decide), strip_comments_line]
    rfl

theorem strip_comments_block_start (c : Char) (cs : List Char)
    (h : (decide (c = '/') && decide (cs.headD '\x00' = '*')) = true) :
    strip_comments Region.code (c :: cs) =
      ' ' :: strip_comments Region.code (after_block_comment (c :: cs)) := by
  simp only [Bool.and_eq_true, decide_eq_true_eq] at h
  obtain ⟨hc, hstar⟩ := h
  rw [List.headD_eq_iff_head? _ _ (by decide)] at hstar
  subst hc
  cases cs with
  | nil => simp at hstar
  | cons d cs =>
    simp only [List.head?_cons, Option.some.injEq] at hstar
    subst hstar
    rw [strip_comments]
    simp only [List.head?_cons]
    rw [if_neg (by decide), if_pos (by decide), strip_comments, strip_comments_block]
    rfl

theorem collapse_whitespace_plain (c : Char) (cs : List Char) (h : isspace c = false) :
    collapse_whitespace (c :: cs) = c :: collapse_whitespace cs := by
  rw [collapse_whitespace, h]
  simp

theorem collapse_whitespace_space (c : Char) (cs : List Char) (h : isspace c = true) :
    collapse_whitespace (c :: cs) = collapse_whitespace cs ∨
      collapse_whitespace (c :: cs) = ' ' :: collapse_whitespace cs := by
  rw [collapse_whitespace, h]
  by_cases hnext : cs.head?.map isspace = some true
  · left
    simp [hnext]
  · right
    simp [hnext]

theorem collapse_whitespace_head_space (cs : List Char) :
    cs.head?.map isspace = some true → (collapse_whitespace cs).head? = some ' ' := by
  induction cs with
  | nil => simp
  | cons c cs ih =>
    intro h
    simp only [List.head?_cons, Option.map_some', Option.some.injEq] at h
    rw [collapse_whitespace, h]
    by_cases hnext : cs.head?.map isspace = some true
    · simp only [hnext, if_true]
      exact ih hnext
    · simp [hnext]

theorem normalize_nil : normalize [] = [] := rfl

theorem normalize_plain (c : Char) (cs : List Char) (hspace : isspace c = false)
    (hcomment : c ≠ '/' ∨ (cs.head? ≠ some '/' ∧ cs.head? ≠ some '*')) :
    normalize (c :: cs) = c :: normalize cs := by
  unfold normalize
  rw [strip_comments_plain c cs hcomment, collapse_whitespace_plain _ _ hspace]

theorem normalize_append_plain (token : List Char) (rest : List Char)
    (h : ∀ x ∈ token, isspace x = false ∧ x ≠ '/') :
    normalize (token ++ rest) = token ++ normalize rest := by
  induction token with
  | nil => rfl
  | cons c token ih =>
    rw [List.cons_append, normalize_plain _ _ (h c (List.mem_cons_self _ _)).1
      (Or.inl (h c (List.mem_cons_self _ _)).2),
      ih fun x hx => h x (List.mem_cons_of_mem _ hx), List.cons_append]

/-- The first character of the normalized source is a space or the first
character of the source. -/
theorem normalize_head (source : List Char) :
    ∀ x ∈ (normalize source).head?, x = ' ' ∨ source.head? = some x := by
  cases source with
  | nil => simp [normalize_nil]
  | cons c cs =>
    intro x hx
    by_cases hspace : isspace c = true
    · left
      have hhead : (normalize (c :: cs)).head? = some ' ' := by
        unfold normalize
        apply collapse_whitespace_head_space
        have hc : c ≠ '/' := by
          intro hc
          rw [hc] at hspace
          exact absurd hspace (by decide)
        rw [strip_comments_plain c cs (Or.inl hc)]
        simp [hspace]
      rw [hhead] at hx
      simp only [Option.mem_def, Option.some.injEq] at hx
      exact hx.symm
    · rw [Bool.not_eq_true] at hspace
      by_cases hline : (decide (c = '/') && decide (cs.headD '\x00' = '/')) = true
      · left
        have hhead : (normalize (c :: cs)).head? = some ' ' := by
          unfold normalize
          apply collapse_whitespace_head_space
          rw [strip_comments_line_start c cs hline]
          rfl
        rw [hhead] at hx
        simp only [Option.mem_def, Option.some.injEq] at hx
        exact hx.symm
      · by_cases hblock : (decide (c = '/') && decide (cs.headD '\x00' = '*')) = true
        · left
          have hhead : (normalize (c :: cs)).head? = some ' ' := by
            unfold normalize
            apply collapse_whitespace_head_space
            rw [strip_comments_block_start c cs hblock]
            rfl
          rw [hhead] at hx
          simp only [Option.mem_def, Option.some.injEq] at hx
          exact hx.symm
        · right
          have hcomment : c ≠ '/' ∨ (cs.head? ≠ some '/' ∧ cs.head? ≠ some '*') := by
            by_cases hc : c = '/'
            · right
              simp only [hc, decide_True, Bool.true_and, decide_eq_true_eq] at hline hblock
              rw [List.headD_eq_iff_head? _ _ (by decide)] at hline hblock
              exact ⟨hline, hblock⟩
            · exact Or.inl hc
          rw [normalize_plain c cs hspace hcomment] at hx
          simp only [List.head?_cons, Option.mem_def, Option.some.injEq] at hx
          simp [hx]

theorem not_comment_start (c : Char) (cs : List Char)
    (hline : ¬(decide (c = '/') && decide (cs.headD '\x00' = '/')) = true)
    (hblock : ¬(decide (c = '/') && decide (cs.headD '\x00' = '*')) = true) :
    c ≠ '/' ∨ (cs.head? ≠ some '/' ∧ cs.head? ≠ some '*') := by
  by_cases hc : c = '/'
  · right
    simp only [hc, decide_True, Bool.true_and, decide_eq_true_eq] at hline hblock
    rw [List.headD_eq_iff_head? _ _ (by decide)] at hline hblock
    exact ⟨hline, hblock⟩
  · exact Or.inl hc

theorem skip_blank_at_token (c : Char) (cs : List Char) (rounds : Nat)
    (hspace : isspace c = false)
    (hcomment : c ≠ '/' ∨ (cs.head? ≠ some '/' ∧ cs.head? ≠ some '*')) :
    skip_blank rounds (c :: cs) = c :: cs := by
  cases rounds with
  | zero => rfl
  | succ rounds =>
    have hline : (decide (c = '/') && decide (cs.headD '\x00' = '/')) = false := by
      rw [Bool.and_eq_false_iff]
      rcases hcomment with h | ⟨h, _⟩
      · exact Or.inl (decide_eq_false h)
      · right
        rw [decide_eq_false_iff_not, List.headD_eq_iff_head? _ _ (by decide)]
        exact h
    have hblock : (decide (c = '/') && decide (cs.headD '\x00' = '*')) = false := by
      rw [Bool.and_eq_false_iff]
      rcases hcomment with h | ⟨_, h⟩
      · exact Or.inl (decide_eq_false h)
      · right
        rw [decide_eq_false_iff_not, List.headD_eq_iff_head? _ _ (by decide)]
        exact h
    rw [skip_blank, hspace, hline, hblock]
    simp

/-- What `skip_blank` returns is empty or starts a token. -/
theorem skip_blank_result : ∀ (n : Nat) (source : List Char), source.length ≤ n →
    skip_blank source.length source = [] ∨
      ∃ c cs, skip_blank source.length source = c :: cs ∧ isspace c = false ∧
        (c ≠ '/' ∨ (cs.head? ≠ some '/' ∧ cs.head? ≠ some '*')) := by
  intro n
  induction n with
  | zero =>
    intro source h
    have hnil : source = [] := List.length_eq_zero.mp (by omega)
    subst hnil
    left
    rfl
  | succ n ih =>
    intro source h
    cases source with
    | nil => left; rfl
    | cons c cs =>
      simp only [List.length_cons] at h ⊢
      rw [skip_blank]
      by_cases hspace : isspace c = true
      · rw [if_pos hspace]
        exact ih cs (by omega)
      · rw [if_neg hspace]
        rw [Bool.not_eq_true] at hspace
        by_cases hline : (decide (c = '/') && decide (cs.headD '\x00' = '/')) = true
        · rw [if_pos hline]
          have hlen := after_line_comment_length c cs
          rw [skip_blank_rounds _ _ hlen]
          exact ih _ (by omega)
        · rw [if_neg hline]
          by_cases hblock : (decide (c = '/') && decide (cs.headD '\x00' = '*')) = true
          · rw [if_pos hblock]
            have hlen := after_block_comment_length c cs
            rw [skip_blank_rounds _ _ hlen]
            exact ih _ (by omega)
          · rw [if_neg hblock]
            exact Or.inr ⟨c, cs, rfl, hspace, not_comment_start c cs hline hblock⟩

/-- The normalized source is spaces and the normalized source from the
first token on. -/
theorem normalize_blank : ∀ (n : Nat) (source : List Char), source.length ≤ n →
    ∃ spaces : List Char, (∀ x ∈ spaces, x = ' ') ∧
      normalize source = spaces ++ normalize (skip_blank source.length source) := by
  intro n
  induction n with
  | zero =>
    intro source h
    have hnil : source = [] := List.length_eq_zero.mp (by omega)
    subst hnil
    exact ⟨[], by simp, rfl⟩
  | succ n ih =>
    intro source h
    cases source with
    | nil => exact ⟨[], by simp, rfl⟩
    | cons c cs =>
      simp only [List.length_cons] at h ⊢
      rw [skip_blank]
      have hcollapse : ∀ rest : List Char,
          (∃ spaces : List Char, (∀ x ∈ spaces, x = ' ') ∧
            normalize rest = spaces ++ normalize (skip_blank rest.length rest)) →
          ∀ w : Char, isspace w = true →
          ∃ spaces : List Char, (∀ x ∈ spaces, x = ' ') ∧
            collapse_whitespace (w :: strip_comments Region.code rest) =
              spaces ++ normalize (skip_blank rest.length rest) := by
        intro rest hrest w hw
        obtain ⟨spaces, hspaces, heq⟩ := hrest
        rcases collapse_whitespace_space w (strip_comments Region.code rest) hw with h1 | h1
        · exact ⟨spaces, hspaces, by rw [h1]; exact heq⟩
        · refine ⟨' ' :: spaces, ?_, ?_⟩
          · intro x hx
            rcases List.mem_cons.mp hx with hx | hx
            · exact hx
            · exact hspaces x hx
          · rw [h1, List.cons_append]
            exact congrArg _ heq
      by_cases hspace : isspace c = true
      · rw [if_pos hspace]
        have hc : c ≠ '/' := by
          intro hc
          rw [hc] at hspace
          exact absurd hspace (by decide)
        unfold normalize
        rw [strip_comments_plain c cs (Or.inl hc)]
        exact hcollapse cs (ih cs (by omega)) c hspace
      · rw [if_neg hspace]
        rw [Bool.not_eq_true] at hspace
        by_cases hline : (decide (c = '/') && decide (cs.headD '\x00' = '/')) = true
        · rw [if_pos hline]
          have hlen := after_line_comment_length c cs
          rw [skip_blank_rounds _ _ hlen]
          unfold normalize
          rw [strip_comments_line_start c cs hline]
          exact hcollapse _ (ih _ (by omega)) ' ' (by decide)
        · rw [if_neg hline]
          by_cases hblock : (decide (c = '/') && decide (cs.headD '\x00' = '*')) = true
          · rw [if_pos hblock]
            have hlen := after_block_comment_length c cs
            rw [skip_blank_rounds _ _ hlen]
            unfold normalize
            rw [strip_comments_block_start c cs hblock]
            exact hcollapse _ (ih _ (by omega)) ' ' (by decide)
          · rw [if_neg hblock]
            exact ⟨[], by simp, rfl⟩

theorem skip_blank_spaces (spaces rest : List Char) (h : ∀ x ∈ spaces, x = ' ') :
    skip_blank (spaces ++ rest).length (spaces ++ rest) = skip_blank rest.length rest := by
  induction spaces with
  | nil => rfl
  | cons c spaces ih =>
    have hc : c = ' ' := h c (List.mem_cons_self _ _)
    subst hc
    rw [List.cons_append, List.length_cons, skip_blank, if_pos (by decide)]
    exact ih fun x hx => h x (List.mem_cons_of_mem _ hx)

theorem isspace_cases (x : Char) (h : isspace x = true) :
    x = ' ' ∨ x = '\t' ∨ x = '\n' ∨ x = '\x0b' ∨ x = '\x0c' ∨ x = '\r' := by
  unfold isspace at h
  simp only [Bool.or_eq_true, decide_eq_true_eq] at h
  tauto

theorem is_identifier_continue_plain (x : Char) (h : is_identifier_continue x = true) :
    isspace x = false ∧ x ≠ '/' := by
  constructor
  · by_contra hspace
    rw [Bool.not_eq_false] at hspace
    rcases isspace_cases x hspace with hx | hx | hx | hx | hx | hx <;> subst hx <;>
      exact absurd h (by decide)
  · intro hx
    subst hx
    exact absurd h (by decide)

theorem is_digit_plain (x : Char) (h : is_digit x = true) : isspace x = false ∧ x ≠ '/' := by
  constructor
  · by_contra hspace
    rw [Bool.not_eq_false] at hspace
    rcases isspace_cases x hspace with hx | hx | hx | hx | hx | hx <;> subst hx <;>
      exact absurd h (by decide)
  · intro hx
    subst hx
    exact absurd h (by decide)

theorem List.takeWhile_append_stop {α : Type} (p : α → Bool) (xs rest : List α)
    (hxs : ∀ x ∈ xs, p x = true) (hrest : ∀ x ∈ rest.head?, p x = false) :
    (xs ++ rest).takeWhile p = xs ∧ (xs ++ rest).dropWhile p = rest := by
  induction xs with
  | nil =>
    cases rest with
    | nil => simp
    | cons r rest =>
      have hr : p r = false := hrest r (by simp)
      simp [List.takeWhile, List.dropWhile, hr]
  | cons x xs ih =>
    have hx : p x = true := hxs x (List.mem_cons_self _ _)
    obtain ⟨h1, h2⟩ := ih fun y hy => hxs y (List.mem_cons_of_mem _ hy)
    simp only [List.cons_append, List.takeWhile_cons, List.dropWhile_cons, hx, if_true, h1, h2,
      and_self]

/-- The scanner on the normalized source from a run of characters on: the
run of the characters that satisfy `p` is the same and what follows it is
the normalized rest. -/
theorem normalize_run (p : Char → Bool) (cs : List Char)
    (hplain : ∀ x, p x = true → isspace x = false ∧ x ≠ '/') (hspace : p ' ' = false) :
    (normalize cs).takeWhile p = cs.takeWhile p ∧
      (normalize cs).dropWhile p = normalize (cs.dropWhile p) := by
  have hsplit : normalize cs = cs.takeWhile p ++ normalize (cs.dropWhile p) := by
    conv_lhs => rw [← List.takeWhile_append_dropWhile p cs]
    exact normalize_append_plain _ _ fun x hx => hplain x (List.takeWhile_all p cs x hx)
  rw [hsplit]
  apply List.takeWhile_append_stop p _ _ (List.takeWhile_all p cs)
  intro x hx
  rcases normalize_head _ x hx with h | h
  · rw [h]
    exact hspace
  · exact List.dropWhile_head_not p cs x h

theorem is_identifier_start_continue (c : Char) (h : is_identifier_start c = true) :
    is_identifier_continue c = true := by
  unfold is_identifier_start at h
  unfold is_identifier_continue Char.isAlphanum
  simp only [Bool.or_eq_true, decide_eq_true_eq] at h ⊢
  rcases h with h | h
  · exact Or.inl (Or.inl h)
  · exact Or.inr h

/-- The token at the start of the normalized source is the token at the
start of the source, and what follows it is the normalized rest. -/
theorem token_at_normalize (c : Char) (cs : List Char) :
    token_at (c :: normalize cs) =
      ((token_at (c :: cs)).1, normalize (token_at (c :: cs)).2) := by
  by_cases hminus : c = '-'
  · subst hminus
    by_cases hdigit : (cs.headD '\x00' != '\x00' && is_digit (cs.headD '\x00')) = true
    · obtain ⟨hrun1, hrun2⟩ := normalize_run is_digit cs is_digit_plain (by decide)
      have hcs : ∃ d rest, cs = d :: rest ∧ is_digit d = true := by
        cases cs with
        | nil => simp at hdigit
        | cons d rest =>
          simp only [List.headD_cons, Bool.and_eq_true] at hdigit
          exact ⟨d, rest, rfl, hdigit.2⟩
      obtain ⟨d, rest, rfl, hd⟩ := hcs
      have hnormalize : normalize (d :: rest) = d :: normalize rest :=
        normalize_plain d rest (is_digit_plain d hd).1 (Or.inl (is_digit_plain d hd).2)
      have hdigit1 : ((normalize (d :: rest)).headD '\x00' != '\x00' &&
          is_digit ((normalize (d :: rest)).headD '\x00')) = true := by
        rw [hnormalize]
        exact hdigit
      simp only [token_at, hdigit, hdigit1, if_true, hrun1, hrun2]
      simp
    · have hdigit1 : ¬((normalize cs).headD '\x00' != '\x00' &&
          is_digit ((normalize cs).headD '\x00')) = true := by
        intro h
        cases hn : normalize cs with
        | nil => rw [hn] at h; simp at h
        | cons x rest =>
          rw [hn] at h
          simp only [List.headD_cons, Bool.and_eq_true] at h
          rcases normalize_head cs x (by rw [hn]; simp) with hx | hx
          · rw [hx] at h
            exact absurd h.2 (by decide)
          · apply hdigit
            cases cs with
            | nil => simp at hx
            | cons y ys =>
              simp only [List.head?_cons, Option.some.injEq] at hx
              subst hx
              simpa using h
      simp only [token_at, hdigit, hdigit1]
      simp
  · by_cases hstart : is_identifier_start c = true
    · obtain ⟨hrun1, hrun2⟩ :=
        normalize_run is_identifier_continue cs is_identifier_continue_plain (by decide)
      have hcontinue := is_identifier_start_continue c hstart
      obtain ⟨_, h0, h1, h2, h3, h4, h5, _⟩ := is_identifier_start_ne c hstart
      simp only [token_at, h1, h2, h3, h4, h5, hminus, hstart, if_true, if_false,
        List.takeWhile_cons, List.dropWhile_cons, hcontinue, hrun1, hrun2]
    · by_cases hnumber : is_digit c = true
      · obtain ⟨hrun1, hrun2⟩ := normalize_run is_digit cs is_digit_plain (by decide)
        have hne : ∀ d : Char, is_digit d = false → c ≠ d := by
          intro d hd heq
          rw [heq, hd] at hnumber
          simp at hnumber
        simp only [token_at, hne _ (by decide : is_digit ';' = false),
          hne _ (by decide : is_digit '=' = false), hne _ (by decide : is_digit '\x7b' = false),
          hne _ (by decide : is_digit '\x7d' = false), hne _ (by decide : is_digit '.' = false),
          hminus, hstart, hnumber, if_true, if_false, Bool.false_eq_true,
          List.takeWhile_cons, List.dropWhile_cons, hrun1, hrun2]
      · simp only [token_at, hminus, hstart, hnumber, if_false, Bool.false_eq_true]
        split_ifs <;> rfl

/-- More rounds than the source has characters do not change the tokens. -/
theorem shapes_calls : ∀ (calls : Nat) (source : List Char), source.length < calls →
    shapes calls source = shapes (source.length + 1) source := by
  intro calls
  induction calls using Nat.strong_induction_on with
  | _ calls ih =>
    intro source h
    obtain ⟨calls, rfl⟩ : ∃ k, calls = k + 1 := ⟨calls - 1, by omega⟩
    rw [shapes, shapes]
    cases hskip : skip_blank source.length source with
    | nil => rfl
    | cons c tail =>
      simp only
      have h1 := skip_blank_length source.length source
      rw [hskip, List.length_cons] at h1
      have h2 := token_at_length c tail
      rw [ih calls (by omega) _ (by omega)]
      by_cases hlen : source.length = 0
      · omega
      · rw [ih source.length (by omega) _ (by omega)]

theorem shapes_eq (source : List Char) :
    shapes (source.length + 1) source =
      match skip_blank source.length source with
      | [] => []
      | c :: tail =>
        (token_at (c :: tail)).1 ::
          shapes ((token_at (c :: tail)).2.length + 1) (token_at (c :: tail)).2 := by
  rw [shapes]
  cases hskip : skip_blank source.length source with
  | nil => rfl
  | cons c tail =>
    simp only
    have h1 := skip_blank_length source.length source
    rw [hskip, List.length_cons] at h1
    have h2 := token_at_length c tail
    rw [shapes_calls source.length _ (by omega)]

/-- The tokens of the normalized source are the tokens of the source. -/
theorem shapes_normalize : ∀ (n : Nat) (source : List Char), source.length ≤ n →
    shapes ((normalize source).length + 1) (normalize source) =
      shapes (source.length + 1) source := by
  intro n
  induction n using Nat.strong_induction_on with
  | _ n ih =>
    intro source h
    obtain ⟨spaces, hspaces, hnormalize⟩ := normalize_blank source.length source (le_refl _)
    rw [shapes_eq, shapes_eq source, hnormalize, skip_blank_spaces _ _ hspaces]
    rcases skip_blank_result source.length source (le_refl _) with hskip | hskip
    · rw [hskip]
      rfl
    · obtain ⟨c, cs, hskip, hspace, hcomment⟩ := hskip
      rw [hskip, normalize_plain c cs hspace hcomment]
      have hcomment1 : c ≠ '/' ∨
          ((normalize cs).head? ≠ some '/' ∧ (normalize cs).head? ≠ some '*') := by
        rcases hcomment with hc | ⟨h1, h2⟩
        · exact Or.inl hc
        · right
          constructor
          · intro hhead
            rcases normalize_head cs '/' hhead with hx | hx
            · exact absurd hx (by decide)
            · exact h1 hx
          · intro hhead
            rcases normalize_head cs '*' hhead with hx | hx
            · exact absurd hx (by decide)
            · exact h2 hx
      rw [skip_blank_at_token c (normalize cs) _ hspace hcomment1]
      simp only
      rw [token_at_normalize]
      simp only
      have h1 := skip_blank_length source.length source
      rw [hskip, List.length_cons] at h1
      have h2 := token_at_length c cs
      rw [ih (token_at (c :: cs)).2.length (by omega) _ (le_refl _)]

theorem Lexer.new_rest (source : List Char) : (Lexer.new source).rest = source := rfl

theorem tokenize_shapes (source : String) :
    (tokenize source).pending.map Token.shape = shapes (source.data.length + 1) source.data := by
  unfold tokenize Lexer.stream
  simp only
  rw [Lexer.scan_tokens_shapes _ _ rfl, Lexer.new_rest, Lexer.remaining_eq, Lexer.new_rest]

set_option maxRecDepth 100000 in
/-- C28. Comments and white space do not change the token stream: the
kinds and lexemes of the tokens the scanner returns for a source are those
it returns for the source in which every line comment and every block
comment, closed or not, is replaced by one space and every run of white
space by one space. -/
theorem comments_and_whitespace_are_skipped :
    (∀ source : String,
      (tokenize (String.mk (normalize source.data))).pending.map Token.shape =
        (tokenize source).pending.map Token.shape) ∧
    String.mk (normalize (String.data "a//x\n  /*y*/b /*/ c */ d\t\r\n/* e")) = "a b d " ∧
    (tokenize "a//x\n  /*y*/b /*/ c */ d\t\r\n/* e").pending.map Token.shape =
      [(TokenType.IDENTIFIER, "a"), (TokenType.IDENTIFIER, "b"),
        (TokenType.IDENTIFIER, "d")] := by
  refine ⟨?_, by decide, by decide⟩
  intro source
  rw [tokenize_shapes, tokenize_shapes]
  exact shapes_normalize _ _ (le_refl _)

/-! ## Parsing a printed schema -/

theorem tokens_of_nil : tokens_of [] = [] := rfl

theorem tokens_of_space (rest : List Char) : tokens_of (' ' :: rest) = tokens_of rest := by
  unfold tokens_of
  rw [shapes_eq, shapes_eq rest, List.length_cons, skip_blank, if_pos (by decide)]

theorem tokens_of_token (c : Char) (cs : List Char) (hspace : isspace c = false)
    (hcomment : c ≠ '/' ∨ (cs.head? ≠ some '/' ∧ cs.head? ≠ some '*')) :
    tokens_of (c :: cs) = (token_at (c :: cs)).1 :: tokens_of (token_at (c :: cs)).2 := by
  unfold tokens_of
  rw [shapes_eq, skip_blank_at_token c cs _ hspace hcomment]

theorem tokens_of_word (c : Char) (cs rest : List Char) (hstart : is_identifier_start c = true)
    (hcs : ∀ x ∈ cs, is_identifier_continue x = true)
    (hrest : ∀ x ∈ rest.head?, is_identifier_continue x = false) :
    tokens_of (c :: cs ++ rest) =
      (keyword_or_identifier (String.mk (c :: cs)), String.mk (c :: cs)) :: tokens_of rest := by
  obtain ⟨hspace, hslash, h1, h2, h3, h4, h5, h6⟩ := is_identifier_start_ne c hstart
  have hall : ∀ x ∈ c :: cs, is_identifier_continue x = true := by
    intro x hx
    rcases List.mem_cons.mp hx with hx | hx
    · rw [hx]
      exact is_identifier_start_continue c hstart
    · exact hcs x hx
  obtain ⟨htake, hdrop⟩ := List.takeWhile_append_stop is_identifier_continue (c :: cs) rest
    hall hrest
  rw [List.cons_append] at htake hdrop ⊢
  rw [tokens_of_token _ _ hspace (Or.inl hslash)]
  simp only [token_at, h1, h2, h3, h4, h5, h6, hstart, if_true, if_false, htake, hdrop]

theorem is_digit_not_start (d : Char) (hd : is_digit d = true) :
    is_identifier_start d = false := by
  by_contra hstart
  rw [Bool.not_eq_false] at hstart
  unfold is_digit Char.isDigit at hd
  unfold is_identifier_start Char.isAlpha Char.isUpper Char.isLower at hstart
  simp only [Bool.or_eq_true, Bool.and_eq_true, decide_eq_true_eq, ge_iff_le, UInt32.le_def,
    BitVec.le_def] at hd hstart
  have h48 : (UInt32.toBitVec 48).toNat = 48 := rfl
  have h57 : (UInt32.toBitVec 57).toNat = 57 := rfl
  have h65 : (UInt32.toBitVec 65).toNat = 65 := rfl
  have h90 : (UInt32.toBitVec 90).toNat = 90 := rfl
  have h97 : (UInt32.toBitVec 97).toNat = 97 := rfl
  have h122 : (UInt32.toBitVec 122).toNat = 122 := rfl
  rw [h48, h57] at hd
  rw [h65, h90, h97, h122] at hstart
  rcases hstart with (h | h) | h
  · omega
  · omega
  · rw [h] at hd
    exact absurd hd (by decide)

theorem tokens_of_digits (d : Char) (ds rest : List Char) (hd : is_digit d = true)
    (hds : ∀ x ∈ ds, is_digit x = true) (hrest : ∀ x ∈ rest.head?, is_digit x = false) :
    tokens_of (d :: ds ++ rest) = (TokenType.NUMBER, String.mk (d :: ds)) :: tokens_of rest := by
  have hne : ∀ x : Char, is_digit x = false → d ≠ x := by
    intro x hx heq
    rw [heq, hx] at hd
    simp at hd
  have hall : ∀ x ∈ d :: ds, is_digit x = true := by
    intro x hx
    rcases List.mem_cons.mp hx with hx | hx
    · rw [hx]
      exact hd
    · exact hds x hx
  obtain ⟨htake, hdrop⟩ := List.takeWhile_append_stop is_digit (d :: ds) rest hall hrest
  rw [List.cons_append] at htake hdrop ⊢
  have hstart := is_digit_not_start d hd
  rw [tokens_of_token _ _ (is_digit_plain d hd).1 (Or.inl (is_digit_plain d hd).2)]
  simp only [token_at, hne _ (by decide : is_digit ';' = false),
    hne _ (by decide : is_digit '=' = false), hne _ (by decide : is_digit '\x7b' = false),
    hne _ (by decide : is_digit '\x7d' = false), hne _ (by decide : is_digit '.' = false),
    hne _ (by decide : is_digit '-' = false), hstart, hd, if_true, if_false,
    Bool.false_eq_true, htake, hdrop]

theorem tokens_of_negative (d : Char) (ds rest : List Char) (hd : is_digit d = true)
    (hds : ∀ x ∈ ds, is_digit x = true) (hrest : ∀ x ∈ rest.head?, is_digit x = false) :
    tokens_of ('-' :: d :: ds ++ rest) =
      (TokenType.NUMBER, String.mk ('-' :: d :: ds)) :: tokens_of rest := by
  have hall : ∀ x ∈ d :: ds, is_digit x = true := by
    intro x hx
    rcases List.mem_cons.mp hx with hx | hx
    · rw [hx]
      exact hd
    · exact hds x hx
  obtain ⟨htake, hdrop⟩ := List.takeWhile_append_stop is_digit (d :: ds) rest hall hrest
  rw [List.cons_append, List.cons_append] at *
  rw [tokens_of_token _ _ (by decide) (Or.inl (by decide))]
  have hzero : d ≠ '\x00' := by
    intro h
    rw [h] at hd
    exact absurd hd (by decide)
  simp only [token_at, List.headD_cons, hd, htake, hdrop]
  simp [hzero]

theorem tokens_of_punctuation (rest : List Char) :
    tokens_of (';' :: rest) = (TokenType.SEMICOLON, ";") :: tokens_of rest ∧
    tokens_of ('=' :: rest) = (TokenType.EQUALS, "=") :: tokens_of rest ∧
    tokens_of ('\x7b' :: rest) = (TokenType.LBRACE, "\x7b") :: tokens_of rest ∧
    tokens_of ('\x7d' :: rest) = (TokenType.RBRACE, "\x7d") :: tokens_of rest ∧
    tokens_of ('.' :: rest) = (TokenType.DOT, ".") :: tokens_of rest := by
  refine ⟨?_, ?_, ?_, ?_, ?_⟩ <;>
    rw [tokens_of_token _ _ (by decide) (Or.inl (by decide))] <;> rfl

theorem decimal_digit_spec (d : Nat) (h : d < 10) :
    is_digit (decimal_digit d) = true ∧ (decimal_digit d).toNat - 48 = d := by
  interval_cases d <;> exact ⟨by decide, by decide⟩

theorem decimal_digits_spec : ∀ (fuel n : Nat), n < fuel →
    decimal_digits fuel n ≠ [] ∧ (∀ x ∈ decimal_digits fuel n, is_digit x = true) ∧
      (decimal_digits fuel n).foldl (fun acc c => 10 * acc + (c.toNat - 48)) 0 = n := by
  intro fuel
  induction fuel with
  | zero => intro n h; omega
  | succ fuel ih =>
    intro n h
    rw [decimal_digits]
    by_cases hn : n < 10
    · rw [if_pos hn]
      obtain ⟨h1, h2⟩ := decimal_digit_spec n hn
      refine ⟨by simp, ?_, ?_⟩
      · intro x hx
        rw [List.mem_singleton] at hx
        rw [hx]
        exact h1
      · simp only [List.foldl_cons, List.foldl_nil]
        omega
    · rw [if_neg hn]
      obtain ⟨_, h2, h3⟩ := ih (n / 10) (by omega)
      obtain ⟨h4, h5⟩ := decimal_digit_spec (n % 10) (Nat.mod_lt _ (by decide))
      refine ⟨by simp, ?_, ?_⟩
      · intro x hx
        rcases List.mem_append.mp hx with hx | hx
        · exact h2 x hx
        · rw [List.mem_singleton] at hx
          rw [hx]
          exact h4
      · rw [List.foldl_append, h3]
        simp only [List.foldl_cons, List.foldl_nil]
        omega

theorem is_digit_facts (d : Char) (hd : is_digit d = true) :
    isspace d = false ∧ d ≠ '-' ∧ d ≠ '+' ∧ d.isDigit = true := by
  have hne : ∀ x : Char, is_digit x = false → d ≠ x := by
    intro x hx heq
    rw [heq, hx] at hd
    simp at hd
  exact ⟨(is_digit_plain d hd).1, hne _ (by decide), hne _ (by decide), hd⟩

theorem stoi_digits (d : Char) (ds : List Char) (hd : is_digit d = true)
    (hds : ∀ x ∈ ds, is_digit x = true) (n : Nat)
    (hn : (d :: ds).foldl (fun acc c => 10 * acc + (c.toNat - 48)) 0 = n) :
    (n ≤ 2147483647 → stoi (String.mk (d :: ds)) = Parsed.ok (n : Int)) ∧
    (n ≤ 2147483648 → stoi (String.mk ('-' :: d :: ds)) = Parsed.ok (-(n : Int))) := by
  obtain ⟨hspace, hminus, hplus, hdigit⟩ := is_digit_facts d hd
  have hall : ∀ x ∈ d :: ds, Char.isDigit x = true := by
    intro x hx
    rcases List.mem_cons.mp hx with hx | hx
    · rw [hx]
      exact hdigit
    · exact hds x hx
  have htake : (d :: ds).takeWhile Char.isDigit = d :: ds :=
    List.takeWhile_eq_self_iff.mpr hall
  constructor
  · intro hle
    unfold stoi
    have hdrop : List.dropWhile isspace (d :: ds) = d :: ds := by
      rw [List.dropWhile_cons, hspace]
      simp
    simp only [hdrop]
    have hunsigned : stoi.match_1 (fun _ => List Char) (d :: ds) (fun rest => rest)
        (fun rest => rest) (fun _ => d :: ds) = d :: ds := by
      split
      · rename_i heq
        exact absurd (List.cons.inj heq).1 hminus
      · rename_i heq
        exact absurd (List.cons.inj heq).1 hplus
      · rfl
    rw [hunsigned, htake]
    simp only [List.isEmpty_cons, Bool.false_eq_true, if_false, List.head?_cons,
      Option.some.injEq, hminus, decide_False]
    rw [hn]
    have hrange : ¬((n : Int) < -2147483648 ∨ (n : Int) > 2147483647) := by omega
    simp only [hrange, if_false]
  · intro hle
    unfold stoi
    have hdrop : List.dropWhile isspace ('-' :: d :: ds) = '-' :: d :: ds := by
      rw [List.dropWhile_cons]
      simp [isspace]
    simp only [hdrop]
    rw [htake]
    simp only [List.isEmpty_cons, Bool.false_eq_true, if_false, List.head?_cons,
      decide_True, if_true]
    rw [hn]
    have hrange : ¬(-(n : Int) < -2147483648 ∨ -(n : Int) > 2147483647) := by omega
    simp only [hrange, if_false]

theorem print_number_spec (n : Int) :
    ∃ (d : Char) (ds : List Char), is_digit d = true ∧ (∀ x ∈ ds, is_digit x = true) ∧
      (d :: ds).foldl (fun acc c => 10 * acc + (c.toNat - 48)) 0 = n.natAbs ∧
      ((0 ≤ n ∧ print_number n = String.mk (d :: ds)) ∨
        (n < 0 ∧ print_number n = String.mk ('-' :: d :: ds))) := by
  obtain ⟨hne, hall, hvalue⟩ := decimal_digits_spec (n.natAbs + 1) n.natAbs (by omega)
  cases hdigits : decimal_digits (n.natAbs + 1) n.natAbs with
  | nil => exact absurd hdigits hne
  | cons d ds =>
    rw [hdigits] at hall hvalue
    refine ⟨d, ds, hall d (List.mem_cons_self _ _),
      fun x hx => hall x (List.mem_cons_of_mem _ hx), hvalue, ?_⟩
    unfold print_number
    by_cases hn : n < 0
    · right
      rw [if_pos hn, hdigits]
      exact ⟨hn, rfl⟩
    · left
      rw [if_neg hn, hdigits]
      exact ⟨by omega, rfl⟩

/-- `std::stoi` reads a printed number back. -/
theorem stoi_print_number (n : Int) (h : fits_int32 n) :
    stoi (print_number n) = Parsed.ok n := by
  obtain ⟨d, ds, hd, hds, hvalue, hprint⟩ := print_number_spec n
  obtain ⟨h1, h2⟩ := stoi_digits d ds hd hds n.natAbs hvalue
  unfold fits_int32 at h
  rcases hprint with ⟨hn, hprint⟩ | ⟨hn, hprint⟩
  · rw [hprint, h1 (by omega)]
    congr 1
    omega
  · rw [hprint, h2 (by omega)]
    congr 1
    omega

/-- The scanner reads a printed number as one `NUMBER` token. -/
theorem tokens_of_print_number (n : Int) (rest : List Char)
    (hrest : ∀ x ∈ rest.head?, is_identifier_continue x = false) :
    tokens_of ((print_number n).data ++ rest) =
      (TokenType.NUMBER, print_number n) :: tokens_of rest := by
  obtain ⟨d, ds, hd, hds, -, hprint⟩ := print_number_spec n
  have hrest1 : ∀ x ∈ rest.head?, is_digit x = false := by
    intro x hx
    have hx1 := hrest x hx
    unfold is_identifier_continue Char.isAlphanum at hx1
    simp only [Bool.or_eq_false_iff] at hx1
    exact hx1.1.2
  rcases hprint with ⟨-, hprint⟩ | ⟨-, hprint⟩
  · rw [hprint]
    exact tokens_of_digits d ds rest hd hds hrest1
  · rw [hprint]
    exact tokens_of_negative d ds rest hd hds hrest1

/-- The scanner reads an identifier as one token. -/
theorem tokens_of_identifier (word : String) (rest : List Char) (h : is_identifier word = true)
    (hrest : ∀ x ∈ rest.head?, is_identifier_continue x = false) :
    tokens_of (word.data ++ rest) = (keyword_or_identifier word, word) :: tokens_of rest := by
  unfold is_identifier at h
  cases hdata : word.data with
  | nil => rw [hdata] at h; simp at h
  | cons c cs =>
    rw [hdata] at h
    simp only [Bool.and_eq_true, List.all_eq_true] at h
    have hword : word = String.mk (c :: cs) := by
      rw [← hdata]
    rw [tokens_of_word c cs rest h.1 h.2 hrest, ← hword]

theorem keyword_or_identifier_plain (word : String) (h : is_plain_name word = true) :
    is_identifier word = true ∧ keyword_or_identifier word = TokenType.IDENTIFIER := by
  unfold is_plain_name at h
  simp only [Bool.and_eq_true, Bool.not_eq_true', decide_eq_false_iff_not] at h
  refine ⟨h.1, ?_⟩
  rcases keyword_or_identifier_mem word with hk | hk
  · exact hk
  · exfalso
    apply h.2
    have hmem : word ∈ keywords.map Prod.fst := List.mem_map.2 ⟨_, hk, rfl⟩
    exact hmem

theorem tokens_of_plain_name (word : String) (rest : List Char) (h : is_plain_name word = true)
    (hrest : ∀ x ∈ rest.head?, is_identifier_continue x = false) :
    tokens_of (word.data ++ rest) = (TokenType.IDENTIFIER, word) :: tokens_of rest := by
  obtain ⟨h1, h2⟩ := keyword_or_identifier_plain word h
  rw [tokens_of_identifier word rest h1 hrest, h2]

set_option maxRecDepth 100000 in
theorem keywords_spec (word : String) (kind : TokenType) (h : (word, kind) ∈ keywords) :
    is_identifier word = true ∧ keyword_or_identifier word = kind := by
  simp only [keywords, List.mem_cons, Prod.mk.injEq, List.mem_singleton, List.not_mem_nil,
    or_false] at h
  rcases h with h | h | h | h | h | h | h | h | h | h | h | h | h | h | h | h | h | h | h |
    h | h <;> obtain ⟨h1, h2⟩ := h <;> subst h1 <;> subst h2 <;> exact ⟨by decide, by decide⟩

/-- The scanner reads a keyword as one token of its kind. -/
theorem tokens_of_keyword (word : String) (kind : TokenType) (h : (word, kind) ∈ keywords)
    (rest : List Char) (hrest : ∀ x ∈ rest.head?, is_identifier_continue x = false) :
    tokens_of (word.data ++ rest) = (kind, word) :: tokens_of rest := by
  obtain ⟨h1, h2⟩ := keywords_spec word kind h
  rw [tokens_of_identifier word rest h1 hrest, h2]

theorem lexes_word_tokens (word : String) (tokens : List (TokenType × String))
    (h : lexes word tokens) : word_tokens word = tokens := by
  have h1 := h [] (by simp)
  rw [List.append_nil, tokens_of_nil, List.append_nil] at h1
  exact h1

theorem spaced_data (word next : String) (rest : List String) :
    (spaced (word :: next :: rest)).data = word.data ++ ' ' :: (spaced (next :: rest)).data := by
  rw [spaced, String.data_append, String.data_append]
  simp

/-- The tokens of words separated by spaces are the tokens of the words. -/
theorem tokens_of_spaced (words : List String)
    (h : ∀ word ∈ words, ∃ tokens, lexes word tokens) :
    tokens_of (spaced words).data = words.flatMap word_tokens := by
  induction words with
  | nil => rfl
  | cons word words ih =>
    obtain ⟨tokens, hword⟩ := h word (List.mem_cons_self _ _)
    have htokens := lexes_word_tokens word tokens hword
    cases words with
    | nil =>
      simp only [spaced, List.flatMap_cons, List.flatMap_nil, List.append_nil]
      rfl
    | cons next rest =>
      rw [spaced_data, hword _ (by simp), tokens_of_space,
        ih fun w hw => h w (List.mem_cons_of_mem _ hw), List.flatMap_cons word, htokens]

theorem boundary_of_space (rest : List Char) (h : ∀ x ∈ rest.head?, x = ' ') :
    ∀ x ∈ rest.head?, is_identifier_continue x = false := by
  intro x hx
  rw [h x hx]
  decide

theorem lexes_plain_name (word : String) (h : is_plain_name word = true) :
    lexes word [(TokenType.IDENTIFIER, word)] :=
  fun rest hrest => tokens_of_plain_name word rest h (boundary_of_space rest hrest)

theorem lexes_keyword (word : String) (kind : TokenType) (h : (word, kind) ∈ keywords) :
    lexes word [(kind, word)] :=
  fun rest hrest => tokens_of_keyword word kind h rest (boundary_of_space rest hrest)

theorem lexes_print_number (n : Int) : lexes (print_number n) [(TokenType.NUMBER, print_number n)] :=
  fun rest hrest => tokens_of_print_number n rest (boundary_of_space rest hrest)

theorem lexes_punctuation :
    lexes ";" [(TokenType.SEMICOLON, ";")] ∧ lexes "=" [(TokenType.EQUALS, "=")] ∧
    lexes "\x7b" [(TokenType.LBRACE, "\x7b")] ∧ lexes "\x7d" [(TokenType.RBRACE, "\x7d")] :=
  ⟨fun rest _ => (tokens_of_punctuation rest).1, fun rest _ => (tokens_of_punctuation rest).2.1,
    fun rest _ => (tokens_of_punctuation rest).2.2.1,
    fun rest _ => (tokens_of_punctuation rest).2.2.2.1⟩

theorem dotted_data (part next : String) (rest : List String) :
    (dotted (part :: next :: rest)).data = part.data ++ '.' :: (dotted (next :: rest)).data := by
  rw [dotted, String.data_append, String.data_append]
  simp

theorem tokens_of_dotted (parts : List String) (h : ∀ part ∈ parts, is_plain_name part = true)
    (rest : List Char) (hrest : ∀ x ∈ rest.head?, is_identifier_continue x = false) :
    tokens_of ((dotted parts).data ++ rest) = dotted_tokens parts ++ tokens_of rest := by
  induction parts with
  | nil => rfl
  | cons part parts ih =>
    have hpart := h part (List.mem_cons_self _ _)
    cases parts with
    | nil =>
      rw [dotted, dotted_tokens, tokens_of_plain_name part rest hpart hrest]
      rfl
    | cons next more =>
      rw [dotted_data, dotted_tokens, List.append_assoc, List.cons_append,
        tokens_of_plain_name part _ hpart (by simp; decide),
        (tokens_of_punctuation _).2.2.2.2, ih fun p hp => h p (List.mem_cons_of_mem _ hp)]
      rfl

theorem lexes_dotted (parts : List String) (h : ∀ part ∈ parts, is_plain_name part = true) :
    lexes (dotted parts) (dotted_tokens parts) :=
  fun rest hrest => tokens_of_dotted parts h rest (boundary_of_space rest hrest)

theorem and_flag (x flag : Nat) (h : 31 &&& flag = flag) : x &&& flag = x % 32 &&& flag := by
  have h31 : x &&& 31 = x % 32 := by
    have h := Nat.and_pow_two_sub_one_eq_mod x 5
    simpa using h
  rw [← h31, Nat.and_assoc, h]

theorem modifier_bits (m : Nat) :
    ((if (m &&& MOD_OPTIONAL != 0) = true then MOD_OPTIONAL else 0) |||
      (if (m &&& MOD_REPEATED != 0) = true then MOD_REPEATED else 0) |||
      (if (m &&& MOD_PACKED != 0) = true then MOD_PACKED else 0) |||
      (if (m &&& MOD_INTERNED != 0) = true then MOD_INTERNED else 0) |||
      (if (m &&& MOD_BITMAP != 0) = true then MOD_BITMAP else 0)) = m % 32 := by
  unfold MOD_OPTIONAL MOD_REPEATED MOD_PACKED MOD_INTERNED MOD_BITMAP
  rw [and_flag m 1 (by decide), and_flag m 2 (by decide), and_flag m 4 (by decide),
    and_flag m 8 (by decide), and_flag m 16 (by decide)]
  have hlt : m % 32 < 32 := Nat.mod_lt _ (by decide)
  generalize m % 32 = r at hlt
  revert r
  decide

set_option maxRecDepth 100000 in
theorem word_tokens_modifiers :
    word_tokens "optional" = [(TokenType.OPTIONAL, "optional")] ∧
    word_tokens "repeated" = [(TokenType.REPEATED, "repeated")] ∧
    word_tokens "packed" = [(TokenType.PACKED, "packed")] ∧
    word_tokens "interned" = [(TokenType.INTERNED, "interned")] ∧
    word_tokens "bitmap" = [(TokenType.BITMAP, "bitmap")] := by
  refine ⟨?_, ?_, ?_, ?_, ?_⟩ <;> exact lexes_word_tokens _ _ (lexes_keyword _ _ (by decide))

/-- The tokens of the modifier keywords printed for a field: keywords
whose modifier set is the set of the field. -/
theorem modifier_words_tokens (field : Field) :
    ∃ tokens : List (TokenType × String),
      (modifier_words field).flatMap word_tokens = tokens ∧
      (∀ token ∈ tokens, is_field_modifier token.1 = true) ∧
      modifier_set (tokens.map Prod.fst) = field.modifiers % 32 ∧ tokens.length ≤ 5 := by
  obtain ⟨h1, h2, h3, h4, h5⟩ := word_tokens_modifiers
  have hbits := modifier_bits field.modifiers
  refine ⟨_, rfl, ?_, ?_, ?_⟩
  · unfold modifier_words
    intro token htoken
    simp only [List.flatMap_append, List.mem_append] at htoken
    rcases htoken with (((htoken | htoken) | htoken) | htoken) | htoken <;>
      split_ifs at htoken <;>
      simp only [List.flatMap_cons, List.flatMap_nil, List.append_nil, h1, h2, h3, h4, h5,
        List.mem_singleton, List.not_mem_nil] at htoken <;>
      rw [htoken] <;> rfl
  · rw [← hbits]
    unfold modifier_words modifier_set Field.is_optional Field.is_repeated Field.is_packed
      Field.is_interned Field.is_bitmap Field.has_modifier
    cases (field.modifiers &&& MOD_OPTIONAL != 0) <;>
    cases (field.modifiers &&& MOD_REPEATED != 0) <;>
    cases (field.modifiers &&& MOD_PACKED != 0) <;>
    cases (field.modifiers &&& MOD_INTERNED != 0) <;>
    cases (field.modifiers &&& MOD_BITMAP != 0) <;>
    simp only [if_true, if_false, Bool.false_eq_true, List.flatMap_append, List.flatMap_cons,
      List.flatMap_nil, List.append_nil, List.nil_append, h1, h2, h3, h4, h5] <;>
    decide
  · unfold modifier_words
    simp only [List.flatMap_append, List.length_append]
    have hlen : ∀ (b : Bool) (w : String), word_tokens w = [(keyword_or_identifier w, w)] →
        ((if b = true then [w] else []).flatMap word_tokens).length ≤ 1 := by
      intro b w hw
      cases b <;> simp [hw]
    have l1 := hlen field.is_optional "optional" h1
    have l2 := hlen field.is_repeated "repeated" h2
    have l3 := hlen field.is_packed "packed" h3
    have l4 := hlen field.is_interned "interned" h4
    have l5 := hlen field.is_bitmap "bitmap" h5
    omega

theorem Token.shape_eq (t : Token) (kind : TokenType) (value : String) :
    t.shape = (kind, value) ↔ t.type = kind ∧ t.value = value := by
  unfold Token.shape
  exact Prod.mk.injEq _ _ _ _ ▸ Iff.rfl

set_option maxRecDepth 100000 in
/-- The name of a type is read as one token, from which `parse_type` gives
the type back. -/
theorem type_word (type : Ty)
    (h : ∀ name location, type = Ty.UserType name location → is_plain_name name = true) :
    ∃ kind : TokenType,
      lexes type.get_name [(kind, type.get_name)] ∧ is_field_modifier kind = false ∧
      kind ≠ TokenType.RBRACE ∧ kind ≠ TokenType.END_OF_FILE ∧
      ∀ (t : Token) (e : SourceLocation), t.shape = (kind, type.get_name) →
        ∃ parsed : Ty, parsed.content = type.content ∧
          ∀ rest : List Token,
            parse_type (Parser.new ⟨t :: rest, e⟩) = Parsed.ok (parsed, Parser.new ⟨rest, e⟩) := by
  cases type with
  | PrimitiveType kind location =>
    have hkind : ∃ token : TokenType,
        (kind.get_name, token) ∈ keywords ∧ token_to_primitive_type token = Parsed.ok kind ∧
          is_field_modifier token = false ∧ token ≠ TokenType.RBRACE ∧
          token ≠ TokenType.END_OF_FILE := by
      cases kind
      · exact ⟨TokenType.INT8, by decide, rfl, rfl, by decide, by decide⟩
      · exact ⟨TokenType.INT16, by decide, rfl, rfl, by decide, by decide⟩
      · exact ⟨TokenType.INT32, by decide, rfl, rfl, by decide, by decide⟩
      · exact ⟨TokenType.INT64, by decide, rfl, rfl, by decide, by decide⟩
      · exact ⟨TokenType.UINT8, by decide, rfl, rfl, by decide, by decide⟩
      · exact ⟨TokenType.UINT16, by decide, rfl, rfl, by decide, by decide⟩
      · exact ⟨TokenType.UINT32, by decide, rfl, rfl, by decide, by decide⟩
      · exact ⟨TokenType.UINT64, by decide, rfl, rfl, by decide, by decide⟩
      · exact ⟨TokenType.FLOAT, by decide, rfl, rfl, by decide, by decide⟩
      · exact ⟨TokenType.DOUBLE, by decide, rfl, rfl, by decide, by decide⟩
      · exact ⟨TokenType.BOOL, by decide, rfl, rfl, by decide, by decide⟩
      · exact ⟨TokenType.STRING, by decide, rfl, rfl, by decide, by decide⟩
      · exact ⟨TokenType.BYTE, by decide, rfl, rfl, by decide, by decide⟩
    obtain ⟨token, hmem, hto, hmod, hbrace, hend⟩ := hkind
    refine ⟨token, lexes_keyword _ _ hmem, hmod, hbrace, hend, ?_⟩
    intro t e ht
    rw [Token.shape_eq] at ht
    refine ⟨Ty.PrimitiveType kind t.location, rfl, fun rest => ?_⟩
    exact parse_type_primitive t rest e kind (by rw [ht.1]; exact hto)
  | UserType name location =>
    have hname := h name location rfl
    refine ⟨TokenType.IDENTIFIER, lexes_plain_name name hname, rfl, by decide, by decide, ?_⟩
    intro t e ht
    rw [Token.shape_eq] at ht
    refine ⟨Ty.UserType t.value t.location, ?_, fun rest => parse_type_user t rest e ht.1⟩
    rw [ht.2]
    rfl

theorem word_tokens_punctuation :
    word_tokens ";" = [(TokenType.SEMICOLON, ";")] ∧ word_tokens "=" = [(TokenType.EQUALS, "=")] ∧
    word_tokens "\x7b" = [(TokenType.LBRACE, "\x7b")] ∧
    word_tokens "\x7d" = [(TokenType.RBRACE, "\x7d")] :=
  ⟨lexes_word_tokens _ _ lexes_punctuation.1, lexes_word_tokens _ _ lexes_punctuation.2.1,
    lexes_word_tokens _ _ lexes_punctuation.2.2.1,
    lexes_word_tokens _ _ lexes_punctuation.2.2.2⟩

/-- `parse_field` on the tokens of a printed field. -/
theorem parse_field_printed (f : Field) (hf : printable_field f) (toks : List Token)
    (rest : List (TokenType × String)) (e : SourceLocation) (fuel : Nat) (hfuel : 5 < fuel)
    (h : toks.map Token.shape = (field_words f).flatMap word_tokens ++ rest) :
    ∃ (field : Field) (toks1 : List Token),
      parse_field fuel (Parser.new ⟨toks, e⟩) = Parsed.ok (field, Parser.new ⟨toks1, e⟩) ∧
      toks1.map Token.shape = rest ∧ field.content = f.content ∧
      toks1.length + 5 ≤ toks.length := by
  obtain ⟨hname, hnumber, htype⟩ := hf
  obtain ⟨mod_shapes, hmods, hmods_kind, hset, hlen⟩ := modifier_words_tokens f
  obtain ⟨kind, hlex, hkind, -, -, hparse⟩ := type_word f.type htype
  obtain ⟨hsemi, hequals, -, -⟩ := word_tokens_punctuation
  rw [field_words, List.flatMap_append, hmods] at h
  simp only [List.flatMap_cons, List.flatMap_nil, List.append_nil,
    lexes_word_tokens _ _ hlex, lexes_word_tokens _ _ (lexes_plain_name _ hname),
    lexes_word_tokens _ _ (lexes_print_number f.number), hsemi, hequals, List.append_assoc,
    List.singleton_append] at h
  obtain ⟨mods, toks2, rfl, hmods_eq, h2⟩ := List.map_eq_append_iff.mp h
  obtain ⟨type_token, toks3, rfl, htype_token, h3⟩ := List.map_eq_cons_iff.mp h2
  obtain ⟨name_token, toks4, rfl, hname_token, h4⟩ := List.map_eq_cons_iff.mp h3
  obtain ⟨equals, toks5, rfl, hequals_token, h5⟩ := List.map_eq_cons_iff.mp h4
  obtain ⟨number, toks6, rfl, hnumber_token, h6⟩ := List.map_eq_cons_iff.mp h5
  obtain ⟨semicolon, toks7, rfl, hsemicolon_token, h7⟩ := List.map_eq_cons_iff.mp h6
  rw [Token.shape_eq] at hname_token hequals_token hnumber_token hsemicolon_token
  obtain ⟨parsed, hcontent, hparse_type⟩ := hparse type_token e htype_token
  have hmods_type : ∀ m ∈ mods, is_field_modifier m.type = true := by
    intro m hm
    have hmem : m.shape ∈ mod_shapes := by
      rw [← hmods_eq]
      exact List.mem_map_of_mem _ hm
    exact hmods_kind _ hmem
  have hmods_len : mods.length = mod_shapes.length := by
    rw [← hmods_eq, List.length_map]
  have hmods_types : mods.map Token.type = mod_shapes.map Prod.fst := by
    rw [← hmods_eq, List.map_map]
    rfl
  refine ⟨_, toks7, parse_field_new mods type_token name_token equals number semicolon toks7 e
    parsed f.number fuel hmods_type ?_ hparse_type hname_token.1 hequals_token.1
    hnumber_token.1 ?_ hsemicolon_token.1 (by omega), h7, ?_, ?_⟩
  · rw [Token.shape_eq] at htype_token
    rw [htype_token.1]
    exact hkind
  · rw [hnumber_token.2]
    exact stoi_print_number f.number hnumber
  · unfold Field.content
    simp only [hcontent, hname_token.2, hmods_types, hset]
    rw [Nat.mod_mod]
  · simp only [List.length_append, List.length_cons]
    omega

/-- The loop of `parse_model` on the tokens of printed fields and the
closing brace. -/
theorem parse_model_loop_printed : ∀ (fields : List Field) (toks : List Token)
    (rest : List (TokenType × String)) (e : SourceLocation) (fuel : Nat) (acc : ModelDecl),
    (∀ f ∈ fields, printable_field f) → toks.length + 7 ≤ fuel →
    toks.map Token.shape =
      fields.flatMap (fun f => (field_words f).flatMap word_tokens) ++
        (TokenType.RBRACE, "\x7d") :: rest →
    ∃ (parsed : List Field) (brace : Token) (toks1 : List Token),
      parse_model_loop fuel (Parser.new ⟨toks, e⟩) acc =
        Parsed.ok ({ acc with fields := acc.fields ++ parsed },
          Parser.new ⟨brace :: toks1, e⟩) ∧
      brace.type = TokenType.RBRACE ∧ toks1.map Token.shape = rest ∧
      parsed.map Field.content = fields.map Field.content ∧
      toks1.length < toks.length := by
  intro fields
  induction fields with
  | nil =>
    intro toks rest e fuel acc _ hfuel h
    obtain ⟨fuel, rfl⟩ : ∃ k, fuel = k + 1 := ⟨fuel - 1, by omega⟩
    simp only [List.flatMap_nil, List.nil_append] at h
    obtain ⟨brace, toks1, rfl, hbrace, h1⟩ := List.map_eq_cons_iff.mp h
    rw [Token.shape_eq] at hbrace
    refine ⟨[], brace, toks1, ?_, hbrace.1, h1, rfl, by simp⟩
    rw [parse_model_loop, Parser.check_new, Parser.check_new, hbrace.1]
    simp
  | cons f fields ih =>
    intro toks rest e fuel acc hfields hfuel h
    obtain ⟨fuel, rfl⟩ : ∃ k, fuel = k + 1 := ⟨fuel - 1, by omega⟩
    rw [List.flatMap_cons, List.append_assoc] at h
    have hf := hfields f (List.mem_cons_self _ _)
    obtain ⟨field, toks1, hparse, h1, hcontent, hlen⟩ :=
      parse_field_printed f hf toks _ e fuel (by omega) h
    obtain ⟨parsed, brace, toks2, hloop, hbrace, h2, hparsed, hlen2⟩ :=
      ih toks1 rest e fuel { acc with fields := acc.fields ++ [field] }
        (fun g hg => hfields g (List.mem_cons_of_mem _ hg)) (by omega) h1
    have hfirst : ∃ (first : Token) (more : List Token), toks = first :: more ∧
        first.type ≠ TokenType.RBRACE ∧ first.type ≠ TokenType.END_OF_FILE := by
      obtain ⟨hname, hnumber, htype⟩ := hf
      obtain ⟨mod_shapes, hmods, hmods_kind, -, -⟩ := modifier_words_tokens f
      obtain ⟨kind, hlex, -, hkind1, hkind2, -⟩ := type_word f.type htype
      rw [field_words, List.flatMap_append, hmods] at h
      simp only [List.flatMap_cons, lexes_word_tokens _ _ hlex, List.append_assoc,
        List.singleton_append] at h
      cases mod_shapes with
      | nil =>
        rw [List.nil_append] at h
        obtain ⟨first, more, rfl, hfirst, -⟩ := List.map_eq_cons_iff.mp h
        rw [Token.shape_eq] at hfirst
        exact ⟨first, more, rfl, by rw [hfirst.1]; exact hkind1, by rw [hfirst.1]; exact hkind2⟩
      | cons m ms =>
        rw [List.cons_append] at h
        obtain ⟨first, more, rfl, hfirst, -⟩ := List.map_eq_cons_iff.mp h
        have hm := hmods_kind m (List.mem_cons_self _ _)
        have htype_eq : first.type = m.1 := by
          rw [← hfirst]
          rfl
        refine ⟨first, more, rfl, ?_, ?_⟩
        · intro hc
          rw [← htype_eq, hc] at hm
          exact absurd hm (by decide)
        · intro hc
          rw [← htype_eq, hc] at hm
          exact absurd hm (by decide)
    obtain ⟨first, more, rfl, hne1, hne2⟩ := hfirst
    refine ⟨field :: parsed, brace, toks2, ?_, hbrace, h2, ?_, by omega⟩
    · rw [parse_model_loop, Parser.check_new, Parser.check_new]
      simp only [hne1, hne2, decide_False, Bool.not_false, Bool.and_self, if_true]
      rw [hparse]
      simp only [Parsed.bind]
      rw [hloop]
      simp
    · rw [List.map_cons, List.map_cons, hcontent, hparsed]

/-- The loop of `parse_enum` on the tokens of printed enum values and the
closing brace. -/
theorem parse_enum_loop_printed : ∀ (values : List EnumValue) (toks : List Token)
    (rest : List (TokenType × String)) (e : SourceLocation) (fuel : Nat) (acc : EnumDecl),
    (∀ v ∈ values, printable_enum_value v) → toks.length + 1 ≤ fuel →
    toks.map Token.shape =
      values.flatMap (fun v => (enum_value_words v).flatMap word_tokens) ++
        (TokenType.RBRACE, "\x7d") :: rest →
    ∃ (parsed : List EnumValue) (brace : Token) (toks1 : List Token),
      parse_enum_loop fuel (Parser.new ⟨toks, e⟩) acc =
        Parsed.ok ({ acc with values := acc.values ++ parsed },
          Parser.new ⟨brace :: toks1, e⟩) ∧
      brace.type = TokenType.RBRACE ∧ toks1.map Token.shape = rest ∧
      parsed.map EnumValue.content = values.map EnumValue.content ∧
      toks1.length < toks.length := by
  intro values
  induction values with
  | nil =>
    intro toks rest e fuel acc _ hfuel h
    obtain ⟨fuel, rfl⟩ : ∃ k, fuel = k + 1 := ⟨fuel - 1, by omega⟩
    simp only [List.flatMap_nil, List.nil_append] at h
    obtain ⟨brace, toks1, rfl, hbrace, h1⟩ := List.map_eq_cons_iff.mp h
    rw [Token.shape_eq] at hbrace
    refine ⟨[], brace, toks1, ?_, hbrace.1, h1, rfl, by simp⟩
    rw [parse_enum_loop, Parser.check_new, Parser.check_new, hbrace.1]
    simp
  | cons v values ih =>
    intro toks rest e fuel acc hvalues hfuel h
    obtain ⟨fuel, rfl⟩ : ∃ k, fuel = k + 1 := ⟨fuel - 1, by omega⟩
    obtain ⟨hname, hnumber⟩ := hvalues v (List.mem_cons_self _ _)
    obtain ⟨hsemi, hequals, -, -⟩ := word_tokens_punctuation
    rw [List.flatMap_cons, List.append_assoc, enum_value_words] at h
    simp only [List.flatMap_cons, List.flatMap_nil, List.append_nil,
      lexes_word_tokens _ _ (lexes_plain_name _ hname),
      lexes_word_tokens _ _ (lexes_print_number v.value), hsemi, hequals, List.append_assoc,
      List.singleton_append] at h
    obtain ⟨name_token, toks2, rfl, hname_token, h2⟩ := List.map_eq_cons_iff.mp h
    obtain ⟨equals, toks3, rfl, hequals_token, h3⟩ := List.map_eq_cons_iff.mp h2
    obtain ⟨number, toks4, rfl, hnumber_token, h4⟩ := List.map_eq_cons_iff.mp h3
    obtain ⟨semicolon, toks5, rfl, hsemicolon_token, h5⟩ := List.map_eq_cons_iff.mp h4
    rw [Token.shape_eq] at hname_token hequals_token hnumber_token hsemicolon_token
    simp only [List.length_cons] at hfuel
    obtain ⟨parsed, brace, toks6, hloop, hbrace, h6, hparsed, hlen⟩ :=
      ih toks5 rest e fuel
        { acc with
          values :=
            acc.values ++
              [{ name := name_token.value, value := v.value
                 location := name_token.location }] }
        (fun w hw => hvalues w (List.mem_cons_of_mem _ hw)) (by omega) h5
    refine ⟨{ name := name_token.value, value := v.value, location := name_token.location } ::
      parsed, brace, toks6, ?_, hbrace, h6, ?_, by simp only [List.length_cons]; omega⟩
    · rw [parse_enum_loop, Parser.check_new, Parser.check_new, hname_token.1]
      simp only [decide_False, Bool.not_false, Bool.and_self, if_true, reduceCtorEq]
      rw [Parser.consume_new _ _ _ _ _ hname_token.1]
      simp only [Parsed.bind]
      rw [Parser.consume_new _ _ _ _ _ hequals_token.1]
      simp only [Parsed.bind]
      rw [Parser.consume_new _ _ _ _ _ hnumber_token.1]
      simp only [Parsed.bind]
      rw [hnumber_token.2, stoi_print_number v.value hnumber]
      simp only [Parsed.bind]
      rw [Parser.consume_new _ _ _ _ _ hsemicolon_token.1]
      simp only [Parsed.bind, Parser.current_new]
      rw [hloop]
      simp
    · rw [List.map_cons, List.map_cons, hparsed]
      simp [EnumValue.content, hname_token.2]

theorem List.flatMap_flatMap_eq {α β γ : Type} (xs : List α) (f : α → List β)
    (g : β → List γ) : (xs.flatMap f).flatMap g = xs.flatMap fun x => (f x).flatMap g := by
  induction xs with
  | nil => rfl
  | cons x xs ih => rw [List.flatMap_cons, List.flatMap_append, ih, List.flatMap_cons]

set_option maxRecDepth 100000 in
theorem word_tokens_keywords :
    word_tokens "namespace" = [(TokenType.NAMESPACE, "namespace")] ∧
    word_tokens "enum" = [(TokenType.ENUM, "enum")] ∧
    word_tokens "model" = [(TokenType.MODEL, "model")] := by
  refine ⟨?_, ?_, ?_⟩ <;> exact lexes_word_tokens _ _ (lexes_keyword _ _ (by decide))

/-- `parse_declaration` on the tokens of a printed declaration. -/
theorem parse_declaration_printed (decl : Declaration) (hdecl : printable_declaration decl)
    (toks : List Token) (rest : List (TokenType × String)) (e : SourceLocation) (fuel : Nat)
    (hfuel : toks.length + 7 ≤ fuel)
    (h : toks.map Token.shape = (declaration_words decl).flatMap word_tokens ++ rest) :
    ∃ (parsed : Declaration) (toks1 : List Token),
      parse_declaration fuel (Parser.new ⟨toks, e⟩) = Parsed.ok (parsed, Parser.new ⟨toks1, e⟩) ∧
      toks1.map Token.shape = rest ∧ parsed.content = decl.content ∧
      toks1.length < toks.length ∧ toks ≠ [] := by
  obtain ⟨-, -, hlbrace, hrbrace⟩ := word_tokens_punctuation
  obtain ⟨-, henum, hmodel⟩ := word_tokens_keywords
  cases decl with
  | Enum enum_decl =>
    obtain ⟨hname, hvalues⟩ := hdecl
    simp only [declaration_words, List.flatMap_append, List.flatMap_cons, List.flatMap_nil,
      List.append_nil, henum, hlbrace, hrbrace,
      lexes_word_tokens _ _ (lexes_plain_name _ hname), List.append_assoc,
      List.singleton_append, List.flatMap_flatMap_eq, List.append_eq, List.nil_append] at h
    obtain ⟨keyword, toks2, rfl, hkeyword, h2⟩ := List.map_eq_cons_iff.mp h
    obtain ⟨name_token, toks3, rfl, hname_token, h3⟩ := List.map_eq_cons_iff.mp h2
    obtain ⟨lbrace, toks4, rfl, hlbrace_token, h4⟩ := List.map_eq_cons_iff.mp h3
    rw [Token.shape_eq] at hkeyword hname_token hlbrace_token
    simp only [List.length_cons] at hfuel
    obtain ⟨parsed, brace, toks5, hloop, hbrace, h5, hparsed, hlen⟩ :=
      parse_enum_loop_printed enum_decl.values toks4 rest e fuel
        { name := name_token.value, values := [], location := keyword.location } hvalues
        (by omega) h4
    refine ⟨Declaration.Enum
      { name := name_token.value, values := parsed, location := keyword.location }, toks5, ?_,
      h5, ?_, by simp only [List.length_cons]; omega, by simp⟩
    · rw [parse_declaration, Parser.check_new, hkeyword.1]
      simp only [decide_True, if_true]
      rw [parse_enum]
      simp only [Parser.current_new]
      rw [Parser.consume_new _ _ _ _ _ hkeyword.1]
      simp only [Parsed.bind]
      rw [Parser.consume_new _ _ _ _ _ hname_token.1]
      simp only [Parsed.bind]
      rw [Parser.consume_new _ _ _ _ _ hlbrace_token.1]
      simp only [Parsed.bind]
      rw [hloop]
      simp only [Parsed.bind, List.nil_append]
      rw [Parser.consume_new _ _ _ _ _ hbrace]
    · simp only [Declaration.content, hname_token.2, hparsed]
  | Model model_decl =>
    obtain ⟨hname, hfields⟩ := hdecl
    simp only [declaration_words, List.flatMap_append, List.flatMap_cons, List.flatMap_nil,
      List.append_nil, hmodel, hlbrace, hrbrace,
      lexes_word_tokens _ _ (lexes_plain_name _ hname), List.append_assoc,
      List.singleton_append, List.flatMap_flatMap_eq, List.append_eq, List.nil_append] at h
    obtain ⟨keyword, toks2, rfl, hkeyword, h2⟩ := List.map_eq_cons_iff.mp h
    obtain ⟨name_token, toks3, rfl, hname_token, h3⟩ := List.map_eq_cons_iff.mp h2
    obtain ⟨lbrace, toks4, rfl, hlbrace_token, h4⟩ := List.map_eq_cons_iff.mp h3
    rw [Token.shape_eq] at hkeyword hname_token hlbrace_token
    simp only [List.length_cons] at hfuel
    obtain ⟨parsed, brace, toks5, hloop, hbrace, h5, hparsed, hlen⟩ :=
      parse_model_loop_printed model_decl.fields toks4 rest e fuel
        { name := name_token.value, fields := [], location := keyword.location } hfields
        (by omega) h4
    refine ⟨Declaration.Model
      { name := name_token.value, fields := parsed, location := keyword.location }, toks5, ?_,
      h5, ?_, by simp only [List.length_cons]; omega, by simp⟩
    · rw [parse_declaration, Parser.check_new, Parser.check_new, hkeyword.1]
      simp only [decide_True, if_true, decide_False, reduceCtorEq, Bool.false_eq_true, if_false]
      rw [parse_model]
      simp only [Parser.current_new]
      rw [Parser.consume_new _ _ _ _ _ hkeyword.1]
      simp only [Parsed.bind]
      rw [Parser.consume_new _ _ _ _ _ hname_token.1]
      simp only [Parsed.bind]
      rw [Parser.consume_new _ _ _ _ _ hlbrace_token.1]
      simp only [Parsed.bind]
      rw [hloop]
      simp only [Parsed.bind, List.nil_append]
      rw [Parser.consume_new _ _ _ _ _ hbrace]
    · simp only [Declaration.content, hname_token.2, hparsed]

/-- The loop of `parse_schema` on the tokens of printed declarations. -/
theorem parse_schema_loop_printed : ∀ (decls : List Declaration) (toks : List Token)
    (e : SourceLocation) (fuel : Nat) (acc : Schema),
    (∀ decl ∈ decls, printable_declaration decl) → toks.length + 8 ≤ fuel →
    toks.map Token.shape = decls.flatMap (fun decl => (declaration_words decl).flatMap word_tokens) →
    ∃ parsed : List Declaration,
      parse_schema_loop fuel (Parser.new ⟨toks, e⟩) acc =
        Parsed.ok ({ acc with declarations := acc.declarations ++ parsed },
          Parser.new ⟨[], e⟩) ∧
      parsed.map Declaration.content = decls.map Declaration.content := by
  intro decls
  induction decls with
  | nil =>
    intro toks e fuel acc _ hfuel h
    obtain ⟨fuel, rfl⟩ : ∃ k, fuel = k + 1 := ⟨fuel - 1, by omega⟩
    simp only [List.flatMap_nil, List.map_eq_nil_iff] at h
    subst h
    refine ⟨[], ?_, rfl⟩
    rw [parse_schema_loop]
    simp [Parser.check, Parser.current_new_nil]
  | cons decl decls ih =>
    intro toks e fuel acc hdecls hfuel h
    obtain ⟨fuel, rfl⟩ : ∃ k, fuel = k + 1 := ⟨fuel - 1, by omega⟩
    rw [List.flatMap_cons] at h
    obtain ⟨parsed, toks1, hparse, h1, hcontent, hlen, hne⟩ :=
      parse_declaration_printed decl (hdecls decl (List.mem_cons_self _ _)) toks _ e fuel
        (by omega) h
    obtain ⟨more, hloop, hmore⟩ :=
      ih toks1 e fuel { acc with declarations := acc.declarations ++ [parsed] }
        (fun d hd => hdecls d (List.mem_cons_of_mem _ hd)) (by omega) h1
    have hfirst : (Parser.new ⟨toks, e⟩).check TokenType.END_OF_FILE = false := by
      cases toks with
      | nil => exact absurd rfl hne
      | cons first rest =>
        rw [Parser.check_new]
        by_contra hc
        rw [Bool.not_eq_false, decide_eq_true_eq] at hc
        rw [parse_declaration, Parser.check_new, Parser.check_new, hc] at hparse
        simp at hparse
    refine ⟨parsed :: more, ?_, ?_⟩
    · rw [parse_schema_loop, hfirst]
      simp only [Bool.not_false, if_true]
      rw [hparse]
      simp only [Parsed.bind]
      rw [hloop]
      simp
    · rw [List.map_cons, List.map_cons, hcontent, hmore]

theorem dotted_foldl : ∀ (parts : List String) (first : String),
    parts.foldl (fun name part => name ++ "." ++ part) first = dotted (first :: parts) := by
  intro parts
  induction parts with
  | nil => intro first; rfl
  | cons part parts ih =>
    intro first
    rw [List.foldl_cons, ih]
    cases parts with
    | nil => rfl
    | cons next more =>
      rw [dotted, dotted, dotted]
      simp only [String.append_assoc]

theorem dotted_tokens_cons (first : String) (parts : List String) :
    dotted_tokens (first :: parts) =
      (TokenType.IDENTIFIER, first) ::
        parts.flatMap fun part => [(TokenType.DOT, "."), (TokenType.IDENTIFIER, part)] := by
  induction parts generalizing first with
  | nil => rfl
  | cons part parts ih =>
    rw [dotted_tokens, ih, List.flatMap_cons]
    rfl

/-- The loop of `parse_namespace` on the tokens of the parts of a dotted
name after the first. -/
theorem parse_namespace_loop_printed : ∀ (parts : List String) (toks : List Token)
    (rest : List (TokenType × String)) (e : SourceLocation) (fuel : Nat) (name : String),
    toks.length < fuel →
    toks.map Token.shape =
      (parts.flatMap fun part => [(TokenType.DOT, "."), (TokenType.IDENTIFIER, part)]) ++
        (TokenType.SEMICOLON, ";") :: rest →
    ∃ (semicolon : Token) (toks1 : List Token),
      parse_namespace_loop fuel (Parser.new ⟨toks, e⟩) name =
        Parsed.ok (parts.foldl (fun name part => name ++ "." ++ part) name,
          Parser.new ⟨semicolon :: toks1, e⟩) ∧
      semicolon.type = TokenType.SEMICOLON ∧ toks1.map Token.shape = rest ∧
      toks1.length < toks.length := by
  intro parts
  induction parts with
  | nil =>
    intro toks rest e fuel name hfuel h
    obtain ⟨fuel, rfl⟩ : ∃ k, fuel = k + 1 := ⟨fuel - 1, by omega⟩
    simp only [List.flatMap_nil, List.nil_append] at h
    obtain ⟨semicolon, toks1, rfl, hsemicolon, h1⟩ := List.map_eq_cons_iff.mp h
    rw [Token.shape_eq] at hsemicolon
    refine ⟨semicolon, toks1, ?_, hsemicolon.1, h1, by simp⟩
    rw [parse_namespace_loop]
    simp [Parser.match_type, Parser.check_new, hsemicolon.1]
  | cons part parts ih =>
    intro toks rest e fuel name hfuel h
    obtain ⟨fuel, rfl⟩ : ∃ k, fuel = k + 1 := ⟨fuel - 1, by omega⟩
    simp only [List.flatMap_cons, List.cons_append, List.nil_append] at h
    obtain ⟨dot, toks2, rfl, hdot, h2⟩ := List.map_eq_cons_iff.mp h
    obtain ⟨part_token, toks3, rfl, hpart, h3⟩ := List.map_eq_cons_iff.mp h2
    rw [Token.shape_eq] at hdot hpart
    simp only [List.length_cons] at hfuel
    obtain ⟨semicolon, toks4, hloop, hsemicolon, h4, hlen⟩ :=
      ih toks3 rest e fuel (name ++ "." ++ part) (by omega) h3
    refine ⟨semicolon, toks4, ?_, hsemicolon, h4, by simp only [List.length_cons]; omega⟩
    rw [parse_namespace_loop]
    simp only [Parser.match_type, Parser.check_new, hdot.1, decide_True, if_true,
      Parser.advance_new]
    rw [Parser.consume_new _ _ _ _ _ hpart.1]
    simp only [Parsed.bind]
    rw [hpart.2, hloop, List.foldl_cons]

theorem lexes_reserved (word : String) (h : word ∈ reserved_words) :
    ∃ tokens, lexes word tokens := by
  have hmem : word ∈ keywords.map Prod.fst := h
  obtain ⟨entry, hentry, hword⟩ := List.mem_map.mp hmem
  exact ⟨_, lexes_keyword word entry.2 (by rw [← hword]; exact hentry)⟩

/-- The tokens of a printed schema. -/
theorem tokens_of_print_schema (schema : Schema) (h : printable schema) :
    tokens_of (print_schema schema).data = (schema_words schema).flatMap word_tokens := by
  obtain ⟨⟨parts, -, hparts, hname⟩, hdecls⟩ := h
  apply tokens_of_spaced
  intro word hword
  unfold schema_words at hword
  simp only [List.mem_append, List.mem_cons, List.mem_singleton, List.not_mem_nil, or_false,
    List.mem_flatMap] at hword
  rcases hword with (hword | hword | hword) | ⟨decl, hdecl, hword⟩
  · rw [hword]
    exact lexes_reserved _ (by decide)
  · rw [hword, hname]
    exact ⟨_, lexes_dotted parts hparts⟩
  · rw [hword]
    exact ⟨_, lexes_punctuation.1⟩
  · have hprintable := hdecls decl hdecl
    cases decl with
    | Enum enum_decl =>
      obtain ⟨hname, hvalues⟩ := hprintable
      simp only [declaration_words, List.mem_append, List.mem_cons, List.mem_singleton,
        List.not_mem_nil, or_false, List.mem_flatMap, enum_value_words] at hword
      rcases hword with (hword | hword | hword) | ⟨v, hv, hword | hword | hword | hword⟩ | hword
      · rw [hword]
        exact lexes_reserved _ (by decide)
      · rw [hword]
        exact ⟨_, lexes_plain_name _ hname⟩
      · rw [hword]
        exact ⟨_, lexes_punctuation.2.2.1⟩
      · rw [hword]
        exact ⟨_, lexes_plain_name _ (hvalues v hv).1⟩
      · rw [hword]
        exact ⟨_, lexes_punctuation.2.1⟩
      · rw [hword]
        exact ⟨_, lexes_print_number _⟩
      · rw [hword]
        exact ⟨_, lexes_punctuation.1⟩
      · rw [hword]
        exact ⟨_, lexes_punctuation.2.2.2⟩
    | Model model_decl =>
      obtain ⟨hname, hfields⟩ := hprintable
      simp only [declaration_words, List.mem_append, List.mem_cons, List.mem_singleton,
        List.not_mem_nil, or_false, List.mem_flatMap, field_words] at hword
      rcases hword with (hword | hword | hword) |
        ⟨f, hf, hword | hword | hword | hword | hword | hword⟩ | hword
      · rw [hword]
        exact lexes_reserved _ (by decide)
      · rw [hword]
        exact ⟨_, lexes_plain_name _ hname⟩
      · rw [hword]
        exact ⟨_, lexes_punctuation.2.2.1⟩
      · unfold modifier_words at hword
        simp only [List.mem_append] at hword
        rcases hword with (((hword | hword) | hword) | hword) | hword <;>
          split_ifs at hword <;>
          simp only [List.mem_singleton, List.not_mem_nil] at hword <;>
          rw [hword] <;> exact lexes_reserved _ (by decide)
      · rw [hword]
        obtain ⟨kind, hlex, -⟩ := type_word f.type (hfields f hf).2.2
        exact ⟨_, hlex⟩
      · rw [hword]
        exact ⟨_, lexes_plain_name _ (hfields f hf).1⟩
      · rw [hword]
        exact ⟨_, lexes_punctuation.2.1⟩
      · rw [hword]
        exact ⟨_, lexes_print_number _⟩
      · rw [hword]
        exact ⟨_, lexes_punctuation.1⟩
      · rw [hword]
        exact ⟨_, lexes_punctuation.2.2.2⟩

/-- C22. Parsing inverts printing: for every schema whose names are
identifiers other than the 21 reserved words (the namespace name a dotted
name of such identifiers) and whose numbers fit a signed 32-bit integer,
the scanner and `parse_schema` on the schema written out in the grammar,
with spaces between the tokens, return a schema, with enough fuel for the
loops, and that schema has the same namespace name, the same declarations of
the same kind and name in the same order, the same enum values and the same
fields with the same type, name, number and modifier set. -/
theorem parsing_inverts_printing (schema : Schema) (h : printable schema) (fuel : Nat)
    (hfuel : (tokenize (print_schema schema)).pending.length + 8 ≤ fuel) :
    ∃ parsed : Schema,
      (Parser.new (tokenize (print_schema schema))).parse_schema fuel = Parsed.ok parsed ∧
      parsed.content = schema.content := by
  have hshapes : (tokenize (print_schema schema)).pending.map Token.shape =
      (schema_words schema).flatMap word_tokens := by
    rw [tokenize_shapes]
    exact tokens_of_print_schema schema h
  generalize tokenize (print_schema schema) = stream at hshapes hfuel
  obtain ⟨toks, e⟩ := stream
  simp only at hshapes hfuel
  obtain ⟨⟨parts, hne, hparts, hname⟩, hdecls⟩ := h
  obtain ⟨first, others, rfl⟩ : ∃ first others, parts = first :: others := by
    cases parts with
    | nil => exact absurd rfl hne
    | cons first others => exact ⟨first, others, rfl⟩
  obtain ⟨hnamespace, -, -⟩ := word_tokens_keywords
  obtain ⟨hsemi, -, -, -⟩ := word_tokens_punctuation
  rw [schema_words, List.flatMap_append] at hshapes
  simp only [List.flatMap_cons, List.flatMap_nil, List.append_nil, hnamespace, hsemi, hname,
    lexes_word_tokens _ _ (lexes_dotted _ hparts), dotted_tokens_cons, List.append_assoc,
    List.singleton_append, List.cons_append, List.flatMap_flatMap_eq, List.nil_append]
    at hshapes
  obtain ⟨keyword, toks2, rfl, hkeyword, h2⟩ := List.map_eq_cons_iff.mp hshapes
  obtain ⟨first_token, toks3, rfl, hfirst, h3⟩ := List.map_eq_cons_iff.mp h2
  rw [Token.shape_eq] at hkeyword hfirst
  simp only [List.length_cons] at hfuel
  obtain ⟨semicolon, toks4, hloop, hsemicolon, h4, hlen4⟩ :=
    parse_namespace_loop_printed others toks3 _ e fuel first_token.value (by omega) h3
  obtain ⟨parsed, hdeclarations, hparsed⟩ :=
    parse_schema_loop_printed schema.declarations toks4 e fuel
      { namespace_name := others.foldl (fun name part => name ++ "." ++ part) first_token.value
        declarations := [], location := keyword.location }
      hdecls (by omega) h4
  refine ⟨⟨others.foldl (fun name part => name ++ "." ++ part) first_token.value,
    [] ++ parsed, keyword.location⟩, ?_, ?_⟩
  · rw [Parser.parse_schema, parse_namespace]
    rw [Parser.consume_new _ _ _ _ _ hkeyword.1]
    simp only [Parsed.bind]
    rw [Parser.consume_new _ _ _ _ _ hfirst.1]
    simp only [Parsed.bind]
    rw [hloop]
    simp only [Parsed.bind]
    rw [Parser.consume_new _ _ _ _ _ hsemicolon]
    simp only [Parsed.bind, Parser.current_new]
    rw [hdeclarations]
  · simp only [Schema.content, List.nil_append, hparsed, hfirst.2, dotted_foldl, hname]

set_option maxRecDepth 100000 in
/-- The theorem `parsing_inverts_printing` on the schema of
`namespace t; model M { packed repeated uint32 xs = 3; }`, which is written
out as `namespace t ; model M { repeated packed uint32 xs = 3 ; }`. -/
theorem parsing_inverts_printing_witness :
    print_schema (scenario_schema [field_xs]) =
      "namespace t ; model M \x7b repeated packed uint32 xs = 3 ; \x7d" ∧
    ∃ parsed : Schema,
      (Parser.new (tokenize (print_schema (scenario_schema [field_xs])))).parse_schema 64 =
        Parsed.ok parsed ∧
      parsed.content = (scenario_schema [field_xs]).content :=
  ⟨by decide,
    parsing_inverts_printing (scenario_schema [field_xs])
      ⟨⟨["t"], by simp, by decide, rfl⟩, by
        intro decl hdecl
        simp only [scenario_schema, List.mem_singleton] at hdecl
        subst hdecl
        refine ⟨by decide, ?_⟩
        intro field hfield
        simp only [scenario_model, List.mem_singleton] at hfield
        subst hfield
        refine ⟨by decide, by unfold fits_int32; decide, ?_⟩
        intro name location hname
        exact absurd hname (by simp [field_xs])⟩
      64 (by decide)⟩

/-! ## The order of the diagnostics and the state of the validator -/

/-- C33. Diagnostic order: the diagnostics of a new validator are the
empty-namespace diagnostic, if any, the duplicate-declaration diagnostics in
declaration order, then the diagnostics of each declaration in declaration
order.  A non-empty enum draws its duplicate name and number diagnostics in
value order, then its negative-value diagnostics in value order; a non-empty
model its duplicate-field-number diagnostics, then the diagnostics of its
fields in field order; a field those of the number range, of the modifier
semantics, of the type resolution and of the type-specific compatibility, in
this order.  What a declaration or a field draws is a function of it and of
the declared names alone: nothing before it suppresses it. -/
theorem diagnostic_order :
    (∀ schema : Schema,
      (Validator.validate ValidationContext.fresh schema).2.get_errors =
        (if schema.namespace_name.isEmpty then
          [{ message := "Namespace cannot be empty", location := schema.location }]
        else []) ++
        ((repeats Declaration.name schema.declarations).map duplicate_declaration_diagnostic ++
          schema.declarations.flatMap
            (declaration_diagnostics fun name => schema.declares name))) ∧
    (∀ (known : String → Bool) (enum_decl : EnumDecl) (model : ModelDecl),
      declaration_diagnostics known (Declaration.Enum enum_decl) = enum_diagnostics enum_decl ∧
      declaration_diagnostics known (Declaration.Model model) = model_diagnostics known model) ∧
    (∀ (enum_decl : EnumDecl) (ctx : ValidationContext),
      visit_enum enum_decl ctx = ctx.append (enum_diagnostics enum_decl) ∧
      enum_diagnostics enum_decl =
        (if enum_decl.values.isEmpty then
          [{ message := "Enum '" ++ enum_decl.name ++ "' must have at least one value"
             location := enum_decl.location }]
        else
          duplicate_enum_value_diagnostics enum_decl.name enum_decl.values [] [] ++
            enum_decl.values.flatMap enum_value_diagnostics) ∧
      check_duplicate_enum_values enum_decl ctx =
        ctx.append (duplicate_enum_value_diagnostics enum_decl.name enum_decl.values [] [])) ∧
    (∀ (value : EnumValue) (ctx : ValidationContext),
      visit_enum_value value ctx = ctx.append (enum_value_diagnostics value)) ∧
    (∀ (model : ModelDecl) (ctx : ValidationContext),
      visit_model model ctx = ctx.append (model_diagnostics ctx.type_exists model) ∧
      model_diagnostics ctx.type_exists model =
        (if model.fields.isEmpty then
          [{ message := "Model '" ++ model.name ++ "' must have at least one field"
             location := model.location }]
        else
          (repeats Field.number model.fields).map
              (duplicate_field_number_diagnostic model.name) ++
            model.fields.flatMap (field_diagnostics ctx.type_exists)) ∧
      check_duplicate_field_numbers model ctx =
        ctx.append
          ((repeats Field.number model.fields).map
            (duplicate_field_number_diagnostic model.name))) ∧
    (∀ (field : Field) (ctx : ValidationContext),
      visit_field field ctx =
        ctx.append
          (field_number_diagnostics field ++
            (field_modifier_diagnostics field ++
              (type_exists_diagnostics ctx.type_exists field.type field.location ++
                modifier_compatibility_diagnostics field))) ∧
      validate_field_number field ctx = ctx.append (field_number_diagnostics field) ∧
      validate_field_modifiers field ctx = ctx.append (field_modifier_diagnostics field) ∧
      validate_type_exists field.type field.location ctx =
        ctx.append (type_exists_diagnostics ctx.type_exists field.type field.location) ∧
      check_modifier_compatibility field ctx =
        ctx.append (modifier_compatibility_diagnostics field)) := by
  refine ⟨?_, ?_, ?_, ?_, ?_, ?_⟩
  · intro schema
    have h := validate_fresh_errors schema
    unfold ValidationContext.get_errors
    rw [h, schema_diagnostics, later_duplicates_eq_repeats]
    simp
  · intro known enum_decl model
    exact ⟨rfl, rfl⟩
  · intro enum_decl ctx
    refine ⟨visit_enum_eq enum_decl ctx, rfl, ?_⟩
    unfold check_duplicate_enum_values
    exact check_duplicate_enum_values_loop_eq _ _ _ _ _
  · intro value ctx
    exact visit_enum_value_eq value ctx
  · intro model ctx
    refine ⟨visit_model_eq model ctx, ?_, ?_⟩
    · rw [model_diagnostics, later_duplicates_eq_repeats]
    · unfold check_duplicate_field_numbers
      rw [check_duplicate_field_numbers_loop_eq, later_duplicates_eq_repeats]
  · intro field ctx
    exact ⟨visit_field_eq field ctx, validate_field_number_eq field ctx,
      validate_field_modifiers_eq field ctx, validate_type_exists_eq _ _ ctx,
      check_modifier_compatibility_eq field ctx⟩

theorem register_declarations_tables (declarations : List Declaration) :
    ∀ ctx : ValidationContext,
      ∃ (enums : List (String × EnumDecl)) (models : List (String × ModelDecl)),
        (register_declarations declarations ctx).enums_ = enums ++ ctx.enums_ ∧
        (register_declarations declarations ctx).models_ = models ++ ctx.models_ ∧
        enums.length + models.length = declarations.length := by
  induction declarations with
  | nil => intro ctx; exact ⟨[], [], rfl, rfl, rfl⟩
  | cons decl rest ih =>
    intro ctx
    cases decl with
    | Enum enum_decl =>
      obtain ⟨enums, models, h1, h2, h3⟩ := ih (ctx.register_enum enum_decl.name enum_decl)
      refine ⟨enums ++ [(enum_decl.name, enum_decl)], models, ?_, ?_, ?_⟩
      · rw [register_declarations, h1]
        simp [ValidationContext.register_enum]
      · rw [register_declarations, h2]
        rfl
      · simp only [List.length_append, List.length_cons, List.length_nil]
        omega
    | Model model_decl =>
      obtain ⟨enums, models, h1, h2, h3⟩ := ih (ctx.register_model model_decl.name model_decl)
      refine ⟨enums, models ++ [(model_decl.name, model_decl)], ?_, ?_, ?_⟩
      · rw [register_declarations, h1]
        rfl
      · rw [register_declarations, h2]
        simp [ValidationContext.register_model]
      · simp only [List.length_append, List.length_cons, List.length_nil]
        omega

theorem Validator.validate_errors (ctx : ValidationContext) (schema : Schema) :
    (Validator.validate ctx schema).2.errors_ =
      ctx.errors_ ++ schema_diagnostics ctx.type_exists schema := by
  unfold Validator.validate
  simp only [visit_schema_eq, ValidationContext.append, register_declarations_errors]

theorem Validator.validate_flag (ctx : ValidationContext) (schema : Schema) :
    (Validator.validate ctx schema).1 =
      (ctx.errors_.isEmpty && (schema_diagnostics ctx.type_exists schema).isEmpty) := by
  have h := Validator.validate_errors ctx schema
  unfold Validator.validate at h ⊢
  simp only [ValidationContext.has_errors] at h ⊢
  rw [h]
  cases ctx.errors_ <;> cases schema_diagnostics ctx.type_exists schema <;> rfl

theorem Validator.validate_each_false (schemas : List Schema) :
    ∀ ctx : ValidationContext, ctx.errors_ ≠ [] →
      ∀ flag ∈ Validator.validate_each ctx schemas, flag = false := by
  induction schemas with
  | nil => intro ctx _ flag hflag; simp [Validator.validate_each] at hflag
  | cons schema rest ih =>
    intro ctx hctx flag hflag
    rw [Validator.validate_each, List.mem_cons] at hflag
    rcases hflag with hflag | hflag
    · rw [hflag, Validator.validate_flag]
      cases herrors : ctx.errors_ with
      | nil => exact absurd herrors hctx
      | cons e es => rfl
    · apply ih (Validator.validate ctx schema).2 _ flag hflag
      rw [Validator.validate_errors]
      intro hnil
      exact hctx (List.append_eq_nil.mp hnil).1

set_option maxRecDepth 100000 in
/-- C40. The state of a validator only grows: a `validate` call appends its
diagnostics to those the validator holds and enters the declarations of the
schema in the symbol tables, before the entries they hold; it returns true
only when the validator held no diagnostic and the call adds none.  So the
diagnostics after a second call begin with those of the first, and after a
call that returned false every later call on the same validator returns
false, also for a schema that a new validator accepts. -/
theorem validator_state_grows :
    (∀ (ctx : ValidationContext) (schema : Schema),
      (Validator.validate ctx schema).2.get_errors =
        ctx.get_errors ++ schema_diagnostics ctx.type_exists schema) ∧
    (∀ (ctx : ValidationContext) (first second : Schema),
      ∃ added : List ValidationError,
        (Validator.validate (Validator.validate ctx first).2 second).2.get_errors =
          (Validator.validate ctx first).2.get_errors ++ added) ∧
    (∀ (ctx : ValidationContext) (schema : Schema),
      ∃ (enums : List (String × EnumDecl)) (models : List (String × ModelDecl)),
        (Validator.validate ctx schema).2.enums_ = enums ++ ctx.enums_ ∧
        (Validator.validate ctx schema).2.models_ = models ++ ctx.models_ ∧
        enums.length + models.length = schema.declarations.length) ∧
    (∀ (ctx : ValidationContext) (schema : Schema) (name : String),
      (Validator.validate ctx schema).2.type_exists name =
        (ctx.type_exists name || schema.declares name)) ∧
    (∀ (ctx : ValidationContext) (schema : Schema),
      (Validator.validate ctx schema).1 =
        (ctx.get_errors.isEmpty && (schema_diagnostics ctx.type_exists schema).isEmpty)) ∧
    (∀ (ctx : ValidationContext) (schema : Schema) (later : List Schema),
      (Validator.validate ctx schema).1 = false →
      ∀ flag ∈ Validator.validate_each (Validator.validate ctx schema).2 later,
        flag = false) ∧
    accepted valid_schema ∧
    Validator.validate_each ValidationContext.fresh
      [scenario_schema [field_optional_repeated], valid_schema, valid_schema] =
      [false, false, false] := by
  refine ⟨Validator.validate_errors, ?_, ?_, ?_, Validator.validate_flag, ?_,
    valid_schema_accepted, by decide⟩
  · intro ctx first second
    exact ⟨_, Validator.validate_errors _ second⟩
  · intro ctx schema
    obtain ⟨enums, models, h1, h2, h3⟩ := register_declarations_tables schema.declarations ctx
    refine ⟨enums, models, ?_, ?_, h3⟩
    · unfold Validator.validate
      simp only [visit_schema_eq]
      exact h1
    · unfold Validator.validate
      simp only [visit_schema_eq]
      exact h2
  · intro ctx schema name
    unfold Validator.validate
    simp only [visit_schema_eq, ValidationContext.type_exists_append]
    rw [register_declarations_type_exists]
    rfl
  · intro ctx schema later hfalse
    apply Validator.validate_each_false
    intro hnil
    rw [Validator.validate_flag] at hfalse
    rw [Validator.validate_errors] at hnil
    obtain ⟨h1, h2⟩ := List.append_eq_nil.mp hnil
    rw [h1, h2] at hfalse
    exact absurd hfalse (by decide)

set_option maxRecDepth 100000 in
/-- The theorem `validator_state_grows` on a validator that has rejected the
schema of `namespace t; model M { optional repeated string xs = 1; }`. -/
theorem validator_state_grows_witness :
    (Validator.validate ValidationContext.fresh
        (scenario_schema [field_optional_repeated])).1 = false ∧
    ∀ flag ∈
      Validator.validate_each
        (Validator.validate ValidationContext.fresh
          (scenario_schema [field_optional_repeated])).2 [valid_schema],
      flag = false :=
  ⟨by decide,
    validator_state_grows.2.2.2.2.2.1 ValidationContext.fresh
      (scenario_schema [field_optional_repeated]) [valid_schema] (by decide)⟩

/-! ## The bookkeeping of the cursor -/

theorem location_of_succ (source : List Char) (offset : Nat) (c : Char)
    (hc : source.drop offset = c :: source.drop (offset + 1)) :
    location_of source (offset + 1) =
      if c = '\n' then
        { line := (location_of source offset).line + 1, column := 1, offset := offset + 1 }
      else
        { line := (location_of source offset).line
          column := (location_of source offset).column + 1, offset := offset + 1 } := by
  have htake : source.take (offset + 1) = source.take offset ++ [c] := by
    have h := List.take_append_drop offset source
    rw [hc] at h
    have h2 : source.take (offset + 1) = (source.take offset ++ c :: source.drop (offset + 1)).take (offset + 1) := by
      rw [h]
    rw [h2]
    have hlen : (source.take offset).length = offset := by
      rw [List.length_take]
      have hlt : offset < source.length := by
        by_contra hge
        rw [List.drop_eq_nil_of_le (by omega)] at hc
        exact List.noConfusion hc
      omega
    rw [List.take_append_eq_append_take, hlen]
    simp [List.take_of_length_le, hlen]
  unfold location_of
  rw [htake]
  by_cases hnl : c = '\n'
  · subst hnl
    simp [List.count_append, List.takeWhile_cons]
    omega
  · have hne : ('\n' == c) = false := by
      simp only [beq_eq_false_iff_ne, ne_eq]
      exact fun h => hnl h.symm
    simp [List.count_append, List.takeWhile_cons, hnl, hne, List.count_cons, List.count_nil]
    omega

theorem Lexer.advance_tracks (l : Lexer)
    (h : l.current_location = location_of l.source_ l.position_) :
    l.advance.current_location = location_of l.advance.source_ l.advance.position_ := by
  by_cases hend : l.is_at_end = true
  · have heq : l.advance = l := by simp [Lexer.advance, hend]
    rw [heq]
    exact h
  · have hrest : l.rest ≠ [] := fun hnil => hend ((l.is_at_end_iff).2 hnil)
    have hchar := l.current_char_eq
    obtain ⟨c, cs, hcs⟩ := List.exists_cons_of_ne_nil hrest
    have hdrop : l.source_.drop l.position_ = c :: l.source_.drop (l.position_ + 1) := by
      have h1 : l.source_.drop (l.position_ + 1) = cs := by
        rw [← List.drop_drop]
        unfold Lexer.rest at hcs
        rw [hcs]
        rfl
      rw [h1]
      exact hcs
    have hsucc := location_of_succ l.source_ l.position_ c hdrop
    rw [hcs] at hchar
    have hc : l.current_char = c := hchar
    rw [← h] at hsucc
    unfold Lexer.advance
    simp only [hend, Bool.false_eq_true, if_false, hc]
    by_cases hnl : c = '\n'
    · simp only [hnl, if_true] at hsucc ⊢
      simp only [Lexer.current_location] at hsucc ⊢
      rw [hsucc]
    · simp only [hnl, if_false] at hsucc ⊢
      simp only [Lexer.current_location] at hsucc ⊢
      rw [hsucc]

theorem Lexer.advance_bound (l : Lexer) (h : l.position_ ≤ l.source_.length) :
    l.advance.position_ ≤ l.advance.source_.length := by
  rw [l.advance_source, l.advance_position]
  split_ifs with hrest
  · exact h
  · have hlen : l.rest.length ≠ 0 := fun h0 => hrest (List.length_eq_zero.mp h0)
    unfold Lexer.rest at hlen
    rw [List.length_drop] at hlen
    omega

theorem Lexer.iterate_tracks (k : Nat) : ∀ l : Lexer,
    l.current_location = location_of l.source_ l.position_ →
    l.position_ ≤ l.source_.length →
    (Lexer.advance^[k] l).current_location =
        location_of (Lexer.advance^[k] l).source_ (Lexer.advance^[k] l).position_ ∧
      (Lexer.advance^[k] l).position_ ≤ (Lexer.advance^[k] l).source_.length := by
  induction k with
  | zero => intro l h hb; exact ⟨h, hb⟩
  | succ k ih =>
    intro l h hb
    rw [Function.iterate_succ_apply]
    exact ih l.advance (l.advance_tracks h) (l.advance_bound hb)

theorem Lexer.next_token_tracks (l : Lexer)
    (h : l.current_location = location_of l.source_ l.position_)
    (hb : l.position_ ≤ l.source_.length) :
    l.next_token.2.source_ = l.source_ ∧
      l.next_token.2.current_location =
        location_of l.next_token.2.source_ l.next_token.2.position_ ∧
      l.next_token.2.position_ ≤ l.next_token.2.source_.length := by
  cases hpeeked : l.peeked_token_ with
  | some token =>
    have heq : l.next_token.2 = { l with peeked_token_ := none } := by
      unfold Lexer.next_token
      rw [hpeeked]
    rw [heq]
    exact ⟨rfl, h, hb⟩
  | none =>
    obtain ⟨-, -, k, hk⟩ := l.next_token_spec hpeeked
    rw [hk]
    exact ⟨Lexer.iterate_source k l, Lexer.iterate_tracks k l h hb⟩

theorem Lexer.peek_token_tracks (l : Lexer)
    (h : l.current_location = location_of l.source_ l.position_)
    (hb : l.position_ ≤ l.source_.length) :
    l.peek_token.2.source_ = l.source_ ∧
      l.peek_token.2.current_location =
        location_of l.peek_token.2.source_ l.peek_token.2.position_ ∧
      l.peek_token.2.position_ ≤ l.peek_token.2.source_.length := by
  cases hpeeked : l.peeked_token_ with
  | some token =>
    have heq : l.peek_token.2 = l := by
      unfold Lexer.peek_token
      rw [hpeeked]
    rw [heq]
    exact ⟨rfl, h, hb⟩
  | none =>
    have heq : l.peek_token.2 = { l.next_token.2 with peeked_token_ := some l.next_token.1 } := by
      unfold Lexer.peek_token
      rw [hpeeked]
    rw [heq]
    exact l.next_token_tracks h hb

theorem Lexer.after_calls_tracks (calls : List Bool) : ∀ l : Lexer,
    l.current_location = location_of l.source_ l.position_ →
    l.position_ ≤ l.source_.length →
    (Lexer.after_calls calls l).source_ = l.source_ ∧
      (Lexer.after_calls calls l).current_location =
        location_of (Lexer.after_calls calls l).source_ (Lexer.after_calls calls l).position_ ∧
      (Lexer.after_calls calls l).position_ ≤ (Lexer.after_calls calls l).source_.length := by
  induction calls with
  | nil => intro l h hb; exact ⟨rfl, h, hb⟩
  | cons call calls ih =>
    intro l h hb
    cases call with
    | true =>
      obtain ⟨h1, h2, h3⟩ := l.next_token_tracks h hb
      obtain ⟨h4, h5⟩ := ih l.next_token.2 h2 h3
      exact ⟨h4.trans h1, h5⟩
    | false =>
      obtain ⟨h1, h2, h3⟩ := l.peek_token_tracks h hb
      obtain ⟨h4, h5⟩ := ih l.peek_token.2 h2 h3
      exact ⟨h4.trans h1, h5⟩

/-- C34. Line and column tracking: after any number of `advance` calls on a
new scanner, and after any sequence of `next_token` and `peek_token` calls,
the line of the scanner is 1 plus the number of newlines before the cursor,
its column is 1 plus the number of characters between the cursor and the
nearest newline before it, or the start of the source, and its offset is the
number of characters before the cursor; the line and the column are at
least 1. -/
theorem cursor_tracking :
    (∀ (source : List Char) (k : Nat),
      (Lexer.advance^[k] (Lexer.new source)).current_location =
        location_of source (Lexer.advance^[k] (Lexer.new source)).position_ ∧
      (Lexer.advance^[k] (Lexer.new source)).line_ =
        1 + ((source.take (Lexer.advance^[k] (Lexer.new source)).position_).count '\n') ∧
      (Lexer.advance^[k] (Lexer.new source)).column_ =
        1 + (((source.take (Lexer.advance^[k] (Lexer.new source)).position_).reverse.takeWhile
          fun c => c != '\n').length) ∧
      (source.take (Lexer.advance^[k] (Lexer.new source)).position_).length =
        (Lexer.advance^[k] (Lexer.new source)).current_location.offset ∧
      1 ≤ (Lexer.advance^[k] (Lexer.new source)).line_ ∧
      1 ≤ (Lexer.advance^[k] (Lexer.new source)).column_) ∧
    (∀ (source : List Char) (calls : List Bool),
      (Lexer.after_calls calls (Lexer.new source)).current_location =
        location_of source (Lexer.after_calls calls (Lexer.new source)).position_ ∧
      (Lexer.after_calls calls (Lexer.new source)).line_ =
        1 + ((source.take (Lexer.after_calls calls (Lexer.new source)).position_).count '\n') ∧
      (Lexer.after_calls calls (Lexer.new source)).column_ =
        1 + (((source.take
          (Lexer.after_calls calls (Lexer.new source)).position_).reverse.takeWhile
            fun c => c != '\n').length) ∧
      (source.take (Lexer.after_calls calls (Lexer.new source)).position_).length =
        (Lexer.after_calls calls (Lexer.new source)).current_location.offset ∧
      1 ≤ (Lexer.after_calls calls (Lexer.new source)).line_ ∧
      1 ≤ (Lexer.after_calls calls (Lexer.new source)).column_) ∧
    (∀ l : Lexer,
      l.advance =
        if l.is_at_end then l
        else if l.current_char = '\n' then
          { l with position_ := l.position_ + 1, line_ := l.line_ + 1, column_ := 1 }
        else { l with position_ := l.position_ + 1, column_ := l.column_ + 1 }) := by
  have hnew : ∀ source : List Char,
      (Lexer.new source).current_location =
        location_of (Lexer.new source).source_ (Lexer.new source).position_ := by
    intro source
    simp [Lexer.new, Lexer.current_location, location_of]
  have hfacts : ∀ (source : List Char) (l : Lexer), l.source_ = source →
      l.current_location = location_of l.source_ l.position_ →
      l.position_ ≤ l.source_.length →
      l.current_location = location_of source l.position_ ∧
      l.line_ = 1 + ((source.take l.position_).count '\n') ∧
      l.column_ =
        1 + (((source.take l.position_).reverse.takeWhile fun c => c != '\n').length) ∧
      (source.take l.position_).length = l.current_location.offset ∧
      1 ≤ l.line_ ∧ 1 ≤ l.column_ := by
    intro source l hsource h hb
    rw [hsource] at h hb
    have hline : l.line_ = (location_of source l.position_).line := by
      rw [← h]; rfl
    have hcolumn : l.column_ = (location_of source l.position_).column := by
      rw [← h]; rfl
    refine ⟨h, hline, hcolumn, ?_, ?_, ?_⟩
    · rw [List.length_take]
      simp only [Lexer.current_location]
      omega
    · rw [hline]; simp only [location_of]; omega
    · rw [hcolumn]; simp only [location_of]; omega
  refine ⟨?_, ?_, ?_⟩
  · intro source k
    obtain ⟨h1, h2⟩ := Lexer.iterate_tracks k (Lexer.new source) (hnew source) (Nat.zero_le _)
    exact hfacts source _ (Lexer.iterate_source k _) h1 h2
  · intro source calls
    obtain ⟨h0, h1, h2⟩ :=
      Lexer.after_calls_tracks calls (Lexer.new source) (hnew source) (Nat.zero_le _)
    exact hfacts source _ h0 h1 h2
  · intro l
    unfold Lexer.advance
    rfl

/-! ## Termination of the scanner and of the parser -/

/-- The lexeme of a token other than `END_OF_FILE` has at least one
character. -/
theorem token_at_value_length (c : Char) (cs : List Char) :
    1 ≤ (token_at (c :: cs)).1.2.length := by
  rw [token_at]
  split_ifs
  any_goals exact Nat.le_refl _
  · simp [String.length]
  · rename_i hstart
    rw [List.takeWhile_cons, if_pos (is_identifier_start_continue c hstart)]
    simp [String.length]
  · rename_i hdigit
    rw [List.takeWhile_cons, if_pos hdigit]
    simp [String.length]

theorem Lexer.next_token_cases (l : Lexer) (hpeeked : l.peeked_token_ = none) :
    (l.next_token.1.type = TokenType.END_OF_FILE ∧ l.next_token.2.rest = []) ∨
    (l.next_token.1.type ≠ TokenType.END_OF_FILE ∧ 1 ≤ l.next_token.1.value.length ∧
      l.next_token.2.rest.length < l.rest.length) := by
  obtain ⟨hshape, hrest, -⟩ := l.next_token_spec hpeeked
  have hlength := skip_blank_length l.rest.length l.rest
  cases hskip : skip_blank l.rest.length l.rest with
  | nil =>
    rw [hskip] at hshape hrest
    left
    exact ⟨congrArg Prod.fst hshape, hrest⟩
  | cons c cs =>
    rw [hskip] at hshape hrest hlength
    right
    have htype : l.next_token.1.type = (token_at (c :: cs)).1.1 := congrArg Prod.fst hshape
    have hvalue : l.next_token.1.value = (token_at (c :: cs)).1.2 := congrArg Prod.snd hshape
    refine ⟨?_, ?_, ?_⟩
    · rw [htype]
      exact token_at_ne_end_of_file c cs
    · rw [hvalue]
      exact token_at_value_length c cs
    · rw [hrest]
      have h := token_at_length c cs
      simp only [List.length_cons] at hlength
      omega

theorem Lexer.next_token_at_end (l : Lexer) (hpeeked : l.peeked_token_ = none)
    (hrest : l.rest = []) : l.next_token.1.type = TokenType.END_OF_FILE := by
  rcases l.next_token_cases hpeeked with h | ⟨-, -, h⟩
  · exact h.1
  · rw [hrest] at h
    simp at h

theorem Lexer.next_token_position (l : Lexer) (hpeeked : l.peeked_token_ = none)
    (hkind : l.next_token.1.type ≠ TokenType.END_OF_FILE) :
    l.position_ < l.next_token.2.position_ ∧ 1 ≤ l.next_token.1.value.length := by
  rcases l.next_token_cases hpeeked with h | ⟨-, hvalue, h⟩
  · exact absurd h.1 hkind
  · obtain ⟨-, -, hreach⟩ := l.next_token_spec hpeeked
    have hsource := Lexer.reaches_source _ _ hreach
    unfold Lexer.rest at h
    rw [hsource, List.length_drop, List.length_drop] at h
    exact ⟨by omega, hvalue⟩

theorem Lexer.after_calls_peeked : ∀ (n : Nat) (l : Lexer), l.peeked_token_ = none →
    (Lexer.after_calls (List.replicate n true) l).peeked_token_ = none := by
  intro n
  induction n with
  | zero => intro l h; exact h
  | succ n ih =>
    intro l _
    rw [List.replicate_succ, Lexer.after_calls]
    exact ih _ l.next_token_peeked

theorem Lexer.after_calls_end : ∀ (n : Nat) (l : Lexer), l.peeked_token_ = none →
    l.rest.length ≤ n ∨ l.next_token.1.type = TokenType.END_OF_FILE →
    (Lexer.after_calls (List.replicate n true) l).next_token.1.type =
      TokenType.END_OF_FILE := by
  intro n
  induction n with
  | zero =>
    intro l hpeeked h
    rcases h with h | h
    · exact l.next_token_at_end hpeeked (List.length_eq_zero.mp (Nat.le_zero.mp h))
    · exact h
  | succ n ih =>
    intro l hpeeked h
    rw [List.replicate_succ, Lexer.after_calls]
    apply ih _ l.next_token_peeked
    rcases l.next_token_cases hpeeked with ⟨-, hrest⟩ | ⟨hkind, -, hless⟩
    · left
      rw [hrest]
      exact Nat.zero_le _
    · rcases h with h | h
      · left
        omega
      · exact absurd h hkind

theorem shapes_length : ∀ (calls : Nat) (source : List Char),
    (shapes calls source).length ≤ source.length := by
  intro calls
  induction calls with
  | zero => intro source; exact Nat.zero_le _
  | succ calls ih =>
    intro source
    have hlength := skip_blank_length source.length source
    rw [shapes]
    cases hskip : skip_blank source.length source with
    | nil => exact Nat.zero_le _
    | cons c cs =>
      rw [hskip] at hlength
      simp only [List.length_cons] at hlength ⊢
      have h1 := ih (token_at (c :: cs)).2
      have h2 := token_at_length c cs
      omega

theorem tokenize_length (source : String) :
    (tokenize source).pending.length ≤ source.length := by
  have h := congrArg List.length (tokenize_shapes source)
  rw [List.length_map] at h
  rw [h]
  exact shapes_length _ _

theorem triple_returns {α : Type} (cost : Nat) (p : Parser) (v : Verdict)
    (r : Parsed (α × Parser)) (post : Verdict → Parser → Prop) (h : Triple cost p v r post) :
    (∃ a p1, r = Parsed.ok (a, p1) ∧ p1.budget + cost ≤ p.budget) ∨
      ∃ e, r = Parsed.thrown e := by
  rcases h with ⟨a, p1, hr, hbudget, -⟩ | ⟨message, location, -, hr⟩ | ⟨e, -, hr⟩
  · exact Or.inl ⟨a, p1, hr, hbudget⟩
  · exact Or.inr ⟨_, hr⟩
  · exact Or.inr ⟨_, hr⟩

/-- C39. Scanning and parsing terminate.  A `next_token` call that returns a
token other than `END_OF_FILE` moves the cursor forward, and the token has at
least one character; the scanner returns at most as many such tokens as the
source has characters, and from the call after that many calls on every call
returns `END_OF_FILE`.  A round of the loop of `parse_schema`, of
`parse_model`, of `parse_enum`, of `parse_namespace` or of `parse_modifiers`
uses up a token or throws, and `parse_schema` returns a schema or throws, on
every source. -/
theorem scanning_and_parsing_terminate :
    (∀ l : Lexer, l.peeked_token_ = none → l.next_token.1.type ≠ TokenType.END_OF_FILE →
      l.position_ < l.next_token.2.position_ ∧ 1 ≤ l.next_token.1.value.length) ∧
    (∀ source : String, (tokenize source).pending.length ≤ source.length) ∧
    (∀ (source : String) (n : Nat), source.length ≤ n →
      (Lexer.after_calls (List.replicate n true) (Lexer.new source.data)).next_token.1.type =
        TokenType.END_OF_FILE) ∧
    (∀ (fuel : Nat) (p : Parser), p.budget + 2 ≤ fuel →
      p.current_token_.type ≠ TokenType.END_OF_FILE →
      (∃ decl p1, parse_declaration fuel p = Parsed.ok (decl, p1) ∧ p1.budget < p.budget) ∨
        ∃ e, parse_declaration fuel p = Parsed.thrown e) ∧
    (∀ (fuel : Nat) (p : Parser), p.budget + 1 ≤ fuel →
      p.current_token_.type ≠ TokenType.RBRACE →
      (∃ field p1, parse_field fuel p = Parsed.ok (field, p1) ∧ p1.budget < p.budget) ∨
        ∃ e, parse_field fuel p = Parsed.thrown e) ∧
    (∀ (p p1 : Parser) (type : TokenType) (message : String) (token : Token),
      type ≠ TokenType.END_OF_FILE → p.consume type message = Parsed.ok (token, p1) →
      p1.budget < p.budget) ∧
    (∀ p : Parser, (p.match_type TokenType.DOT).1 = true →
      (p.match_type TokenType.DOT).2.budget < p.budget) ∧
    (∀ p : Parser, is_field_modifier p.current_token_.type = true →
      p.advance.budget < p.budget) ∧
    (∀ (source : String) (fuel : Nat), source.length + 3 ≤ fuel →
      (∃ schema, (Parser.new (tokenize source)).parse_schema fuel = Parsed.ok schema) ∨
        ∃ e, (Parser.new (tokenize source)).parse_schema fuel = Parsed.thrown e) := by
  refine ⟨Lexer.next_token_position, tokenize_length, ?_, ?_, ?_, ?_, ?_, ?_, ?_⟩
  · intro source n hn
    exact Lexer.after_calls_end n (Lexer.new source.data) rfl (Or.inl hn)
  · intro fuel p hfuel hend
    rcases triple_returns _ _ _ _ _ (parse_declaration_spec fuel p hfuel hend) with
      ⟨decl, p1, hr, hbudget⟩ | h
    · exact Or.inl ⟨decl, p1, hr, by omega⟩
    · exact Or.inr h
  · intro fuel p hfuel hbrace
    rcases triple_returns _ _ _ _ _ (parse_field_spec fuel p hfuel hbrace) with
      ⟨field, p1, hr, hbudget⟩ | h
    · exact Or.inl ⟨field, p1, hr, by omega⟩
    · exact Or.inr h
  · intro p p1 type message token htype hconsume
    unfold Parser.consume at hconsume
    by_cases hcheck : p.check type = true
    · simp only [hcheck, Bool.not_true, Bool.false_eq_true, if_false, Parsed.ok.injEq,
        Prod.mk.injEq] at hconsume
      have hkind : p.current_token_.type ≠ TokenType.END_OF_FILE := by
        unfold Parser.check at hcheck
        simp only [decide_eq_true_eq] at hcheck
        rw [hcheck]
        exact htype
      have h := p.budget_advance hkind
      rw [← hconsume.2]
      omega
    · simp [hcheck] at hconsume
  · intro p hmatch
    unfold Parser.match_type at hmatch ⊢
    by_cases hcheck : p.check TokenType.DOT = true
    · simp only [hcheck, if_true]
      have hkind : p.current_token_.type ≠ TokenType.END_OF_FILE := by
        unfold Parser.check at hcheck
        simp only [decide_eq_true_eq] at hcheck
        rw [hcheck]
        decide
      have h := p.budget_advance hkind
      omega
    · simp [hcheck] at hmatch
  · intro p hmodifier
    have hkind : p.current_token_.type ≠ TokenType.END_OF_FILE := by
      intro h
      rw [h] at hmodifier
      simp [is_field_modifier] at hmodifier
    have h := p.budget_advance hkind
    omega
  · intro source fuel hfuel
    have hbudget := Parser.new_budget (tokenize source)
    have hlength := tokenize_length source
    rcases parse_schema_verdict fuel (Parser.new (tokenize source)) (by omega) with
      ⟨-, h⟩ | ⟨message, location, -, hr⟩ | ⟨e, -, hr⟩
    · exact Or.inl h
    · exact Or.inr ⟨_, hr⟩
    · exact Or.inr ⟨_, hr⟩

set_option maxRecDepth 100000 in
/-- The theorem `scanning_and_parsing_terminate` on the source
`namespace t;`: 12 characters, 3 tokens, and `END_OF_FILE` from the call
after 12 calls on. -/
theorem scanning_and_parsing_terminate_witness :
    String.length "namespace t;" ≤ 12 ∧
    (Lexer.after_calls (List.replicate 12 true)
      (Lexer.new (String.data "namespace t;"))).next_token.1.type = TokenType.END_OF_FILE ∧
    (tokenize "namespace t;").pending.length = 3 :=
  ⟨by decide,
    scanning_and_parsing_terminate.2.2.1 "namespace t;" 12 (by decide), by decide⟩

/-! ## The include of the body artifact -/

set_option maxRecDepth 100000 in
theorem parse_scenario_id :
    (Parser.new (tokenize "namespace t; model M \x7b uint32 id = 1; \x7d")).parse_schema
        (String.length "namespace t; model M \x7b uint32 id = 1; \x7d" + 3) =
      Parsed.ok (scenario_schema [field_id]) := by
  decide

set_option maxRecDepth 100000 in
/-- C35 on the code. The body artifact includes `<namespace>.hpp`, whatever
the base file name: `generate_source` prints the namespace name of the schema
in the `#include` line, and `compile_schema` writes the declaration artifact
to `<output_dir>/<base_name>.hpp`, where the base name is the value of
`--filename` when it is not empty.  For the source
`namespace t; model M { uint32 id = 1; }` and `--filename gen` the driver
writes `out/gen.hpp` and `out/gen.cpp`, and `out/gen.cpp` includes `t.hpp`,
a file the driver does not write.  With the fallback to the namespace name
the two agree.  The arguments `--filename gen -o out schema.skit` give `main`
the output directory `out` and the file name `gen`. -/
theorem include_names_the_namespace :
    (∀ (schema : Schema) (output_dir filename : String),
      write_artifacts schema output_dir filename =
        [(output_dir ++ "/" ++ (if filename.isEmpty then schema.namespace_name else filename) ++
            ".hpp", header_text schema),
         (output_dir ++ "/" ++ (if filename.isEmpty then schema.namespace_name else filename) ++
            ".cpp", source_text schema)]) ∧
    (∀ schema : Schema, ∃ rest : String,
      source_text schema = "#include \"" ++ schema.namespace_name ++ ".hpp\"\n" ++ rest) ∧
    compile_schema "namespace t; model M \x7b uint32 id = 1; \x7d" "out" "gen" =
      Parsed.ok (0,
        [("out/gen.hpp", header_text (scenario_schema [field_id])),
         ("out/gen.cpp", source_text (scenario_schema [field_id]))]) ∧
    included_file (source_text (scenario_schema [field_id])) = "t.hpp" ∧
    file_name "out/gen.hpp" = "gen.hpp" ∧
    compile_schema "namespace t; model M \x7b uint32 id = 1; \x7d" "out" "" =
      Parsed.ok (0,
        [("out/t.hpp", header_text (scenario_schema [field_id])),
         ("out/t.cpp", source_text (scenario_schema [field_id]))]) ∧
    ((driver_options.parse ["serialkit", "--filename", "gen", "-o", "out", "schema.skit"]).bind
      fun p => (p.value_of "output").bind fun output_dir =>
        (p.value_of "filename").bind fun filename =>
          Parsed.ok (p.positional, output_dir, filename)) =
      Parsed.ok (["schema.skit"], "out", "gen") := by
  have hwrite : ∀ (schema : Schema) (output_dir filename : String),
      write_artifacts schema output_dir filename =
        [(output_dir ++ "/" ++ (if filename.isEmpty then schema.namespace_name else filename) ++
            ".hpp", header_text schema),
         (output_dir ++ "/" ++ (if filename.isEmpty then schema.namespace_name else filename) ++
            ".cpp", source_text schema)] := by
    intro schema output_dir filename
    unfold write_artifacts
    simp only [CodeGenerator.generate_header_eq, CodeGenerator.generate_source_eq,
      CodeGenerator.new]
    cases filename.isEmpty <;> rfl
  have haccepted : (Validator.validate ValidationContext.fresh (scenario_schema [field_id])).1 =
      true := by decide
  refine ⟨hwrite, ?_, ?_, ?_, by decide, ?_, by decide⟩
  · intro schema
    refine ⟨String.join ["#include <cstring>\n", "#include <stdexcept>\n\n"] ++
      (namespace_open_text schema ++
        (implementations_text schema schema.declarations ++ namespace_close_text schema)), ?_⟩
    unfold source_text
    simp only [String.join_cons_eq, String.join_nil_eq, String.append_assoc]
  · unfold compile_schema
    rw [parse_scenario_id]
    simp only [Parsed.bind, haccepted, Bool.not_true, Bool.false_eq_true, if_false]
    rw [hwrite]
    have hbase : (if ("gen" : String).isEmpty then (scenario_schema [field_id]).namespace_name
        else "gen") = "gen" := by decide
    rw [hbase]
    have hheader : ("out" ++ "/" ++ "gen" ++ ".hpp" : String) = "out/gen.hpp" := by decide
    have hsource : ("out" ++ "/" ++ "gen" ++ ".cpp" : String) = "out/gen.cpp" := by decide
    rw [hheader, hsource]
  · unfold source_text
    simp only [String.join_cons_eq, String.join_nil_eq, String.append_assoc]
    rfl
  · unfold compile_schema
    rw [parse_scenario_id]
    simp only [Parsed.bind, haccepted, Bool.not_true, Bool.false_eq_true, if_false]
    rw [hwrite]
    have hbase : (if ("" : String).isEmpty then (scenario_schema [field_id]).namespace_name
        else "") = "t" := by decide
    rw [hbase]
    have hheader : ("out" ++ "/" ++ "t" ++ ".hpp" : String) = "out/t.hpp" := by decide
    have hsource : ("out" ++ "/" ++ "t" ++ ".cpp" : String) = "out/t.cpp" := by decide
    rw [hheader, hsource]

/-! ## Packed lists of `bool`, `byte` and `string` -/

theorem packed_item_lost (fc : FloatCasts) (type : Ty) (kind : PrimitiveTypeKind) (item : Value)
    (hkind : kind = PrimitiveTypeKind.BOOL ∨ kind = PrimitiveTypeKind.BYTE ∨
      kind = PrimitiveTypeKind.STRING) :
    packed_item fc type kind item = [] := by
  rcases hkind with h | h | h <;> subst h <;> rfl

theorem packed_block_lost (fc : FloatCasts) (field : Field) (kind : PrimitiveTypeKind)
    (items : List Value)
    (hkind : kind = PrimitiveTypeKind.BOOL ∨ kind = PrimitiveTypeKind.BYTE ∨
      kind = PrimitiveTypeKind.STRING) :
    packed_block fc field kind items =
      write_varint (make_tag field.number 2) ++ write_varint 0 := by
  have hdata : items.flatMap (packed_item fc field.type kind) = [] := by
    induction items with
    | nil => rfl
    | cons item rest ih =>
      rw [List.flatMap_cons, ih, packed_item_lost fc field.type kind item hkind]
      rfl
  unfold packed_block
  simp only [hdata, List.length_nil, List.append_nil]

/-- Where no local hides the member, a packed repeated field of kind `bool`,
`byte` or `string` writes, for every list that is not empty, the tag
`(number << 3) | 2` and the length 0, and nothing else. -/
theorem generate_field_serializer_packed_lost (fc : FloatCasts) (schema : Schema)
    (field : Field) (kind : PrimitiveTypeKind) (location : SourceLocation) (items : List Value)
    (buffer : List Nat)
    (htype : field.type = Ty.PrimitiveType kind location)
    (hrepeated : field.is_repeated = true) (hpacked : field.is_packed = true)
    (hkind : kind = PrimitiveTypeKind.BOOL ∨ kind = PrimitiveTypeKind.BYTE ∨
      kind = PrimitiveTypeKind.STRING)
    (hitems : items ≠ [])
    (hname : field.name ∉ ["buffer", "packed_tag", "packed_data"]) :
    generate_field_serializer fc schema field (Value.vec items) buffer =
      Outcome.ret (buffer ++ (write_varint (make_tag field.number 2) ++ write_varint 0)) := by
  rw [generate_field_serializer_eq fc schema field _ buffer
    (by rw [block_locals_packed schema field kind location htype hrepeated hpacked]; exact hname),
    if_pos hrepeated]
  have hempty : items.isEmpty = false := by
    cases items with
    | nil => exact absurd rfl hitems
    | cons item rest => rfl
  simp only [hempty, Bool.false_eq_true, if_false, hpacked, htype]
  rw [packed_block_lost fc field kind items hkind]

/-- The validator accepts `packed repeated` on each of the thirteen primitive
kinds. -/
theorem packed_accepted_on_every_kind (kind : PrimitiveTypeKind) :
    accepted (scenario_schema [field_packed kind]) := by
  cases kind <;> unfold accepted <;> decide

set_option maxRecDepth 100000 in
/-- C38 on the code. The packed list of a field named `buffer` is not
written as the tag and a zero length.  The validator accepts
`packed repeated bool buffer = 1`.  With the list `[true]`, which is not
empty, in the member the emitted `serialize` gives no bytes at all: the block
of the field begins with `if (!buffer.empty())`, and in `serialize()` the
name `buffer` is the local `std::vector<uint8_t> buffer`, the output, which
is empty when the first field is written.  The same field under the name
`xs` gives the bytes of the claim, the tag `0x0A` and the length 0. -/
theorem packed_elements_are_lost_fails (fc : FloatCasts) :
    accepted (scenario_schema [field_buffer]) ∧
    (field_buffer.is_packed = true ∧ field_buffer.is_repeated = true ∧
      field_buffer.type =
        Ty.PrimitiveType PrimitiveTypeKind.BOOL { line := 1, column := 40, offset := 39 } ∧
      field_buffer.number = 1) ∧
    serialize fc (scenario_schema [field_buffer]) (scenario_model [field_buffer])
        (Value.obj [Value.vec [Value.num 1]]) = Outcome.ret [] ∧
    write_varint (make_tag 1 2) ++ write_varint 0 = [0x0A, 0x00] ∧
    serialize fc (scenario_schema [field_packed PrimitiveTypeKind.BOOL])
        (scenario_model [field_packed PrimitiveTypeKind.BOOL])
        (Value.obj [Value.vec [Value.num 1]]) = Outcome.ret [0x0A, 0x00] := by
  refine ⟨?_, ⟨rfl, rfl, rfl, rfl⟩, rfl, by decide, rfl⟩
  unfold accepted
  decide

/-! ## The argument parser -/

theorem string_find_none (text : List Char) (c : Char) (h : c ∉ text) :
    string_find text c = none := by
  induction text with
  | nil => rfl
  | cons x rest ih =>
    have hx : x ≠ c := fun hxc => h (by rw [hxc]; exact List.mem_cons_self _ _)
    have hrest : c ∉ rest := fun hmem => h (List.mem_cons_of_mem _ hmem)
    rw [string_find, if_neg hx, ih hrest]
    rfl

theorem string_find_append (before after : List Char) (c : Char) (h : c ∉ before) :
    string_find (before ++ c :: after) c = some before.length := by
  induction before with
  | nil => simp [string_find]
  | cons x rest ih =>
    have hx : x ≠ c := fun hxc => h (by rw [hxc]; exact List.mem_cons_self _ _)
    have hrest : c ∉ rest := fun hmem => h (List.mem_cons_of_mem _ hmem)
    rw [List.cons_append, string_find, if_neg hx, ih hrest]
    rfl

theorem long_key_reset (name : String) (opt : ArgParser.Option) :
    long_key name opt.reset = long_key name opt := rfl

theorem short_key_reset (c : Char) (opt : ArgParser.Option) :
    short_key c opt.reset = short_key c opt := rfl

theorem find_map_reset (key : ArgParser.Option → Bool)
    (hkey : ∀ opt : ArgParser.Option, key opt.reset = key opt) :
    ∀ options : List ArgParser.Option,
      (options.map ArgParser.Option.reset).find? key =
        (options.find? key).map ArgParser.Option.reset := by
  intro options
  induction options with
  | nil => rfl
  | cons opt rest ih =>
    rw [List.map_cons, List.find?_cons, List.find?_cons, hkey]
    cases key opt
    · exact ih
    · rfl

/-- The look-up by one name finds the option that a call through the other
name has changed. -/
theorem update_first_find (key other : ArgParser.Option → Bool)
    (f : ArgParser.Option → ArgParser.Option)
    (hf : ∀ opt : ArgParser.Option, other (f opt) = other opt) :
    ∀ (options : List ArgParser.Option) (found : ArgParser.Option),
      options.find? key = some found → options.find? other = some found →
      (update_first key f options).find? other = some (f found) := by
  intro options
  induction options with
  | nil => intro found h; simp at h
  | cons opt rest ih =>
    intro found hkey hother
    rw [List.find?_cons] at hkey hother
    rw [update_first]
    cases hk : key opt with
    | true =>
      rw [hk] at hkey
      simp only [Option.some.injEq] at hkey
      subst hkey
      simp only [if_true]
      rw [List.find?_cons, hf]
      cases ho : other opt with
      | true => rfl
      | false =>
        rw [ho] at hother
        have h := List.find?_some hother
        rw [ho] at h
        exact absurd h (by simp)
    | false =>
      rw [hk] at hkey
      simp only [Bool.false_eq_true, if_false]
      rw [List.find?_cons]
      cases ho : other opt with
      | true =>
        rw [ho] at hother
        simp only [Option.some.injEq] at hother
        subst hother
        have h := List.find?_some hkey
        rw [hk] at h
        exact absurd h (by simp)
      | false =>
        rw [ho] at hother
        exact ih found hkey hother

theorem update_first_map_reset (key : ArgParser.Option → Bool)
    (f : ArgParser.Option → ArgParser.Option)
    (hf : ∀ opt : ArgParser.Option, (f opt).reset = opt.reset) :
    ∀ options : List ArgParser.Option,
      (update_first key f options).map ArgParser.Option.reset =
        options.map ArgParser.Option.reset := by
  intro options
  induction options with
  | nil => rfl
  | cons opt rest ih =>
    rw [update_first]
    split_ifs
    · rw [List.map_cons, List.map_cons, hf]
    · rw [List.map_cons, List.map_cons, ih]

theorem ArgParser.parse_loop_end (fuel : Nat) (p : ArgParser) (i : Nat) (argv : List String)
    (h : argv.length ≤ i) : ArgParser.parse_loop fuel p i argv = Parsed.ok p := by
  have hnot : ¬ i < argv.length := Nat.not_lt.mpr h
  cases fuel with
  | zero => rw [ArgParser.parse_loop, if_neg hnot]
  | succ fuel => rw [ArgParser.parse_loop, if_neg hnot]

theorem ArgParser.parse_loop_long (fuel : Nat) (p : ArgParser) (i : Nat) (argv : List String)
    (x : Char) (rest : List Char) (hi : i < argv.length)
    (htoken : (argv.getD i "").data = '-' :: '-' :: x :: rest) :
    ArgParser.parse_loop (fuel + 1) p i argv =
      (p.parse_long_option (argv.getD i "") i argv).bind fun (p1, i1) =>
        ArgParser.parse_loop fuel p1 i1 argv := by
  have hne : argv.getD i "" ≠ "--" := by
    intro h
    rw [h] at htoken
    have h1 : ("--" : String).data = ['-', '-'] := rfl
    rw [h1] at htoken
    simp at htoken
  have hlength : (argv.getD i "").length ≥ 2 := by
    have h : (argv.getD i "").length = (argv.getD i "").data.length := rfl
    rw [h, htoken]
    simp
  rw [ArgParser.parse_loop, if_pos hi]
  simp only [hne, if_false, htoken, hlength, List.getD_cons_zero, List.getD_cons_succ,
    decide_True, Bool.and_self, if_true]

theorem ArgParser.parse_loop_short (fuel : Nat) (p : ArgParser) (i : Nat) (argv : List String)
    (c : Char) (rest : List Char) (hi : i < argv.length) (hc : c ≠ '-')
    (htoken : (argv.getD i "").data = '-' :: c :: rest) :
    ArgParser.parse_loop (fuel + 1) p i argv =
      (p.parse_short_option (argv.getD i "") i argv).bind fun (p1, i1) =>
        ArgParser.parse_loop fuel p1 i1 argv := by
  have hne : argv.getD i "" ≠ "--" := by
    intro h
    rw [h] at htoken
    have h1 : ("--" : String).data = ['-', '-'] := rfl
    rw [h1] at htoken
    simp only [List.cons.injEq, true_and] at htoken
    exact hc htoken.1.symm
  have hlength : (argv.getD i "").length ≥ 2 := by
    have h : (argv.getD i "").length = (argv.getD i "").data.length := rfl
    rw [h, htoken]
    simp
  rw [ArgParser.parse_loop, if_pos hi]
  simp only [hne, if_false, htoken, hlength, List.getD_cons_zero, List.getD_cons_succ,
    decide_True, Bool.and_self, if_true, hc, decide_False, Bool.and_false, Bool.true_and,
    Bool.false_eq_true]

theorem ArgParser.parse_long_option_separate (p : ArgParser) (token name : String) (i : Nat)
    (argv : List String) (opt : ArgParser.Option)
    (hfind : p.long_options_find name = some opt) (harg : opt.has_arg = true)
    (htoken : token.data = '-' :: '-' :: name.data) (hname : '=' ∉ name.data)
    (hnext : i + 1 < argv.length) :
    p.parse_long_option token i argv =
      Parsed.ok (p.on_long name (ArgParser.Option.set_value (argv.getD (i + 1) "")), i + 2) := by
  have hnone : string_find token.data '=' = none := by
    rw [htoken]
    apply string_find_none
    simp only [List.mem_cons, not_or]
    exact ⟨by decide, by decide, hname⟩
  have hsub : substr_from token 2 = name := by
    unfold substr_from
    rw [htoken]
    rfl
  unfold ArgParser.parse_long_option
  simp only [hnone, hsub, hfind, harg, if_true, Option.isSome_none, Bool.false_eq_true, if_false,
    hnext]

theorem ArgParser.parse_long_option_equals (p : ArgParser) (token name value : String)
    (i : Nat) (argv : List String) (opt : ArgParser.Option)
    (hfind : p.long_options_find name = some opt) (harg : opt.has_arg = true)
    (htoken : token.data = '-' :: '-' :: (name.data ++ '=' :: value.data))
    (hname : '=' ∉ name.data) :
    p.parse_long_option token i argv =
      Parsed.ok (p.on_long name (ArgParser.Option.set_value value), i + 1) := by
  have hsome : string_find token.data '=' = some (name.data.length + 2) := by
    rw [htoken]
    have h := string_find_append ('-' :: '-' :: name.data) value.data '=' (by
      simp only [List.mem_cons, not_or]
      exact ⟨by decide, by decide, hname⟩)
    simpa using h
  have hsub : substr token 2 (name.data.length + 2 - 2) = name := by
    unfold substr
    rw [htoken]
    simp
  have hvalue : substr_from token (name.data.length + 2 + 1) = value := by
    unfold substr_from
    rw [htoken]
    have h : name.data.length + 2 + 1 = (name.data.length + 1) + 1 + 1 := by omega
    rw [h, List.drop_succ_cons, List.drop_succ_cons]
    have h2 : List.drop (name.data.length + 1) (name.data ++ '=' :: value.data) = value.data := by
      have h3 := List.drop_left (name.data ++ ['=']) value.data
      simpa using h3
    rw [h2]
  unfold ArgParser.parse_long_option
  simp only [hsome, hsub, hvalue, hfind, harg, if_true, Option.isSome_some]

theorem ArgParser.parse_short_option_separate (p : ArgParser) (token : String) (c : Char)
    (i : Nat) (argv : List String) (opt : ArgParser.Option)
    (hfind : p.short_options_find c = some opt) (harg : opt.has_arg = true)
    (htoken : token.data = ['-', c]) (hc : c ≠ '=') (hnext : i + 1 < argv.length) :
    p.parse_short_option token i argv =
      Parsed.ok (p.on_short c (ArgParser.Option.set_value (argv.getD (i + 1) "")), i + 2) := by
  have hsub : (substr_from token 1).data = [c] := by
    unfold substr_from
    rw [htoken]
    rfl
  have hnone : string_find (substr_from token 1).data '=' = none := by
    rw [hsub]
    apply string_find_none
    simp only [List.mem_singleton]
    exact fun h => hc h.symm
  unfold ArgParser.parse_short_option
  simp only
  rw [hnone]
  simp only [hsub, ArgParser.parse_short_flags, hfind, harg, if_true, List.isEmpty_nil,
    Bool.not_true, Bool.false_eq_true, if_false, hnext]

theorem ArgParser.parse_short_option_attached (p : ArgParser) (token value : String)
    (c : Char) (i : Nat) (argv : List String) (opt : ArgParser.Option)
    (hfind : p.short_options_find c = some opt) (harg : opt.has_arg = true)
    (htoken : token.data = '-' :: c :: value.data) (hc : c ≠ '=')
    (hvalue : value ≠ "") (hequals : '=' ∉ value.data) :
    p.parse_short_option token i argv =
      Parsed.ok (p.on_short c (ArgParser.Option.set_value value), i + 1) := by
  have hsub : (substr_from token 1).data = c :: value.data := by
    unfold substr_from
    rw [htoken]
    rfl
  have hnone : string_find (substr_from token 1).data '=' = none := by
    rw [hsub]
    apply string_find_none
    simp only [List.mem_cons, not_or]
    exact ⟨fun h => hc h.symm, hequals⟩
  have hne : value.data.isEmpty = false := by
    cases hdata : value.data with
    | nil => exact absurd (String.ext hdata) hvalue
    | cons x rest => rfl
  unfold ArgParser.parse_short_option
  simp only
  rw [hnone]
  simp only [hsub, ArgParser.parse_short_flags, hfind, harg, if_true, hne, Bool.not_false]

theorem ArgParser.parse_short_option_equals (p : ArgParser) (token value : String)
    (c : Char) (i : Nat) (argv : List String) (opt : ArgParser.Option)
    (hfind : p.short_options_find c = some opt) (harg : opt.has_arg = true)
    (htoken : token.data = '-' :: c :: '=' :: value.data) (hc : c ≠ '=') :
    p.parse_short_option token i argv =
      Parsed.ok (p.on_short c (ArgParser.Option.set_value value), i + 1) := by
  have hsub : (substr_from token 1).data = c :: '=' :: value.data := by
    unfold substr_from
    rw [htoken]
    rfl
  have hsome : string_find (substr_from token 1).data '=' = some 1 := by
    rw [hsub]
    exact string_find_append [c] value.data '=' (by
      simp only [List.mem_singleton]
      exact fun h => hc h.symm)
  have hempty : (substr_from token 1).isEmpty = false := by
    cases h : (substr_from token 1).isEmpty with
    | false => rfl
    | true =>
      rw [String.isEmpty_iff] at h
      rw [h] at hsub
      exact absurd hsub (by simp)
  unfold ArgParser.parse_short_option
  simp only
  rw [hsome]
  simp only [hsub, hempty, Bool.false_or, ne_eq, not_true_eq_false, decide_False,
    Bool.false_eq_true, if_false, List.getD_cons_zero, hfind, harg, Bool.not_true]
  have hvalue : substr_from (substr_from token 1) (1 + 1) = value := by
    unfold substr_from at hsub ⊢
    simp only at hsub ⊢
    rw [hsub]
    rfl
  rw [hvalue]

theorem ArgParser.reset_long_options_find (p : ArgParser) (name : String)
    (opt : ArgParser.Option) (positional : List String)
    (h : p.long_options_find name = some opt) :
    ArgParser.long_options_find
        { options_order := p.options_order.map ArgParser.Option.reset
          positional_args := positional } name = some opt.reset := by
  unfold ArgParser.long_options_find at h ⊢
  simp only
  rw [find_map_reset _ (long_key_reset name), h]
  rfl

theorem ArgParser.reset_short_options_find (p : ArgParser) (c : Char)
    (opt : ArgParser.Option) (positional : List String)
    (h : p.short_options_find c = some opt) :
    ArgParser.short_options_find
        { options_order := p.options_order.map ArgParser.Option.reset
          positional_args := positional } c = some opt.reset := by
  unfold ArgParser.short_options_find at h ⊢
  simp only
  rw [find_map_reset _ (short_key_reset c), h]
  rfl

/-- After `set_value(value)` on the option that a look-up has found,
`is_set` and `value_of` with the long name of that option give true and
`value`. -/
theorem string_find_of_mem (text : List Char) (c : Char) (h : c ∈ text) :
    ∃ k, string_find text c = some k ∧ (k = 0 → text.head? = some c) := by
  induction text with
  | nil => simp at h
  | cons x rest ih =>
    by_cases hx : x = c
    · exact ⟨0, by rw [string_find, if_pos hx], fun _ => by rw [hx]; rfl⟩
    · have hrest : c ∈ rest := by
        rcases List.mem_cons.1 h with h1 | h1
        · exact absurd h1.symm hx
        · exact h1
      obtain ⟨k, hk, -⟩ := ih hrest
      refine ⟨k + 1, by rw [string_find, if_neg hx, hk]; rfl, fun h0 => ?_⟩
      omega

/-- A short option with a `=` that is not its second character. -/
theorem ArgParser.parse_short_option_invalid (p : ArgParser) (token value : String)
    (c : Char) (i : Nat) (argv : List String)
    (htoken : token.data = '-' :: c :: value.data) (hc : c ≠ '=')
    (hmem : '=' ∈ value.data) (hhead : value.data.head? ≠ some '=') :
    p.parse_short_option token i argv =
      Parsed.thrown (Thrown.runtime_error ("Invalid short option format: " ++ token)) := by
  have hsub : (substr_from token 1).data = c :: value.data := by
    unfold substr_from
    rw [htoken]
    rfl
  obtain ⟨k, hk, hzero⟩ := string_find_of_mem value.data '=' hmem
  have hk0 : k ≠ 0 := fun h0 => hhead (hzero h0)
  have hsome : string_find (substr_from token 1).data '=' = some (k + 1) := by
    rw [hsub, string_find, if_neg hc, hk]
    rfl
  have hne : k + 1 ≠ 1 := by omega
  unfold ArgParser.parse_short_option
  simp only
  rw [hsome]
  simp only [ne_eq, hne, not_false_eq_true, decide_True, Bool.or_true, if_true]

theorem ArgParser.after_set_value (q : ArgParser) (key : ArgParser.Option → Bool)
    (found : ArgParser.Option) (name value : String)
    (hkey : q.options_order.find? key = some found)
    (hname : q.long_options_find name = some found) (harg : found.has_arg = true) :
    ArgParser.is_set
        { q with
          options_order :=
            update_first key (ArgParser.Option.set_value value) q.options_order } name =
        Parsed.ok true ∧
      ArgParser.value_of
        { q with
          options_order :=
            update_first key (ArgParser.Option.set_value value) q.options_order } name =
        Parsed.ok value := by
  have hfind := update_first_find key (long_key name) (ArgParser.Option.set_value value)
    (fun _ => rfl) q.options_order found hkey hname
  unfold ArgParser.is_set ArgParser.value_of ArgParser.long_options_find
  simp only [hfind]
  have h1 : (ArgParser.Option.set_value value found).has_arg = true := harg
  simp only [h1, Bool.not_true, Bool.false_eq_true, if_false]
  exact ⟨rfl, rfl⟩

/-- C31, amended. The forms of an option with an argument: for an option
registered with the short name `c`, other than `-` and `=`, and the long
name `name`, without `=`, that takes an argument, each of the argument lists
`--name value`, `--name=value`, `-c value` and `-c=value` parses without
error and leaves the option set, with `value_of(name) = value`, for every
value; and so does `-cvalue` when the value is not empty and has no `=`.
When the value has a `=`, the list `-cvalue` does not do so: a value that
begins with `=` is read as the form `-c=...` and loses that `=`, and with
the first `=` further on `parse` throws `Invalid short option format`. -/
theorem option_argument_forms (p : ArgParser) (opt : ArgParser.Option) (c : Char)
    (name value program : String)
    (hlong : p.long_options_find name = some opt)
    (hshort : p.short_options_find c = some opt)
    (harg : opt.has_arg = true) (hname : name ≠ "") (hname_equals : '=' ∉ name.data)
    (hdash : c ≠ '-') (hequals : c ≠ '=') :
    (∀ argv ∈
        [[program, "--" ++ name, value], [program, "--" ++ name ++ "=" ++ value],
         [program, "-" ++ String.singleton c, value],
         [program, "-" ++ String.singleton c ++ "=" ++ value]],
      ∃ p1, p.parse argv = Parsed.ok p1 ∧ p1.is_set name = Parsed.ok true ∧
        p1.value_of name = Parsed.ok value) ∧
    (value ≠ "" → '=' ∉ value.data →
      ∃ p1, p.parse [program, "-" ++ String.singleton c ++ value] = Parsed.ok p1 ∧
        p1.is_set name = Parsed.ok true ∧ p1.value_of name = Parsed.ok value) ∧
    ('=' ∈ value.data →
      (¬∃ p1, p.parse [program, "-" ++ String.singleton c ++ value] = Parsed.ok p1 ∧
        p1.value_of name = Parsed.ok value) ∧
      (value.data.head? = some '=' →
        ∃ p1, p.parse [program, "-" ++ String.singleton c ++ value] = Parsed.ok p1 ∧
          p1.is_set name = Parsed.ok true ∧
          p1.value_of name = Parsed.ok (substr_from value 1)) ∧
      (value.data.head? ≠ some '=' →
        p.parse [program, "-" ++ String.singleton c ++ value] =
          Parsed.thrown
            (Thrown.runtime_error
              ("Invalid short option format: " ++
                ("-" ++ String.singleton c ++ value))))) := by
  have hlong0 := p.reset_long_options_find name opt [] hlong
  have hshort0 := p.reset_short_options_find c opt [] hshort
  have harg0 : opt.reset.has_arg = true := harg
  obtain ⟨x, rest, hdata⟩ : ∃ x rest, name.data = x :: rest := by
    cases h : name.data with
    | nil => exact absurd (String.ext h) hname
    | cons x rest => exact ⟨x, rest, rfl⟩
  generalize hp0 : ({ options_order := p.options_order.map ArgParser.Option.reset
                      positional_args := [] } : ArgParser) = p0 at hlong0 hshort0
  have hafter_long := fun v : String =>
    ArgParser.after_set_value p0 (long_key name) opt.reset name v hlong0 hlong0 harg0
  have hafter_short := fun v : String =>
    ArgParser.after_set_value p0 (short_key c) opt.reset name v hshort0 hlong0 harg0
  have htoken : ("-" ++ String.singleton c ++ value).data = '-' :: c :: value.data := rfl
  have hstep := ArgParser.parse_loop_short 1 p0 1
    [program, "-" ++ String.singleton c ++ value] c value.data (by simp) hdash htoken
  have hlist : List.getD [program, "-" ++ String.singleton c ++ value] 1 "" =
      "-" ++ String.singleton c ++ value := rfl
  rw [hlist] at hstep
  have hparse : p.parse [program, "-" ++ String.singleton c ++ value] =
      (p0.parse_short_option ("-" ++ String.singleton c ++ value) 1
        [program, "-" ++ String.singleton c ++ value]).bind fun (p1, i1) =>
        ArgParser.parse_loop 1 p1 i1 [program, "-" ++ String.singleton c ++ value] := by
    unfold ArgParser.parse
    rw [hp0]
    rw [show [program, "-" ++ String.singleton c ++ value].length = 1 + 1 from rfl, hstep]
  have hleading : value.data.head? = some '=' →
      ∃ p1, p.parse [program, "-" ++ String.singleton c ++ value] = Parsed.ok p1 ∧
        p1.is_set name = Parsed.ok true ∧
        p1.value_of name = Parsed.ok (substr_from value 1) := by
    intro hhead
    have hdata_value : value.data = '=' :: (substr_from value 1).data := by
      cases hv : value.data with
      | nil => rw [hv] at hhead; simp at hhead
      | cons y tail =>
        rw [hv] at hhead
        simp only [List.head?_cons, Option.some.injEq] at hhead
        subst hhead
        unfold substr_from
        rw [hv]
        rfl
    have htoken1 : ("-" ++ String.singleton c ++ value).data =
        '-' :: c :: '=' :: (substr_from value 1).data := by
      rw [htoken, hdata_value]
    have hoption := ArgParser.parse_short_option_equals p0
      ("-" ++ String.singleton c ++ value) (substr_from value 1) c 1
      [program, "-" ++ String.singleton c ++ value] opt.reset hshort0 harg0 htoken1 hequals
    refine ⟨_, ?_, hafter_short (substr_from value 1)⟩
    rw [hparse, hoption]
    simp only [Parsed.bind]
    rw [ArgParser.parse_loop_end _ _ _ _ (by simp)]
    rfl
  have hinside : '=' ∈ value.data → value.data.head? ≠ some '=' →
      p.parse [program, "-" ++ String.singleton c ++ value] =
        Parsed.thrown
          (Thrown.runtime_error
            ("Invalid short option format: " ++ ("-" ++ String.singleton c ++ value))) := by
    intro hmem hhead
    rw [hparse, ArgParser.parse_short_option_invalid p0 ("-" ++ String.singleton c ++ value)
      value c 1 [program, "-" ++ String.singleton c ++ value] htoken hequals hmem hhead]
    rfl
  refine ⟨?_, ?_, ?_⟩
  · intro argv hargv
    simp only [List.mem_cons, List.mem_singleton, List.not_mem_nil, or_false] at hargv
    rcases hargv with h | h | h | h
    · subst h
      refine ⟨_, ?_, hafter_long value⟩
      unfold ArgParser.parse
      rw [hp0]
      have htoken : (List.getD [program, "--" ++ name, value] 1 "").data =
          '-' :: '-' :: x :: rest := by
        rw [← hdata]; rfl
      have hstep := ArgParser.parse_loop_long 2 p0 1 [program, "--" ++ name, value] x rest
        (by simp) htoken
      have hoption := ArgParser.parse_long_option_separate p0 ("--" ++ name) name 1
        [program, "--" ++ name, value] opt.reset hlong0 harg0 rfl hname_equals (by simp)
      have hlist : List.getD [program, "--" ++ name, value] 1 "" = "--" ++ name := rfl
      rw [hlist] at hstep
      rw [show [program, "--" ++ name, value].length = 2 + 1 from rfl, hstep, hoption]
      simp only [Parsed.bind]
      rw [ArgParser.parse_loop_end _ _ _ _ (by simp)]
      rfl
    · subst h
      refine ⟨_, ?_, hafter_long value⟩
      unfold ArgParser.parse
      rw [hp0]
      have htoken : (List.getD [program, "--" ++ name ++ "=" ++ value] 1 "").data =
          '-' :: '-' :: x :: (rest ++ '=' :: value.data) := by
        have h : (List.getD [program, "--" ++ name ++ "=" ++ value] 1 "").data =
            '-' :: '-' :: (name.data ++ '=' :: value.data) := by
          simp [String.data_append]
        rw [h, hdata]
        rfl
      have hstep := ArgParser.parse_loop_long 1 p0 1 [program, "--" ++ name ++ "=" ++ value]
        x (rest ++ '=' :: value.data) (by simp) htoken
      have hoption := ArgParser.parse_long_option_equals p0 ("--" ++ name ++ "=" ++ value)
        name value 1 [program, "--" ++ name ++ "=" ++ value] opt.reset hlong0 harg0
        (by simp [String.data_append]) hname_equals
      have hlist : List.getD [program, "--" ++ name ++ "=" ++ value] 1 "" =
          "--" ++ name ++ "=" ++ value := rfl
      rw [hlist] at hstep
      rw [show [program, "--" ++ name ++ "=" ++ value].length = 1 + 1 from rfl, hstep, hoption]
      simp only [Parsed.bind]
      rw [ArgParser.parse_loop_end _ _ _ _ (by simp)]
      rfl
    · subst h
      refine ⟨_, ?_, hafter_short value⟩
      unfold ArgParser.parse
      rw [hp0]
      have hstep := ArgParser.parse_loop_short 2 p0 1
        [program, "-" ++ String.singleton c, value] c [] (by simp) hdash rfl
      have hoption := ArgParser.parse_short_option_separate p0 ("-" ++ String.singleton c) c 1
        [program, "-" ++ String.singleton c, value] opt.reset hshort0 harg0 rfl hequals
        (by simp)
      have hlist : List.getD [program, "-" ++ String.singleton c, value] 1 "" =
          "-" ++ String.singleton c := rfl
      rw [hlist] at hstep
      rw [show [program, "-" ++ String.singleton c, value].length = 2 + 1 from rfl, hstep,
        hoption]
      simp only [Parsed.bind]
      rw [ArgParser.parse_loop_end _ _ _ _ (by simp)]
      rfl
    · subst h
      refine ⟨_, ?_, hafter_short value⟩
      unfold ArgParser.parse
      rw [hp0]
      have htoken : ("-" ++ String.singleton c ++ "=" ++ value).data =
          '-' :: c :: '=' :: value.data := by
        simp [String.data_append]
      have hstep := ArgParser.parse_loop_short 1 p0 1
        [program, "-" ++ String.singleton c ++ "=" ++ value] c ('=' :: value.data) (by simp)
        hdash htoken
      have hoption := ArgParser.parse_short_option_equals p0
        ("-" ++ String.singleton c ++ "=" ++ value) value c 1
        [program, "-" ++ String.singleton c ++ "=" ++ value] opt.reset hshort0 harg0 htoken
        hequals
      have hlist : List.getD [program, "-" ++ String.singleton c ++ "=" ++ value] 1 "" =
          "-" ++ String.singleton c ++ "=" ++ value := rfl
      rw [hlist] at hstep
      rw [show [program, "-" ++ String.singleton c ++ "=" ++ value].length = 1 + 1 from rfl,
        hstep, hoption]
      simp only [Parsed.bind]
      rw [ArgParser.parse_loop_end _ _ _ _ (by simp)]
      rfl
  · intro hvalue hvalue_equals
    refine ⟨_, ?_, hafter_short value⟩
    unfold ArgParser.parse
    rw [hp0]
    have htoken : ("-" ++ String.singleton c ++ value).data = '-' :: c :: value.data := rfl
    have hstep := ArgParser.parse_loop_short 1 p0 1
      [program, "-" ++ String.singleton c ++ value] c value.data (by simp) hdash htoken
    have hoption := ArgParser.parse_short_option_attached p0
      ("-" ++ String.singleton c ++ value) value c 1
      [program, "-" ++ String.singleton c ++ value] opt.reset hshort0 harg0 htoken hequals
      hvalue hvalue_equals
    have hlist : List.getD [program, "-" ++ String.singleton c ++ value] 1 "" =
        "-" ++ String.singleton c ++ value := rfl
    rw [hlist] at hstep
    rw [show [program, "-" ++ String.singleton c ++ value].length = 1 + 1 from rfl, hstep,
      hoption]
    simp only [Parsed.bind]
    rw [ArgParser.parse_loop_end _ _ _ _ (by simp)]
    rfl
  · intro hmem
    refine ⟨?_, hleading, hinside hmem⟩
    rintro ⟨p1, hok, hvalue_of⟩
    by_cases hhead : value.data.head? = some '='
    · obtain ⟨p2, hok2, -, hvalue2⟩ := hleading hhead
      rw [hok2] at hok
      simp only [Parsed.ok.injEq] at hok
      subst hok
      rw [hvalue2] at hvalue_of
      simp only [Parsed.ok.injEq] at hvalue_of
      have hlength := congrArg (fun text : String => text.data.length) hvalue_of
      simp only [substr_from, List.length_drop] at hlength
      cases hv : value.data with
      | nil => rw [hv] at hhead; simp at hhead
      | cons y tail =>
        rw [hv] at hlength
        simp at hlength
    · rw [hinside hmem hhead] at hok
      exact Parsed.noConfusion hok

set_option maxRecDepth 100000 in
/-- C31 as stated fails. The driver registers `output` with the short name
`o` and an argument.  For the value `a=b` the argument list `-oa=b` does not
parse: `parse_short_option` finds a `=` that is not the second character
and throws; for the value `=x` the argument list `-o=x` leaves
`value_of("output") = "x"`.  The other four forms give these values. -/
theorem option_argument_forms_counterexample :
    register_options = Parsed.ok driver_options ∧
    driver_options.parse ["serialkit", "-oa=b"] =
      Parsed.thrown (Thrown.runtime_error "Invalid short option format: -oa=b") ∧
    ((driver_options.parse ["serialkit", "-o=x"]).bind fun p => p.value_of "output") =
      Parsed.ok "x" ∧
    (∀ argv ∈ [["serialkit", "--output", "a=b"], ["serialkit", "--output=a=b"],
        ["serialkit", "-o", "a=b"], ["serialkit", "-o=a=b"]],
      ((driver_options.parse argv).bind fun p => p.value_of "output") = Parsed.ok "a=b") := by
  decide

set_option maxRecDepth 100000 in
/-- The theorem `option_argument_forms` on the option `output` of the
driver, with the short name `o`, and the value `gen`. -/
theorem option_argument_forms_witness :
    (driver_options.long_options_find "output" =
        some (ArgParser.Option.new 'o' "output" "Output directory for generated files"
          true ".") ∧
      driver_options.short_options_find 'o' =
        some (ArgParser.Option.new 'o' "output" "Output directory for generated files"
          true ".")) ∧
    (∀ argv ∈
        [["serialkit", "--" ++ "output", "gen"], ["serialkit", "--" ++ "output" ++ "=" ++ "gen"],
         ["serialkit", "-" ++ String.singleton 'o', "gen"],
         ["serialkit", "-" ++ String.singleton 'o' ++ "=" ++ "gen"]],
      ∃ p1, driver_options.parse argv = Parsed.ok p1 ∧ p1.is_set "output" = Parsed.ok true ∧
        p1.value_of "output" = Parsed.ok "gen") ∧
    ("gen" ≠ "" → '=' ∉ String.data "gen" →
      ∃ p1, driver_options.parse ["serialkit", "-" ++ String.singleton 'o' ++ "gen"] =
          Parsed.ok p1 ∧
        p1.is_set "output" = Parsed.ok true ∧ p1.value_of "output" = Parsed.ok "gen") ∧
    ('=' ∈ String.data "gen" →
      (¬∃ p1, driver_options.parse ["serialkit", "-" ++ String.singleton 'o' ++ "gen"] =
          Parsed.ok p1 ∧
        p1.value_of "output" = Parsed.ok "gen") ∧
      ((String.data "gen").head? = some '=' →
        ∃ p1, driver_options.parse ["serialkit", "-" ++ String.singleton 'o' ++ "gen"] =
            Parsed.ok p1 ∧
          p1.is_set "output" = Parsed.ok true ∧
          p1.value_of "output" = Parsed.ok (substr_from "gen" 1)) ∧
      ((String.data "gen").head? ≠ some '=' →
        driver_options.parse ["serialkit", "-" ++ String.singleton 'o' ++ "gen"] =
          Parsed.thrown
            (Thrown.runtime_error
              ("Invalid short option format: " ++
                ("-" ++ String.singleton 'o' ++ "gen"))))) :=
  ⟨⟨by decide, by decide⟩,
    option_argument_forms driver_options
      (ArgParser.Option.new 'o' "output" "Output directory for generated files" true ".")
      'o' "output" "gen" "serialkit" (by decide) (by decide) rfl (by decide) (by decide)
      (by decide) (by decide)⟩

/-! ## A parse starts from a clean state -/

theorem set_value_reset (value : String) (opt : ArgParser.Option) :
    (ArgParser.Option.set_value value opt).reset = opt.reset := rfl

theorem set_flag_reset (opt : ArgParser.Option) : opt.set_flag.reset = opt.reset := rfl

theorem ArgParser.parse_long_option_ok (p p1 : ArgParser) (token : String) (i i1 : Nat)
    (argv : List String) (h : p.parse_long_option token i argv = Parsed.ok (p1, i1)) :
    i < i1 ∧
      p1.options_order.map ArgParser.Option.reset =
        p.options_order.map ArgParser.Option.reset := by
  unfold ArgParser.parse_long_option at h
  simp only at h
  split at h
  · exact Parsed.noConfusion h
  · split_ifs at h
    all_goals
      simp only [Parsed.ok.injEq, Prod.mk.injEq] at h
      obtain ⟨hp, hi⟩ := h
      subst hp hi
      refine ⟨by omega, ?_⟩
      first
        | exact update_first_map_reset _ _ (set_value_reset _) _
        | exact update_first_map_reset _ _ set_flag_reset _

theorem ArgParser.parse_short_flags_ok (i : Nat) (argv : List String) (flags : List Char) :
    ∀ (p p1 : ArgParser) (i1 : Nat),
      ArgParser.parse_short_flags i argv p flags = Parsed.ok (p1, i1) →
      i < i1 ∧
        p1.options_order.map ArgParser.Option.reset =
          p.options_order.map ArgParser.Option.reset := by
  induction flags with
  | nil =>
    intro p p1 i1 h
    simp only [ArgParser.parse_short_flags, Parsed.ok.injEq, Prod.mk.injEq] at h
    obtain ⟨hp, hi⟩ := h
    subst hp hi
    exact ⟨by omega, rfl⟩
  | cons c rest ih =>
    intro p p1 i1 h
    rw [ArgParser.parse_short_flags] at h
    split at h
    · exact Parsed.noConfusion h
    · split_ifs at h
      · simp only [Parsed.ok.injEq, Prod.mk.injEq] at h
        obtain ⟨hp, hi⟩ := h
        subst hp hi
        exact ⟨by omega, update_first_map_reset _ _ (set_value_reset _) _⟩
      · simp only [Parsed.ok.injEq, Prod.mk.injEq] at h
        obtain ⟨hp, hi⟩ := h
        subst hp hi
        exact ⟨by omega, update_first_map_reset _ _ (set_value_reset _) _⟩
      · obtain ⟨hi, hp⟩ := ih _ _ _ h
        refine ⟨hi, hp.trans ?_⟩
        exact update_first_map_reset _ _ set_flag_reset _

theorem ArgParser.parse_short_option_ok (p p1 : ArgParser) (token : String) (i i1 : Nat)
    (argv : List String) (h : p.parse_short_option token i argv = Parsed.ok (p1, i1)) :
    i < i1 ∧
      p1.options_order.map ArgParser.Option.reset =
        p.options_order.map ArgParser.Option.reset := by
  unfold ArgParser.parse_short_option at h
  simp only at h
  split at h
  · split_ifs at h
    split at h
    · exact Parsed.noConfusion h
    · split_ifs at h
      simp only [Parsed.ok.injEq, Prod.mk.injEq] at h
      obtain ⟨hp, hi⟩ := h
      subst hp hi
      exact ⟨by omega, update_first_map_reset _ _ (set_value_reset _) _⟩
  · exact ArgParser.parse_short_flags_ok i argv _ p p1 i1 h

theorem Parsed.bind_eq_ok {α β : Type} (r : Parsed α) (f : α → Parsed β) (b : β)
    (h : r.bind f = Parsed.ok b) : ∃ a, r = Parsed.ok a ∧ f a = Parsed.ok b := by
  cases r with
  | ok a => exact ⟨a, rfl, h⟩
  | thrown e => exact Parsed.noConfusion h
  | out_of_fuel => exact Parsed.noConfusion h

theorem ArgParser.parse_loop_ok : ∀ (fuel : Nat) (p p1 : ArgParser) (i : Nat)
    (argv : List String), ArgParser.parse_loop fuel p i argv = Parsed.ok p1 →
    p1.options_order.map ArgParser.Option.reset =
      p.options_order.map ArgParser.Option.reset := by
  intro fuel
  induction fuel with
  | zero =>
    intro p p1 i argv h
    rw [ArgParser.parse_loop] at h
    split_ifs at h
    simp only [Parsed.ok.injEq] at h
    rw [h]
  | succ fuel ih =>
    intro p p1 i argv h
    rw [ArgParser.parse_loop] at h
    simp only at h
    split_ifs at h
    · simp only [Parsed.ok.injEq] at h
      rw [← h]
    · obtain ⟨⟨p2, i2⟩, hoption, hloop⟩ := Parsed.bind_eq_ok _ _ _ h
      exact (ih _ _ _ _ hloop).trans (ArgParser.parse_long_option_ok _ _ _ _ _ _ hoption).2
    · obtain ⟨⟨p2, i2⟩, hoption, hloop⟩ := Parsed.bind_eq_ok _ _ _ h
      exact (ih _ _ _ _ hloop).trans (ArgParser.parse_short_option_ok _ _ _ _ _ _ hoption).2
    · have hrest := ih _ _ _ _ h
      exact hrest
    · simp only [Parsed.ok.injEq] at h
      rw [h]

theorem ArgParser.parse_long_option_fuel (p : ArgParser) (token : String) (i : Nat)
    (argv : List String) : p.parse_long_option token i argv ≠ Parsed.out_of_fuel := by
  intro h
  unfold ArgParser.parse_long_option at h
  simp only at h
  split at h
  · exact Parsed.noConfusion h
  · split_ifs at h

theorem ArgParser.parse_short_flags_fuel (i : Nat) (argv : List String) (flags : List Char) :
    ∀ p : ArgParser, ArgParser.parse_short_flags i argv p flags ≠ Parsed.out_of_fuel := by
  induction flags with
  | nil =>
    intro p h
    exact Parsed.noConfusion h
  | cons c rest ih =>
    intro p h
    rw [ArgParser.parse_short_flags] at h
    split at h
    · exact Parsed.noConfusion h
    · split_ifs at h
      exact ih _ h

theorem ArgParser.parse_short_option_fuel (p : ArgParser) (token : String) (i : Nat)
    (argv : List String) : p.parse_short_option token i argv ≠ Parsed.out_of_fuel := by
  intro h
  unfold ArgParser.parse_short_option at h
  simp only at h
  split at h
  · split_ifs at h
    split at h
    · exact Parsed.noConfusion h
    · split_ifs at h
  · exact ArgParser.parse_short_flags_fuel i argv _ p h

theorem ArgParser.parse_loop_fuel : ∀ (fuel : Nat) (p : ArgParser) (i : Nat)
    (argv : List String), argv.length ≤ fuel + i →
    ArgParser.parse_loop fuel p i argv ≠ Parsed.out_of_fuel := by
  intro fuel
  induction fuel with
  | zero =>
    intro p i argv hfuel
    rw [ArgParser.parse_loop, if_neg (by omega)]
    exact fun h => Parsed.noConfusion h
  | succ fuel ih =>
    intro p i argv hfuel h
    rw [ArgParser.parse_loop] at h
    simp only at h
    split_ifs at h
    · cases hoption : p.parse_long_option (argv.getD i "") i argv with
      | ok result =>
        obtain ⟨p2, i2⟩ := result
        rw [hoption] at h
        have hi := (ArgParser.parse_long_option_ok _ _ _ _ _ _ hoption).1
        exact ih p2 i2 argv (by omega) h
      | thrown e => rw [hoption] at h; exact Parsed.noConfusion h
      | out_of_fuel => exact ArgParser.parse_long_option_fuel _ _ _ _ hoption
    · cases hoption : p.parse_short_option (argv.getD i "") i argv with
      | ok result =>
        obtain ⟨p2, i2⟩ := result
        rw [hoption] at h
        have hi := (ArgParser.parse_short_option_ok _ _ _ _ _ _ hoption).1
        exact ih p2 i2 argv (by omega) h
      | thrown e => rw [hoption] at h; exact Parsed.noConfusion h
      | out_of_fuel => exact ArgParser.parse_short_option_fuel _ _ _ _ hoption
    · exact ih _ _ _ (by omega) h

/-- C32. A parse starts from a clean state: `parse` clears the positional
arguments and resets every registered option to unset with its default
value before it reads the first argument, and it changes nothing of an
option but `is_set` and `value`.  So two parsers with the same registered
options give the same result on the same arguments, whatever their options
and positional arguments hold, and a parse after an earlier parse gives what
it gives without the earlier one.  A parse returns or throws. -/
theorem parse_starts_clean :
    (∀ (p : ArgParser) (argv : List String),
      p.parse argv =
        ArgParser.parse_loop argv.length
          { options_order := p.options_order.map ArgParser.Option.reset
            positional_args := [] } 1 argv) ∧
    (∀ opt : ArgParser.Option,
      opt.reset =
        ArgParser.Option.new opt.short_name opt.long_name opt.description opt.has_arg
          opt.default_value) ∧
    (∀ (p q : ArgParser) (argv : List String),
      p.options_order.map ArgParser.Option.reset =
        q.options_order.map ArgParser.Option.reset →
      p.parse argv = q.parse argv) ∧
    (∀ (p p1 : ArgParser) (argv : List String), p.parse argv = Parsed.ok p1 →
      p1.options_order.map ArgParser.Option.reset =
        p.options_order.map ArgParser.Option.reset) ∧
    (∀ (p p1 : ArgParser) (first second : List String), p.parse first = Parsed.ok p1 →
      p1.parse second = p.parse second) ∧
    (∀ (p : ArgParser) (argv : List String), p.parse argv ≠ Parsed.out_of_fuel) := by
  have hsame : ∀ (p q : ArgParser) (argv : List String),
      p.options_order.map ArgParser.Option.reset =
        q.options_order.map ArgParser.Option.reset →
      p.parse argv = q.parse argv := by
    intro p q argv h
    unfold ArgParser.parse
    rw [h]
  have hkeeps : ∀ (p p1 : ArgParser) (argv : List String), p.parse argv = Parsed.ok p1 →
      p1.options_order.map ArgParser.Option.reset =
        p.options_order.map ArgParser.Option.reset := by
    intro p p1 argv h
    unfold ArgParser.parse at h
    have hloop := ArgParser.parse_loop_ok _ _ _ _ _ h
    rw [hloop]
    simp only [List.map_map]
    rfl
  refine ⟨fun _ _ => rfl, fun _ => rfl, hsame, hkeeps, ?_, ?_⟩
  · intro p p1 first second h
    exact hsame p1 p second (hkeeps p p1 first h)
  · intro p argv
    unfold ArgParser.parse
    exact ArgParser.parse_loop_fuel _ _ _ _ (by omega)

set_option maxRecDepth 100000 in
/-- The theorem `parse_starts_clean` on the parser of the driver: after the
parse of `-v -o out1.cpp` the parse of `--output=out2.cpp` leaves `verbose`
unset and `value_of("output") = "out2.cpp"`, as on a parser that has not
parsed before. -/
theorem parse_starts_clean_witness :
    (∃ p1, driver_options.parse ["serialkit", "-v", "-o", "out1.cpp"] = Parsed.ok p1 ∧
      p1.is_set "verbose" = Parsed.ok true ∧ p1.value_of "output" = Parsed.ok "out1.cpp" ∧
      p1.parse ["serialkit", "--output=out2.cpp"] =
        driver_options.parse ["serialkit", "--output=out2.cpp"]) ∧
    ((driver_options.parse ["serialkit", "--output=out2.cpp"]).bind fun p =>
      p.is_set "verbose") = Parsed.ok false ∧
    ((driver_options.parse ["serialkit", "--output=out2.cpp"]).bind fun p =>
      p.value_of "output") = Parsed.ok "out2.cpp" :=
  ⟨⟨_, rfl, by decide, by decide,
      parse_starts_clean.2.2.2.2.1 driver_options _ ["serialkit", "-v", "-o", "out1.cpp"]
        ["serialkit", "--output=out2.cpp"] rfl⟩,
    by decide, by decide⟩

/-! ## The round trip on the fragment without packed lists and floating point -/

set_option maxRecDepth 100000 in
/-- C36 on the code. The round trip fails on the fragment, in two ways.
The validator accepts `int32 value = 1`, a singular field of an integer
kind, and the object with `value = 7` is an object of the fragment.  It
serializes to `[0x08, 0x07]`, and `deserialize` run on these bytes in a
default-constructed object returns true and leaves `value = 0`: the `case`
of the field declares the local `uint64_t value`, reads the varint into it
and then assigns `value = static_cast<int32_t>(value);`, which is the local
and not the member.
The validator accepts `string s = 2`, and the object with the empty string
in `s` is an object of the fragment.  It serializes to `[0x12, 0x00]`, and
`deserialize` run on these bytes reads the length 0 and then evaluates
`&data[pos]` with `pos = 2 = data.size()`, outside the buffer, so C++ defines
no result. -/
theorem fragment_round_trip_fails (fc : FloatCasts) (fuel : Nat) :
    (accepted (scenario_schema [field_value]) ∧
      fragment_object (scenario_schema [field_value]) (scenario_model [field_value])
        (Value.obj [Value.num 7]) = true ∧
      serialize fc (scenario_schema [field_value]) (scenario_model [field_value])
        (Value.obj [Value.num 7]) = Outcome.ret [0x08, 0x07] ∧
      ((serialize fc (scenario_schema [field_value]) (scenario_model [field_value])
          (Value.obj [Value.num 7])).bind fun data =>
        deserialize fc (scenario_schema [field_value]) (scenario_model [field_value]) (fuel + 1)
          (default_construct (scenario_schema [field_value]) (scenario_model [field_value]))
          data) =
        Outcome.ret (true, Value.obj [Value.num 0]) ∧
      Value.obj [Value.num 0] ≠ Value.obj [Value.num 7]) ∧
    (accepted (scenario_schema [field_s]) ∧
      fragment_object (scenario_schema [field_s]) (scenario_model [field_s])
        (Value.obj [Value.str []]) = true ∧
      serialize fc (scenario_schema [field_s]) (scenario_model [field_s])
        (Value.obj [Value.str []]) = Outcome.ret [0x12, 0x00] ∧
      read_varint [0x12, 0x00] 1 = Outcome.ret (0, 2) ∧
      read_chars [0x12, 0x00] 2 0 = Outcome.undefined ∧
      ((serialize fc (scenario_schema [field_s]) (scenario_model [field_s])
          (Value.obj [Value.str []])).bind fun data =>
        deserialize fc (scenario_schema [field_s]) (scenario_model [field_s]) (fuel + 1)
          (default_construct (scenario_schema [field_s]) (scenario_model [field_s])) data) =
        Outcome.undefined) := by
  have hvalue : serialize fc (scenario_schema [field_value]) (scenario_model [field_value])
      (Value.obj [Value.num 7]) = Outcome.ret [0x08, 0x07] := rfl
  have hs : serialize fc (scenario_schema [field_s]) (scenario_model [field_s])
      (Value.obj [Value.str []]) = Outcome.ret [0x12, 0x00] := rfl
  refine ⟨⟨?_, by decide, hvalue, ?_, by simp⟩, ⟨?_, by decide, hs, rfl, rfl, ?_⟩⟩
  · unfold accepted
    decide
  · rw [hvalue, Outcome.bind_ret]
    cases fuel <;> rfl
  · unfold accepted
    decide
  · rw [hs, Outcome.bind_ret]
    rfl

/-! ## The flag returned by `deserialize` -/

/-- A round of the loop of `deserialize`, written with `call_deserialize`. -/
theorem deserialize_loop_succ (fc : FloatCasts) (schema : Schema) (fuel : Nat)
    (fields : List Field) (members : List Value) (data : List Nat) (pos : Nat)
    (hpos : pos < data.length) :
    deserialize_loop fc schema (fuel + 1) fields members data pos =
      (read_varint data pos).bind fun (tag, pos1) =>
        match case_index (split_tag tag).1 fields with
        | some i =>
          match fields[i]?, members[i]? with
          | some field, some member =>
            (generate_field_deserializer fc schema (call_deserialize fc schema fuel)
              field member data pos1).bind fun result =>
            match result with
            | CaseResult.next member1 pos2 =>
              deserialize_loop fc schema fuel fields (members.set i member1) data pos2
            | CaseResult.fail member1 => Outcome.ret (false, members.set i member1)
          | _, _ => Outcome.undefined
        | none =>
          (skip_unknown data pos1 (split_tag tag).2).bind fun pos2 =>
          deserialize_loop fc schema fuel fields members data pos2 := by
  have hguard : ¬ pos + 1 > data.length := by omega
  rw [deserialize_loop, if_pos hpos, if_neg hguard]
  rfl

theorem Outcome.bind_eq_ret {α β : Type} (r : Outcome α) (f : α → Outcome β) (b : β)
    (h : r.bind f = Outcome.ret b) : ∃ a, r = Outcome.ret a ∧ f a = Outcome.ret b := by
  cases r with
  | ret a => exact ⟨a, rfl, h⟩
  | undefined => exact Outcome.noConfusion h
  | out_of_fuel => exact Outcome.noConfusion h

/-- A `case` ends at `return false` only when the nested `deserialize` has
returned false. -/
theorem generate_field_deserializer_fail (fc : FloatCasts) (schema : Schema)
    (call_deserialize : String → Value → List Nat → Outcome (Bool × Value))
    (hcall : ∀ type_name x item_data ok value,
      call_deserialize type_name x item_data = Outcome.ret (ok, value) → ok = true)
    (field : Field) (member : Value) (data : List Nat) (pos : Nat) (member1 : Value) :
    generate_field_deserializer fc schema call_deserialize field member data pos ≠
      Outcome.ret (CaseResult.fail member1) := by
  intro h
  unfold generate_field_deserializer at h
  by_cases hname : field.name ∈ case_locals schema field
  · rw [if_pos hname] at h
    unfold captured_field_deserializer at h
    split at h
    · split_ifs at h
      all_goals
        obtain ⟨⟨value, pos1⟩, -, h⟩ := Outcome.bind_eq_ret _ _ _ h
        simp at h
    · split_ifs at h
      obtain ⟨⟨length, pos1⟩, -, h⟩ := Outcome.bind_eq_ret _ _ _ h
      obtain ⟨item_data, -, h⟩ := Outcome.bind_eq_ret _ _ _ h
      obtain ⟨⟨ok, value⟩, hnested, h⟩ := Outcome.bind_eq_ret _ _ _ h
      have hok := hcall _ _ _ _ _ hnested
      subst hok
      simp at h
  · rw [if_neg hname] at h
    split at h
    · split_ifs at h
      · obtain ⟨⟨length, pos1⟩, -, h⟩ := Outcome.bind_eq_ret _ _ _ h
        obtain ⟨str, -, h⟩ := Outcome.bind_eq_ret _ _ _ h
        simp at h
      · obtain ⟨⟨value, pos1⟩, -, h⟩ := Outcome.bind_eq_ret _ _ _ h
        simp at h
    · split_ifs at h
      · obtain ⟨⟨value, pos1⟩, -, h⟩ := Outcome.bind_eq_ret _ _ _ h
        simp at h
      all_goals
        obtain ⟨⟨length, pos1⟩, -, h⟩ := Outcome.bind_eq_ret _ _ _ h
        obtain ⟨item_data, -, h⟩ := Outcome.bind_eq_ret _ _ _ h
        obtain ⟨⟨ok, value⟩, hnested, h⟩ := Outcome.bind_eq_ret _ _ _ h
        have hok := hcall _ _ _ _ _ hnested
        subst hok
        simp at h

theorem deserialize_loop_flag (fc : FloatCasts) (schema : Schema) : ∀ (fuel : Nat)
    (fields : List Field) (members : List Value) (data : List Nat) (pos : Nat) (ok : Bool)
    (members1 : List Value),
    deserialize_loop fc schema fuel fields members data pos = Outcome.ret (ok, members1) →
    ok = true := by
  intro fuel
  induction fuel with
  | zero =>
    intro fields members data pos ok members1 h
    rw [deserialize_loop] at h
    split_ifs at h
    simp only [Outcome.ret.injEq, Prod.mk.injEq] at h
    exact h.1.symm
  | succ fuel ih =>
    intro fields members data pos ok members1 h
    rw [deserialize_loop] at h
    by_cases hpos : pos < data.length
    · have hguard : ¬ pos + 1 > data.length := by omega
      rw [if_pos hpos, if_neg hguard] at h
      obtain ⟨⟨tag, pos1⟩, -, h⟩ := Outcome.bind_eq_ret _ _ _ h
      simp only at h
      split at h
      · split at h
        · obtain ⟨result, hresult, h⟩ := Outcome.bind_eq_ret _ _ _ h
          cases result with
          | next member1 pos2 => exact ih _ _ _ _ _ _ h
          | fail member1 =>
            exfalso
            refine generate_field_deserializer_fail fc schema _ ?_ _ _ _ _ _ hresult
            intro type_name x item_data ok1 value hnested
            split at hnested
            · obtain ⟨⟨ok2, members2⟩, hloop, hret⟩ := Outcome.bind_eq_ret _ _ _ hnested
              simp only [Outcome.ret.injEq, Prod.mk.injEq] at hret
              rw [← hret.1]
              exact ih _ _ _ _ _ _ hloop
            · exact Outcome.noConfusion hnested
        · exact Outcome.noConfusion h
      · obtain ⟨pos2, -, h⟩ := Outcome.bind_eq_ret _ _ _ h
        exact ih _ _ _ _ _ _ h
    · rw [if_neg hpos] at h
      simp only [Outcome.ret.injEq, Prod.mk.injEq] at h
      exact h.1.symm

/-- C37. `deserialize` never reports failure: whenever the method printed
for a model returns, on any object and any buffer, it returns true.  The
guard `pos + 1 > data.size()` at the head of the loop is false whenever the
condition `pos < data.size()` of the loop holds, so a round of the loop is
the round without the guard, and a `case` returns false only when a nested
`deserialize` has returned false. -/
theorem deserialize_returns_true :
    (∀ (fc : FloatCasts) (schema : Schema) (model : ModelDecl) (fuel : Nat) (this : Value)
        (data : List Nat) (ok : Bool) (value : Value),
      deserialize fc schema model fuel this data = Outcome.ret (ok, value) → ok = true) ∧
    (∀ (fc : FloatCasts) (schema : Schema) (fuel : Nat) (fields : List Field)
        (members : List Value) (data : List Nat) (pos : Nat),
      pos < data.length →
      ¬ pos + 1 > data.length ∧
      deserialize_loop fc schema (fuel + 1) fields members data pos =
        (read_varint data pos).bind fun (tag, pos1) =>
          match case_index (split_tag tag).1 fields with
          | some i =>
            match fields[i]?, members[i]? with
            | some field, some member =>
              (generate_field_deserializer fc schema (call_deserialize fc schema fuel)
                field member data pos1).bind fun result =>
              match result with
              | CaseResult.next member1 pos2 =>
                deserialize_loop fc schema fuel fields (members.set i member1) data pos2
              | CaseResult.fail member1 => Outcome.ret (false, members.set i member1)
            | _, _ => Outcome.undefined
          | none =>
            (skip_unknown data pos1 (split_tag tag).2).bind fun pos2 =>
            deserialize_loop fc schema fuel fields members data pos2) ∧
    (∀ (fc : FloatCasts) (schema : Schema)
        (call_deserialize : String → Value → List Nat → Outcome (Bool × Value)),
      (∀ type_name x item_data ok value,
        call_deserialize type_name x item_data = Outcome.ret (ok, value) → ok = true) →
      ∀ (field : Field) (member : Value) (data : List Nat) (pos : Nat) (member1 : Value),
        generate_field_deserializer fc schema call_deserialize field member data pos ≠
          Outcome.ret (CaseResult.fail member1)) := by
  refine ⟨?_, ?_, ?_⟩
  · intro fc schema model fuel this data ok value h
    unfold deserialize at h
    obtain ⟨⟨ok1, members1⟩, hloop, hret⟩ := Outcome.bind_eq_ret _ _ _ h
    simp only [Outcome.ret.injEq, Prod.mk.injEq] at hret
    rw [← hret.1]
    exact deserialize_loop_flag fc schema _ _ _ _ _ _ _ hloop
  · intro fc schema fuel fields members data pos hpos
    exact ⟨by omega, deserialize_loop_succ fc schema fuel fields members data pos hpos⟩
  · intro fc schema call_deserialize hcall field member data pos member1
    exact generate_field_deserializer_fail fc schema call_deserialize hcall field member data
      pos member1

set_option maxRecDepth 100000 in
/-- The theorem `deserialize_returns_true` on the model of
`namespace t; model M { uint32 id = 1; }` and the buffer `08 2A`, the
field 1 with the value 42. -/
theorem deserialize_returns_true_witness :
    deserialize ⟨id, id, id, id⟩ (scenario_schema [field_id]) (scenario_model [field_id]) 2
        (default_construct (scenario_schema [field_id]) (scenario_model [field_id]))
        [0x08, 0x2A] =
      Outcome.ret (true, Value.obj [Value.num 42]) ∧
    true = true :=
  ⟨by rfl,
    deserialize_returns_true.1 ⟨id, id, id, id⟩ (scenario_schema [field_id])
      (scenario_model [field_id]) 2
      (default_construct (scenario_schema [field_id]) (scenario_model [field_id]))
      [0x08, 0x2A] true (Value.obj [Value.num 42]) (by rfl)⟩

end serialkit
